import Mathlib

/-!
# sqlmodelgen: the configuration graph builder

A shallow embedding of `model.go` (package `sqlmodelgen`) and `config/config.go`.

* Go pointers (`*Database`, `*Schema`, `*Table`, `*Column`, `*TableID`, `*TableKey`)
  are indices into per-kind arenas held by the builder; a `nil` pointer is `none`.
  Every `newX` of the source hands out a pointer to a fresh element, so allocation
  appends to the arena.
* Go maps with string keys are association lists read with `List.lookup`.
* Ranging over a Go map visits its entries in an unspecified order which may differ
  from one `range` statement to the next.  A `config` value lists the entries of each
  map in the order in which the first pass ranges over them; the two later traversals
  (`iterDBSchemaTableColumn`) receive their own listing of the same maps.
* The collaborators that live outside the repository (`sqltypes.Parse`,
  `sqlstream.NamerFromName`, the `ModelContext`) are parameters.
-/

namespace sqlmodelgen

/-! ## config/config.go -/

namespace config

/-- `config.Namers` -/
structure Namers where
  SQLNamer : String := ""
  ModelNamer : String := ""
deriving DecidableEq, Inhabited, Repr

/-- `config.Column` -/
structure Column where
  PK : Bool := false
  FK : String := ""
  Type_ : String := ""
deriving DecidableEq, Inhabited, Repr

/-- `config.Table`: the entries of the map `Columns`, in iteration order. -/
structure Table where
  Columns : List (String × Column) := []
deriving DecidableEq, Inhabited, Repr

/-- `config.Schema` (the `Views` map is never read by the builder). -/
structure Schema where
  Tables : List (String × Table) := []
deriving DecidableEq, Inhabited, Repr

/-- The anonymous struct `config.Database.Namers`. -/
structure DatabaseNamers where
  Table : Namers := {}
  IDType : Namers := {}
  KeyType : Namers := {}
  Column : Namers := {}
  Schema : Namers := {}
deriving DecidableEq, Inhabited, Repr

/-- `config.Database` -/
structure Database where
  Schemas : List (String × Schema) := []
  Namers : DatabaseNamers := {}
deriving DecidableEq, Inhabited, Repr

/-- `config.Config` -/
structure Config where
  Namespace : String := ""
  Databases : List (String × Database) := []
  DatabaseNamers : Namers := {}
deriving DecidableEq, Inhabited, Repr

end config

/-! ## Collaborators -/

/-- The values of `sqltypes.Type` that `cs.go` distinguishes. -/
inductive Ty where
  | BoolType
  | IntType (Bits : Int)
  | FloatType (Mantissa : Int)
  | Nullable (inner : Ty)
  | StringType
  | TimeType
  | BytesType
  | other (tag : Nat)
deriving DecidableEq, Inhabited, Repr

/-- `sqlstream.Namer`, reduced to its `Apply` method. -/
abbrev Namer := String → String

/-- A pointer into the graph, as held by the `interface{}` values of `getPathDown`. -/
inductive Ref where
  | config
  | database (i : Nat)
  | schema (i : Nat)
  | table (i : Nat)
  | column (i : Nat)
deriving DecidableEq, Inhabited, Repr

/-- The errors of `model.go`, one constructor per `errors.Errorf...` call site, with the
arguments of the format string.  `ext` is an error returned by a collaborator and
`nilDeref` stands for the run-time panic of dereferencing a nil pointer. -/
inductive Err where
  | ext (msg : String)
  | sqlNamer (name : String) (cause : Err)
  | modelNamer (name : String) (cause : Err)
  | initNamers (ofWhat : String) (cause : Err)
  | database (dbName : String) (cause : Err)
  | invalidType (dbName schName tblName colName : String) (cause : Err)
  | modelType (dbName schName tblName colName : String) (cause : Err)
  | fkInit (dbName schName tblName colName : String) (cause : Err)
  | fkNotColumn (dbName schName tblName colName : String)
  | notKey (colRawName tblRawName : String)
  | notAPath
  | cannotGet (path : String) (last hop : Ref) (name : String)
  | failedToGet (name : String) (last : Ref)
  | fromJSON (cause : Err)
  | nilDeref
deriving DecidableEq, Inhabited, Repr

/-! ## model.go: the entities -/

/-- `Namers` -/
structure Namers where
  SQLNamer : Namer := id
  ModelNamer : Namer := id
deriving Inhabited

/-- `Names` -/
structure Names where
  RawName : String := ""
  SQLName : String := ""
  ModelName : String := ""
deriving DecidableEq, Inhabited, Repr

/-- `Names.init` -/
def Names.init (rawName : String) (nrs : Namers) : Names :=
  { RawName := rawName, SQLName := nrs.SQLNamer rawName, ModelName := nrs.ModelNamer rawName }

/-- The anonymous struct `Database.Namers`. -/
structure DatabaseNamers where
  Column : Namers := {}
  ID : Namers := {}
  Key : Namers := {}
  Table : Namers := {}
  Schema : Namers := {}
  Database : Namers := {}
deriving Inhabited

/-- `Database`; the back pointer `Config`, when set, designates the one root. -/
structure Database where
  Config : Option Ref := none
  Names : Names := {}
  Schemas : List Nat := []
  SchemasByName : List (String × Nat) := []
  Namers : DatabaseNamers := {}
deriving Inhabited

/-- `Schema` -/
structure Schema where
  Database : Nat := 0
  Names : Names := {}
  Tables : List Nat := []
  TablesByName : List (String × Nat) := []
deriving DecidableEq, Inhabited, Repr

/-- `Table` -/
structure Table where
  Schema : Nat := 0
  Names : Names := {}
  Columns : List Nat := []
  ColumnsByName : List (String × Nat) := []
  PK : Option Nat := none
  Key : Option Nat := none
  DataColumns : List Nat := []
deriving DecidableEq, Inhabited, Repr

/-- `TableID` -/
structure TableID where
  Names : Names := {}
  Column : Nat := 0
deriving DecidableEq, Inhabited, Repr

/-- `TableKey` -/
structure TableKey where
  Names : Names := {}
  IDs : List Nat := []
deriving DecidableEq, Inhabited, Repr

/-- `Column` -/
structure Column where
  Table : Nat := 0
  Names : Names := {}
  Type_ : Option Ty := none
  PK : Bool := false
  FK : Option Nat := none
deriving DecidableEq, Inhabited, Repr

/-- `Config` -/
structure Config where
  Namespace : String := ""
  Namespaces : List String := []
  Databases : List Nat := []
  DatabasesByName : List (String × Nat) := []
  DatabaseNamers : Namers := {}
deriving Inhabited

/-- `configBuilder`: the root `Config`, the namespace set, and the arenas its `newX`
methods allocate from. -/
structure configBuilder where
  Config : Config := {}
  namespaces : List String := []
  databases : List Database := []
  schemas : List Schema := []
  tables : List Table := []
  columns : List Column := []
  ids : List TableID := []
  keys : List TableKey := []
deriving Inhabited

/-- `ModelContext`, with the optional interfaces `NamespaceEnsurer` and
`NamespaceOrganizer` present or absent. -/
structure ModelContext where
  ModelType : Ty → Except String (String × String)
  EnsureNamespaces : Option (configBuilder → List String) := none
  OrganizeNamespaces : Option (List String → List String) := none

/-- The functions of other packages that the builder calls. -/
structure Env where
  Parse : String → Except String Ty
  NamerFromName : String → Except String Namer

/-- The iteration orders the Go runtime picks after the first pass: the listing of the
configuration maps seen by the foreign-key pass and by the data-column pass, and the order
in which a set of namespaces is ranged over. -/
structure Traversal where
  fk : config.Config
  data : config.Config
  namespaces : List String → List String

namespace configBuilder

/-- Dereference of a `*Database`. -/
def database (b : configBuilder) (i : Nat) : Database := b.databases.getD i default

/-- Dereference of a `*Schema`. -/
def schema (b : configBuilder) (i : Nat) : Schema := b.schemas.getD i default

/-- Dereference of a `*Table`. -/
def table (b : configBuilder) (i : Nat) : Table := b.tables.getD i default

/-- Dereference of a `*Column`. -/
def column (b : configBuilder) (i : Nat) : Column := b.columns.getD i default

/-- Dereference of a `*TableID`. -/
def tableID (b : configBuilder) (i : Nat) : TableID := b.ids.getD i default

/-- Dereference of a `*TableKey`. -/
def tableKey (b : configBuilder) (i : Nat) : TableKey := b.keys.getD i default

/-- Assignment through a `*Database`. -/
def setDatabase (b : configBuilder) (i : Nat) (d : Database) : configBuilder :=
  { b with databases := b.databases.set i d }

/-- Assignment through a `*Schema`. -/
def setSchema (b : configBuilder) (i : Nat) (s : Schema) : configBuilder :=
  { b with schemas := b.schemas.set i s }

/-- Assignment through a `*Table`. -/
def setTable (b : configBuilder) (i : Nat) (t : Table) : configBuilder :=
  { b with tables := b.tables.set i t }

/-- Assignment through a `*Column`. -/
def setColumn (b : configBuilder) (i : Nat) (c : Column) : configBuilder :=
  { b with columns := b.columns.set i c }

end configBuilder

/-- The Go statement `m[k] = v` on a map. -/
def mapSet {α : Type} (m : List (String × α)) (k : String) (v : α) : List (String × α) :=
  (k, v) :: m.filter (fun p => p.1 != k)

/-- The Go statement `set[k] = struct{}{}` on a `map[string]struct{}`. -/
def setAdd (s : List String) (k : String) : List String :=
  if k ∈ s then s else s ++ [k]

/-! ## Dotted paths -/

/-- The pieces of a character sequence between its dots. -/
def splitDots : List Char → List (List Char)
  | [] => [[]]
  | c :: cs =>
    if c = '.' then [] :: splitDots cs
    else
      match splitDots cs with
      | [] => [[c]]
      | p :: ps => (c :: p) :: ps

/-- `strings.Split(path, ".")` -/
def stringsSplit (path : String) : List String :=
  (splitDots path.data).map String.mk

/-- `strings.Count(path, ".")` -/
def stringsCount (path : String) : Nat :=
  path.data.count '.'

/-! ## model.go: path resolution -/

namespace configBuilder

/-- The loop of `getPathDown`: `parts` is what is left of the split path and `hop` the
entity reached so far. -/
def getPathDownLoop (b : configBuilder) (path : String) : List String → Ref → Except Err Ref
  | [], hop => .ok hop
  | name :: parts, hop =>
    match hop with
    | .config =>
      match b.Config.DatabasesByName.lookup name with
      | some d => getPathDownLoop b path parts (.database d)
      | none => .error (.failedToGet name hop)
    | .database d =>
      match (b.database d).SchemasByName.lookup name with
      | some s => getPathDownLoop b path parts (.schema s)
      | none => .error (.failedToGet name hop)
    | .schema s =>
      match (b.schema s).TablesByName.lookup name with
      | some t => getPathDownLoop b path parts (.table t)
      | none => .error (.failedToGet name hop)
    | .table t =>
      match (b.table t).ColumnsByName.lookup name with
      | some c => getPathDownLoop b path parts (.column c)
      | none => .error (.failedToGet name hop)
    | .column _ => .error (.cannotGet path hop hop name)

/-- `configBuilder.getPathDown` -/
def getPathDown (b : configBuilder) (path : String) (start : Ref) : Except Err Ref :=
  getPathDownLoop b path (stringsSplit path) start

/-- `configBuilder.getPathUp` -/
def getPathUp (b : configBuilder) (path : String) (start : Nat) : Except Err Ref :=
  match stringsCount path with
  | 0 => getPathDown b path (.table start)
  | 1 => getPathDown b path (.schema (b.table start).Schema)
  | 2 => getPathDown b path (.database (b.schema (b.table start).Schema).Database)
  | 3 => getPathDown b path .config
  | _ => .error .notAPath

/-! ## model.go: allocation -/

/-- The `*Database` reached from a table through its embedded `*Schema`
(`t.Database` in the source). -/
def tableDatabase (b : configBuilder) (t : Nat) : Database :=
  b.database (b.schema (b.table t).Schema).Database

/-- `configBuilder.newColumn`: the batch `caches.columns` is re-made on every call (after
`caches.columns[1:]` its length equals its capacity again), so the column is fresh. -/
def newColumn (b : configBuilder) (t : Nat) (name : String) : configBuilder × Nat :=
  ({ b with columns := b.columns ++
      [{ Table := t, Names := Names.init name (b.tableDatabase t).Namers.Column }] },
   b.columns.length)

/-- `configBuilder.newIDs`: `caches.keyIDs` is never shortened, so its length equals its
capacity at every call and both branches copy `ids` into a newly made slice. -/
def newIDs (_b : configBuilder) (ids : List Nat) : List Nat := ids

/-- `configBuilder.newID` -/
def newID (b : configBuilder) (c : Nat) : configBuilder × Nat :=
  ({ b with ids := b.ids ++
      [{ Column := c,
         Names := Names.init (b.column c).Names.RawName
           (b.tableDatabase (b.column c).Table).Namers.ID }] },
   b.ids.length)

/-- `configBuilder.newKey` -/
def newKey (b : configBuilder) (t : Nat) (ids : List Nat) : configBuilder × Nat :=
  ({ b with keys := b.keys ++
      [{ Names := Names.init ((b.table t).Names.RawName ++ "Key") (b.tableDatabase t).Namers.Key,
         IDs := b.newIDs ids }] },
   b.keys.length)

/-- `configBuilder.newTable` -/
def newTable (b : configBuilder) (s : Nat) (name : String) : configBuilder × Nat :=
  ({ b with tables := b.tables ++
      [{ Schema := s, Names := Names.init name (b.database (b.schema s).Database).Namers.Table }] },
   b.tables.length)

/-- `configBuilder.newSchema` -/
def newSchema (b : configBuilder) (d : Nat) (name : String) : configBuilder × Nat :=
  ({ b with schemas := b.schemas ++
      [{ Database := d, Names := Names.init name (b.database d).Namers.Schema }] },
   b.schemas.length)

end configBuilder

/-- `Namers.init`: the namers after the call and the error, if any. -/
def Namers.init (env : Env) (nrs : Namers) (c : config.Namers) : Namers × Option Err :=
  match env.NamerFromName c.SQLNamer with
  | .error e => (nrs, some (.sqlNamer c.SQLNamer (.ext e)))
  | .ok nr =>
    match env.NamerFromName c.ModelNamer with
    | .error e => ({ nrs with SQLNamer := nr }, some (.modelNamer c.ModelNamer (.ext e)))
    | .ok mr => ({ SQLNamer := nr, ModelNamer := mr }, none)

/-- The five `initNamers` calls of `newDatabase`, in order. -/
def initDatabaseNamers (env : Env) (n : DatabaseNamers) (c : config.DatabaseNamers) :
    DatabaseNamers × Option Err :=
  match Namers.init env n.Column c.Column with
  | (x, some e) => ({ n with Column := x }, some (.initNamers "column" e))
  | (x, none) =>
    let n := { n with Column := x }
    match Namers.init env n.ID c.IDType with
    | (x, some e) => ({ n with ID := x }, some (.initNamers "id" e))
    | (x, none) =>
      let n := { n with ID := x }
      match Namers.init env n.Key c.KeyType with
      | (x, some e) => ({ n with Key := x }, some (.initNamers "key" e))
      | (x, none) =>
        let n := { n with Key := x }
        match Namers.init env n.Table c.Table with
        | (x, some e) => ({ n with Table := x }, some (.initNamers "table" e))
        | (x, none) =>
          let n := { n with Table := x }
          match Namers.init env n.Schema c.Schema with
          | (x, some e) => ({ n with Schema := x }, some (.initNamers "schema" e))
          | (x, none) => ({ n with Schema := x }, none)

namespace configBuilder

/-- `configBuilder.newDatabase` -/
def newDatabase (env : Env) (b : configBuilder) (name : String) (c : config.Database) :
    configBuilder × Nat × Option Err :=
  let r := initDatabaseNamers env {} c.Namers
  ({ b with databases := b.databases ++
      [{ Config := some .config, Names := Names.init name b.Config.DatabaseNamers,
         Namers := r.1 }] },
   b.databases.length, r.2)

/-! ## model.go: the first pass of `init` -/

/-- The parse of a non-empty type descriptor and the namespace of the mapped type
(lines 364-388), for the column `c` just created. -/
def initColumnType (env : Env) (mc : ModelContext) (dbName schName tblName colName : String)
    (colCfg : config.Column) (c : Nat) (b : configBuilder) : configBuilder × Option Err :=
  if colCfg.Type_ ≠ "" then
    match env.Parse colCfg.Type_ with
    | .error e => (b, some (.invalidType dbName schName tblName colName (.ext e)))
    | .ok ty =>
      let b := b.setColumn c { b.column c with Type_ := some ty }
      match mc.ModelType ty with
      | .error e => (b, some (.modelType dbName schName tblName colName (.ext e)))
      | .ok (ns, _) =>
        (if ns ≠ "" then { b with namespaces := setAdd b.namespaces ns } else b, none)
  else (b, none)

/-- The body of the column loop of `init` (lines 360-392). -/
def initColumn (env : Env) (mc : ModelContext) (dbName schName tblName : String) (t : Nat)
    (colName : String) (colCfg : config.Column) (b : configBuilder) (tempIDs : List Nat) :
    configBuilder × List Nat × Option Err :=
  let r := b.newColumn t colName
  let c := r.2
  let b := r.1
  let b := b.setTable t { b.table t with
    Columns := (b.table t).Columns ++ [c],
    ColumnsByName := mapSet (b.table t).ColumnsByName colName c }
  let b := b.setColumn c { b.column c with PK := colCfg.PK }
  match initColumnType env mc dbName schName tblName colName colCfg c b with
  | (b, some e) => (b, tempIDs, some e)
  | (b, none) =>
    if (b.column c).PK then
      let r := b.newID c
      (r.1, tempIDs ++ [r.2], none)
    else (b, tempIDs, none)

/-- The column loop of `init`. -/
def initColumns (env : Env) (mc : ModelContext) (dbName schName tblName : String) (t : Nat) :
    List (String × config.Column) → configBuilder → List Nat →
    configBuilder × List Nat × Option Err
  | [], b, tempIDs => (b, tempIDs, none)
  | (colName, colCfg) :: rest, b, tempIDs =>
    match initColumn env mc dbName schName tblName t colName colCfg b tempIDs with
    | (b, tempIDs, some e) => (b, tempIDs, some e)
    | (b, tempIDs, none) => initColumns env mc dbName schName tblName t rest b tempIDs

/-- The assignment of the key after the column loop (lines 394-402). -/
def assignKey (b : configBuilder) (t : Nat) (tempIDs : List Nat) : configBuilder × List Nat :=
  match tempIDs with
  | [] => (b, tempIDs)
  | [id] => (b.setTable t { b.table t with PK := some id }, [])
  | _ =>
    let r := b.newKey t tempIDs
    (r.1.setTable t { r.1.table t with Key := some r.2 }, [])

/-- The body of the table loop of `init` (lines 356-402). -/
def initTable (env : Env) (mc : ModelContext) (dbName schName : String) (s : Nat)
    (tblName : String) (tblCfg : config.Table) (b : configBuilder) (tempIDs : List Nat) :
    configBuilder × List Nat × Option Err :=
  let r := b.newTable s tblName
  let t := r.2
  let b := r.1
  let b := b.setSchema s { b.schema s with
    Tables := (b.schema s).Tables ++ [t],
    TablesByName := mapSet (b.schema s).TablesByName tblName t }
  match initColumns env mc dbName schName tblName t tblCfg.Columns b tempIDs with
  | (b, tempIDs, some e) => (b, tempIDs, some e)
  | (b, tempIDs, none) =>
    let r := b.assignKey t tempIDs
    (r.1, r.2, none)

/-- The table loop of `init`. -/
def initTables (env : Env) (mc : ModelContext) (dbName schName : String) (s : Nat) :
    List (String × config.Table) → configBuilder → List Nat →
    configBuilder × List Nat × Option Err
  | [], b, tempIDs => (b, tempIDs, none)
  | (tblName, tblCfg) :: rest, b, tempIDs =>
    match initTable env mc dbName schName s tblName tblCfg b tempIDs with
    | (b, tempIDs, some e) => (b, tempIDs, some e)
    | (b, tempIDs, none) => initTables env mc dbName schName s rest b tempIDs

/-- The body of the schema loop of `init` (lines 352-403). -/
def initSchema (env : Env) (mc : ModelContext) (dbName : String) (d : Nat)
    (schName : String) (schCfg : config.Schema) (b : configBuilder) (tempIDs : List Nat) :
    configBuilder × List Nat × Option Err :=
  let r := b.newSchema d schName
  let s := r.2
  let b := r.1
  let b := b.setDatabase d { b.database d with
    Schemas := (b.database d).Schemas ++ [s],
    SchemasByName := mapSet (b.database d).SchemasByName schName s }
  initTables env mc dbName schName s schCfg.Tables b tempIDs

/-- The schema loop of `init`. -/
def initSchemas (env : Env) (mc : ModelContext) (dbName : String) (d : Nat) :
    List (String × config.Schema) → configBuilder → List Nat →
    configBuilder × List Nat × Option Err
  | [], b, tempIDs => (b, tempIDs, none)
  | (schName, schCfg) :: rest, b, tempIDs =>
    match initSchema env mc dbName d schName schCfg b tempIDs with
    | (b, tempIDs, some e) => (b, tempIDs, some e)
    | (b, tempIDs, none) => initSchemas env mc dbName d rest b tempIDs

/-- The body of the database loop of `init` (lines 343-404). -/
def initDatabase (env : Env) (mc : ModelContext) (dbName : String) (dbCfg : config.Database)
    (b : configBuilder) (tempIDs : List Nat) : configBuilder × List Nat × Option Err :=
  match b.newDatabase env dbName dbCfg with
  | (b, _, some dbErr) => (b, tempIDs, some (.database dbName dbErr))
  | (b, d, none) =>
    let b := { b with Config := { b.Config with
      Databases := b.Config.Databases ++ [d],
      DatabasesByName := mapSet b.Config.DatabasesByName dbName d } }
    initSchemas env mc dbName d dbCfg.Schemas b tempIDs

/-- The database loop of `init` (lines 342-405). -/
def initDatabases (env : Env) (mc : ModelContext) :
    List (String × config.Database) → configBuilder → List Nat →
    configBuilder × List Nat × Option Err
  | [], b, tempIDs => (b, tempIDs, none)
  | (dbName, dbCfg) :: rest, b, tempIDs =>
    match initDatabase env mc dbName dbCfg b tempIDs with
    | (b, tempIDs, some e) => (b, tempIDs, some e)
    | (b, tempIDs, none) => initDatabases env mc rest b tempIDs

end configBuilder

/-! ## model.go: the traversal of the later passes -/

/-- `dbSchemaTableColumn` -/
structure dbSchemaTableColumn where
  dbName : String
  dbCfg : config.Database
  db : Nat
  schName : String
  schCfg : config.Schema
  schema : Nat
  tblName : String
  tblCfg : config.Table
  table : Nat
  colName : String
  colCfg : config.Column
  column : Nat

/-- A callback of `iterDBSchemaTableColumn`: the state after the call and its error. -/
abbrev Visitor := dbSchemaTableColumn → configBuilder → configBuilder × Option Err

namespace configBuilder

/-- The column loop of `iterDBSchemaTableColumn`.  A nil `table` or `column` is
dereferenced by the source, which panics. -/
def iterColumns (f : Visitor) (dbName : String) (dbCfg : config.Database) (db : Nat)
    (schName : String) (schCfg : config.Schema) (schema : Nat)
    (tblName : String) (tblCfg : config.Table) (table : Option Nat) :
    List (String × config.Column) → configBuilder → configBuilder × Option Err
  | [], b => (b, none)
  | (colName, colCfg) :: rest, b =>
    match table with
    | none => (b, some .nilDeref)
    | some t =>
      match (b.table t).ColumnsByName.lookup colName with
      | none => (b, some .nilDeref)
      | some c =>
        match f ⟨dbName, dbCfg, db, schName, schCfg, schema, tblName, tblCfg, t,
                 colName, colCfg, c⟩ b with
        | (b, some e) => (b, some e)
        | (b, none) =>
          iterColumns f dbName dbCfg db schName schCfg schema tblName tblCfg table rest b

/-- The table loop of `iterDBSchemaTableColumn`. -/
def iterTables (f : Visitor) (dbName : String) (dbCfg : config.Database) (db : Nat)
    (schName : String) (schCfg : config.Schema) (schema : Option Nat) :
    List (String × config.Table) → configBuilder → configBuilder × Option Err
  | [], b => (b, none)
  | (tblName, tblCfg) :: rest, b =>
    match schema with
    | none => (b, some .nilDeref)
    | some s =>
      match iterColumns f dbName dbCfg db schName schCfg s tblName tblCfg
          ((b.schema s).TablesByName.lookup tblName) tblCfg.Columns b with
      | (b, some e) => (b, some e)
      | (b, none) => iterTables f dbName dbCfg db schName schCfg schema rest b

/-- The schema loop of `iterDBSchemaTableColumn`. -/
def iterSchemas (f : Visitor) (dbName : String) (dbCfg : config.Database) (db : Option Nat) :
    List (String × config.Schema) → configBuilder → configBuilder × Option Err
  | [], b => (b, none)
  | (schName, schCfg) :: rest, b =>
    match db with
    | none => (b, some .nilDeref)
    | some d =>
      match iterTables f dbName dbCfg d schName schCfg
          ((b.database d).SchemasByName.lookup schName) schCfg.Tables b with
      | (b, some e) => (b, some e)
      | (b, none) => iterSchemas f dbName dbCfg db rest b

/-- The database loop of `iterDBSchemaTableColumn`. -/
def iterDatabases (f : Visitor) :
    List (String × config.Database) → configBuilder → configBuilder × Option Err
  | [], b => (b, none)
  | (dbName, dbCfg) :: rest, b =>
    match iterSchemas f dbName dbCfg (b.Config.DatabasesByName.lookup dbName)
        dbCfg.Schemas b with
    | (b, some e) => (b, some e)
    | (b, none) => iterDatabases f rest b

/-- `configBuilder.iterDBSchemaTableColumn` -/
def iterDBSchemaTableColumn (b : configBuilder) (c : config.Config) (f : Visitor) :
    configBuilder × Option Err :=
  iterDatabases f c.Databases b

/-! ## model.go: the later passes of `init` -/

/-- The loop over `fkTbl.Key.IDs` of the foreign-key pass (lines 431-439): the first
member that wraps `fkCol`. -/
def findKeyID (b : configBuilder) (fkCol : Nat) : List Nat → Option Nat
  | [] => none
  | id :: ids => if (b.tableID id).Column = fkCol then some id else findKeyID b fkCol ids

/-- The assignments `x.column.FK = id` and, for an untyped column,
`x.column.Type = id.Column.Type` (lines 426-429 and 433-436). -/
def setFK (b : configBuilder) (column id : Nat) : configBuilder :=
  let b := b.setColumn column { b.column column with FK := some id }
  if (b.column column).Type_ = none then
    b.setColumn column { b.column column with Type_ := (b.column (b.tableID id).Column).Type_ }
  else b

/-- The branch on the target table's key (lines 424-440). -/
def linkFK (b : configBuilder) (column fkCol : Nat) : configBuilder :=
  let fkTbl := b.table (b.column fkCol).Table
  match fkTbl.PK with
  | some pk =>
    if (b.tableID pk).Column = fkCol then b.setFK column pk
    else
      match fkTbl.Key with
      | some k =>
        match b.findKeyID fkCol (b.tableKey k).IDs with
        | some id => b.setFK column id
        | none => b
      | none => b
  | none =>
    match fkTbl.Key with
    | some k =>
      match b.findKeyID fkCol (b.tableKey k).IDs with
      | some id => b.setFK column id
      | none => b
    | none => b

/-- The callback of the foreign-key pass (lines 406-447). -/
def fkStep : Visitor := fun x b =>
  if x.colCfg.FK = "" then (b, none)
  else
    match b.getPathUp x.colCfg.FK x.table with
    | .error err => (b, some (.fkInit x.dbName x.schName x.tblName x.colName err))
    | .ok (.column fkCol) =>
      let b1 := b.linkFK x.column fkCol
      if (b1.column x.column).FK = none then
        (b1, some (.notKey (b1.column fkCol).Names.RawName
          (b1.table (b1.column fkCol).Table).Names.RawName))
      else (b1, none)
    | .ok _ => (b, some (.fkNotColumn x.dbName x.schName x.tblName x.colName))

/-- The callback of the data-column pass (lines 450-466). -/
def dataStep : Visitor := fun x b =>
  if (b.column x.column).PK then (b, none)
  else if (b.column x.column).FK ≠ none then (b, none)
  else
    let inKey : Bool :=
      match (b.table x.table).Key with
      | some k => (b.tableKey k).IDs.any (fun id => (b.tableID id).Column = x.column)
      | none => false
    if inKey then (b, none)
    else
      (b.setTable x.table { b.table x.table with
        DataColumns := (b.table x.table).DataColumns ++ [x.column] }, none)

/-- The namespaces of `EnsureNamespaces`, blanks skipped (lines 469-476). -/
def ensureNamespaces (mc : ModelContext) (b : configBuilder) : configBuilder :=
  match mc.EnsureNamespaces with
  | some ens =>
    (ens b).foldl (fun b ns => if ns = "" then b
      else { b with namespaces := setAdd b.namespaces ns }) b
  | none => b

/-- The last lines of `init` (477-485): the namespace set is ranged over in the order the
traversal picks, then handed to the organizer if there is one. -/
def finishNamespaces (mc : ModelContext) (tr : Traversal) (b : configBuilder) : configBuilder :=
  let b := { b with Config := { b.Config with Namespaces := tr.namespaces b.namespaces } }
  match mc.OrganizeNamespaces with
  | some org => { b with Config := { b.Config with Namespaces := org b.Config.Namespaces } }
  | none => b

/-- The first pass of `init` (lines 334-405). -/
def initPass1 (env : Env) (mc : ModelContext) (c : config.Config) (b : configBuilder) :
    configBuilder × Option Err :=
  let b := { b with namespaces := [] }
  match Namers.init env b.Config.DatabaseNamers c.DatabaseNamers with
  | (nrs, some e) => ({ b with Config := { b.Config with DatabaseNamers := nrs } }, some e)
  | (nrs, none) =>
    let b := { b with Config := { b.Config with
      DatabaseNamers := nrs, Namespace := c.Namespace, Databases := [], DatabasesByName := [] } }
    let r := initDatabases env mc c.Databases b []
    (r.1, r.2.2)

/-- `configBuilder.init` -/
def init (env : Env) (mc : ModelContext) (tr : Traversal) (c : config.Config)
    (b : configBuilder) : configBuilder × Option Err :=
  match initPass1 env mc c b with
  | (b, some e) => (b, some e)
  | (b, none) =>
    match b.iterDBSchemaTableColumn tr.fk fkStep with
    | (b, some e) => (b, some e)
    | (b, none) =>
      match b.iterDBSchemaTableColumn tr.data dataStep with
      | (b, some e) => (b, some e)
      | (b, none) => (finishNamespaces mc tr (ensureNamespaces mc b), none)

end configBuilder

/-- `ConfigFromJSON`, from the unmarshalled configuration on: the graph, or nothing and the
wrapped error. -/
def ConfigFromJSON (env : Env) (mc : ModelContext) (tr : Traversal) (j : config.Config) :
    Except Err configBuilder :=
  match configBuilder.init env mc tr j {} with
  | (_, some e) => .error (.fromJSON e)
  | (c, none) => .ok c

end sqlmodelgen

open sqlmodelgen sqlmodelgen.configBuilder

namespace sqlmodelgen

/-- The owner of an entity: one hop up. -/
def configBuilder.owner (b : configBuilder) : Ref → Ref
  | .column c => .table (b.column c).Table
  | .table t => .schema (b.table t).Schema
  | .schema s => .database (b.schema s).Database
  | .database _ => .config
  | .config => .config

/-- The entity `k` hops above table `t`. -/
def configBuilder.ancestor (b : configBuilder) (t : Nat) (k : Nat) : Ref :=
  (b.owner)^[k] (.table t)

/-- The by-name map of an entity, as a lookup function. -/
def configBuilder.byName (b : configBuilder) : Ref → String → Option Ref
  | .config, n => (b.Config.DatabasesByName.lookup n).map .database
  | .database d, n => ((b.database d).SchemasByName.lookup n).map .schema
  | .schema s, n => ((b.schema s).TablesByName.lookup n).map .table
  | .table t, n => ((b.table t).ColumnsByName.lookup n).map .column
  | .column _, _ => none

/-- Every segment, taken left to right, is a key of the by-name map of the entity
reached so far; `last` is the entity reached at the end. -/
def configBuilder.Descends (b : configBuilder) : Ref → List String → Ref → Prop
  | r, [], last => r = last
  | r, n :: rest, last => ∃ r', b.byName r n = some r' ∧ b.Descends r' rest last

end sqlmodelgen

namespace sqlmodelgen.configBuilder

/-- The PK-flagged columns of a table, in the order of `Columns`. -/
def pkColumns (b : configBuilder) (t : Nat) : List Nat :=
  (b.table t).Columns.filter (fun i => (b.column i).PK)

/-- The members of `T.Key.IDs`, none when `T.Key` is nil. -/
def keyMembers (b : configBuilder) (t : Nat) : List Nat :=
  match (b.table t).Key with
  | some k => (b.tableKey k).IDs
  | none => []

/-- The TableIDs reachable from a table: `T.PK`, then the members of `T.Key.IDs`. -/
def tableIDs (b : configBuilder) (t : Nat) : List Nat :=
  (b.table t).PK.toList ++ b.keyMembers t

/-- The state of a column after the first pass, against its configuration entry. -/
structure ColumnDone (env : Env) (b : configBuilder) (t : Nat) (i : Nat)
    (e : String × config.Column) : Prop where
  valid : i < b.columns.length
  owner : (b.column i).Table = t
  name : (b.column i).Names.RawName = e.1
  pk : (b.column i).PK = e.2.PK
  fk : (b.column i).FK = none
  type : (b.column i).Type_ = if e.2.Type_ = "" then none else (env.Parse e.2.Type_).toOption

/-- The key of a table agrees with its PK-flagged columns. -/
structure KeyOK (b : configBuilder) (t : Nat) : Prop where
  valid : ∀ id ∈ b.tableIDs t, id < b.ids.length
  wraps : (b.tableIDs t).map (fun id => (b.tableID id).Column) = b.pkColumns t
  excl : (b.table t).PK = none ∨ (b.table t).Key = none
  key : ∀ k, (b.table t).Key = some k → k < b.keys.length ∧ 2 ≤ (b.tableKey k).IDs.length

/-- The columns of a table whose column loop has processed the entries `done`. -/
structure TableCols (env : Env) (b : configBuilder) (t : Nat)
    (done : List (String × config.Column)) : Prop where
  valid : t < b.tables.length
  cols : List.Forall₂ (ColumnDone env b t) (b.table t).Columns done
  nodup : (b.table t).Columns.Nodup
  byName : ∀ n i, (b.table t).ColumnsByName.lookup n = some i →
    i ∈ (b.table t).Columns ∧ (b.column i).Names.RawName = n
  named : ∀ n ∈ done.map Prod.fst, ((b.table t).ColumnsByName.lookup n).isSome
  data : (b.table t).DataColumns = []

/-- A table inside its column loop: no key yet, and `tempIDs` wraps its PK-flagged
columns so far. -/
structure TableOpen (env : Env) (b : configBuilder) (t : Nat)
    (done : List (String × config.Column)) (tempIDs : List Nat) extends
    TableCols env b t done : Prop where
  pk : (b.table t).PK = none
  key : (b.table t).Key = none
  tempValid : ∀ id ∈ tempIDs, id < b.ids.length
  temp : tempIDs.map (fun id => (b.tableID id).Column) = b.pkColumns t

/-- A table after its iteration of the table loop. -/
structure TableDone (env : Env) (b : configBuilder) (s : Nat) (t : Nat)
    (e : String × config.Table) extends TableCols env b t e.2.Columns : Prop where
  owner : (b.table t).Schema = s
  name : (b.table t).Names.RawName = e.1
  keyOK : b.KeyOK t

/-- What a stretch of the first pass leaves alone: every arena only grows, and an element
that existed before is unchanged unless it is an open database, schema or table. -/
structure Frame (od os ot : Nat → Prop) (b b' : configBuilder) : Prop where
  databasesLen : b.databases.length ≤ b'.databases.length
  databases : ∀ i < b.databases.length, ¬ od i → b'.database i = b.database i
  schemasLen : b.schemas.length ≤ b'.schemas.length
  schemas : ∀ i < b.schemas.length, ¬ os i → b'.schema i = b.schema i
  tablesLen : b.tables.length ≤ b'.tables.length
  tables : ∀ i < b.tables.length, ¬ ot i → b'.table i = b.table i
  columnsLen : b.columns.length ≤ b'.columns.length
  columns : ∀ i < b.columns.length, b'.column i = b.column i
  idsLen : b.ids.length ≤ b'.ids.length
  ids : ∀ i < b.ids.length, b'.tableID i = b.tableID i
  keysLen : b.keys.length ≤ b'.keys.length
  keys : ∀ i < b.keys.length, b'.tableKey i = b.tableKey i

/-- The effect of a successful iteration of the column loop. -/
structure ColumnStep (env : Env) (t : Nat) (cn : String) (cc : config.Column)
    (b : configBuilder) (tmp : List Nat) (b' : configBuilder) (tmp' : List Nat) : Prop where
  config : b'.Config = b.Config
  databases : b'.databases = b.databases
  schemas : b'.schemas = b.schemas
  keys : b'.keys = b.keys
  tablesLen : b'.tables.length = b.tables.length
  tables : ∀ i, i ≠ t → b'.table i = b.table i
  table : b'.table t = { b.table t with
    Columns := (b.table t).Columns ++ [b.columns.length],
    ColumnsByName := mapSet (b.table t).ColumnsByName cn b.columns.length }
  columnsLen : b'.columns.length = b.columns.length + 1
  columns : ∀ i < b.columns.length, b'.column i = b.column i
  column : b'.column b.columns.length =
    { Table := t, Names := Names.init cn (b.tableDatabase t).Namers.Column,
      Type_ := if cc.Type_ = "" then none else (env.Parse cc.Type_).toOption,
      PK := cc.PK, FK := none }
  idsLen : b'.ids.length = b.ids.length + (if cc.PK then 1 else 0)
  ids : ∀ i < b.ids.length, b'.tableID i = b.tableID i
  newID : cc.PK = true → (b'.tableID b.ids.length).Column = b.columns.length
  temp : tmp' = if cc.PK then tmp ++ [b.ids.length] else tmp

/-- What the column loop of table `t` and the assignment of its key leave alone. -/
structure TableRun (t : Nat) (b b' : configBuilder) : Prop where
  config : b'.Config = b.Config
  databases : b'.databases = b.databases
  schemas : b'.schemas = b.schemas
  tablesLen : b'.tables.length = b.tables.length
  owner : (b'.table t).Schema = (b.table t).Schema
  name : (b'.table t).Names = (b.table t).Names
  frame : Frame (fun _ => False) (fun _ => False) (fun i => i = t) b b'

/-- A schema whose table loop has processed the entries `done`. -/
structure SchemaOpen (env : Env) (b : configBuilder) (s : Nat)
    (done : List (String × config.Table)) : Prop where
  valid : s < b.schemas.length
  tables : List.Forall₂ (TableDone env b s) (b.schema s).Tables done
  nodup : (b.schema s).Tables.Nodup
  byName : ∀ n t, (b.schema s).TablesByName.lookup n = some t →
    t ∈ (b.schema s).Tables ∧ (b.table t).Names.RawName = n
  named : ∀ n ∈ done.map Prod.fst, ((b.schema s).TablesByName.lookup n).isSome

/-- A schema after its iteration of the schema loop. -/
structure SchemaDone (env : Env) (b : configBuilder) (d : Nat) (s : Nat)
    (e : String × config.Schema) extends SchemaOpen env b s e.2.Tables : Prop where
  owner : (b.schema s).Database = d
  name : (b.schema s).Names.RawName = e.1

/-- A database whose schema loop has processed the entries `done`. -/
structure DatabaseOpen (env : Env) (b : configBuilder) (d : Nat)
    (done : List (String × config.Schema)) : Prop where
  valid : d < b.databases.length
  schemas : List.Forall₂ (SchemaDone env b d) (b.database d).Schemas done
  nodup : (b.database d).Schemas.Nodup
  byName : ∀ n s, (b.database d).SchemasByName.lookup n = some s →
    s ∈ (b.database d).Schemas ∧ (b.schema s).Names.RawName = n
  named : ∀ n ∈ done.map Prod.fst, ((b.database d).SchemasByName.lookup n).isSome

/-- A database after its iteration of the database loop. -/
structure DatabaseDone (env : Env) (b : configBuilder) (d : Nat)
    (e : String × config.Database) extends DatabaseOpen env b d e.2.Schemas : Prop where
  name : (b.database d).Names.RawName = e.1

/-- The graph after the database loop has processed the entries `done`. -/
structure RootOpen (env : Env) (b : configBuilder)
    (done : List (String × config.Database)) : Prop where
  databases : List.Forall₂ (DatabaseDone env b) b.Config.Databases done
  nodup : b.Config.Databases.Nodup
  byName : ∀ n d, b.Config.DatabasesByName.lookup n = some d →
    d ∈ b.Config.Databases ∧ (b.database d).Names.RawName = n
  named : ∀ n ∈ done.map Prod.fst, (b.Config.DatabasesByName.lookup n).isSome

/-- What the table loop of schema `s` leaves alone. -/
structure SchemaRun (s : Nat) (b b' : configBuilder) : Prop where
  config : b'.Config = b.Config
  databases : b'.databases = b.databases
  schemasLen : b'.schemas.length = b.schemas.length
  owner : (b'.schema s).Database = (b.schema s).Database
  name : (b'.schema s).Names = (b.schema s).Names
  frame : Frame (fun _ => False) (fun i => i = s) (fun _ => False) b b'

/-- What the schema loop of database `d` leaves alone. -/
structure DatabaseRun (d : Nat) (b b' : configBuilder) : Prop where
  config : b'.Config = b.Config
  databasesLen : b'.databases.length = b.databases.length
  name : (b'.database d).Names = (b.database d).Names
  frame : Frame (fun i => i = d) (fun _ => False) (fun _ => False) b b'

/-- What the database loop leaves alone. -/
structure RootRun (b b' : configBuilder) : Prop where
  namers : b'.Config.DatabaseNamers = b.Config.DatabaseNamers
  namespace_ : b'.Config.Namespace = b.Config.Namespace
  frame : Frame (fun _ => False) (fun _ => False) (fun _ => False) b b'

/-- What the passes after the first one leave alone: everything but the `FK` and `Type`
of columns, the `DataColumns` of tables and the namespaces. -/
structure Later (b b' : configBuilder) : Prop where
  roots : b'.Config.Databases = b.Config.Databases
  rootsByName : b'.Config.DatabasesByName = b.Config.DatabasesByName
  databases : b'.databases = b.databases
  schemas : b'.schemas = b.schemas
  ids : b'.ids = b.ids
  keys : b'.keys = b.keys
  tablesLen : b'.tables.length = b.tables.length
  tblSchema : ∀ t, (b'.table t).Schema = (b.table t).Schema
  tblNames : ∀ t, (b'.table t).Names = (b.table t).Names
  tblColumns : ∀ t, (b'.table t).Columns = (b.table t).Columns
  tblByName : ∀ t, (b'.table t).ColumnsByName = (b.table t).ColumnsByName
  tblPK : ∀ t, (b'.table t).PK = (b.table t).PK
  tblKey : ∀ t, (b'.table t).Key = (b.table t).Key
  columnsLen : b'.columns.length = b.columns.length
  colTable : ∀ i, (b'.column i).Table = (b.column i).Table
  colNames : ∀ i, (b'.column i).Names = (b.column i).Names
  colPK : ∀ i, (b'.column i).PK = (b.column i).PK

/-- The tables of the graph: those on the `Tables` list of a schema on the `Schemas` list
of a database on `Config.Databases`. -/
def ReachTable (b : configBuilder) (t : Nat) : Prop :=
  ∃ d ∈ b.Config.Databases, ∃ s ∈ (b.database d).Schemas, t ∈ (b.schema s).Tables

/-- The columns of the graph. -/
def ReachColumn (b : configBuilder) (i : Nat) : Prop :=
  ∃ t, b.ReachTable t ∧ i ∈ (b.table t).Columns

/-- A TableID is the `PK` of the table that owns its column, or a member of its `Key`. -/
def IsKeyOf (b : configBuilder) (id : Nat) (t : Nat) : Prop :=
  (b.table t).PK = some id ∨ id ∈ b.keyMembers t

/-- Every `FK` that is set designates a TableID that is the `PK`, or a member of the
`Key`, of the table owning the column it wraps. -/
def FKsAreKeys (b : configBuilder) : Prop :=
  ∀ i, b.ReachColumn i → ∀ id, (b.column i).FK = some id →
    IsKeyOf b id (b.column (b.tableID id).Column).Table

end sqlmodelgen.configBuilder

namespace sqlmodelgen.configBuilder

/-- Every segment of `parts` resolves in turn, starting from the entity `r`. -/
def Resolves (b : configBuilder) (r : Ref) (parts : List String) : Prop :=
  ∃ last, b.Descends r parts last

end sqlmodelgen.configBuilder

namespace sqlmodelgen

/-- Collaborators for the worked examples: the descriptor `int` parses to a 32-bit integer,
every other descriptor is rejected; every namer name resolves to the identity. -/
def exampleEnv : Env :=
  { Parse := fun s => if s = "int" then .ok (.IntType 32) else .error s,
    NamerFromName := fun _ => .ok id }

/-- A type mapping for the worked examples that needs no namespace. -/
def exampleContext : ModelContext :=
  { ModelType := fun _ => .ok ("", "int") }

/-- The configuration of the orders scenario: database `db`, schema `public`, table `orders`
with the key `id`, table `line_items` with the key `id` and `order_id` referring to
`orders.id`. -/
def ordersConfig : config.Config :=
  { Databases := [("db", { Schemas := [("public", { Tables := [
      ("orders", { Columns := [("id", { PK := true, Type_ := "int" })] }),
      ("line_items", { Columns := [
        ("id", { PK := true, Type_ := "int" }),
        ("order_id", { FK := "orders.id", Type_ := "int" })] })] })] })] }

/-- The later passes range over the orders scenario in the order of the first pass. -/
def ordersTraversal : Traversal :=
  { fk := ordersConfig, data := ordersConfig, namespaces := fun l => l }

/-- The graph built from the orders scenario. -/
def ordersGraph : configBuilder :=
  (init exampleEnv exampleContext ordersTraversal ordersConfig {}).1

end sqlmodelgen

namespace sqlmodelgen.config

/-- Two listings of one Go map whose values are compared by `R`: the same keys, and equal
keys carry related values. -/
def sameEntries {α : Type} (R : α → α → Prop) (l1 l2 : List (String × α)) : Prop :=
  (l2.map Prod.fst).Perm (l1.map Prod.fst) ∧ ∀ p ∈ l2, ∃ q ∈ l1, q.1 = p.1 ∧ R q.2 p.2

/-- Two listings of the same `Columns` map. -/
def sameColumns (t1 t2 : Table) : Prop := t2.Columns.Perm t1.Columns

/-- Two listings of the same `Tables` map, tables compared as maps of columns. -/
def sameTables (s1 s2 : Schema) : Prop := sameEntries sameColumns s1.Tables s2.Tables

/-- Two listings of the same `Schemas` map. -/
def sameSchemas (d1 d2 : Database) : Prop := sameEntries sameTables d1.Schemas d2.Schemas

/-- Two listings of the same configuration: at every level the same map, its entries
possibly in another order. -/
def Config.SameMaps (c1 c2 : Config) : Prop := sameEntries sameSchemas c1.Databases c2.Databases

/-- No key occurs twice in the listing of the `Columns` map. -/
def Table.WellFormed (t : Table) : Prop := (t.Columns.map Prod.fst).Nodup

/-- No key occurs twice in a listing, at the level of a schema and below. -/
def Schema.WellFormed (s : Schema) : Prop :=
  (s.Tables.map Prod.fst).Nodup ∧ ∀ p ∈ s.Tables, p.2.WellFormed

/-- No key occurs twice in a listing, at the level of a database and below. -/
def Database.WellFormed (d : Database) : Prop :=
  (d.Schemas.map Prod.fst).Nodup ∧ ∀ p ∈ d.Schemas, p.2.WellFormed

/-- A configuration lists the entries of Go maps: no key occurs twice in any listing. -/
def Config.WellFormed (c : Config) : Prop :=
  (c.Databases.map Prod.fst).Nodup ∧ ∀ p ∈ c.Databases, p.2.WellFormed

/-- The column `colName` with configuration `colCfg` is an entry of table `tblName` of
schema `schName` of database `dbName`. -/
def Config.HasColumn (c : Config) (dbName schName tblName colName : String)
    (colCfg : Column) : Prop :=
  ∃ dbCfg, (dbName, dbCfg) ∈ c.Databases ∧ ∃ schCfg, (schName, schCfg) ∈ dbCfg.Schemas ∧
    ∃ tblCfg, (tblName, tblCfg) ∈ schCfg.Tables ∧ (colName, colCfg) ∈ tblCfg.Columns

instance {α : Type} (R : α → α → Prop) [DecidableRel R] (l1 l2 : List (String × α)) :
    Decidable (sameEntries R l1 l2) := by
  unfold sameEntries; infer_instance

instance : DecidableRel sameColumns := fun t1 t2 => by
  unfold sameColumns; infer_instance

instance : DecidableRel sameTables := fun s1 s2 => by
  unfold sameTables; infer_instance

instance : DecidableRel sameSchemas := fun d1 d2 => by
  unfold sameSchemas; infer_instance

instance (c1 c2 : Config) : Decidable (c1.SameMaps c2) := by
  unfold Config.SameMaps; infer_instance

instance (t : Table) : Decidable t.WellFormed := by
  unfold Table.WellFormed; infer_instance

instance (s : Schema) : Decidable s.WellFormed := by
  unfold Schema.WellFormed; infer_instance

instance (d : Database) : Decidable d.WellFormed := by
  unfold Database.WellFormed; infer_instance

instance (c : Config) : Decidable c.WellFormed := by
  unfold Config.WellFormed; infer_instance

end sqlmodelgen.config

namespace sqlmodelgen

/-- The later passes range over the maps of the configuration `c`. -/
def Traversal.Valid (tr : Traversal) (c : config.Config) : Prop :=
  c.SameMaps tr.fk ∧ c.SameMaps tr.data

instance (tr : Traversal) (c : config.Config) : Decidable (tr.Valid c) := by
  unfold Traversal.Valid; infer_instance

/-- The run of a callback over a list of visits, stopping at the first error. -/
def foldVisits (f : Visitor) : List dbSchemaTableColumn → configBuilder →
    configBuilder × Option Err
  | [], b => (b, none)
  | x :: xs, b =>
    match f x b with
    | (b, some e) => (b, some e)
    | (b, none) => foldVisits f xs b

end sqlmodelgen

namespace sqlmodelgen.configBuilder

/-- The visits `iterDBSchemaTableColumn` makes to the columns of one table. -/
def visitColumns (b : configBuilder) (dbName : String) (dbCfg : config.Database) (db : Nat)
    (schName : String) (schCfg : config.Schema) (schema : Nat)
    (tblName : String) (tblCfg : config.Table) (table : Nat)
    (cols : List (String × config.Column)) : List dbSchemaTableColumn :=
  cols.filterMap fun p =>
    ((b.table table).ColumnsByName.lookup p.1).map fun c =>
      ⟨dbName, dbCfg, db, schName, schCfg, schema, tblName, tblCfg, table, p.1, p.2, c⟩

/-- The visits to the tables of one schema. -/
def visitTables (b : configBuilder) (dbName : String) (dbCfg : config.Database) (db : Nat)
    (schName : String) (schCfg : config.Schema) (schema : Nat)
    (tbls : List (String × config.Table)) : List dbSchemaTableColumn :=
  tbls.flatMap fun p =>
    match (b.schema schema).TablesByName.lookup p.1 with
    | some t => b.visitColumns dbName dbCfg db schName schCfg schema p.1 p.2 t p.2.Columns
    | none => []

/-- The visits to the schemas of one database. -/
def visitSchemas (b : configBuilder) (dbName : String) (dbCfg : config.Database) (db : Nat)
    (schs : List (String × config.Schema)) : List dbSchemaTableColumn :=
  schs.flatMap fun p =>
    match (b.database db).SchemasByName.lookup p.1 with
    | some s => b.visitTables dbName dbCfg db p.1 p.2 s p.2.Tables
    | none => []

/-- The visits of `iterDBSchemaTableColumn`, in order. -/
def visitDatabases (b : configBuilder) (dbs : List (String × config.Database)) :
    List dbSchemaTableColumn :=
  dbs.flatMap fun p =>
    match b.Config.DatabasesByName.lookup p.1 with
    | some d => b.visitSchemas p.1 p.2 d p.2.Schemas
    | none => []

/-- No by-name lookup of the traversal of one table comes back nil. -/
def TotalColumns (b : configBuilder) (t : Nat) (cols : List (String × config.Column)) : Prop :=
  ∀ p ∈ cols, ((b.table t).ColumnsByName.lookup p.1).isSome

/-- No by-name lookup of the traversal of one schema comes back nil. -/
def TotalTables (b : configBuilder) (s : Nat) (tbls : List (String × config.Table)) : Prop :=
  ∀ p ∈ tbls, ∃ t, (b.schema s).TablesByName.lookup p.1 = some t ∧ b.TotalColumns t p.2.Columns

/-- No by-name lookup of the traversal of one database comes back nil. -/
def TotalSchemas (b : configBuilder) (d : Nat) (schs : List (String × config.Schema)) : Prop :=
  ∀ p ∈ schs, ∃ s, (b.database d).SchemasByName.lookup p.1 = some s ∧ b.TotalTables s p.2.Tables

/-- No by-name lookup of the traversal comes back nil. -/
def TotalDatabases (b : configBuilder) (dbs : List (String × config.Database)) : Prop :=
  ∀ p ∈ dbs, ∃ d, b.Config.DatabasesByName.lookup p.1 = some d ∧ b.TotalSchemas d p.2.Schemas

end sqlmodelgen.configBuilder

namespace sqlmodelgen.configBuilder

/-- A visit of a later pass, against the graph `b` of the first pass and its configuration
`c`: the pointers it carries are the entities built for the entries it names. -/
structure VisitOK (env : Env) (b : configBuilder) (c : config.Config)
    (x : dbSchemaTableColumn) : Prop where
  db : x.db ∈ b.Config.Databases
  schema : x.schema ∈ (b.database x.db).Schemas
  table : x.table ∈ (b.schema x.schema).Tables
  column : x.column ∈ (b.table x.table).Columns
  dbLookup : b.Config.DatabasesByName.lookup x.dbName = some x.db
  schLookup : (b.database x.db).SchemasByName.lookup x.schName = some x.schema
  tblLookup : (b.schema x.schema).TablesByName.lookup x.tblName = some x.table
  colLookup : (b.table x.table).ColumnsByName.lookup x.colName = some x.column
  entry : c.HasColumn x.dbName x.schName x.tblName x.colName x.colCfg
  dbDone : ∃ dc, (x.dbName, dc) ∈ c.Databases ∧ DatabaseDone env b x.db (x.dbName, dc)
  schDone : ∃ sc, SchemaDone env b x.db x.schema (x.schName, sc)
  tblDone : ∃ tc, tc.WellFormed ∧ (x.colName, x.colCfg) ∈ tc.Columns ∧
    config.sameColumns tc x.tblCfg ∧ TableDone env b x.schema x.table (x.tblName, tc)
  colDone : ColumnDone env b x.table x.column (x.colName, x.colCfg)

end sqlmodelgen.configBuilder

namespace sqlmodelgen.configBuilder

/-- The table reached from the root by the names of a database, a schema and a table. -/
def findTable (b : configBuilder) (dbName schName tblName : String) : Option Nat :=
  match b.Config.DatabasesByName.lookup dbName with
  | none => none
  | some d =>
    match (b.database d).SchemasByName.lookup schName with
    | none => none
    | some s => (b.schema s).TablesByName.lookup tblName

/-- The column reached from the root by the names of a database, a schema, a table and a
column. -/
def findColumn (b : configBuilder) (dbName schName tblName colName : String) : Option Nat :=
  match b.findTable dbName schName tblName with
  | none => none
  | some t => (b.table t).ColumnsByName.lookup colName

/-- The column is the column of its table's `PK`, or of a member of its table's `Key`. -/
def KeyBearing (b : configBuilder) (col : Nat) : Prop :=
  (∃ pk, (b.table (b.column col).Table).PK = some pk ∧ (b.tableID pk).Column = col) ∨
  (∃ id ∈ b.keyMembers (b.column col).Table, (b.tableID id).Column = col)

instance (b : configBuilder) (col : Nat) : Decidable (b.KeyBearing col) := by
  unfold KeyBearing
  cases h : (b.table (b.column col).Table).PK with
  | none =>
    have : ¬ ∃ pk, (none : Option Nat) = some pk ∧ (b.tableID pk).Column = col := by
      rintro ⟨_, h1, _⟩; cases h1
    exact decidable_of_iff (∃ id ∈ b.keyMembers (b.column col).Table, (b.tableID id).Column = col)
      ⟨Or.inr, fun h => h.resolve_left this⟩
  | some pk =>
    exact decidable_of_iff ((b.tableID pk).Column = col ∨
        ∃ id ∈ b.keyMembers (b.column col).Table, (b.tableID id).Column = col)
      ⟨fun h => h.imp (fun h1 => ⟨pk, rfl, h1⟩) id,
       fun h => h.imp (fun ⟨_, h1, h2⟩ => by cases h1; exact h2) id⟩

end sqlmodelgen.configBuilder

namespace sqlmodelgen.configBuilder

/-- No step of the first pass sets an `FK`. -/
def NoFK (b : configBuilder) : Prop := ∀ i, (b.column i).FK = none

end sqlmodelgen.configBuilder

namespace sqlmodelgen

/-- A table whose column `ref` refers to its own column `name`, which is not part of the
key `id`. -/
def nonKeyConfig : config.Config :=
  { Databases := [("db", { Schemas := [("public", { Tables := [
      ("t", { Columns := [
        ("id", { PK := true }),
        ("name", {}),
        ("ref", { FK := "name" })] })] })] })] }

/-- The later passes range over `nonKeyConfig` in the order of the first pass. -/
def nonKeyTraversal : Traversal :=
  { fk := nonKeyConfig, data := nonKeyConfig, namespaces := fun l => l }

end sqlmodelgen

namespace sqlmodelgen

/-- The traversal in which the later passes range over every map in the order of the
first pass. -/
def Traversal.ofConfig (c : config.Config) : Traversal :=
  { fk := c, data := c, namespaces := fun l => l }

/-- The foreign-key pass comes to the column entry named by `dn`, `sn`, `tn`, `cn` in the
state `b`: the first pass has succeeded, and no visit that the foreign-key pass makes before
the visit of this entry has failed. -/
def ReachesFK (env : Env) (mc : ModelContext) (tr : Traversal) (c : config.Config)
    (dn sn tn cn : String) (b : configBuilder) : Prop :=
  ∃ b1 pre x post, initPass1 env mc c {} = (b1, none) ∧
    b1.visitDatabases tr.fk.Databases = pre ++ x :: post ∧
    x.dbName = dn ∧ x.schName = sn ∧ x.tblName = tn ∧ x.colName = cn ∧
    foldVisits fkStep pre b1 = (b, none)

/-- A table whose column `parent` refers to its own key column `id`. -/
def selfRefConfig : config.Config :=
  { Databases := [("db", { Schemas := [("public", { Tables := [
      ("t", { Columns := [
        ("parent", { FK := "id" }),
        ("id", { PK := true })] })] })] })] }

/-- A table with a column `ref` that refers to the plain column `name`, listed before its
other columns. -/
def refFirstConfig : config.Config :=
  { Databases := [("db", { Schemas := [("public", { Tables := [
      ("t", { Columns := [
        ("ref", { FK := "name" }),
        ("id", { PK := true }),
        ("name", {})] })] })] })] }

/-- A table in which the column `z`, whose path names no column, is listed before the
columns `a`, which refers to the key column `id`, and `ref`, which refers to the plain
column `name`. -/
def preemptedConfig : config.Config :=
  { Databases := [("db", { Schemas := [("public", { Tables := [
      ("t", { Columns := [
        ("z", { FK := "zzz" }),
        ("id", { PK := true }),
        ("name", {}),
        ("a", { FK := "id" }),
        ("ref", { FK := "name" })] })] })] })] }

/-- Table `tableA` of `schema1` refers to the key `id` of `tableB` of `schema2`. -/
def crossSchemaConfig : config.Config :=
  { Databases := [("db", { Schemas := [
      ("schema1", { Tables := [("tableA", { Columns := [
        ("b_id", { FK := "schema2.tableB.id" }),
        ("id", { PK := true })] })] }),
      ("schema2", { Tables := [("tableB", { Columns := [
        ("id", { PK := true })] })] })] })] }

/-- As `crossSchemaConfig`, but `schema2` has no table `tableB`. -/
def missingTableConfig : config.Config :=
  { Databases := [("db", { Schemas := [
      ("schema1", { Tables := [("tableA", { Columns := [
        ("b_id", { FK := "schema2.tableB.id" }),
        ("id", { PK := true })] })] }),
      ("schema2", { Tables := [("tableC", { Columns := [
        ("id", { PK := true })] })] })] })] }

/-- As `crossSchemaConfig`, but `tableB` has no column `id`. -/
def missingColumnConfig : config.Config :=
  { Databases := [("db", { Schemas := [
      ("schema1", { Tables := [("tableA", { Columns := [
        ("b_id", { FK := "schema2.tableB.id" }),
        ("id", { PK := true })] })] }),
      ("schema2", { Tables := [("tableB", { Columns := [
        ("key", { PK := true })] })] })] })] }

/-- As `missingTableConfig`, with a column `z`, whose path names no column, listed before
`b_id`. -/
def preemptedCrossConfig : config.Config :=
  { Databases := [("db", { Schemas := [
      ("schema1", { Tables := [("tableA", { Columns := [
        ("z", { FK := "zzz" }),
        ("b_id", { FK := "schema2.tableB.id" }),
        ("id", { PK := true })] })] }),
      ("schema2", { Tables := [("tableC", { Columns := [
        ("id", { PK := true })] })] })] })] }

/-- As `crossSchemaConfig`, with a column `z`, whose path names no column, listed before
`b_id`. -/
def preemptedLinkConfig : config.Config :=
  { Databases := [("db", { Schemas := [
      ("schema1", { Tables := [("tableA", { Columns := [
        ("z", { FK := "zzz" }),
        ("b_id", { FK := "schema2.tableB.id" }),
        ("id", { PK := true })] })] }),
      ("schema2", { Tables := [("tableB", { Columns := [
        ("id", { PK := true })] })] })] })] }

end sqlmodelgen

namespace sqlmodelgen.configBuilder

/-- A data column of table `t`: not the column of `T.PK`, not the column of a member of
`T.Key.IDs`, and without a resolved `FK`. -/
def IsDataColumn (b : configBuilder) (t i : Nat) : Prop :=
  (b.table t).PK.map (fun pk => (b.tableID pk).Column) ≠ some i ∧
  i ∉ (b.keyMembers t).map (fun id => (b.tableID id).Column) ∧
  (b.column i).FK = none

instance (b : configBuilder) (t i : Nat) : Decidable (b.IsDataColumn t i) := by
  unfold IsDataColumn; infer_instance

/-- The data columns of table `t`, in the order of `T.Columns`. -/
def dataColumns (b : configBuilder) (t : Nat) : List Nat :=
  (b.table t).Columns.filter (fun i => b.IsDataColumn t i)

end sqlmodelgen.configBuilder

namespace sqlmodelgen

/-- A table with the key `id` and the plain columns `a` and `b`. -/
def plainConfig : config.Config :=
  { Databases := [("db", { Schemas := [("public", { Tables := [
      ("t", { Columns := [("id", { PK := true }), ("a", {}), ("b", {})] })] })] })] }

/-- The maps of `plainConfig`, the columns of `t` listed in another order. -/
def plainConfigSwapped : config.Config :=
  { Databases := [("db", { Schemas := [("public", { Tables := [
      ("t", { Columns := [("b", {}), ("id", { PK := true }), ("a", {})] })] })] })] }

/-- The data-column pass ranges over the columns of `t` in the order `b`, `id`, `a`. -/
def plainTraversalSwapped : Traversal :=
  { fk := plainConfig, data := plainConfigSwapped, namespaces := fun l => l }

end sqlmodelgen

namespace sqlmodelgen

/-- The column entries of a configuration, each with the names of its database, schema,
table and column, in the order of the listing. -/
def config.Config.entries (c : config.Config) :
    List (String × String × String × String × config.Column) :=
  c.Databases.flatMap fun d => d.2.Schemas.flatMap fun s => s.2.Tables.flatMap fun t =>
    t.2.Columns.map fun col => (d.1, s.1, t.1, col.1, col.2)

/-- The FK path of a column entry is empty, or resolves in the graph `b`, from the table of
the entry, to a column that bears a key. -/
def configBuilder.linksEntry (b : configBuilder)
    (e : String × String × String × String × config.Column) : Bool :=
  e.2.2.2.2.FK = "" ||
    match b.findTable e.1 e.2.1 e.2.2.1 with
    | none => false
    | some t =>
      match b.getPathUp e.2.2.2.2.FK t with
      | .ok (.column k) => decide (b.KeyBearing k)
      | _ => false

/-- The listings of the maps of the orders scenario: the tables of `public` in either
order, and the columns of `line_items` in either order. -/
def ordersListings : List config.Config :=
  [ordersConfig,
   { Databases := [("db", { Schemas := [("public", { Tables := [
      ("orders", { Columns := [("id", { PK := true, Type_ := "int" })] }),
      ("line_items", { Columns := [
        ("order_id", { FK := "orders.id", Type_ := "int" }),
        ("id", { PK := true, Type_ := "int" })] })] })] })] },
   { Databases := [("db", { Schemas := [("public", { Tables := [
      ("line_items", { Columns := [
        ("id", { PK := true, Type_ := "int" }),
        ("order_id", { FK := "orders.id", Type_ := "int" })] }),
      ("orders", { Columns := [("id", { PK := true, Type_ := "int" })] })] })] })] },
   { Databases := [("db", { Schemas := [("public", { Tables := [
      ("line_items", { Columns := [
        ("order_id", { FK := "orders.id", Type_ := "int" }),
        ("id", { PK := true, Type_ := "int" })] }),
      ("orders", { Columns := [("id", { PK := true, Type_ := "int" })] })] })] })] }]

end sqlmodelgen

namespace sqlmodelgen

/-- The table `order_items` with the composite key `order_id`, `product_id` and the plain
column `quantity`. -/
def orderItemsConfig : config.Config :=
  { Databases := [("db", { Schemas := [("public", { Tables := [
      ("order_items", { Columns := [
        ("order_id", { PK := true }),
        ("quantity", {}),
        ("product_id", { PK := true })] })] })] })] }

end sqlmodelgen

namespace sqlmodelgen.configBuilder

/-- Every entity in the arenas carries the names that the namers of its scope give to its
raw name, and its owner is an entity of the arenas. -/
structure Named (b : configBuilder) : Prop where
  db : ∀ d < b.databases.length,
    (b.database d).Config = some .config ∧
    (b.database d).Names = Names.init (b.database d).Names.RawName b.Config.DatabaseNamers
  sch : ∀ s < b.schemas.length,
    (b.schema s).Database < b.databases.length ∧
    (b.schema s).Names = Names.init (b.schema s).Names.RawName
      (b.database (b.schema s).Database).Namers.Schema
  tbl : ∀ t < b.tables.length,
    (b.table t).Schema < b.schemas.length ∧
    (b.table t).Names = Names.init (b.table t).Names.RawName (b.tableDatabase t).Namers.Table
  col : ∀ i < b.columns.length,
    (b.column i).Table < b.tables.length ∧
    (b.column i).Names = Names.init (b.column i).Names.RawName
      (b.tableDatabase (b.column i).Table).Namers.Column
  id : ∀ i < b.ids.length,
    (b.tableID i).Column < b.columns.length ∧
    (b.tableID i).Names = Names.init (b.column (b.tableID i).Column).Names.RawName
      (b.tableDatabase (b.column (b.tableID i).Column).Table).Namers.ID
  key : ∀ t < b.tables.length, ∀ k, (b.table t).Key = some k →
    k < b.keys.length ∧
    (b.tableKey k).Names = Names.init ((b.table t).Names.RawName ++ "Key")
      (b.tableDatabase t).Namers.Key

/-- The graph `b'` extends `b`: the arenas only grow, and what the names of the entities of
`b` depend on is the same in `b'`. -/
structure Ext (b b' : configBuilder) : Prop where
  namers : b'.Config.DatabaseNamers = b.Config.DatabaseNamers
  dbLen : b.databases.length ≤ b'.databases.length
  db : ∀ d < b.databases.length, (b'.database d).Config = (b.database d).Config ∧
    (b'.database d).Names = (b.database d).Names ∧
    (b'.database d).Namers = (b.database d).Namers
  schLen : b.schemas.length ≤ b'.schemas.length
  sch : ∀ s < b.schemas.length, (b'.schema s).Database = (b.schema s).Database ∧
    (b'.schema s).Names = (b.schema s).Names
  tblLen : b.tables.length ≤ b'.tables.length
  tbl : ∀ t < b.tables.length, (b'.table t).Schema = (b.table t).Schema ∧
    (b'.table t).Names = (b.table t).Names
  colLen : b.columns.length ≤ b'.columns.length
  col : ∀ i < b.columns.length, (b'.column i).Table = (b.column i).Table ∧
    (b'.column i).Names = (b.column i).Names
  idLen : b.ids.length ≤ b'.ids.length
  ids : ∀ i < b.ids.length, b'.tableID i = b.tableID i
  keyLen : b.keys.length ≤ b'.keys.length
  keys : ∀ k < b.keys.length, (b'.tableKey k).Names = (b.tableKey k).Names

end sqlmodelgen.configBuilder

namespace sqlmodelgen.configBuilder

/-- The owner of every entity on a child list is the entity that holds the list, at every
level from the root down to the columns. -/
def OwnersAgree (b : configBuilder) : Prop :=
  ∀ d ∈ b.Config.Databases, (b.database d).Config = some .config ∧
    ∀ s ∈ (b.database d).Schemas, (b.schema s).Database = d ∧
      ∀ t ∈ (b.schema s).Tables, (b.table t).Schema = s ∧
        ∀ i ∈ (b.table t).Columns, (b.column i).Table = t

/-- Every member of a child list, from `Config.Databases` down to the `Columns` of the
tables, occurs once in the list that holds it, and the by-name map next to that list holds
it under its raw name.  That every entity is a member of the list of its owner is `Listed`
and `OwnedOnce`. -/
def ListedOnce (b : configBuilder) : Prop :=
  ∀ d ∈ b.Config.Databases, b.Config.Databases.count d = 1 ∧
    b.Config.DatabasesByName.lookup (b.database d).Names.RawName = some d ∧
    ∀ s ∈ (b.database d).Schemas, (b.database d).Schemas.count s = 1 ∧
      (b.database d).SchemasByName.lookup (b.schema s).Names.RawName = some s ∧
      ∀ t ∈ (b.schema s).Tables, (b.schema s).Tables.count t = 1 ∧
        (b.schema s).TablesByName.lookup (b.table t).Names.RawName = some t ∧
        ∀ i ∈ (b.table t).Columns, (b.table t).Columns.count i = 1 ∧
          (b.table t).ColumnsByName.lookup (b.column i).Names.RawName = some i

/-- Every entity of the graph carries the names that the namers of its scope give to its
raw name: the root namers for a database, the namers of the database for what it holds;
a TableID is named after the column it wraps and a TableKey after its table. -/
def ScopedNames (b : configBuilder) : Prop :=
  ∀ d ∈ b.Config.Databases,
    (b.database d).Names =
      Names.init (b.database d).Names.RawName b.Config.DatabaseNamers ∧
    ∀ s ∈ (b.database d).Schemas,
      (b.schema s).Names =
        Names.init (b.schema s).Names.RawName (b.database d).Namers.Schema ∧
      ∀ t ∈ (b.schema s).Tables,
        (b.table t).Names =
          Names.init (b.table t).Names.RawName (b.database d).Namers.Table ∧
        (∀ i ∈ (b.table t).Columns, (b.column i).Names =
          Names.init (b.column i).Names.RawName (b.database d).Namers.Column) ∧
        (∀ id ∈ b.tableIDs t, (b.tableID id).Names =
          Names.init (b.column (b.tableID id).Column).Names.RawName
            (b.database d).Namers.ID) ∧
        (∀ k, (b.table t).Key = some k → (b.tableKey k).Names =
          Names.init ((b.table t).Names.RawName ++ "Key") (b.database d).Namers.Key)

end sqlmodelgen.configBuilder

namespace sqlmodelgen

/-- Collaborators whose namers show which namer made a name: the namer called `n` puts
`n` and a colon before the raw name. -/
def taggingEnv : Env :=
  { Parse := fun s => if s = "int" then .ok (.IntType 32) else .error s,
    NamerFromName := fun n => .ok (fun s => n ++ ":" ++ s) }

/-- The table `order_items` with a composite key, every namer of the configuration having
a name of its own. -/
def namersConfig : config.Config :=
  { DatabaseNamers := { SQLNamer := "dbSQL", ModelNamer := "dbModel" },
    Databases := [("db", {
      Namers := {
        Table := { SQLNamer := "tableSQL", ModelNamer := "tableModel" },
        IDType := { SQLNamer := "idSQL", ModelNamer := "idModel" },
        KeyType := { SQLNamer := "keySQL", ModelNamer := "keyModel" },
        Column := { SQLNamer := "columnSQL", ModelNamer := "columnModel" },
        Schema := { SQLNamer := "schemaSQL", ModelNamer := "schemaModel" } },
      Schemas := [("public", { Tables := [
        ("order_items", { Columns := [
          ("order_id", { PK := true }),
          ("product_id", { PK := true })] })] })] })] }

end sqlmodelgen

namespace sqlmodelgen

/-- Both namers named by a `config.Namers` are known to `NamerFromName`. -/
def Env.namersOK (env : Env) (n : config.Namers) : Prop :=
  (env.NamerFromName n.SQLNamer).toOption.isSome ∧
  (env.NamerFromName n.ModelNamer).toOption.isSome

/-- The five pairs of namers of a database entry are known. -/
def Env.databaseNamersOK (env : Env) (n : config.DatabaseNamers) : Prop :=
  env.namersOK n.Column ∧ env.namersOK n.IDType ∧ env.namersOK n.KeyType ∧
  env.namersOK n.Table ∧ env.namersOK n.Schema

/-- The type descriptor of a column entry is empty, or it parses to a type that the model
context maps. -/
def Env.typeOK (env : Env) (mc : ModelContext) (cc : config.Column) : Prop :=
  cc.Type_ = "" ∨
    ∃ ty, env.Parse cc.Type_ = .ok ty ∧ (mc.ModelType ty).toOption.isSome

/-- What the first pass asks of a database entry: its namers are known and the type
descriptor of every column entry is accepted. -/
def Env.databaseOK (env : Env) (mc : ModelContext) (d : config.Database) : Prop :=
  env.databaseNamersOK d.Namers ∧
  ∀ s ∈ d.Schemas, ∀ t ∈ s.2.Tables, ∀ p ∈ t.2.Columns, env.typeOK mc p.2

/-- What the first pass asks of a configuration: no namer lookup, type parse or type
mapping fails. -/
def Env.pass1OK (env : Env) (mc : ModelContext) (c : config.Config) : Prop :=
  env.namersOK c.DatabaseNamers ∧ ∀ p ∈ c.Databases, env.databaseOK mc p.2

end sqlmodelgen

namespace sqlmodelgen

/-- The fully qualified column path (database, schema, table, column) that the message of
an error of the builder carries, if it carries one. -/
def Err.columnPath : Err → Option (String × String × String × String)
  | .invalidType d s t c _ => some (d, s, t, c)
  | .modelType d s t c _ => some (d, s, t, c)
  | .fkInit d s t c _ => some (d, s, t, c)
  | .fkNotColumn d s t c => some (d, s, t, c)
  | _ => none

end sqlmodelgen

namespace sqlmodelgen

/-- The namespace that a column entry contributes: the non-empty namespace that `ModelType`
returns for the parsed type of a non-empty type descriptor. -/
def Env.entryNamespace (env : Env) (mc : ModelContext) (cc : config.Column) : Option String :=
  if cc.Type_ = "" then none
  else
    match env.Parse cc.Type_ with
    | .error _ => none
    | .ok ty =>
      match mc.ModelType ty with
      | .error _ => none
      | .ok (ns, _) => if ns = "" then none else some ns

/-- Ranging over a set of namespaces visits each of its elements once. -/
def Traversal.RangesSets (tr : Traversal) : Prop := ∀ l, (tr.namespaces l).Perm l

/-- Collaborators for the namespace examples: `int` and `string` parse. -/
def twoTypesEnv : Env :=
  { Parse := fun s =>
      if s = "int" then .ok (.IntType 32)
      else if s = "string" then .ok .StringType
      else .error s,
    NamerFromName := fun _ => .ok id }

/-- A type mapping that puts integers in the namespace `System` and strings in `Text`. -/
def namespacedContext : ModelContext :=
  { ModelType := fun ty =>
      match ty with
      | .IntType _ => .ok ("System", "int")
      | .StringType => .ok ("Text", "string")
      | _ => .ok ("", "object") }

/-- A table with an integer key and a string column. -/
def typedConfig : config.Config :=
  { Databases := [("db", { Schemas := [("public", { Tables := [
      ("t", { Columns := [
        ("id", { PK := true, Type_ := "int" }),
        ("name", { Type_ := "string" }),
        ("note", { Type_ := "string" })] })] })] })] }

/-- The later passes range over `typedConfig` in the order of the first pass, and the
namespace set is ranged over from its last element to its first. -/
def typedTraversalReversed : Traversal :=
  { fk := typedConfig, data := typedConfig, namespaces := List.reverse }

end sqlmodelgen

namespace sqlmodelgen

/-- The graph at the end of the data-column pass of a build, which is the graph that
`EnsureNamespaces` inspects. -/
def graphBeforeNamespaces (env : Env) (mc : ModelContext) (tr : Traversal)
    (c : config.Config) : configBuilder :=
  (((initPass1 env mc c {}).1.iterDBSchemaTableColumn tr.fk fkStep).1.iterDBSchemaTableColumn
    tr.data dataStep).1

/-- The type mapping of `namespacedContext`, with namespaces to ensure: a blank, one that a
column type has and one that no column type has. -/
def ensuringContext : ModelContext :=
  { namespacedContext with EnsureNamespaces := some (fun _ => ["", "Text", "Linq"]) }

end sqlmodelgen

namespace sqlmodelgen

/-- A listing of `typedConfig` with the columns of `t` in another order. -/
def typedConfigSwapped : config.Config :=
  { Databases := [("db", { Schemas := [("public", { Tables := [
      ("t", { Columns := [
        ("note", { Type_ := "string" }),
        ("id", { PK := true, Type_ := "int" }),
        ("name", { Type_ := "string" })] })] })] })] }

/-- The later passes range over `typedConfigSwapped` in the order of its first pass, and
the namespace set is ranged over from its last element to its first. -/
def typedTraversalSwapped : Traversal :=
  { fk := typedConfigSwapped, data := typedConfigSwapped, namespaces := List.reverse }

end sqlmodelgen

namespace sqlmodelgen.configBuilder

/-- The TableID that the branch on the target table's key (lines 424-440) assigns for the
target column `fkCol`: the `PK` when it wraps `fkCol`, else the first member of `Key.IDs`
that does, else none. -/
def linkID (b : configBuilder) (fkCol : Nat) : Option Nat :=
  match (b.table (b.column fkCol).Table).PK with
  | some pk =>
    if (b.tableID pk).Column = fkCol then some pk
    else
      match (b.table (b.column fkCol).Table).Key with
      | some k => b.findKeyID fkCol (b.tableKey k).IDs
      | none => none
  | none =>
    match (b.table (b.column fkCol).Table).Key with
    | some k => b.findKeyID fkCol (b.tableKey k).IDs
    | none => none

/-- The TableID that a visit of the foreign-key pass assigns to the `FK` of its column, if
it assigns one. -/
def fkTarget (b : configBuilder) (x : dbSchemaTableColumn) : Option Nat :=
  if x.colCfg.FK = "" then none
  else
    match b.getPathUp x.colCfg.FK x.table with
    | .ok (.column fkCol) => b.linkID fkCol
    | _ => none

end sqlmodelgen.configBuilder

namespace sqlmodelgen.configBuilder

/-- The `Type` and `FK` of the columns in a state `b` of the foreign-key pass, against the
graph `b1` of the first pass: a column that the first pass typed keeps its type; a column
without `FK` has the type of the first pass; the `FK` of a visited column is the TableID
that its visit assigns; and a column that the first pass left untyped and that has an `FK`
has the type that the first pass gave the wrapped column or the type that this column has
now. -/
structure Inherits (env : Env) (c : config.Config) (b1 b : configBuilder) : Prop where
  later : Later b1 b
  typed : ∀ i, (b1.column i).Type_ ≠ none → (b.column i).Type_ = (b1.column i).Type_
  unlinked : ∀ i, (b.column i).FK = none → (b.column i).Type_ = (b1.column i).Type_
  target : ∀ y, VisitOK env b1 c y → ∀ id, (b.column y.column).FK = some id →
    b1.fkTarget y = some id
  linked : ∀ y, VisitOK env b1 c y → ∀ id, (b.column y.column).FK = some id →
    (b1.column y.column).Type_ = none →
      (b.column y.column).Type_ = (b1.column (b1.tableID id).Column).Type_ ∨
      (b.column y.column).Type_ = (b.column (b1.tableID id).Column).Type_

end sqlmodelgen.configBuilder

namespace sqlmodelgen

/-- A table whose column `a` refers to the key column `b`, which refers to the key column
`c`; only `c` has a type descriptor. -/
def chainConfig : config.Config :=
  { Databases := [("db", { Schemas := [("public", { Tables := [
      ("t", { Columns := [
        ("a", { FK := "b" }),
        ("b", { PK := true, FK := "c" }),
        ("c", { PK := true, Type_ := "int" })] })] })] })] }

end sqlmodelgen

namespace sqlmodelgen

/-- The names of the database, schema, table and column that an FK path designates from a
table `dn.sn.tn`: the segments of the path stand for the last names, the names of the
table stand for the others; none when the path has more than four segments. -/
def fkNames (dn sn tn : String) (path : String) : Option (String × String × String × String) :=
  match stringsSplit path with
  | [c'] => some (dn, sn, tn, c')
  | [t', c'] => some (dn, sn, t', c')
  | [s', t', c'] => some (dn, s', t', c')
  | [d', s', t', c'] => some (d', s', t', c')
  | _ => none

/-- The FK path of a column entry is empty, or it designates, by name, a column entry of
the configuration that is flagged `PK`. -/
def config.Config.LinksName (c : config.Config)
    (e : String × String × String × String × config.Column) : Prop :=
  e.2.2.2.2.FK = "" ∨
    ∃ n cc, fkNames e.1 e.2.1 e.2.2.1 e.2.2.2.2.FK = some n ∧
      c.HasColumn n.1 n.2.1 n.2.2.1 n.2.2.2 cc ∧ cc.PK = true

end sqlmodelgen

namespace sqlmodelgen.config

/-- Two listings of the same configuration: the same maps, their entries possibly in
another order, the same namespace and the same namers of the root and of every database. -/
def Config.SameConfig (c1 c2 : Config) : Prop :=
  c1.SameMaps c2 ∧ c2.Namespace = c1.Namespace ∧ c2.DatabaseNamers = c1.DatabaseNamers ∧
    ∀ p ∈ c2.Databases, ∀ q ∈ c1.Databases, q.1 = p.1 → q.2.Namers = p.2.Namers

instance (c1 c2 : Config) : Decidable (c1.SameConfig c2) := by
  unfold Config.SameConfig; infer_instance

end sqlmodelgen.config

namespace sqlmodelgen

/-- The orders scenario with the referencing table and the referencing column listed
first: `line_items.order_id` is visited before the key column `orders.id` it names. -/
def forwardConfig : config.Config :=
  { Databases := [("db", { Schemas := [("public", { Tables := [
      ("line_items", { Columns := [
        ("order_id", { FK := "orders.id", Type_ := "int" }),
        ("id", { PK := true, Type_ := "int" })] }),
      ("orders", { Columns := [("id", { PK := true, Type_ := "int" })] })] })] })] }

end sqlmodelgen

namespace sqlmodelgen

/-- `csModelContext.ModelType`: the namespace and the name of the C# type of a SQL type,
or the error of an integer or a float that is too wide. -/
def csModelType : Ty → Except String (String × String)
  | .BoolType => .ok ("", "bool")
  | .IntType bits =>
    if bits ≤ 8 then .ok ("", "byte")
    else if bits ≤ 16 then .ok ("", "short")
    else if bits ≤ 32 then .ok ("", "int")
    else if bits ≤ 64 then .ok ("", "long")
    else .error ("int with " ++ toString bits ++ " bits not supported")
  | .FloatType mantissa =>
    if mantissa ≤ 24 then .ok ("", "float")
    else if mantissa ≤ 53 then .ok ("", "double")
    else .error ("float with " ++ toString mantissa ++ " mantissa bits not supported")
  | .Nullable inner =>
    match csModelType inner with
    | .ok (ns, tn) => .ok (ns, tn ++ "?")
    | .error e => .error e
  | .StringType => .ok ("", "string")
  | .TimeType => .ok ("time", "DateTime")
  | .BytesType => .ok ("", "byte[]")
  | .other _ => .ok ("", "object")

/-- `CSModelContext`, as a type mapping: it implements neither `NamespaceEnsurer` nor
`NamespaceOrganizer`. -/
def CSModelContext : ModelContext := { ModelType := csModelType }

/-- A type with its `Nullable` wrappers stripped. -/
def Ty.stripNullable : Ty → Ty
  | .Nullable inner => inner.stripNullable
  | t => t

end sqlmodelgen

namespace sqlmodelgen

/-- A `*template.Template`, of which `AddFuncs` only makes the closure of `dyntemplate`
and which it returns as it got it. -/
structure Template where
  name : String := ""
deriving DecidableEq, Inhabited, Repr

/-- The values of a `template.FuncMap`: the six functions that `AddFuncs` adds, with what
their closures capture, and the functions a caller has put in the map. -/
inductive TemplateFunc where
  | dyntemplate (t : Template)
  | pair
  | dict
  | modeltype (mc : ModelContext)
  | isnullable
  | basemodeltype (mc : ModelContext)
  | caller (tag : Nat)

/-- A `template.FuncMap` that has been made: the entries of the map. -/
abbrev FuncMap := List (String × TemplateFunc)

/-- The closure `add` of `AddFuncs`: `if _, ok := m[k]; !ok { m[k] = v }`. -/
def AddFuncs.add (m : FuncMap) (k : String) (v : TemplateFunc) : FuncMap :=
  if (m.lookup k).isSome then m else mapSet m k v

/-- `AddFuncs`: the template it returns and the map as it leaves it. -/
def AddFuncs (t : Template) (m : FuncMap) (mc : ModelContext) : Template × FuncMap :=
  let m := if (m.lookup "dyntemplate").isSome then m
    else AddFuncs.add m "dyntemplate" (.dyntemplate t)
  let m := AddFuncs.add m "pair" .pair
  let m := AddFuncs.add m "dict" .dict
  let m := if (m.lookup "modeltype").isSome then m
    else AddFuncs.add m "modeltype" (.modeltype mc)
  let m := AddFuncs.add m "isnullable" .isnullable
  let m := AddFuncs.add m "basemodeltype" (.basemodeltype mc)
  (t, m)

/-- A map in which a caller has put its own `pair` and one other function. -/
def callerFuncMap : FuncMap := [("pair", .caller 0), ("upper", .caller 1)]

end sqlmodelgen

namespace sqlmodelgen.configBuilder

/-- The slices of `configBuilder.newIDs` (lines 591-604): `cache` is the length and the
capacity of `caches.keyIDs` before the call and `n` the length of `ids`. The result tells
whether the slice that comes back lies in an array that this call has made, and gives the
length and the capacity of `caches.keyIDs` after the call. -/
def newIDsSlices (cache : Nat × Nat) (n : Nat) : Bool × (Nat × Nat) :=
  if cache.1 + n > cache.2 then
    if n > 16 then (true, cache) else (true, (16, 16))
  else (false, cache)

end sqlmodelgen.configBuilder

namespace sqlmodelgen

/-- `strings.Join(parts, sep)` -/
def stringsJoin : List String → String → String
  | [], _ => ""
  | [a], _ => a
  | a :: rest, sep => a ++ sep ++ stringsJoin rest sep

end sqlmodelgen

namespace sqlmodelgen.configBuilder

/-- `elemPathToFK` (lines 715-736): the column that the `FK` of `c` wraps and, as far as
they were looked at, its table, its schema and its database. Each owner is assigned before
it is compared with the owner of `c`, so it comes back also when the two are the same. The
source spells the column of the TableID `fk.Col` and the third result both `fkTabl` and
`fkTable`; they are read as `fk.Column` and as one variable. The pointers compared with
nil there are never nil in a graph. -/
def elemPathToFK (b : configBuilder) (c : Nat) :
    Option Nat × Option Nat × Option Nat × Option Nat :=
  match (b.column c).FK with
  | none => (none, none, none, none)
  | some fk =>
    let fkColumn := (b.tableID fk).Column
    if fkColumn = c then (none, none, none, some fkColumn)
    else
      let fkTable := (b.column fkColumn).Table
      let cTable := (b.column c).Table
      if fkTable = cTable then (none, none, some fkTable, some fkColumn)
      else
        let fkSchema := (b.table fkTable).Schema
        let cSchema := (b.table cTable).Schema
        if fkSchema = cSchema then (none, some fkSchema, some fkTable, some fkColumn)
        else (some (b.schema fkSchema).Database, some fkSchema, some fkTable, some fkColumn)

/-- The slice `parts[len(parts)-length:]` of `RawPathToFK` (lines 696-711): the raw names
that make the path; the dereference of a nil `fkCol` is the error `nilDeref`. -/
def rawPartsToFK (b : configBuilder) (c : Nat) : Except Err (List String) :=
  match b.elemPathToFK c with
  | (fkDB, fkSch, fkTbl, fkCol) =>
    match fkCol with
    | none => .error .nilDeref
    | some col =>
      match fkTbl with
      | none => .ok [(b.column col).Names.RawName]
      | some t =>
        match fkSch with
        | none => .ok [(b.table t).Names.RawName, (b.column col).Names.RawName]
        | some s =>
          match fkDB with
          | none => .ok [(b.schema s).Names.RawName, (b.table t).Names.RawName,
              (b.column col).Names.RawName]
          | some d => .ok [(b.database d).Names.RawName, (b.schema s).Names.RawName,
              (b.table t).Names.RawName, (b.column col).Names.RawName]

/-- `RawPathToFK` -/
def RawPathToFK (b : configBuilder) (c : Nat) : Except Err String :=
  match b.rawPartsToFK c with
  | .error e => .error e
  | .ok parts => .ok (stringsJoin parts ".")

end sqlmodelgen.configBuilder

namespace sqlmodelgen

/-- A table whose name has a dot, with a column `ref` that refers to its key column
`id`. -/
def dottedConfig : config.Config :=
  { Databases := [("db", { Schemas := [("public", { Tables := [
      ("my.table", { Columns := [
        ("id", { PK := true }),
        ("ref", { FK := "id" })] })] })] })] }

end sqlmodelgen

namespace sqlmodelgen.configBuilder

/-- The column `k` is the column named `cn` of the table `t` named `tn` of the schema `s`
named `sn` of the database `d` named `dn`: each is found by its name in the by-name map of
its owner, has that owner, and has that raw name. -/
structure Located (b : configBuilder) (dn sn tn cn : String) (d s t k : Nat) : Prop where
  dbLookup : b.Config.DatabasesByName.lookup dn = some d
  schLookup : (b.database d).SchemasByName.lookup sn = some s
  tblLookup : (b.schema s).TablesByName.lookup tn = some t
  colLookup : (b.table t).ColumnsByName.lookup cn = some k
  schOwner : (b.schema s).Database = d
  tblOwner : (b.table t).Schema = s
  colOwner : (b.column k).Table = t
  dbName : (b.database d).Names.RawName = dn
  schName : (b.schema s).Names.RawName = sn
  tblName : (b.table t).Names.RawName = tn
  colName : (b.column k).Names.RawName = cn

end sqlmodelgen.configBuilder

namespace sqlmodelgen.configBuilder

/-- Every entity in the arenas has an owner in the arenas and is on the child list of its
owner: a database on `Config.Databases`, a schema on the `Schemas` of its `Database`, a
table on the `Tables` of its `Schema`, a column on the `Columns` of its `Table`. -/
structure Listed (b : configBuilder) : Prop where
  db : ∀ d < b.databases.length, d ∈ b.Config.Databases
  sch : ∀ s < b.schemas.length, (b.schema s).Database < b.databases.length ∧
    s ∈ (b.database (b.schema s).Database).Schemas
  tbl : ∀ t < b.tables.length, (b.table t).Schema < b.schemas.length ∧
    t ∈ (b.schema (b.table t).Schema).Tables
  col : ∀ i < b.columns.length, (b.column i).Table < b.tables.length ∧
    i ∈ (b.table (b.column i).Table).Columns

/-- The graph `b'` grows from `b`: the arenas and the child lists only grow, and the
entities of `b` keep their owners. -/
structure Grows (b b' : configBuilder) : Prop where
  roots : b.Config.Databases ⊆ b'.Config.Databases
  dbLen : b.databases.length ≤ b'.databases.length
  db : ∀ d < b.databases.length, (b.database d).Schemas ⊆ (b'.database d).Schemas
  schLen : b.schemas.length ≤ b'.schemas.length
  sch : ∀ s < b.schemas.length, (b'.schema s).Database = (b.schema s).Database ∧
    (b.schema s).Tables ⊆ (b'.schema s).Tables
  tblLen : b.tables.length ≤ b'.tables.length
  tbl : ∀ t < b.tables.length, (b'.table t).Schema = (b.table t).Schema ∧
    (b.table t).Columns ⊆ (b'.table t).Columns
  colLen : b.columns.length ≤ b'.columns.length
  col : ∀ i < b.columns.length, (b'.column i).Table = (b.column i).Table

/-- Every entity in the arenas is an entity of the graph, held once by its owner: it occurs
exactly once in the child list of its owner, and the by-name map of its owner holds it
under its raw name; and the owner of a database is the root. -/
structure OwnedOnce (b : configBuilder) : Prop where
  db : ∀ d < b.databases.length, (b.database d).Config = some .config ∧
    b.Config.Databases.count d = 1 ∧
    b.Config.DatabasesByName.lookup (b.database d).Names.RawName = some d
  sch : ∀ s < b.schemas.length, (b.schema s).Database < b.databases.length ∧
    (b.database (b.schema s).Database).Schemas.count s = 1 ∧
    (b.database (b.schema s).Database).SchemasByName.lookup (b.schema s).Names.RawName
      = some s
  tbl : ∀ t < b.tables.length, (b.table t).Schema < b.schemas.length ∧
    (b.schema (b.table t).Schema).Tables.count t = 1 ∧
    (b.schema (b.table t).Schema).TablesByName.lookup (b.table t).Names.RawName = some t
  col : ∀ i < b.columns.length, (b.column i).Table < b.tables.length ∧
    (b.table (b.column i).Table).Columns.count i = 1 ∧
    (b.table (b.column i).Table).ColumnsByName.lookup (b.column i).Names.RawName = some i

end sqlmodelgen.configBuilder

namespace sqlmodelgen

/-- The maps of `chainConfig` with the columns of table `t` listed in the order `b`, `c`,
`a`. -/
def chainConfigTargetsFirst : config.Config :=
  { Databases := [("db", { Schemas := [("public", { Tables := [
      ("t", { Columns := [
        ("b", { PK := true, FK := "c" }),
        ("c", { PK := true, Type_ := "int" }),
        ("a", { FK := "b" })] })] })] })] }

/-- The later passes range over the columns of `chainConfig` in the order `b`, `c`, `a`. -/
def chainTraversalTargetsFirst : Traversal :=
  { fk := chainConfigTargetsFirst, data := chainConfigTargetsFirst,
    namespaces := fun l => l }

end sqlmodelgen

/-! ## Lemmas and theorems -/

namespace sqlmodelgen

theorem getPathDownLoop_ok_iff (b : configBuilder) (path : String) (parts : List String)
    (r last : Ref) :
    b.getPathDownLoop path parts r = .ok last ↔ b.Descends r parts last := by
  induction parts generalizing r with
  | nil => simp [getPathDownLoop, Descends]
  | cons n rest ih =>
    cases r with
    | config =>
      simp only [getPathDownLoop, Descends, byName]
      cases h : b.Config.DatabasesByName.lookup n <;> simp [ih]
    | database d =>
      simp only [getPathDownLoop, Descends, byName]
      cases h : (b.database d).SchemasByName.lookup n <;> simp [ih]
    | schema s =>
      simp only [getPathDownLoop, Descends, byName]
      cases h : (b.schema s).TablesByName.lookup n <;> simp [ih]
    | table t =>
      simp only [getPathDownLoop, Descends, byName]
      cases h : (b.table t).ColumnsByName.lookup n <;> simp [ih]
    | column c =>
      simp [getPathDownLoop, Descends, byName]

theorem splitDots_length (l : List Char) : (splitDots l).length = l.count '.' + 1 := by
  induction l with
  | nil => simp [splitDots]
  | cons c cs ih =>
    by_cases h : c = '.'
    · subst h; simp [splitDots, ih]
    · have hc : (c == '.') = false := by simpa using h
      simp only [splitDots, if_neg h, List.count_cons, hc]
      cases hs : splitDots cs with
      | nil => rw [hs] at ih; simp at ih
      | cons p ps =>
        rw [hs] at ih
        simpa using ih

theorem stringsSplit_length (p : String) : (stringsSplit p).length = stringsCount p + 1 := by
  simp [stringsSplit, stringsCount, splitDots_length]

theorem lookup_filter_ne {α : Type} (m : List (String × α)) (k n : String) (h : n ≠ k) :
    (m.filter (fun p => p.1 != k)).lookup n = m.lookup n := by
  induction m with
  | nil => rfl
  | cons p m ih =>
    obtain ⟨pk, pv⟩ := p
    by_cases hp : pk = k
    · subst hp
      have : (n == pk) = false := by simpa using h
      simp [List.filter_cons, List.lookup_cons, this, ih]
    · by_cases hn : n = pk
      · subst hn; simp [List.filter_cons, hp, List.lookup_cons]
      · have : (n == pk) = false := by simpa using hn
        simp [List.filter_cons, hp, List.lookup_cons, this, ih]

theorem lookup_mapSet {α : Type} (m : List (String × α)) (k n : String) (v : α) :
    (mapSet m k v).lookup n = if n = k then some v else m.lookup n := by
  unfold mapSet
  by_cases h : n = k
  · subst h; simp [List.lookup_cons]
  · have hb : (n == k) = false := by simpa using h
    simp only [List.lookup_cons, hb, if_neg h]
    exact lookup_filter_ne m k n h

theorem getD_set_self {α : Type} (l : List α) (i : Nat) (a d : α) (h : i < l.length) :
    (l.set i a).getD i d = a := by
  simp [List.getD_eq_getElem?_getD, List.getElem?_set, h]

theorem getD_set_ne {α : Type} (l : List α) (i j : Nat) (a d : α) (h : i ≠ j) :
    (l.set i a).getD j d = l.getD j d := by
  simp [List.getD_eq_getElem?_getD, List.getElem?_set, h]

theorem getD_append_lt {α : Type} (l l2 : List α) (i : Nat) (d : α) (h : i < l.length) :
    (l ++ l2).getD i d = l.getD i d := by
  simp [List.getD_eq_getElem?_getD, List.getElem?_append_left h]

theorem getD_append_length {α : Type} (l : List α) (a d : α) :
    (l ++ [a]).getD l.length d = a := by
  simp [List.getD_eq_getElem?_getD]

end sqlmodelgen

namespace sqlmodelgen.configBuilder

theorem Frame.frame_refl (od os ot : Nat → Prop) (b : configBuilder) : Frame od os ot b b :=
  ⟨le_refl _, fun _ _ _ => rfl, le_refl _, fun _ _ _ => rfl, le_refl _, fun _ _ _ => rfl,
   le_refl _, fun _ _ => rfl, le_refl _, fun _ _ => rfl, le_refl _, fun _ _ => rfl⟩

theorem Frame.frame_trans {od os ot od' os' ot' : Nat → Prop} {b1 b2 b3 : configBuilder}
    (h1 : Frame od os ot b1 b2) (h2 : Frame od' os' ot' b2 b3)
    (hd : ∀ i < b1.databases.length, od' i → od i)
    (hs : ∀ i < b1.schemas.length, os' i → os i)
    (ht : ∀ i < b1.tables.length, ot' i → ot i) : Frame od os ot b1 b3 where
  databasesLen := le_trans h1.databasesLen h2.databasesLen
  databases i hi ho := by
    rw [h2.databases i (lt_of_lt_of_le hi h1.databasesLen) (fun h => ho (hd i hi h)),
      h1.databases i hi ho]
  schemasLen := le_trans h1.schemasLen h2.schemasLen
  schemas i hi ho := by
    rw [h2.schemas i (lt_of_lt_of_le hi h1.schemasLen) (fun h => ho (hs i hi h)),
      h1.schemas i hi ho]
  tablesLen := le_trans h1.tablesLen h2.tablesLen
  tables i hi ho := by
    rw [h2.tables i (lt_of_lt_of_le hi h1.tablesLen) (fun h => ho (ht i hi h)),
      h1.tables i hi ho]
  columnsLen := le_trans h1.columnsLen h2.columnsLen
  columns i hi := by rw [h2.columns i (lt_of_lt_of_le hi h1.columnsLen), h1.columns i hi]
  idsLen := le_trans h1.idsLen h2.idsLen
  ids i hi := by rw [h2.ids i (lt_of_lt_of_le hi h1.idsLen), h1.ids i hi]
  keysLen := le_trans h1.keysLen h2.keysLen
  keys i hi := by rw [h2.keys i (lt_of_lt_of_le hi h1.keysLen), h1.keys i hi]

theorem column_setColumn_self (b : configBuilder) (c : Nat) (x : Column)
    (h : c < b.columns.length) : (b.setColumn c x).column c = x :=
  getD_set_self _ _ _ _ h

theorem column_setColumn_ne (b : configBuilder) (c i : Nat) (x : Column) (h : i ≠ c) :
    (b.setColumn c x).column i = b.column i :=
  getD_set_ne _ _ _ _ _ (Ne.symm h)

theorem table_setTable_self (b : configBuilder) (t : Nat) (x : Table)
    (h : t < b.tables.length) : (b.setTable t x).table t = x :=
  getD_set_self _ _ _ _ h

theorem table_setTable_ne (b : configBuilder) (t i : Nat) (x : Table) (h : i ≠ t) :
    (b.setTable t x).table i = b.table i :=
  getD_set_ne _ _ _ _ _ (Ne.symm h)

theorem schema_setSchema_self (b : configBuilder) (s : Nat) (x : Schema)
    (h : s < b.schemas.length) : (b.setSchema s x).schema s = x :=
  getD_set_self _ _ _ _ h

theorem schema_setSchema_ne (b : configBuilder) (s i : Nat) (x : Schema) (h : i ≠ s) :
    (b.setSchema s x).schema i = b.schema i :=
  getD_set_ne _ _ _ _ _ (Ne.symm h)

theorem database_setDatabase_self (b : configBuilder) (d : Nat) (x : Database)
    (h : d < b.databases.length) : (b.setDatabase d x).database d = x :=
  getD_set_self _ _ _ _ h

theorem database_setDatabase_ne (b : configBuilder) (d i : Nat) (x : Database) (h : i ≠ d) :
    (b.setDatabase d x).database i = b.database i :=
  getD_set_ne _ _ _ _ _ (Ne.symm h)

/-- What `initColumnType` does on success: only the type of column `c` (and the namespace
set) change. -/
theorem initColumnType_spec {env : Env} {mc : ModelContext} {dn sn tn cn : String}
    {cc : config.Column} {c : Nat} {b b' : configBuilder}
    (h : initColumnType env mc dn sn tn cn cc c b = (b', none)) :
    b'.Config = b.Config ∧ b'.databases = b.databases ∧ b'.schemas = b.schemas ∧
    b'.tables = b.tables ∧ b'.ids = b.ids ∧ b'.keys = b.keys ∧
    b'.columns.length = b.columns.length ∧
    (∀ i, i ≠ c → b'.column i = b.column i) ∧
    (c < b.columns.length → b'.column c = { b.column c with
      Type_ := if cc.Type_ = "" then (b.column c).Type_
        else (env.Parse cc.Type_).toOption }) := by
  unfold initColumnType at h
  by_cases hty : cc.Type_ = ""
  · simp only [hty, ne_eq, not_true_eq_false, if_false, Prod.mk.injEq, and_true] at h
    subst h
    simp [hty]
  · simp only [ne_eq, hty, not_false_eq_true, if_true] at h
    cases hp : env.Parse cc.Type_ with
    | error e => simp [hp] at h
    | ok ty =>
      simp only [hp] at h
      cases hm : mc.ModelType ty with
      | error e => simp [hm] at h
      | ok r =>
        obtain ⟨ns, tn⟩ := r
        simp only [hm, Prod.mk.injEq, and_true] at h
        subst h
        have key : ∀ b0 : configBuilder,
            (if ns ≠ "" then { b0 with namespaces := setAdd b0.namespaces ns } else b0).columns
              = b0.columns := by
          intro b0; split <;> rfl
        refine ⟨by split <;> rfl, by split <;> rfl, by split <;> rfl, by split <;> rfl,
          by split <;> rfl, by split <;> rfl, ?_, ?_, ?_⟩
        · rw [key]; simp [setColumn]
        · intro i hi
          show List.getD _ _ _ = _
          rw [key]; exact column_setColumn_ne _ _ _ _ hi
        · intro hc
          show List.getD _ _ _ = _
          rw [key, if_neg hty]
          exact column_setColumn_self b c _ hc

theorem initColumn_spec {env : Env} {mc : ModelContext} {dn sn tn cn : String} {t : Nat}
    {cc : config.Column} {b b' : configBuilder} {tmp tmp' : List Nat}
    (ht : t < b.tables.length)
    (h : initColumn env mc dn sn tn t cn cc b tmp = (b', tmp', none)) :
    ColumnStep env t cn cc b tmp b' tmp' := by
  unfold initColumn at h
  simp only at h
  generalize hb3 : ((b.newColumn t cn).1.setTable t _).setColumn _ _ = b3 at h
  cases h4 : initColumnType env mc dn sn tn cn cc (b.newColumn t cn).2 b3 with
  | mk b4 r =>
    rw [h4] at h
    cases r with
    | some e => simp at h
    | none =>
      simp only at h
      obtain ⟨hC, hD, hS, hT, hI, hK, hL, hne, hself⟩ := initColumnType_spec h4
      have hc : (b.newColumn t cn).2 = b.columns.length := rfl
      rw [hc] at hself hne h
      have hb3cols : b3.columns.length = b.columns.length + 1 := by
        rw [← hb3]; simp [setColumn, setTable, newColumn]
      have hb3c : b3.column b.columns.length =
          { Table := t, Names := Names.init cn (b.tableDatabase t).Namers.Column,
            Type_ := none, PK := cc.PK, FK := none } := by
        rw [← hb3, hc]
        rw [column_setColumn_self _ _ _ (by simp [setTable, newColumn])]
        simp [column, setTable, newColumn, getD_append_length]
      have hb3old : ∀ i < b.columns.length, b3.column i = b.column i := by
        intro i hi
        rw [← hb3, hc, column_setColumn_ne _ _ _ _ (Nat.ne_of_lt hi)]
        simp only [column, setTable, newColumn]
        exact getD_append_lt _ _ _ _ hi
      have hb3t : b3.tables = b.tables.set t { b.table t with
          Columns := (b.table t).Columns ++ [b.columns.length],
          ColumnsByName := mapSet (b.table t).ColumnsByName cn b.columns.length } := by
        rw [← hb3]; rfl
      have h4c : b4.column b.columns.length =
          { Table := t, Names := Names.init cn (b.tableDatabase t).Namers.Column,
            Type_ := if cc.Type_ = "" then none else (env.Parse cc.Type_).toOption,
            PK := cc.PK, FK := none } := by
        rw [hself (by omega), hb3c]
      have h4old : ∀ i < b.columns.length, b4.column i = b.column i := by
        intro i hi; rw [hne i (Nat.ne_of_lt hi), hb3old i hi]
      have h4t : ∀ i, b4.table i = b3.table i := by intro i; simp [table, hT]
      have h3ids : b3.ids = b.ids := by rw [← hb3]; rfl
      have h3keys : b3.keys = b.keys := by rw [← hb3]; rfl
      have h3cfg : b3.Config = b.Config := by rw [← hb3]; rfl
      have h3db : b3.databases = b.databases := by rw [← hb3]; rfl
      have h3s : b3.schemas = b.schemas := by rw [← hb3]; rfl
      have hpk : (b4.column b.columns.length).PK = cc.PK := by rw [h4c]
      clear hb3
      rw [hpk] at h
      cases hcc : cc.PK with
      | false =>
        simp only [hcc, Bool.false_eq_true, if_false, Prod.mk.injEq, and_true] at h
        obtain ⟨rfl, rfl⟩ := h
        refine ⟨by rw [hC, h3cfg], by rw [hD, h3db], by rw [hS, h3s], by rw [hK, h3keys],
          by rw [hT, hb3t]; simp, ?_, ?_, by rw [hL, hb3cols], h4old, h4c,
          by rw [hI, h3ids]; simp [hcc], by intro i _; simp [tableID, hI, h3ids],
          by simp [hcc], by simp [hcc]⟩
        · intro i hi; rw [h4t, table, hb3t]; exact getD_set_ne _ _ _ _ _ (Ne.symm hi)
        · rw [h4t, table, hb3t]; exact getD_set_self _ _ _ _ ht
      | true =>
        simp only [hcc, if_true, Prod.mk.injEq, and_true] at h
        obtain ⟨rfl, rfl⟩ := h
        have hidlen : b4.ids.length = b.ids.length := by rw [hI, h3ids]
        refine ⟨by show b4.Config = _; rw [hC, h3cfg],
          by show b4.databases = _; rw [hD, h3db],
          by show b4.schemas = _; rw [hS, h3s], by show b4.keys = _; rw [hK, h3keys],
          by show b4.tables.length = _; rw [hT, hb3t]; simp, ?_, ?_,
          by show b4.columns.length = _; rw [hL, hb3cols], h4old, h4c,
          by simp [newID, hidlen, hcc], ?_, ?_, by simp [newID, hidlen, hcc]⟩
        · intro i hi
          show b4.table i = _
          rw [h4t, table, hb3t]; exact getD_set_ne _ _ _ _ _ (Ne.symm hi)
        · show b4.table t = _
          rw [h4t, table, hb3t]; exact getD_set_self _ _ _ _ ht
        · intro i hi
          simp only [tableID, newID]
          rw [getD_append_lt _ _ _ _ (by omega), hI, h3ids]
        · intro _
          simp only [tableID, newID, ← hidlen]
          rw [getD_append_length]

theorem ColumnDone.frame_col {env : Env} {b b' : configBuilder} {t i : Nat}
    {e : String × config.Column} (h : ColumnDone env b t i e)
    (hl : b.columns.length ≤ b'.columns.length)
    (hc : ∀ j < b.columns.length, b'.column j = b.column j) : ColumnDone env b' t i e := by
  have hi := hc i h.valid
  exact ⟨lt_of_lt_of_le h.valid hl, by rw [hi]; exact h.owner, by rw [hi]; exact h.name,
    by rw [hi]; exact h.pk, by rw [hi]; exact h.fk, by rw [hi]; exact h.type⟩

theorem ColumnStep.frame_step {env : Env} {t : Nat} {cn : String} {cc : config.Column}
    {b b' : configBuilder} {tmp tmp' : List Nat} (h : ColumnStep env t cn cc b tmp b' tmp') :
    Frame (fun _ => False) (fun _ => False) (fun i => i = t) b b' where
  databasesLen := by rw [h.databases]
  databases i _ _ := by simp [database, h.databases]
  schemasLen := by rw [h.schemas]
  schemas i _ _ := by simp [schema, h.schemas]
  tablesLen := by rw [h.tablesLen]
  tables i _ hi := h.tables i hi
  columnsLen := by rw [h.columnsLen]; omega
  columns := h.columns
  idsLen := by rw [h.idsLen]; omega
  ids := h.ids
  keysLen := by rw [h.keys]
  keys i _ := by simp [tableKey, h.keys]

theorem filter_pk_congr {b b' : configBuilder} {l : List Nat}
    (h : ∀ i ∈ l, b'.column i = b.column i) :
    l.filter (fun i => (b'.column i).PK) = l.filter (fun i => (b.column i).PK) := by
  apply List.filter_congr
  intro i hi; rw [h i hi]

theorem map_idColumn_congr {b b' : configBuilder} {l : List Nat}
    (h : ∀ i ∈ l, b'.tableID i = b.tableID i) :
    l.map (fun id => (b'.tableID id).Column) = l.map (fun id => (b.tableID id).Column) := by
  apply List.map_congr_left
  intro i hi; rw [h i hi]

theorem forall₂_mem_left {α β : Type} {R : α → β → Prop} {l1 : List α} {l2 : List β}
    (h : List.Forall₂ R l1 l2) {a : α} (ha : a ∈ l1) : ∃ x ∈ l2, R a x := by
  induction h with
  | nil => cases ha
  | cons hab _ ih =>
    rcases List.mem_cons.mp ha with rfl | ha
    · exact ⟨_, List.mem_cons_self _ _, hab⟩
    · obtain ⟨x, hx, hr⟩ := ih ha
      exact ⟨x, List.mem_cons_of_mem _ hx, hr⟩

theorem forall₂_mem_right {α β : Type} {R : α → β → Prop} {l1 : List α} {l2 : List β}
    (h : List.Forall₂ R l1 l2) {x : β} (hx : x ∈ l2) : ∃ a ∈ l1, R a x := by
  induction h with
  | nil => cases hx
  | cons hab _ ih =>
    rcases List.mem_cons.mp hx with rfl | hx
    · exact ⟨_, List.mem_cons_self _ _, hab⟩
    · obtain ⟨a, ha, hr⟩ := ih hx
      exact ⟨a, List.mem_cons_of_mem _ ha, hr⟩

theorem TableCols.colValid {env : Env} {b : configBuilder} {t : Nat}
    {done : List (String × config.Column)} (h : TableCols env b t done) :
    ∀ i ∈ (b.table t).Columns, i < b.columns.length := fun _ hi => by
  obtain ⟨_, _, he⟩ := forall₂_mem_left h.cols hi
  exact he.valid

theorem TableOpen.step {env : Env} {t : Nat} {cn : String} {cc : config.Column}
    {b b' : configBuilder} {tmp tmp' : List Nat} {done : List (String × config.Column)}
    (ho : TableOpen env b t done tmp) (h : ColumnStep env t cn cc b tmp b' tmp') :
    TableOpen env b' t (done ++ [(cn, cc)]) tmp' := by
  have hold := ho.toTableCols.colValid
  have hcols : (b'.table t).Columns = (b.table t).Columns ++ [b.columns.length] := by
    rw [h.table]
  have hbn : (b'.table t).ColumnsByName =
      mapSet (b.table t).ColumnsByName cn b.columns.length := by rw [h.table]
  have hnew : ColumnDone env b' t b.columns.length (cn, cc) :=
    ⟨by rw [h.columnsLen]; omega, by rw [h.column], by rw [h.column]; rfl, by rw [h.column],
      by rw [h.column], by rw [h.column]⟩
  have hpkc : b'.pkColumns t =
      b.pkColumns t ++ (if cc.PK then [b.columns.length] else []) := by
    unfold pkColumns
    rw [hcols, List.filter_append, filter_pk_congr (fun i hi => h.columns i (hold i hi))]
    congr 1
    simp only [List.filter_cons, List.filter_nil, h.column]
  refine ⟨⟨by rw [h.tablesLen]; exact ho.valid, ?_, ?_, ?_, ?_, by rw [h.table]; exact ho.data⟩,
    by rw [h.table]; exact ho.pk, by rw [h.table]; exact ho.key, ?_, ?_⟩
  · rw [hcols]
    exact List.rel_append (ho.cols.imp fun i e hie => hie.frame_col (by rw [h.columnsLen]; omega)
      h.columns) (List.Forall₂.cons hnew List.Forall₂.nil)
  · rw [hcols]
    refine List.Nodup.append ho.nodup (List.nodup_singleton _) ?_
    intro i hi hi2
    have := hold i hi
    simp at hi2
    omega
  · intro n i hl
    rw [hbn, lookup_mapSet] at hl
    rw [hcols]
    by_cases hn : n = cn
    · rw [if_pos hn] at hl
      cases hl
      exact ⟨by simp, by rw [h.column, hn]; rfl⟩
    · rw [if_neg hn] at hl
      obtain ⟨h1, h2⟩ := ho.byName n i hl
      exact ⟨List.mem_append_left _ h1, by rw [h.columns i (hold i h1)]; exact h2⟩
  · intro n hn
    rw [hbn, lookup_mapSet]
    by_cases hn2 : n = cn
    · simp [hn2]
    · rw [if_neg hn2]
      apply ho.named
      simpa [hn2] using hn
  · intro id hid
    rw [h.temp] at hid
    rw [h.idsLen]
    cases hpk : cc.PK with
    | false =>
      simp only [hpk, Bool.false_eq_true, if_false] at hid ⊢
      exact ho.tempValid id hid
    | true =>
      simp only [hpk, if_true, List.mem_append, List.mem_singleton] at hid ⊢
      rcases hid with hid | rfl
      · have := ho.tempValid id hid; omega
      · omega
  · rw [hpkc, h.temp]
    cases hpk : cc.PK with
    | false =>
      simp only [Bool.false_eq_true, if_false, List.append_nil]
      rw [map_idColumn_congr (fun i hi => h.ids i (ho.tempValid i hi))]
      exact ho.temp
    | true =>
      simp only [if_true, List.map_append, List.map_cons, List.map_nil]
      rw [map_idColumn_congr (fun i hi => h.ids i (ho.tempValid i hi)), ho.temp,
        h.newID hpk]

theorem TableRun.tableRun_refl (t : Nat) (b : configBuilder) : TableRun t b b :=
  ⟨rfl, rfl, rfl, rfl, rfl, rfl, Frame.frame_refl _ _ _ _⟩

theorem TableRun.tableRun_trans {t : Nat} {b1 b2 b3 : configBuilder} (h1 : TableRun t b1 b2)
    (h2 : TableRun t b2 b3) : TableRun t b1 b3 :=
  ⟨h2.config.trans h1.config, h2.databases.trans h1.databases, h2.schemas.trans h1.schemas,
    h2.tablesLen.trans h1.tablesLen, h2.owner.trans h1.owner, h2.name.trans h1.name,
    h1.frame.frame_trans h2.frame (fun _ _ h => h) (fun _ _ h => h) (fun _ _ h => h)⟩

theorem ColumnStep.run {env : Env} {t : Nat} {cn : String} {cc : config.Column}
    {b b' : configBuilder} {tmp tmp' : List Nat} (h : ColumnStep env t cn cc b tmp b' tmp') :
    TableRun t b b' :=
  ⟨h.config, h.databases, h.schemas, h.tablesLen, by rw [h.table], by rw [h.table], h.frame_step⟩

theorem initColumns_spec {env : Env} {mc : ModelContext} {dn sn tn : String} {t : Nat}
    (cols : List (String × config.Column)) {b b' : configBuilder} {tmp tmp' : List Nat}
    {done : List (String × config.Column)} (ho : TableOpen env b t done tmp)
    (h : initColumns env mc dn sn tn t cols b tmp = (b', tmp', none)) :
    TableOpen env b' t (done ++ cols) tmp' ∧ TableRun t b b' := by
  induction cols generalizing b tmp done with
  | nil =>
    simp only [initColumns, Prod.mk.injEq, and_true] at h
    obtain ⟨rfl, rfl⟩ := h
    exact ⟨by simpa using ho, TableRun.tableRun_refl _ _⟩
  | cons e rest ih =>
    obtain ⟨cn, cc⟩ := e
    simp only [initColumns] at h
    cases h1 : initColumn env mc dn sn tn t cn cc b tmp with
    | mk b1 r =>
      obtain ⟨tmp1, err⟩ := r
      rw [h1] at h
      cases err with
      | some e => simp at h
      | none =>
        simp only at h
        have hs := initColumn_spec ho.valid h1
        obtain ⟨ho', hr⟩ := ih (ho.step hs) h
        exact ⟨by simpa using ho', hs.run.tableRun_trans hr⟩

/-- The effect of `assignKey` on a table whose column loop is over. -/
theorem assignKey_spec {env : Env} {t : Nat} {b : configBuilder} {tmp : List Nat}
    {done : List (String × config.Column)} (ho : TableOpen env b t done tmp) :
    TableCols env (b.assignKey t tmp).1 t done ∧ KeyOK (b.assignKey t tmp).1 t ∧
    (b.assignKey t tmp).2 = [] ∧ TableRun t b (b.assignKey t tmp).1 := by
  have hcolsame : ∀ (b' : configBuilder), b'.columns = b.columns →
      (b'.table t).Columns = (b.table t).Columns →
      (b'.table t).ColumnsByName = (b.table t).ColumnsByName →
      (b'.table t).DataColumns = (b.table t).DataColumns →
      b'.tables.length = b.tables.length → TableCols env b' t done := by
    intro b' hc h1 h2 h3 h4
    have hcol : ∀ i, b'.column i = b.column i := fun i => by simp [column, hc]
    refine ⟨by rw [h4]; exact ho.valid, ?_, by rw [h1]; exact ho.nodup, ?_, ?_,
      by rw [h3]; exact ho.data⟩
    · rw [h1]
      exact ho.cols.imp fun i e hie => hie.frame_col (by rw [hc]) (fun j _ => hcol j)
    · intro n i hl
      rw [h2] at hl; rw [h1, hcol]; exact ho.byName n i hl
    · intro n hn; rw [h2]; exact ho.named n hn
  have hpkc : ∀ (b' : configBuilder), b'.columns = b.columns →
      (b'.table t).Columns = (b.table t).Columns → b'.pkColumns t = b.pkColumns t := by
    intro b' hc h1
    unfold pkColumns
    rw [h1]
    exact filter_pk_congr (fun i _ => by simp [column, hc])
  match tmp, ho with
  | [], ho =>
    refine ⟨ho.toTableCols, ⟨?_, ?_, Or.inl ho.pk, ?_⟩, rfl, TableRun.tableRun_refl _ _⟩
    · intro id hid
      simp [assignKey, tableIDs, keyMembers, ho.pk, ho.key] at hid
    · simp only [assignKey, tableIDs, keyMembers, ho.pk, ho.key]
      simpa using ho.temp
    · intro k hk
      simp [assignKey, ho.key] at hk
  | [id], ho =>
    have ht : ((b.assignKey t [id]).1).table t = { b.table t with PK := some id } :=
      table_setTable_self _ _ _ ho.valid
    refine ⟨hcolsame _ rfl (by rw [ht]) (by rw [ht]) (by rw [ht]) (by simp [assignKey, setTable]),
      ⟨?_, ?_, Or.inr (by rw [ht]; exact ho.key), ?_⟩, rfl,
      ⟨rfl, rfl, rfl, by simp [assignKey, setTable], by rw [ht], by rw [ht], ?_⟩⟩
    · intro i hi
      simp only [tableIDs, keyMembers, ht, ho.key] at hi
      simp at hi
      subst hi
      exact ho.tempValid _ (by simp)
    · rw [hpkc (b.assignKey t [id]).1 rfl (by rw [ht])]
      simp only [tableIDs, keyMembers, ht, ho.key]
      simpa [tableID, assignKey, setTable] using ho.temp
    · intro k hk
      rw [ht] at hk
      simp [ho.key] at hk
    · exact ⟨le_refl _, fun _ _ _ => rfl, le_refl _, fun _ _ _ => rfl,
        by simp [assignKey, setTable], fun i _ hi => table_setTable_ne _ _ _ _ hi,
        le_refl _, fun _ _ => rfl, le_refl _, fun _ _ => rfl, le_refl _, fun _ _ => rfl⟩
  | id1 :: id2 :: ids, ho =>
    have hk : ((b.assignKey t (id1 :: id2 :: ids)).1).tableKey b.keys.length =
        { Names := Names.init ((b.table t).Names.RawName ++ "Key") (b.tableDatabase t).Namers.Key,
          IDs := id1 :: id2 :: ids } := by
      simp only [assignKey, tableKey, setTable, newKey, newIDs]
      exact getD_append_length _ _ _
    have ht : ((b.assignKey t (id1 :: id2 :: ids)).1).table t =
        { b.table t with Key := some b.keys.length } :=
      table_setTable_self _ _ _ ho.valid
    refine ⟨hcolsame _ rfl (by rw [ht]) (by rw [ht]) (by rw [ht])
        (by simp [assignKey, setTable, newKey]),
      ⟨?_, ?_, Or.inl (by rw [ht]; exact ho.pk), ?_⟩, rfl,
      ⟨rfl, rfl, rfl, by simp [assignKey, setTable, newKey], by rw [ht], by rw [ht], ?_⟩⟩
    · intro i hi
      simp only [tableIDs, keyMembers, ht, ho.pk, hk] at hi
      exact ho.tempValid _ (by simpa using hi)
    · rw [hpkc (b.assignKey t (id1 :: id2 :: ids)).1 rfl (by rw [ht])]
      simp only [tableIDs, keyMembers, ht, ho.pk, hk]
      simpa [tableID, assignKey, setTable, newKey] using ho.temp
    · intro k hk2
      rw [ht] at hk2
      simp only [Option.some.injEq] at hk2
      subst hk2
      rw [hk]
      simp [assignKey, setTable, newKey]
    · exact ⟨le_refl _, fun _ _ _ => rfl, le_refl _, fun _ _ _ => rfl,
        by simp [assignKey, setTable, newKey], fun i _ hi => table_setTable_ne _ _ _ _ hi,
        le_refl _, fun _ _ => rfl, le_refl _, fun _ _ => rfl,
        by simp [assignKey, setTable, newKey],
        fun i hi => by
          simp only [assignKey, tableKey, setTable, newKey]
          exact getD_append_lt _ _ _ _ hi⟩

end sqlmodelgen.configBuilder

namespace sqlmodelgen

theorem byName_append {m : List (String × Nat)} {l : List Nat} (nm : Nat → String)
    {nm' : Nat → String} {k : String} {c : Nat}
    (h : ∀ n i, m.lookup n = some i → i ∈ l ∧ nm i = n) (hc : nm' c = k)
    (hold : ∀ i ∈ l, nm' i = nm i) :
    ∀ n i, (mapSet m k c).lookup n = some i → i ∈ l ++ [c] ∧ nm' i = n := by
  intro n i hl
  rw [lookup_mapSet] at hl
  by_cases hn : n = k
  · rw [if_pos hn] at hl
    cases hl
    exact ⟨by simp, by rw [hc, hn]⟩
  · rw [if_neg hn] at hl
    obtain ⟨h1, h2⟩ := h n i hl
    exact ⟨List.mem_append_left _ h1, by rw [hold i h1]; exact h2⟩

theorem named_append {α : Type} {m : List (String × Nat)} {done : List (String × α)}
    (e : String × α) (c : Nat)
    (h : ∀ n ∈ done.map Prod.fst, (m.lookup n).isSome) :
    ∀ n ∈ (done ++ [e]).map Prod.fst, ((mapSet m e.1 c).lookup n).isSome := by
  intro n hn
  rw [lookup_mapSet]
  by_cases hn2 : n = e.1
  · simp [hn2]
  · rw [if_neg hn2]
    apply h
    simpa [hn2] using hn

theorem nodup_append_fresh {l : List Nat} {c : Nat} (h : l.Nodup) (hlt : ∀ i ∈ l, i < c) :
    (l ++ [c]).Nodup := by
  refine List.Nodup.append h (List.nodup_singleton _) ?_
  intro i hi hi2
  have := hlt i hi
  simp at hi2
  omega

end sqlmodelgen

namespace sqlmodelgen.configBuilder

theorem TableCols.frame_cols {env : Env} {b b' : configBuilder} {t : Nat}
    {done : List (String × config.Column)} {od os ot : Nat → Prop}
    (h : TableCols env b t done) (f : Frame od os ot b b') (hot : ¬ ot t) :
    TableCols env b' t done := by
  have ht := f.tables t h.valid hot
  refine ⟨lt_of_lt_of_le h.valid f.tablesLen, ?_, by rw [ht]; exact h.nodup, ?_, ?_,
    by rw [ht]; exact h.data⟩
  · rw [ht]
    exact h.cols.imp fun i e hie => hie.frame_col f.columnsLen f.columns
  · intro n i hl
    rw [ht] at hl ⊢
    obtain ⟨h1, h2⟩ := h.byName n i hl
    exact ⟨h1, by rw [f.columns i (h.colValid i h1)]; exact h2⟩
  · intro n hn; rw [ht]; exact h.named n hn

theorem KeyOK.frame_key {env : Env} {b b' : configBuilder} {t : Nat}
    {done : List (String × config.Column)} {od os ot : Nat → Prop}
    (hc : TableCols env b t done) (h : KeyOK b t) (f : Frame od os ot b b') (hot : ¬ ot t) :
    KeyOK b' t := by
  have ht := f.tables t hc.valid hot
  have hkm : b'.keyMembers t = b.keyMembers t := by
    unfold keyMembers
    rw [ht]
    cases hk : (b.table t).Key with
    | none => rfl
    | some k => simp only; rw [f.keys k (h.key k hk).1]
  have hids : b'.tableIDs t = b.tableIDs t := by
    unfold tableIDs; rw [hkm, ht]
  have hpk : b'.pkColumns t = b.pkColumns t := by
    unfold pkColumns
    rw [ht]
    exact filter_pk_congr (fun i hi => f.columns i (hc.colValid i hi))
  refine ⟨?_, ?_, by rw [ht]; exact h.excl, ?_⟩
  · intro id hid
    rw [hids] at hid
    exact lt_of_lt_of_le (h.valid id hid) f.idsLen
  · rw [hids, hpk, map_idColumn_congr (fun i hi => f.ids i (h.valid i hi))]
    exact h.wraps
  · intro k hk
    rw [ht] at hk
    obtain ⟨h1, h2⟩ := h.key k hk
    exact ⟨lt_of_lt_of_le h1 f.keysLen, by rw [f.keys k h1]; exact h2⟩

theorem TableDone.frame_tbl {env : Env} {b b' : configBuilder} {s t : Nat}
    {e : String × config.Table} {od os ot : Nat → Prop}
    (h : TableDone env b s t e) (f : Frame od os ot b b') (hot : ¬ ot t) :
    TableDone env b' s t e := by
  have ht := f.tables t h.valid hot
  exact ⟨h.toTableCols.frame_cols f hot, by rw [ht]; exact h.owner, by rw [ht]; exact h.name,
    h.keyOK.frame_key h.toTableCols f hot⟩

theorem SchemaOpen.tblValid {env : Env} {b : configBuilder} {s : Nat}
    {done : List (String × config.Table)} (h : SchemaOpen env b s done) :
    ∀ t ∈ (b.schema s).Tables, t < b.tables.length := fun _ hi => by
  obtain ⟨_, _, he⟩ := forall₂_mem_left h.tables hi
  exact he.valid

theorem SchemaOpen.frame_schOpen {env : Env} {b b' : configBuilder} {s : Nat}
    {done : List (String × config.Table)} {od os ot : Nat → Prop}
    (h : SchemaOpen env b s done) (f : Frame od os ot b b') (hos : ¬ os s)
    (hot : ∀ t < b.tables.length, ¬ ot t) : SchemaOpen env b' s done := by
  have hs := f.schemas s h.valid hos
  refine ⟨lt_of_lt_of_le h.valid f.schemasLen, ?_, by rw [hs]; exact h.nodup, ?_, ?_⟩
  · rw [hs]
    exact h.tables.imp fun t e hte => hte.frame_tbl f (hot t hte.valid)
  · intro n t hl
    rw [hs] at hl ⊢
    obtain ⟨h1, h2⟩ := h.byName n t hl
    have hv := h.tblValid t h1
    exact ⟨h1, by rw [f.tables t hv (hot t hv)]; exact h2⟩
  · intro n hn; rw [hs]; exact h.named n hn

theorem SchemaDone.frame_sch {env : Env} {b b' : configBuilder} {d s : Nat}
    {e : String × config.Schema} {od os ot : Nat → Prop}
    (h : SchemaDone env b d s e) (f : Frame od os ot b b') (hos : ¬ os s)
    (hot : ∀ t < b.tables.length, ¬ ot t) : SchemaDone env b' d s e := by
  have hs := f.schemas s h.valid hos
  exact ⟨h.toSchemaOpen.frame_schOpen f hos hot, by rw [hs]; exact h.owner, by rw [hs]; exact h.name⟩

theorem DatabaseOpen.schValid {env : Env} {b : configBuilder} {d : Nat}
    {done : List (String × config.Schema)} (h : DatabaseOpen env b d done) :
    ∀ s ∈ (b.database d).Schemas, s < b.schemas.length := fun _ hi => by
  obtain ⟨_, _, he⟩ := forall₂_mem_left h.schemas hi
  exact he.valid

theorem DatabaseOpen.frame_dbOpen {env : Env} {b b' : configBuilder} {d : Nat}
    {done : List (String × config.Schema)} {od os ot : Nat → Prop}
    (h : DatabaseOpen env b d done) (f : Frame od os ot b b') (hod : ¬ od d)
    (hos : ∀ s < b.schemas.length, ¬ os s)
    (hot : ∀ t < b.tables.length, ¬ ot t) : DatabaseOpen env b' d done := by
  have hd := f.databases d h.valid hod
  refine ⟨lt_of_lt_of_le h.valid f.databasesLen, ?_, by rw [hd]; exact h.nodup, ?_, ?_⟩
  · rw [hd]
    exact h.schemas.imp fun s e hse => hse.frame_sch f (hos s hse.valid) hot
  · intro n s hl
    rw [hd] at hl ⊢
    obtain ⟨h1, h2⟩ := h.byName n s hl
    have hv := h.schValid s h1
    exact ⟨h1, by rw [f.schemas s hv (hos s hv)]; exact h2⟩
  · intro n hn; rw [hd]; exact h.named n hn

theorem DatabaseDone.frame_db {env : Env} {b b' : configBuilder} {d : Nat}
    {e : String × config.Database} {od os ot : Nat → Prop}
    (h : DatabaseDone env b d e) (f : Frame od os ot b b') (hod : ¬ od d)
    (hos : ∀ s < b.schemas.length, ¬ os s)
    (hot : ∀ t < b.tables.length, ¬ ot t) : DatabaseDone env b' d e := by
  have hd := f.databases d h.valid hod
  exact ⟨h.toDatabaseOpen.frame_dbOpen f hod hos hot, by rw [hd]; exact h.name⟩

theorem SchemaRun.schemaRun_refl (s : Nat) (b : configBuilder) : SchemaRun s b b :=
  ⟨rfl, rfl, rfl, rfl, rfl, Frame.frame_refl _ _ _ _⟩

theorem SchemaRun.schemaRun_trans {s : Nat} {b1 b2 b3 : configBuilder} (h1 : SchemaRun s b1 b2)
    (h2 : SchemaRun s b2 b3) : SchemaRun s b1 b3 :=
  ⟨h2.config.trans h1.config, h2.databases.trans h1.databases,
    h2.schemasLen.trans h1.schemasLen, h2.owner.trans h1.owner, h2.name.trans h1.name,
    h1.frame.frame_trans h2.frame (fun _ _ h => h) (fun _ _ h => h) (fun _ _ h => h)⟩

theorem initTable_spec {env : Env} {mc : ModelContext} {dn sn tn : String} {s : Nat}
    {tc : config.Table} {b b' : configBuilder} {tmp' : List Nat}
    {done : List (String × config.Table)} (hs : SchemaOpen env b s done)
    (h : initTable env mc dn sn s tn tc b [] = (b', tmp', none)) :
    SchemaOpen env b' s (done ++ [(tn, tc)]) ∧ tmp' = [] ∧ SchemaRun s b b' := by
  unfold initTable at h
  simp only at h
  generalize hb1 : ((b.newTable s tn).1.setSchema s _) = b1 at h
  have ht : (b.newTable s tn).2 = b.tables.length := rfl
  rw [ht] at h hb1
  have h1t : b1.tables = b.tables ++
      [{ Schema := s, Names := Names.init tn (b.database (b.schema s).Database).Namers.Table }] := by
    rw [← hb1]; rfl
  have h1s : b1.schemas = b.schemas.set s { b.schema s with
      Tables := (b.schema s).Tables ++ [b.tables.length],
      TablesByName := mapSet (b.schema s).TablesByName tn b.tables.length } := by
    rw [← hb1]; rfl
  have h1c : b1.columns = b.columns := by rw [← hb1]; rfl
  have h1i : b1.ids = b.ids := by rw [← hb1]; rfl
  have h1k : b1.keys = b.keys := by rw [← hb1]; rfl
  have h1d : b1.databases = b.databases := by rw [← hb1]; rfl
  have h1cfg : b1.Config = b.Config := by rw [← hb1]; rfl
  clear hb1
  have h1tt : b1.table b.tables.length =
      { Schema := s, Names := Names.init tn (b.database (b.schema s).Database).Namers.Table } := by
    rw [table, h1t]; exact getD_append_length _ _ _
  have hopen : TableOpen env b1 b.tables.length [] [] := by
    refine ⟨⟨by rw [h1t]; simp, by rw [h1tt]; exact List.Forall₂.nil, by rw [h1tt]; simp,
      by rw [h1tt]; simp, by simp, by rw [h1tt]⟩, by rw [h1tt], by rw [h1tt], by simp, ?_⟩
    simp [pkColumns, h1tt]
  cases h2 : initColumns env mc dn sn tn b.tables.length tc.Columns b1 [] with
  | mk b2 r =>
    obtain ⟨tmp2, err⟩ := r
    rw [h2] at h
    cases err with
    | some e => simp at h
    | none =>
      simp only [Prod.mk.injEq, and_true] at h
      obtain ⟨rfl, rfl⟩ := h
      obtain ⟨ho2, hr2⟩ := initColumns_spec tc.Columns hopen h2
      simp only [List.nil_append] at ho2
      obtain ⟨hc3, hk3, htmp3, hr3⟩ := assignKey_spec ho2
      have hr := hr2.tableRun_trans hr3
      generalize (b2.assignKey b.tables.length tmp2).1 = b3 at *
      have h3s : b3.schemas = b1.schemas := hr.schemas
      have h3ss : b3.schema s = { b.schema s with
          Tables := (b.schema s).Tables ++ [b.tables.length],
          TablesByName := mapSet (b.schema s).TablesByName tn b.tables.length } := by
        rw [schema, h3s, h1s]; exact getD_set_self _ _ _ _ hs.valid
      have hframe : Frame (fun _ => False) (fun i => i = s) (fun _ => False) b b3 := by
        refine ⟨by rw [hr.databases, h1d], fun i _ _ => by simp [database, hr.databases, h1d],
          by rw [h3s, h1s]; simp, ?_, ?_, ?_, ?_, ?_, ?_, ?_, ?_, ?_⟩
        · intro i _ hi
          rw [schema, h3s, h1s]; exact getD_set_ne _ _ _ _ _ (Ne.symm hi)
        · rw [hr.tablesLen, h1t]; simp
        · intro i hi _
          rw [hr.frame.tables i (by rw [h1t]; simp; omega) (Nat.ne_of_lt hi), table, h1t]
          exact getD_append_lt _ _ _ _ hi
        · rw [← h1c]; exact hr.frame.columnsLen
        · intro i hi
          rw [hr.frame.columns i (by rw [h1c]; exact hi)]; simp [column, h1c]
        · rw [← h1i]; exact hr.frame.idsLen
        · intro i hi
          rw [hr.frame.ids i (by rw [h1i]; exact hi)]; simp [tableID, h1i]
        · rw [← h1k]; exact hr.frame.keysLen
        · intro i hi
          rw [hr.frame.keys i (by rw [h1k]; exact hi)]; simp [tableKey, h1k]
      have hnew : TableDone env b3 s b.tables.length (tn, tc) :=
        ⟨hc3, by rw [hr.owner, h1tt], by rw [hr.name, h1tt]; rfl, hk3⟩
      refine ⟨⟨by rw [h3s, h1s]; simpa using hs.valid, ?_, ?_, ?_, ?_⟩, htmp3,
        ⟨by rw [hr.config, h1cfg], by rw [hr.databases, h1d], by rw [h3s, h1s]; simp,
          by rw [h3ss], by rw [h3ss], hframe⟩⟩
      · rw [h3ss]
        exact List.rel_append (hs.tables.imp fun t e hte => hte.frame_tbl hframe (fun h => h))
          (List.Forall₂.cons hnew List.Forall₂.nil)
      · rw [h3ss]
        exact nodup_append_fresh hs.nodup hs.tblValid
      · rw [h3ss]
        refine byName_append (fun t => (b.table t).Names.RawName) hs.byName ?_ ?_
        · exact hnew.name
        · intro i hi
          rw [hframe.tables i (hs.tblValid i hi) (fun h => h)]
      · rw [h3ss]
        exact named_append (tn, tc) _ hs.named

theorem initTables_spec {env : Env} {mc : ModelContext} {dn sn : String} {s : Nat}
    (tbls : List (String × config.Table)) {b b' : configBuilder} {tmp' : List Nat}
    {done : List (String × config.Table)} (hs : SchemaOpen env b s done)
    (h : initTables env mc dn sn s tbls b [] = (b', tmp', none)) :
    SchemaOpen env b' s (done ++ tbls) ∧ tmp' = [] ∧ SchemaRun s b b' := by
  induction tbls generalizing b done with
  | nil =>
    simp only [initTables, Prod.mk.injEq, and_true] at h
    obtain ⟨rfl, rfl⟩ := h
    exact ⟨by simpa using hs, rfl, SchemaRun.schemaRun_refl _ _⟩
  | cons e rest ih =>
    obtain ⟨tn, tc⟩ := e
    simp only [initTables] at h
    cases h1 : initTable env mc dn sn s tn tc b [] with
    | mk b1 r =>
      obtain ⟨tmp1, err⟩ := r
      rw [h1] at h
      cases err with
      | some e => simp at h
      | none =>
        simp only at h
        obtain ⟨hs1, rfl, hr1⟩ := initTable_spec hs h1
        obtain ⟨hs', ht', hr⟩ := ih hs1 h
        exact ⟨by simpa using hs', ht', hr1.schemaRun_trans hr⟩

theorem DatabaseRun.databaseRun_refl (d : Nat) (b : configBuilder) : DatabaseRun d b b :=
  ⟨rfl, rfl, rfl, Frame.frame_refl _ _ _ _⟩

theorem DatabaseRun.databaseRun_trans {d : Nat} {b1 b2 b3 : configBuilder} (h1 : DatabaseRun d b1 b2)
    (h2 : DatabaseRun d b2 b3) : DatabaseRun d b1 b3 :=
  ⟨h2.config.trans h1.config, h2.databasesLen.trans h1.databasesLen, h2.name.trans h1.name,
    h1.frame.frame_trans h2.frame (fun _ _ h => h) (fun _ _ h => h) (fun _ _ h => h)⟩

theorem initSchema_spec {env : Env} {mc : ModelContext} {dn sn : String} {d : Nat}
    {sc : config.Schema} {b b' : configBuilder} {tmp' : List Nat}
    {done : List (String × config.Schema)} (hd : DatabaseOpen env b d done)
    (h : initSchema env mc dn d sn sc b [] = (b', tmp', none)) :
    DatabaseOpen env b' d (done ++ [(sn, sc)]) ∧ tmp' = [] ∧ DatabaseRun d b b' := by
  unfold initSchema at h
  simp only at h
  generalize hb1 : ((b.newSchema d sn).1.setDatabase d _) = b1 at h
  have hs : (b.newSchema d sn).2 = b.schemas.length := rfl
  rw [hs] at h hb1
  have h1s : b1.schemas = b.schemas ++
      [{ Database := d, Names := Names.init sn (b.database d).Namers.Schema }] := by
    rw [← hb1]; rfl
  have h1d : b1.databases = b.databases.set d { b.database d with
      Schemas := (b.database d).Schemas ++ [b.schemas.length],
      SchemasByName := mapSet (b.database d).SchemasByName sn b.schemas.length } := by
    rw [← hb1]; rfl
  have h1t : b1.tables = b.tables := by rw [← hb1]; rfl
  have h1c : b1.columns = b.columns := by rw [← hb1]; rfl
  have h1i : b1.ids = b.ids := by rw [← hb1]; rfl
  have h1k : b1.keys = b.keys := by rw [← hb1]; rfl
  have h1cfg : b1.Config = b.Config := by rw [← hb1]; rfl
  clear hb1
  have h1ss : b1.schema b.schemas.length =
      { Database := d, Names := Names.init sn (b.database d).Namers.Schema } := by
    rw [schema, h1s]; exact getD_append_length _ _ _
  have hopen : SchemaOpen env b1 b.schemas.length [] :=
    ⟨by rw [h1s]; simp, by rw [h1ss]; exact List.Forall₂.nil, by rw [h1ss]; simp,
      by rw [h1ss]; simp, by simp⟩
  obtain ⟨ho2, htmp, hr⟩ := initTables_spec sc.Tables hopen h
  simp only [List.nil_append] at ho2
  have h3d : b'.databases = b1.databases := hr.databases
  have h3dd : b'.database d = { b.database d with
      Schemas := (b.database d).Schemas ++ [b.schemas.length],
      SchemasByName := mapSet (b.database d).SchemasByName sn b.schemas.length } := by
    rw [database, h3d, h1d]; exact getD_set_self _ _ _ _ hd.valid
  have hframe : Frame (fun i => i = d) (fun _ => False) (fun _ => False) b b' := by
    refine ⟨by rw [h3d, h1d]; simp, ?_, by rw [hr.schemasLen, h1s]; simp, ?_,
      by rw [← h1t]; exact hr.frame.tablesLen, ?_,
      by rw [← h1c]; exact hr.frame.columnsLen, ?_, by rw [← h1i]; exact hr.frame.idsLen, ?_,
      by rw [← h1k]; exact hr.frame.keysLen, ?_⟩
    · intro i _ hi
      rw [database, h3d, h1d]; exact getD_set_ne _ _ _ _ _ (Ne.symm hi)
    · intro i hi _
      rw [hr.frame.schemas i (by rw [h1s]; simp; omega) (Nat.ne_of_lt hi), schema, h1s]
      exact getD_append_lt _ _ _ _ hi
    · intro i hi _
      rw [hr.frame.tables i (by rw [h1t]; exact hi) (fun h => h)]; simp [table, h1t]
    · intro i hi
      rw [hr.frame.columns i (by rw [h1c]; exact hi)]; simp [column, h1c]
    · intro i hi
      rw [hr.frame.ids i (by rw [h1i]; exact hi)]; simp [tableID, h1i]
    · intro i hi
      rw [hr.frame.keys i (by rw [h1k]; exact hi)]; simp [tableKey, h1k]
  have hnew : SchemaDone env b' d b.schemas.length (sn, sc) :=
    ⟨ho2, by rw [hr.owner, h1ss], by rw [hr.name, h1ss]; rfl⟩
  refine ⟨⟨by rw [h3d, h1d]; simpa using hd.valid, ?_, ?_, ?_, ?_⟩, htmp,
    ⟨by rw [hr.config, h1cfg], by rw [h3d, h1d]; simp, by rw [h3dd], hframe⟩⟩
  · rw [h3dd]
    exact List.rel_append
      (hd.schemas.imp fun s e hse => hse.frame_sch hframe (fun h => h) (fun _ _ h => h))
      (List.Forall₂.cons hnew List.Forall₂.nil)
  · rw [h3dd]
    exact nodup_append_fresh hd.nodup hd.schValid
  · rw [h3dd]
    refine byName_append (fun s => (b.schema s).Names.RawName) hd.byName ?_ ?_
    · exact hnew.name
    · intro i hi
      rw [hframe.schemas i (hd.schValid i hi) (fun h => h)]
  · rw [h3dd]
    exact named_append (sn, sc) _ hd.named

theorem initSchemas_spec {env : Env} {mc : ModelContext} {dn : String} {d : Nat}
    (schs : List (String × config.Schema)) {b b' : configBuilder} {tmp' : List Nat}
    {done : List (String × config.Schema)} (hd : DatabaseOpen env b d done)
    (h : initSchemas env mc dn d schs b [] = (b', tmp', none)) :
    DatabaseOpen env b' d (done ++ schs) ∧ tmp' = [] ∧ DatabaseRun d b b' := by
  induction schs generalizing b done with
  | nil =>
    simp only [initSchemas, Prod.mk.injEq, and_true] at h
    obtain ⟨rfl, rfl⟩ := h
    exact ⟨by simpa using hd, rfl, DatabaseRun.databaseRun_refl _ _⟩
  | cons e rest ih =>
    obtain ⟨sn, sc⟩ := e
    simp only [initSchemas] at h
    cases h1 : initSchema env mc dn d sn sc b [] with
    | mk b1 r =>
      obtain ⟨tmp1, err⟩ := r
      rw [h1] at h
      cases err with
      | some e => simp at h
      | none =>
        simp only at h
        obtain ⟨hd1, rfl, hr1⟩ := initSchema_spec hd h1
        obtain ⟨hd', ht', hr⟩ := ih hd1 h
        exact ⟨by simpa using hd', ht', hr1.databaseRun_trans hr⟩

theorem RootOpen.dbValid {env : Env} {b : configBuilder}
    {done : List (String × config.Database)} (h : RootOpen env b done) :
    ∀ d ∈ b.Config.Databases, d < b.databases.length := fun _ hi => by
  obtain ⟨_, _, he⟩ := forall₂_mem_left h.databases hi
  exact he.valid

theorem RootRun.rootRun_refl (b : configBuilder) : RootRun b b := ⟨rfl, rfl, Frame.frame_refl _ _ _ _⟩

theorem RootRun.rootRun_trans {b1 b2 b3 : configBuilder} (h1 : RootRun b1 b2) (h2 : RootRun b2 b3) :
    RootRun b1 b3 :=
  ⟨h2.namers.trans h1.namers, h2.namespace_.trans h1.namespace_,
    h1.frame.frame_trans h2.frame (fun _ _ h => h) (fun _ _ h => h) (fun _ _ h => h)⟩

theorem initDatabase_spec {env : Env} {mc : ModelContext} {dn : String}
    {dc : config.Database} {b b' : configBuilder} {tmp' : List Nat}
    {done : List (String × config.Database)} (hroot : RootOpen env b done)
    (h : initDatabase env mc dn dc b [] = (b', tmp', none)) :
    RootOpen env b' (done ++ [(dn, dc)]) ∧ tmp' = [] ∧ RootRun b b' := by
  unfold initDatabase at h
  cases h0 : b.newDatabase env dn dc with
  | mk b0 r =>
    obtain ⟨d, err⟩ := r
    rw [h0] at h
    cases err with
    | some e => simp at h
    | none =>
      simp only at h
      have hd : d = b.databases.length := by
        have := congrArg (fun x => x.2.1) h0; exact this.symm
      have hb0 : b0 = { b with databases := b.databases ++
          [{ Config := some .config, Names := Names.init dn b.Config.DatabaseNamers,
             Namers := (initDatabaseNamers env {} dc.Namers).1 }] } := by
        have := congrArg (fun x => x.1) h0; exact this.symm
      subst hd
      generalize hb1 : ({ b0 with Config := _ } : configBuilder) = b1 at h
      have h1d : b1.databases = b.databases ++
          [{ Config := some .config, Names := Names.init dn b.Config.DatabaseNamers,
             Namers := (initDatabaseNamers env {} dc.Namers).1 }] := by
        rw [← hb1, hb0]
      have h1cfg : b1.Config = { b.Config with
          Databases := b.Config.Databases ++ [b.databases.length],
          DatabasesByName := mapSet b.Config.DatabasesByName dn b.databases.length } := by
        rw [← hb1, hb0]
      have h1s : b1.schemas = b.schemas := by rw [← hb1, hb0]
      have h1t : b1.tables = b.tables := by rw [← hb1, hb0]
      have h1c : b1.columns = b.columns := by rw [← hb1, hb0]
      have h1i : b1.ids = b.ids := by rw [← hb1, hb0]
      have h1k : b1.keys = b.keys := by rw [← hb1, hb0]
      clear hb1 hb0 h0
      have h1dd : b1.database b.databases.length =
          { Config := some .config, Names := Names.init dn b.Config.DatabaseNamers,
            Namers := (initDatabaseNamers env {} dc.Namers).1 } := by
        rw [database, h1d]; exact getD_append_length _ _ _
      have hopen : DatabaseOpen env b1 b.databases.length [] :=
        ⟨by rw [h1d]; simp, by rw [h1dd]; exact List.Forall₂.nil, by rw [h1dd]; simp,
          by rw [h1dd]; simp, by simp⟩
      obtain ⟨ho2, htmp, hr⟩ := initSchemas_spec dc.Schemas hopen h
      simp only [List.nil_append] at ho2
      have hframe : Frame (fun _ => False) (fun _ => False) (fun _ => False) b b' := by
        refine ⟨by rw [hr.databasesLen, h1d]; simp, ?_,
          by rw [← h1s]; exact hr.frame.schemasLen, ?_,
          by rw [← h1t]; exact hr.frame.tablesLen, ?_,
          by rw [← h1c]; exact hr.frame.columnsLen, ?_,
          by rw [← h1i]; exact hr.frame.idsLen, ?_,
          by rw [← h1k]; exact hr.frame.keysLen, ?_⟩
        · intro i hi _
          rw [hr.frame.databases i (by rw [h1d]; simp; omega) (Nat.ne_of_lt hi), database, h1d]
          exact getD_append_lt _ _ _ _ hi
        · intro i hi _
          rw [hr.frame.schemas i (by rw [h1s]; exact hi) (fun h => h)]; simp [schema, h1s]
        · intro i hi _
          rw [hr.frame.tables i (by rw [h1t]; exact hi) (fun h => h)]; simp [table, h1t]
        · intro i hi
          rw [hr.frame.columns i (by rw [h1c]; exact hi)]; simp [column, h1c]
        · intro i hi
          rw [hr.frame.ids i (by rw [h1i]; exact hi)]; simp [tableID, h1i]
        · intro i hi
          rw [hr.frame.keys i (by rw [h1k]; exact hi)]; simp [tableKey, h1k]
      have hnew : DatabaseDone env b' b.databases.length (dn, dc) :=
        ⟨ho2, by rw [hr.name, h1dd]; rfl⟩
      have hcfg : b'.Config = { b.Config with
          Databases := b.Config.Databases ++ [b.databases.length],
          DatabasesByName := mapSet b.Config.DatabasesByName dn b.databases.length } := by
        rw [hr.config, h1cfg]
      have hv := RootOpen.dbValid hroot
      refine ⟨⟨?_, ?_, ?_, ?_⟩, htmp, ⟨by rw [hcfg], by rw [hcfg], hframe⟩⟩
      · rw [hcfg]
        exact List.rel_append
          (hroot.databases.imp fun d e hde =>
            hde.frame_db hframe (fun h => h) (fun _ _ h => h) (fun _ _ h => h))
          (List.Forall₂.cons hnew List.Forall₂.nil)
      · rw [hcfg]
        exact nodup_append_fresh hroot.nodup hv
      · rw [hcfg]
        refine byName_append (fun d => (b.database d).Names.RawName) hroot.byName ?_ ?_
        · exact hnew.name
        · intro i hi
          rw [hframe.databases i (hv i hi) (fun h => h)]
      · rw [hcfg]
        exact named_append (dn, dc) _ hroot.named

theorem initDatabases_spec {env : Env} {mc : ModelContext}
    (dbs : List (String × config.Database)) {b b' : configBuilder} {tmp' : List Nat}
    {done : List (String × config.Database)} (hroot : RootOpen env b done)
    (h : initDatabases env mc dbs b [] = (b', tmp', none)) :
    RootOpen env b' (done ++ dbs) ∧ tmp' = [] ∧ RootRun b b' := by
  induction dbs generalizing b done with
  | nil =>
    simp only [initDatabases, Prod.mk.injEq, and_true] at h
    obtain ⟨rfl, rfl⟩ := h
    exact ⟨by simpa using hroot, rfl, RootRun.rootRun_refl _⟩
  | cons e rest ih =>
    obtain ⟨dn, dc⟩ := e
    simp only [initDatabases] at h
    cases h1 : initDatabase env mc dn dc b [] with
    | mk b1 r =>
      obtain ⟨tmp1, err⟩ := r
      rw [h1] at h
      cases err with
      | some e => simp at h
      | none =>
        simp only at h
        obtain ⟨hd1, rfl, hr1⟩ := initDatabase_spec hroot h1
        obtain ⟨hd', ht', hr⟩ := ih hd1 h
        exact ⟨by simpa using hd', ht', hr1.rootRun_trans hr⟩

/-- The graph the first pass builds from the configuration `c`. -/
theorem initPass1_spec {env : Env} {mc : ModelContext} {c : config.Config}
    {b' : configBuilder} (h : initPass1 env mc c {} = (b', none)) :
    RootOpen env b' c.Databases := by
  unfold initPass1 at h
  simp only at h
  cases h0 : Namers.init env ({} : configBuilder).Config.DatabaseNamers c.DatabaseNamers with
  | mk nrs err =>
    rw [h0] at h
    cases err with
    | some e => simp at h
    | none =>
      simp only at h
      generalize hb1 : ({ ({} : configBuilder) with Config := _ } : configBuilder) = b1 at h
      cases h1 : initDatabases env mc c.Databases b1 [] with
      | mk b2 r =>
        obtain ⟨tmp, err⟩ := r
        rw [h1] at h
        simp only [Prod.mk.injEq] at h
        obtain ⟨rfl, rfl⟩ := h
        have hroot : RootOpen env b1 [] := by
          rw [← hb1]
          exact ⟨List.Forall₂.nil, List.nodup_nil, by simp, by simp⟩
        simpa using (initDatabases_spec c.Databases hroot h1).1

theorem Later.later_refl (b : configBuilder) : Later b b :=
  ⟨rfl, rfl, rfl, rfl, rfl, rfl, rfl, fun _ => rfl, fun _ => rfl, fun _ => rfl, fun _ => rfl,
    fun _ => rfl, fun _ => rfl, rfl, fun _ => rfl, fun _ => rfl, fun _ => rfl⟩

theorem Later.later_trans {b1 b2 b3 : configBuilder} (h1 : Later b1 b2) (h2 : Later b2 b3) :
    Later b1 b3 :=
  ⟨h2.roots.trans h1.roots, h2.rootsByName.trans h1.rootsByName,
    h2.databases.trans h1.databases, h2.schemas.trans h1.schemas, h2.ids.trans h1.ids,
    h2.keys.trans h1.keys, h2.tablesLen.trans h1.tablesLen,
    fun t => (h2.tblSchema t).trans (h1.tblSchema t),
    fun t => (h2.tblNames t).trans (h1.tblNames t),
    fun t => (h2.tblColumns t).trans (h1.tblColumns t),
    fun t => (h2.tblByName t).trans (h1.tblByName t),
    fun t => (h2.tblPK t).trans (h1.tblPK t),
    fun t => (h2.tblKey t).trans (h1.tblKey t),
    h2.columnsLen.trans h1.columnsLen,
    fun i => (h2.colTable i).trans (h1.colTable i),
    fun i => (h2.colNames i).trans (h1.colNames i),
    fun i => (h2.colPK i).trans (h1.colPK i)⟩

/-- An assignment to the `FK` and `Type` of a column. -/
theorem later_setColumn (b : configBuilder) (c : Nat) (x : Column)
    (h1 : x.Table = (b.column c).Table) (h2 : x.Names = (b.column c).Names)
    (h3 : x.PK = (b.column c).PK) : Later b (b.setColumn c x) := by
  have key : ∀ i, (b.setColumn c x).column i = b.column i ∨
      ((b.setColumn c x).column i = x ∧ i = c) := by
    intro i
    by_cases hi : i = c
    · subst hi
      by_cases hl : i < b.columns.length
      · exact Or.inr ⟨column_setColumn_self b i x hl, rfl⟩
      · left
        simp only [column, setColumn]
        rw [List.set_eq_of_length_le (by omega)]
    · exact Or.inl (column_setColumn_ne b c i x hi)
  refine ⟨rfl, rfl, rfl, rfl, rfl, rfl, rfl, fun _ => rfl, fun _ => rfl, fun _ => rfl,
    fun _ => rfl, fun _ => rfl, fun _ => rfl, by simp [setColumn], ?_, ?_, ?_⟩
  · intro i; rcases key i with h | ⟨h, rfl⟩ <;> rw [h]; exact h1
  · intro i; rcases key i with h | ⟨h, rfl⟩ <;> rw [h]; exact h2
  · intro i; rcases key i with h | ⟨h, rfl⟩ <;> rw [h]; exact h3

theorem later_setFK (b : configBuilder) (c id : Nat) : Later b (b.setFK c id) := by
  unfold setFK
  simp only
  have h1 := later_setColumn b c { b.column c with FK := some id } rfl rfl rfl
  split
  · exact h1.later_trans (later_setColumn _ c _ rfl rfl rfl)
  · exact h1

theorem later_linkFK (b : configBuilder) (c fkCol : Nat) : Later b (b.linkFK c fkCol) := by
  unfold linkFK
  simp only
  split
  · split
    · exact later_setFK _ _ _
    · split
      · split
        · exact later_setFK _ _ _
        · exact Later.later_refl _
      · exact Later.later_refl _
  · split
    · split
      · exact later_setFK _ _ _
      · exact Later.later_refl _
    · exact Later.later_refl _

theorem later_fkStep (x : dbSchemaTableColumn) (b : configBuilder) :
    Later b (fkStep x b).1 := by
  unfold fkStep
  split
  · exact Later.later_refl _
  · split
    · exact Later.later_refl _
    · simp only
      split
      · exact later_linkFK _ _ _
      · exact later_linkFK _ _ _
    · exact Later.later_refl _

theorem later_dataStep (x : dbSchemaTableColumn) (b : configBuilder) :
    Later b (dataStep x b).1 := by
  unfold dataStep
  split
  · exact Later.later_refl _
  · split
    · exact Later.later_refl _
    · simp only
      split
      · exact Later.later_refl _
      · have key : ∀ t, (b.setTable x.table { b.table x.table with
            DataColumns := (b.table x.table).DataColumns ++ [x.column] }).table t = b.table t ∨
            ((b.setTable x.table { b.table x.table with
            DataColumns := (b.table x.table).DataColumns ++ [x.column] }).table t =
              { b.table x.table with
                DataColumns := (b.table x.table).DataColumns ++ [x.column] } ∧ t = x.table) := by
          intro t
          by_cases hi : t = x.table
          · subst hi
            by_cases hl : x.table < b.tables.length
            · exact Or.inr ⟨table_setTable_self b _ _ hl, rfl⟩
            · left
              simp only [table, setTable]
              rw [List.set_eq_of_length_le (by omega)]
          · exact Or.inl (table_setTable_ne b _ t _ hi)
        refine ⟨rfl, rfl, rfl, rfl, rfl, rfl, by simp [setTable], ?_, ?_, ?_, ?_, ?_, ?_, rfl,
          fun _ => rfl, fun _ => rfl, fun _ => rfl⟩ <;>
        · intro t; rcases key t with h | ⟨h, rfl⟩ <;> rw [h]

/-- An invariant of the callback is an invariant of `iterDBSchemaTableColumn`. -/
theorem iterDatabases_induct (I : configBuilder → Prop) (f : Visitor)
    (hf : ∀ x b, I b → I (f x b).1) (dbs : List (String × config.Database))
    (b : configBuilder) (hb : I b) : I (iterDatabases f dbs b).1 := by
  have hcols : ∀ dn dc d sn sc s tn tc t (cols : List (String × config.Column)) b, I b →
      I (iterColumns f dn dc d sn sc s tn tc t cols b).1 := by
    intro dn dc d sn sc s tn tc t cols
    induction cols with
    | nil => intro b hb; exact hb
    | cons p rest ih =>
      intro b hb
      obtain ⟨cn, cc⟩ := p
      simp only [iterColumns]
      cases t with
      | none => exact hb
      | some t =>
        simp only
        cases (b.table t).ColumnsByName.lookup cn with
        | none => exact hb
        | some c =>
          simp only
          have := hf ⟨dn, dc, d, sn, sc, s, tn, tc, t, cn, cc, c⟩ b hb
          cases hr : f ⟨dn, dc, d, sn, sc, s, tn, tc, t, cn, cc, c⟩ b with
          | mk b1 e =>
            rw [hr] at this
            cases e with
            | some e => exact this
            | none => exact ih b1 this
  have htbls : ∀ dn dc d sn sc s (tbls : List (String × config.Table)) b, I b →
      I (iterTables f dn dc d sn sc s tbls b).1 := by
    intro dn dc d sn sc s tbls
    induction tbls with
    | nil => intro b hb; exact hb
    | cons p rest ih =>
      intro b hb
      obtain ⟨tn, tc⟩ := p
      simp only [iterTables]
      cases s with
      | none => exact hb
      | some s =>
        simp only
        have := hcols dn dc d sn sc s tn tc ((b.schema s).TablesByName.lookup tn) tc.Columns b hb
        cases hr : iterColumns f dn dc d sn sc s tn tc ((b.schema s).TablesByName.lookup tn)
            tc.Columns b with
        | mk b1 e =>
          rw [hr] at this
          cases e with
          | some e => exact this
          | none => exact ih b1 this
  have hschs : ∀ dn dc d (schs : List (String × config.Schema)) b, I b →
      I (iterSchemas f dn dc d schs b).1 := by
    intro dn dc d schs
    induction schs with
    | nil => intro b hb; exact hb
    | cons p rest ih =>
      intro b hb
      obtain ⟨sn, sc⟩ := p
      simp only [iterSchemas]
      cases d with
      | none => exact hb
      | some d =>
        simp only
        have := htbls dn dc d sn sc ((b.database d).SchemasByName.lookup sn) sc.Tables b hb
        cases hr : iterTables f dn dc d sn sc ((b.database d).SchemasByName.lookup sn)
            sc.Tables b with
        | mk b1 e =>
          rw [hr] at this
          cases e with
          | some e => exact this
          | none => exact ih b1 this
  induction dbs generalizing b with
  | nil => exact hb
  | cons p rest ih =>
    obtain ⟨dn, dc⟩ := p
    simp only [iterDatabases]
    have := hschs dn dc (b.Config.DatabasesByName.lookup dn) dc.Schemas b hb
    cases hr : iterSchemas f dn dc (b.Config.DatabasesByName.lookup dn) dc.Schemas b with
    | mk b1 e =>
      rw [hr] at this
      cases e with
      | some e => exact this
      | none => exact ih b1 this

theorem RootOpen.table {env : Env} {b : configBuilder} {dbs : List (String × config.Database)}
    (h : RootOpen env b dbs) {t : Nat} (ht : b.ReachTable t) :
    ∃ s e, TableDone env b s t e := by
  obtain ⟨d, hd, s, hs, hts⟩ := ht
  obtain ⟨_, _, hdd⟩ := forall₂_mem_left h.databases hd
  obtain ⟨_, _, hsd⟩ := forall₂_mem_left hdd.schemas hs
  obtain ⟨e, _, htd⟩ := forall₂_mem_left hsd.tables hts
  exact ⟨s, e, htd⟩

theorem Later.reachTable_eq {b b' : configBuilder} (h : Later b b') (t : Nat) :
    b'.ReachTable t ↔ b.ReachTable t := by
  unfold ReachTable
  simp only [database, schema, h.roots, h.databases, h.schemas]

theorem Later.reachColumn_eq {b b' : configBuilder} (h : Later b b') (i : Nat) :
    b'.ReachColumn i ↔ b.ReachColumn i := by
  unfold ReachColumn
  simp only [h.reachTable_eq, h.tblColumns]

theorem Later.keyMembers_eq {b b' : configBuilder} (h : Later b b') (t : Nat) :
    b'.keyMembers t = b.keyMembers t := by
  unfold configBuilder.keyMembers
  rw [h.tblKey]
  simp only [tableKey, h.keys]

theorem Later.tableIDs_eq {b b' : configBuilder} (h : Later b b') (t : Nat) :
    b'.tableIDs t = b.tableIDs t := by
  unfold configBuilder.tableIDs
  rw [h.keyMembers_eq, h.tblPK]

theorem Later.pkColumns_eq {b b' : configBuilder} (h : Later b b') (t : Nat) :
    b'.pkColumns t = b.pkColumns t := by
  unfold configBuilder.pkColumns
  rw [h.tblColumns]
  simp only [h.colPK]

theorem Later.tableID_eq {b b' : configBuilder} (h : Later b b') (i : Nat) :
    b'.tableID i = b.tableID i := by
  simp only [configBuilder.tableID, h.ids]

theorem KeyOK.later_key {b b' : configBuilder} {t : Nat} (hk : KeyOK b t) (h : Later b b') :
    KeyOK b' t := by
  refine ⟨?_, ?_, by rw [h.tblPK, h.tblKey]; exact hk.excl, ?_⟩
  · intro id hid
    rw [h.tableIDs_eq] at hid
    rw [h.ids]; exact hk.valid id hid
  · rw [h.tableIDs_eq, h.pkColumns_eq]
    simp only [h.tableID_eq]
    exact hk.wraps
  · intro k hk2
    rw [h.tblKey] at hk2
    rw [h.keys]
    simp only [tableKey, h.keys]
    exact hk.key k hk2

theorem IsKeyOf.later_isKey {b b' : configBuilder} {id t : Nat} (hk : IsKeyOf b id t)
    (h : Later b b') : IsKeyOf b' id t := by
  unfold IsKeyOf
  rw [h.tblPK, h.keyMembers_eq]
  exact hk

theorem later_namespaces (b : configBuilder) (ns : List String) :
    Later b { b with namespaces := ns } :=
  ⟨rfl, rfl, rfl, rfl, rfl, rfl, rfl, fun _ => rfl, fun _ => rfl, fun _ => rfl, fun _ => rfl,
    fun _ => rfl, fun _ => rfl, rfl, fun _ => rfl, fun _ => rfl, fun _ => rfl⟩

theorem later_ensureNamespaces (mc : ModelContext) (b : configBuilder) :
    Later b (ensureNamespaces mc b) ∧
    (∀ i, (ensureNamespaces mc b).column i = b.column i) ∧
    (∀ t, (ensureNamespaces mc b).table t = b.table t) := by
  unfold ensureNamespaces
  cases mc.EnsureNamespaces with
  | none => exact ⟨Later.later_refl _, fun _ => rfl, fun _ => rfl⟩
  | some ens =>
    simp only
    generalize ens b = l
    induction l generalizing b with
    | nil => exact ⟨Later.later_refl _, fun _ => rfl, fun _ => rfl⟩
    | cons ns rest ih =>
      simp only [List.foldl_cons]
      by_cases hns : ns = ""
      · simp only [hns, if_true]; exact ih b
      · simp only [hns, if_false]
        obtain ⟨h1, h2, h3⟩ := ih { b with namespaces := setAdd b.namespaces ns }
        exact ⟨(later_namespaces b _).later_trans h1, fun i => (h2 i).trans rfl,
          fun t => (h3 t).trans rfl⟩

theorem later_finishNamespaces (mc : ModelContext) (tr : Traversal) (b : configBuilder) :
    Later b (finishNamespaces mc tr b) ∧
    (∀ i, (finishNamespaces mc tr b).column i = b.column i) ∧
    (∀ t, (finishNamespaces mc tr b).table t = b.table t) := by
  unfold finishNamespaces
  simp only
  cases mc.OrganizeNamespaces with
  | none =>
    exact ⟨⟨rfl, rfl, rfl, rfl, rfl, rfl, rfl, fun _ => rfl, fun _ => rfl, fun _ => rfl,
      fun _ => rfl, fun _ => rfl, fun _ => rfl, rfl, fun _ => rfl, fun _ => rfl, fun _ => rfl⟩,
      fun _ => rfl, fun _ => rfl⟩
  | some org =>
    exact ⟨⟨rfl, rfl, rfl, rfl, rfl, rfl, rfl, fun _ => rfl, fun _ => rfl, fun _ => rfl,
      fun _ => rfl, fun _ => rfl, fun _ => rfl, rfl, fun _ => rfl, fun _ => rfl, fun _ => rfl⟩,
      fun _ => rfl, fun _ => rfl⟩

/-- The stages of a successful `init`. -/
theorem init_stages {env : Env} {mc : ModelContext} {tr : Traversal} {c : config.Config}
    (h : (init env mc tr c {}).2 = none) :
    ∃ b1 b2 b3, initPass1 env mc c {} = (b1, none) ∧
      b1.iterDBSchemaTableColumn tr.fk fkStep = (b2, none) ∧
      b2.iterDBSchemaTableColumn tr.data dataStep = (b3, none) ∧
      (init env mc tr c {}).1 = finishNamespaces mc tr (ensureNamespaces mc b3) := by
  unfold init at h ⊢
  cases h1 : initPass1 env mc c {} with
  | mk b1 e1 =>
    rw [h1] at h
    cases e1 with
    | some e => simp at h
    | none =>
      simp only at h ⊢
      cases h2 : b1.iterDBSchemaTableColumn tr.fk fkStep with
      | mk b2 e2 =>
        rw [h2] at h
        cases e2 with
        | some e => simp at h
        | none =>
          simp only at h ⊢
          cases h3 : b2.iterDBSchemaTableColumn tr.data dataStep with
          | mk b3 e3 =>
            rw [h3] at h
            cases e3 with
            | some e => simp at h
            | none => exact ⟨b1, b2, b3, rfl, h2, h3, rfl⟩

theorem later_iter_fkStep (c : config.Config) (b : configBuilder) :
    Later b (b.iterDBSchemaTableColumn c fkStep).1 :=
  iterDatabases_induct (fun b' => Later b b') fkStep
    (fun x b' hb' => hb'.later_trans (later_fkStep x b')) c.Databases b (Later.later_refl b)

theorem later_iter_dataStep (c : config.Config) (b : configBuilder) :
    Later b (b.iterDBSchemaTableColumn c dataStep).1 :=
  iterDatabases_induct (fun b' => Later b b') dataStep
    (fun x b' hb' => hb'.later_trans (later_dataStep x b')) c.Databases b (Later.later_refl b)

/-- After a successful `init` the graph is that of the first pass up to `FK`, `Type`,
`DataColumns` and the namespaces. -/
theorem init_later {env : Env} {mc : ModelContext} {tr : Traversal} {c : config.Config}
    (h : (init env mc tr c {}).2 = none) :
    ∃ b1, initPass1 env mc c {} = (b1, none) ∧ Later b1 (init env mc tr c {}).1 := by
  obtain ⟨b1, b2, b3, h1, h2, h3, h4⟩ := init_stages h
  refine ⟨b1, h1, ?_⟩
  rw [h4]
  have l2 : Later b1 b2 := by have := later_iter_fkStep tr.fk b1; rwa [h2] at this
  have l3 : Later b2 b3 := by have := later_iter_dataStep tr.data b2; rwa [h3] at this
  exact ((l2.later_trans l3).later_trans (later_ensureNamespaces mc b3).1).later_trans
    (later_finishNamespaces mc tr _).1

/-- The key of every table of a successfully built graph agrees with its PK-flagged
columns. -/
theorem init_keyOK {env : Env} {mc : ModelContext} {tr : Traversal} {c : config.Config}
    (h : (init env mc tr c {}).2 = none) (t : Nat)
    (ht : (init env mc tr c {}).1.ReachTable t) : KeyOK (init env mc tr c {}).1 t := by
  obtain ⟨b1, h1, hl⟩ := init_later h
  have hroot := initPass1_spec h1
  obtain ⟨s, e, htd⟩ := hroot.table ((hl.reachTable_eq t).mp ht)
  exact htd.keyOK.later_key hl

theorem column_setColumn (b : configBuilder) (c i : Nat) (x : Column) :
    (b.setColumn c x).column i = if i = c ∧ c < b.columns.length then x else b.column i := by
  by_cases hi : i = c
  · subst hi
    by_cases hl : i < b.columns.length
    · simp [hl, column_setColumn_self b i x hl]
    · simp only [hl, and_false, if_false, column, setColumn]
      rw [List.set_eq_of_length_le (by omega)]
  · simp [hi, column_setColumn_ne b c i x hi]

theorem table_setTable (b : configBuilder) (t i : Nat) (x : Table) :
    (b.setTable t x).table i = if i = t ∧ t < b.tables.length then x else b.table i := by
  by_cases hi : i = t
  · subst hi
    by_cases hl : i < b.tables.length
    · simp [hl, table_setTable_self b i x hl]
    · simp only [hl, and_false, if_false, table, setTable]
      rw [List.set_eq_of_length_le (by omega)]
  · simp [hi, table_setTable_ne b t i x hi]

theorem setColumn_columns_length (b : configBuilder) (c : Nat) (x : Column) :
    (b.setColumn c x).columns.length = b.columns.length := by
  simp [setColumn]

/-- The `FK` fields after `setFK`. -/
theorem setFK_FK (b : configBuilder) (c id i : Nat) :
    ((b.setFK c id).column i).FK =
      if i = c ∧ c < b.columns.length then some id else (b.column i).FK := by
  have h1 : ∀ x : Column, x.FK = some id →
      ((b.setColumn c x).column i).FK =
        if i = c ∧ c < b.columns.length then some id else (b.column i).FK := by
    intro x hx
    rw [column_setColumn]
    split
    · exact hx
    · rfl
  unfold setFK
  by_cases ht : ((b.setColumn c { b.column c with FK := some id }).column c).Type_ = none
  · simp only [ht, if_true]
    rw [column_setColumn, setColumn_columns_length]
    split
    · rename_i h
      show ((b.setColumn c _).column c).FK = some id
      rw [column_setColumn, if_pos ⟨rfl, h.2⟩]
    · rename_i h
      rw [column_setColumn, if_neg h]
  · simp only [ht, if_false]
    exact h1 { b.column c with FK := some id } rfl

/-- The outcome of the branch on the target table's key: nothing, or an assignment of a
TableID of the target table that wraps the target column. -/
theorem linkFK_cases (b : configBuilder) (c fkCol : Nat) :
    b.linkFK c fkCol = b ∨ ∃ id, b.linkFK c fkCol = b.setFK c id ∧
      (b.tableID id).Column = fkCol ∧ IsKeyOf b id (b.column fkCol).Table := by
  have hfind : ∀ l id, b.findKeyID fkCol l = some id → id ∈ l ∧ (b.tableID id).Column = fkCol := by
    intro l
    induction l with
    | nil => intro id h; simp [findKeyID] at h
    | cons a l ih =>
      intro id h
      simp only [findKeyID] at h
      split at h
      · cases h; exact ⟨List.mem_cons_self _ _, by assumption⟩
      · obtain ⟨h1, h2⟩ := ih id h
        exact ⟨List.mem_cons_of_mem _ h1, h2⟩
  have hkey : ∀ k, (b.table (b.column fkCol).Table).Key = some k →
      (match b.findKeyID fkCol (b.tableKey k).IDs with
        | some id => b.setFK c id
        | none => b) = b ∨ ∃ id, (match b.findKeyID fkCol (b.tableKey k).IDs with
        | some id => b.setFK c id
        | none => b) = b.setFK c id ∧
      (b.tableID id).Column = fkCol ∧ IsKeyOf b id (b.column fkCol).Table := by
    intro k hk
    cases hf : b.findKeyID fkCol (b.tableKey k).IDs with
    | none => exact Or.inl rfl
    | some id =>
      obtain ⟨h1, h2⟩ := hfind _ _ hf
      exact Or.inr ⟨id, rfl, h2, Or.inr (by simp only [keyMembers, hk]; exact h1)⟩
  unfold linkFK
  simp only
  cases hpk : (b.table (b.column fkCol).Table).PK with
  | some pk =>
    simp only
    by_cases hc : (b.tableID pk).Column = fkCol
    · rw [if_pos hc]
      exact Or.inr ⟨pk, rfl, hc, Or.inl hpk⟩
    · rw [if_neg hc]
      cases hk : (b.table (b.column fkCol).Table).Key with
      | none => exact Or.inl rfl
      | some k => exact hkey k hk
  | none =>
    simp only
    cases hk : (b.table (b.column fkCol).Table).Key with
    | none => exact Or.inl rfl
    | some k => exact hkey k hk

theorem FKsAreKeys.later_of_FK {b b' : configBuilder} (h : FKsAreKeys b) (hl : Later b b')
    (hfk : ∀ i, (b'.column i).FK = (b.column i).FK) : FKsAreKeys b' := by
  intro i hi id hid
  rw [hfk] at hid
  have := h i ((hl.reachColumn_eq i).mp hi) id hid
  rw [hl.tableID_eq, hl.colTable]
  exact this.later_isKey hl

theorem FKsAreKeys.linkFK {b : configBuilder} (h : FKsAreKeys b) (c fkCol : Nat) :
    FKsAreKeys (b.linkFK c fkCol) := by
  rcases linkFK_cases b c fkCol with h0 | ⟨id, h0, hcol, hkey⟩
  · rw [h0]; exact h
  · rw [h0]
    have hl := later_setFK b c id
    intro i hi id2 hid
    rw [setFK_FK] at hid
    rw [hl.tableID_eq, hl.colTable]
    split at hid
    · cases hid
      rw [hcol]
      exact hkey.later_isKey hl
    · exact (h i ((hl.reachColumn_eq i).mp hi) id2 hid).later_isKey hl

theorem FKsAreKeys.fkStep {b : configBuilder} (h : FKsAreKeys b) (x : dbSchemaTableColumn) :
    FKsAreKeys (fkStep x b).1 := by
  unfold configBuilder.fkStep
  split
  · exact h
  · split
    · exact h
    · simp only
      split
      · exact h.linkFK _ _
      · exact h.linkFK _ _
    · exact h

theorem dataStep_column (x : dbSchemaTableColumn) (b : configBuilder) (i : Nat) :
    (dataStep x b).1.column i = b.column i := by
  unfold dataStep
  split
  · rfl
  · split
    · rfl
    · simp only
      split <;> rfl

theorem FKsAreKeys.dataStep {b : configBuilder} (h : FKsAreKeys b) (x : dbSchemaTableColumn) :
    FKsAreKeys (dataStep x b).1 :=
  h.later_of_FK (later_dataStep x b) (fun i => by rw [dataStep_column])

theorem RootOpen.fksAreKeys {env : Env} {b : configBuilder}
    {dbs : List (String × config.Database)} (h : RootOpen env b dbs) : FKsAreKeys b := by
  intro i hi id hid
  obtain ⟨t, ht, hit⟩ := hi
  obtain ⟨s, e, htd⟩ := h.table ht
  obtain ⟨_, _, hc⟩ := forall₂_mem_left htd.cols hit
  rw [hc.fk] at hid
  cases hid

theorem init_fksAreKeys {env : Env} {mc : ModelContext} {tr : Traversal} {c : config.Config}
    (h : (init env mc tr c {}).2 = none) : FKsAreKeys (init env mc tr c {}).1 := by
  obtain ⟨b1, b2, b3, h1, h2, h3, h4⟩ := init_stages h
  have hroot := initPass1_spec h1
  have k2 : FKsAreKeys b2 := by
    have := iterDatabases_induct FKsAreKeys configBuilder.fkStep (fun x b hb => hb.fkStep x)
      tr.fk.Databases b1 hroot.fksAreKeys
    unfold iterDBSchemaTableColumn at h2
    rwa [h2] at this
  have k3 : FKsAreKeys b3 := by
    have := iterDatabases_induct FKsAreKeys configBuilder.dataStep (fun x b hb => hb.dataStep x)
      tr.data.Databases b2 k2
    unfold iterDBSchemaTableColumn at h3
    rwa [h3] at this
  rw [h4]
  have e1 := later_ensureNamespaces mc b3
  have e2 := later_finishNamespaces mc tr (ensureNamespaces mc b3)
  exact (k3.later_of_FK e1.1 (fun i => by rw [e1.2.1])).later_of_FK e2.1
    (fun i => by rw [e2.2.1])

end sqlmodelgen.configBuilder

namespace sqlmodelgen

theorem getPathUp_ancestor (b : configBuilder) (p : String) (t : Nat)
    (h : stringsCount p ≤ 3) :
    b.getPathUp p t = b.getPathDown p (b.ancestor t (stringsCount p)) := by
  unfold getPathUp
  have : stringsCount p = 0 ∨ stringsCount p = 1 ∨ stringsCount p = 2 ∨ stringsCount p = 3 := by
    omega
  rcases this with h0 | h0 | h0 | h0 <;> rw [h0] <;> rfl

/-- C5: for a path with `k ≤ 3` dots, `getPathUp` from table `T` is `getPathDown` from the
entity `k` owner hops above `T`: `T` itself, its schema, its database, the root. -/
theorem getPathUp_starts_at_ancestor (b : configBuilder) (p : String) (t : Nat)
    (h : stringsCount p ≤ 3) :
    b.getPathUp p t = b.getPathDown p (b.ancestor t (stringsCount p)) ∧
    b.ancestor t 0 = .table t ∧
    b.ancestor t 1 = .schema (b.table t).Schema ∧
    b.ancestor t 2 = .database (b.schema (b.table t).Schema).Database ∧
    b.ancestor t 3 = .config :=
  ⟨getPathUp_ancestor b p t h, rfl, rfl, rfl, rfl⟩

theorem getPathUp_starts_at_ancestor_witness :
    stringsCount "orders.id" ≤ 3 ∧
    ordersGraph.getPathUp "orders.id" 1 = .ok (.column 0) ∧
    ordersGraph.getPathUp "orders.id" 1 =
      ordersGraph.getPathDown "orders.id" (ordersGraph.ancestor 1 (stringsCount "orders.id")) :=
  ⟨by decide, by rfl,
    (getPathUp_starts_at_ancestor ordersGraph "orders.id" 1 (by decide)).1⟩

theorem getPathUp_ok_iff (b : configBuilder) (p : String) (t : Nat) (r : Ref) :
    b.getPathUp p t = .ok r ↔
      stringsCount p ≤ 3 ∧ b.Descends (b.ancestor t (stringsCount p)) (stringsSplit p) r := by
  by_cases h : stringsCount p ≤ 3
  · rw [getPathUp_ancestor b p t h]
    simp only [h, true_and]
    exact getPathDownLoop_ok_iff b p _ _ _
  · simp only [h, false_and, iff_false]
    unfold getPathUp
    have : ∃ n, stringsCount p = n + 4 := ⟨stringsCount p - 4, by omega⟩
    obtain ⟨n, hn⟩ := this
    rw [hn]
    simp

/-- C6: `getPathUp` succeeds exactly when the path has at most 3 dots and every segment,
left to right from the start entity, is a key of the by-name map of the entity reached so
far; otherwise it returns an error. -/
theorem getPathUp_succeeds_iff_segments_resolve (b : configBuilder) (p : String) (t : Nat) :
    ((∃ r, b.getPathUp p t = .ok r) ↔
      stringsCount p ≤ 3 ∧ b.Resolves (b.ancestor t (stringsCount p)) (stringsSplit p)) ∧
    ((∃ e, b.getPathUp p t = .error e) ↔
      ¬ (stringsCount p ≤ 3 ∧ b.Resolves (b.ancestor t (stringsCount p)) (stringsSplit p))) := by
  have h1 : (∃ r, b.getPathUp p t = .ok r) ↔
      stringsCount p ≤ 3 ∧ b.Resolves (b.ancestor t (stringsCount p)) (stringsSplit p) := by
    unfold Resolves
    constructor
    · rintro ⟨r, hr⟩
      obtain ⟨h1, h2⟩ := (getPathUp_ok_iff b p t r).mp hr
      exact ⟨h1, r, h2⟩
    · rintro ⟨h1, r, h2⟩
      exact ⟨r, (getPathUp_ok_iff b p t r).mpr ⟨h1, h2⟩⟩
  refine ⟨h1, ?_⟩
  rw [← h1]
  cases hr : b.getPathUp p t with
  | ok r => simp
  | error e => simp

/-- C1: in a successfully built graph, a table with exactly one PK-flagged column has `PK`
set to a TableID wrapping that column and `Key` nil; with two or more it has `Key` set and
`PK` nil; with none both are nil; and no table has both set. -/
theorem init_pk_key_exclusive (env : Env) (mc : ModelContext) (tr : Traversal)
    (c : config.Config) (h : (init env mc tr c {}).2 = none) (t : Nat)
    (ht : (init env mc tr c {}).1.ReachTable t) :
    ((((init env mc tr c {}).1).pkColumns t).length = 1 →
      ∃ id, ((init env mc tr c {}).1.table t).PK = some id ∧
        (init env mc tr c {}).1.pkColumns t = [((init env mc tr c {}).1.tableID id).Column] ∧
        ((init env mc tr c {}).1.table t).Key = none) ∧
    (2 ≤ (((init env mc tr c {}).1).pkColumns t).length →
      (∃ k, ((init env mc tr c {}).1.table t).Key = some k) ∧
        ((init env mc tr c {}).1.table t).PK = none) ∧
    ((((init env mc tr c {}).1).pkColumns t).length = 0 →
      ((init env mc tr c {}).1.table t).PK = none ∧
        ((init env mc tr c {}).1.table t).Key = none) ∧
    ¬ (((init env mc tr c {}).1.table t).PK ≠ none ∧
        ((init env mc tr c {}).1.table t).Key ≠ none) := by
  have hk := init_keyOK h t ht
  generalize (init env mc tr c {}).1 = b at hk
  have hw := hk.wraps
  have hlen : (b.pkColumns t).length = (b.tableIDs t).length := by
    rw [← hw, List.length_map]
  unfold tableIDs keyMembers at hw hlen
  cases hpk : (b.table t).PK with
  | some id =>
    have hkey : (b.table t).Key = none := by
      rcases hk.excl with h1 | h1
      · rw [hpk] at h1; cases h1
      · exact h1
    rw [hpk, hkey] at hw hlen
    simp only [Option.toList, List.append_nil, List.map_cons, List.map_nil,
      List.length_singleton] at hw hlen
    refine ⟨fun _ => ⟨id, rfl, hw.symm, hkey⟩, fun h2 => by omega, fun h0 => by omega, ?_⟩
    rintro ⟨_, h2⟩; exact h2 hkey
  | none =>
    cases hkey : (b.table t).Key with
    | none =>
      rw [hpk, hkey] at hw hlen
      simp only [Option.toList, List.append_nil, List.length_nil] at hlen
      refine ⟨fun h1 => by omega, fun h2 => by omega, fun _ => ⟨rfl, rfl⟩, ?_⟩
      rintro ⟨h1, _⟩; exact h1 rfl
    | some k =>
      rw [hpk, hkey] at hw hlen
      simp only [Option.toList, List.nil_append] at hlen
      have h2 := (hk.key k hkey).2
      refine ⟨fun h1 => by omega, fun _ => ⟨⟨k, rfl⟩, rfl⟩, fun h0 => by omega, ?_⟩
      rintro ⟨h1, _⟩; exact h1 rfl

theorem init_pk_key_exclusive_witness :
    (init exampleEnv exampleContext ordersTraversal ordersConfig {}).2 = none ∧
    (init exampleEnv exampleContext ordersTraversal ordersConfig {}).1.ReachTable 1 ∧
    ¬ (((init exampleEnv exampleContext ordersTraversal ordersConfig {}).1.table 1).PK ≠ none ∧
        ((init exampleEnv exampleContext ordersTraversal ordersConfig {}).1.table 1).Key ≠ none) :=
  ⟨by decide, ⟨0, by decide, 0, by decide, by decide⟩,
    (init_pk_key_exclusive exampleEnv exampleContext ordersTraversal ordersConfig (by decide) 1
      ⟨0, by decide, 0, by decide, by decide⟩).2.2.2⟩

/-- C3: in a successfully built graph, the `FK` of a column, when set, is a TableID that is
the `PK` of the table owning the column it wraps, or a member of that table's `Key.IDs`. -/
theorem init_fk_is_key_of_target (env : Env) (mc : ModelContext) (tr : Traversal)
    (c : config.Config) (h : (init env mc tr c {}).2 = none) (i : Nat)
    (hi : (init env mc tr c {}).1.ReachColumn i) (id : Nat)
    (hfk : ((init env mc tr c {}).1.column i).FK = some id) :
    ((init env mc tr c {}).1.table
        ((init env mc tr c {}).1.column ((init env mc tr c {}).1.tableID id).Column).Table).PK
      = some id ∨
    id ∈ (init env mc tr c {}).1.keyMembers
        ((init env mc tr c {}).1.column ((init env mc tr c {}).1.tableID id).Column).Table :=
  init_fksAreKeys h i hi id hfk

theorem init_fk_is_key_of_target_witness :
    (init exampleEnv exampleContext ordersTraversal ordersConfig {}).2 = none ∧
    ((init exampleEnv exampleContext ordersTraversal ordersConfig {}).1.column 2).FK = some 0 ∧
    (((init exampleEnv exampleContext ordersTraversal ordersConfig {}).1.table
        ((init exampleEnv exampleContext ordersTraversal ordersConfig {}).1.column
          ((init exampleEnv exampleContext ordersTraversal ordersConfig {}).1.tableID 0).Column).Table).PK
      = some 0 ∨
    0 ∈ (init exampleEnv exampleContext ordersTraversal ordersConfig {}).1.keyMembers
        ((init exampleEnv exampleContext ordersTraversal ordersConfig {}).1.column
          ((init exampleEnv exampleContext ordersTraversal ordersConfig {}).1.tableID 0).Column).Table) :=
  ⟨by decide, by decide,
    init_fk_is_key_of_target exampleEnv exampleContext ordersTraversal ordersConfig (by decide) 2
      ⟨1, ⟨0, by decide, 0, by decide, by decide⟩, by decide⟩ 0 (by decide)⟩

end sqlmodelgen

namespace sqlmodelgen

theorem foldVisits_append (f : Visitor) (l1 l2 : List dbSchemaTableColumn) (b : configBuilder) :
    foldVisits f (l1 ++ l2) b =
      match foldVisits f l1 b with
      | (b1, some e) => (b1, some e)
      | (b1, none) => foldVisits f l2 b1 := by
  induction l1 generalizing b with
  | nil => rfl
  | cons x xs ih =>
    simp only [List.cons_append, foldVisits]
    cases hf : f x b with
    | mk b1 e =>
      cases e with
      | some e => rfl
      | none => exact ih b1

theorem foldVisits_later (f : Visitor) (hf : ∀ x b, Later b (f x b).1)
    (l : List dbSchemaTableColumn) (b : configBuilder) : Later b (foldVisits f l b).1 := by
  induction l generalizing b with
  | nil => exact Later.later_refl b
  | cons x xs ih =>
    simp only [foldVisits]
    have h1 := hf x b
    cases hfx : f x b with
    | mk b1 e =>
      rw [hfx] at h1
      cases e with
      | some e => exact h1
      | none => exact h1.later_trans (ih b1)

end sqlmodelgen

namespace sqlmodelgen.configBuilder

theorem iterColumns_eq_fold (f : Visitor) (hf : ∀ x b, Later b (f x b).1) (b0 : configBuilder)
    (dn : String) (dc : config.Database) (d : Nat) (sn : String) (sc : config.Schema) (s : Nat)
    (tn : String) (tc : config.Table) (t : Nat) (cols : List (String × config.Column))
    (htot : b0.TotalColumns t cols) (b : configBuilder) (hb : Later b0 b) :
    iterColumns f dn dc d sn sc s tn tc (some t) cols b =
      foldVisits f (b0.visitColumns dn dc d sn sc s tn tc t cols) b := by
  induction cols generalizing b with
  | nil => rfl
  | cons p rest ih =>
    obtain ⟨cn, cc⟩ := p
    have h1 := htot (cn, cc) (List.mem_cons_self _ _)
    simp only at h1
    obtain ⟨c, hc⟩ := Option.isSome_iff_exists.mp h1
    have hrest : b0.TotalColumns t rest := fun p hp => htot p (List.mem_cons_of_mem _ hp)
    simp only [iterColumns, visitColumns, List.filterMap_cons, hb.tblByName, hc, Option.map_some',
      foldVisits]
    cases hfx : f ⟨dn, dc, d, sn, sc, s, tn, tc, t, cn, cc, c⟩ b with
    | mk b1 e =>
      cases e with
      | some e => rfl
      | none =>
        have hl : Later b0 b1 := by
          have := hf ⟨dn, dc, d, sn, sc, s, tn, tc, t, cn, cc, c⟩ b
          rw [hfx] at this
          exact hb.later_trans this
        exact ih hrest b1 hl

theorem iterTables_eq_fold (f : Visitor) (hf : ∀ x b, Later b (f x b).1) (b0 : configBuilder)
    (dn : String) (dc : config.Database) (d : Nat) (sn : String) (sc : config.Schema) (s : Nat)
    (tbls : List (String × config.Table))
    (htot : b0.TotalTables s tbls) (b : configBuilder) (hb : Later b0 b) :
    iterTables f dn dc d sn sc (some s) tbls b =
      foldVisits f (b0.visitTables dn dc d sn sc s tbls) b := by
  induction tbls generalizing b with
  | nil => rfl
  | cons p rest ih =>
    obtain ⟨tn, tc⟩ := p
    obtain ⟨t, ht, htc⟩ := htot (tn, tc) (List.mem_cons_self _ _)
    simp only at ht htc
    have hrest : b0.TotalTables s rest := fun p hp => htot p (List.mem_cons_of_mem _ hp)
    have hs : (b.schema s).TablesByName = (b0.schema s).TablesByName := by
      simp only [schema, hb.schemas]
    simp only [iterTables, visitTables, List.flatMap_cons, hs, ht]
    rw [iterColumns_eq_fold f hf b0 dn dc d sn sc s tn tc t tc.Columns htc b hb,
      foldVisits_append]
    have hl := foldVisits_later f hf (b0.visitColumns dn dc d sn sc s tn tc t tc.Columns) b
    cases hfx : foldVisits f (b0.visitColumns dn dc d sn sc s tn tc t tc.Columns) b with
    | mk b1 e =>
      rw [hfx] at hl
      cases e with
      | some e => rfl
      | none => exact ih hrest b1 (hb.later_trans hl)

theorem iterSchemas_eq_fold (f : Visitor) (hf : ∀ x b, Later b (f x b).1) (b0 : configBuilder)
    (dn : String) (dc : config.Database) (d : Nat) (schs : List (String × config.Schema))
    (htot : b0.TotalSchemas d schs) (b : configBuilder) (hb : Later b0 b) :
    iterSchemas f dn dc (some d) schs b = foldVisits f (b0.visitSchemas dn dc d schs) b := by
  induction schs generalizing b with
  | nil => rfl
  | cons p rest ih =>
    obtain ⟨sn, sc⟩ := p
    obtain ⟨s, hs, hsc⟩ := htot (sn, sc) (List.mem_cons_self _ _)
    simp only at hs hsc
    have hrest : b0.TotalSchemas d rest := fun p hp => htot p (List.mem_cons_of_mem _ hp)
    have hd : (b.database d).SchemasByName = (b0.database d).SchemasByName := by
      simp only [database, hb.databases]
    simp only [iterSchemas, visitSchemas, List.flatMap_cons, hd, hs]
    rw [iterTables_eq_fold f hf b0 dn dc d sn sc s sc.Tables hsc b hb, foldVisits_append]
    have hl := foldVisits_later f hf (b0.visitTables dn dc d sn sc s sc.Tables) b
    cases hfx : foldVisits f (b0.visitTables dn dc d sn sc s sc.Tables) b with
    | mk b1 e =>
      rw [hfx] at hl
      cases e with
      | some e => rfl
      | none => exact ih hrest b1 (hb.later_trans hl)

/-- When no lookup comes back nil, `iterDBSchemaTableColumn` runs its callback over the
visits in order, stopping at the first error. -/
theorem iterDatabases_eq_fold (f : Visitor) (hf : ∀ x b, Later b (f x b).1) (b0 : configBuilder)
    (dbs : List (String × config.Database))
    (htot : b0.TotalDatabases dbs) (b : configBuilder) (hb : Later b0 b) :
    iterDatabases f dbs b = foldVisits f (b0.visitDatabases dbs) b := by
  induction dbs generalizing b with
  | nil => rfl
  | cons p rest ih =>
    obtain ⟨dn, dc⟩ := p
    obtain ⟨d, hd, hdc⟩ := htot (dn, dc) (List.mem_cons_self _ _)
    simp only at hd hdc
    have hrest : b0.TotalDatabases rest := fun p hp => htot p (List.mem_cons_of_mem _ hp)
    simp only [iterDatabases, visitDatabases, List.flatMap_cons, hb.rootsByName, hd]
    rw [iterSchemas_eq_fold f hf b0 dn dc d dc.Schemas hdc b hb, foldVisits_append]
    have hl := foldVisits_later f hf (b0.visitSchemas dn dc d dc.Schemas) b
    cases hfx : foldVisits f (b0.visitSchemas dn dc d dc.Schemas) b with
    | mk b1 e =>
      rw [hfx] at hl
      cases e with
      | some e => rfl
      | none => exact ih hrest b1 (hb.later_trans hl)

end sqlmodelgen.configBuilder

namespace sqlmodelgen

/-- In a mirrored child list whose names are distinct, the by-name map sends the name of
an entry to the child paired with it. -/
theorem mirror_lookup {α : Type} {Done : Nat → String × α → Prop} {children : List Nat}
    {l : List (String × α)} {m : List (String × Nat)} (nm : Nat → String)
    (hF : List.Forall₂ Done children l)
    (hnm : ∀ n e, Done n e → nm n = e.1)
    (hby : ∀ k n, m.lookup k = some n → n ∈ children ∧ nm n = k)
    (hnamed : ∀ k ∈ l.map Prod.fst, (m.lookup k).isSome)
    (hnd : (l.map Prod.fst).Nodup) :
    List.Forall₂ (fun n e => Done n e ∧ m.lookup e.1 = some n) children l := by
  rw [List.forall₂_iff_get] at hF ⊢
  obtain ⟨hlen, hget⟩ := hF
  refine ⟨hlen, fun i h1 h2 => ⟨hget i h1 h2, ?_⟩⟩
  have hk : (l.get ⟨i, h2⟩).1 ∈ l.map Prod.fst :=
    List.mem_map_of_mem _ (List.get_mem _ _ _)
  obtain ⟨n', hn'⟩ := Option.isSome_iff_exists.mp (hnamed _ hk)
  rw [hn']
  obtain ⟨hmem, hname⟩ := hby _ _ hn'
  obtain ⟨⟨j, hj⟩, hjn⟩ := List.mem_iff_get.mp hmem
  have hj2 : j < l.length := by rw [← hlen]; exact hj
  have hd := hget j hj hj2
  rw [hjn] at hd
  have e1 : (l.get ⟨j, hj2⟩).1 = (l.get ⟨i, h2⟩).1 := by rw [← hnm _ _ hd, hname]
  have hji : j = i := by
    have hjm : j < (l.map Prod.fst).length := by simpa using hj2
    have him : i < (l.map Prod.fst).length := by simpa using h2
    have : (l.map Prod.fst).get ⟨j, hjm⟩ = (l.map Prod.fst).get ⟨i, him⟩ := by
      simpa using e1
    have := (List.Nodup.get_inj_iff hnd).mp this
    exact Fin.mk.inj_iff.mp this
  subst hji
  rw [← hjn]

theorem eq_of_key_eq {α : Type} {l : List (String × α)} (hnd : (l.map Prod.fst).Nodup)
    {e q : String × α} (he : e ∈ l) (hq : q ∈ l) (h : e.1 = q.1) : e = q :=
  List.inj_on_of_nodup_map hnd he hq h

/-- An entry of the first listing has a counterpart in a second listing of the same map. -/
theorem sameEntries_counterpart {α : Type} {R : α → α → Prop} {l1 l2 : List (String × α)}
    (hs : config.sameEntries R l1 l2) (hnd : (l1.map Prod.fst).Nodup)
    {e : String × α} (he : e ∈ l1) : ∃ p ∈ l2, p.1 = e.1 ∧ R e.2 p.2 := by
  have : e.1 ∈ l2.map Prod.fst := hs.1.mem_iff.mpr (List.mem_map_of_mem _ he)
  obtain ⟨p, hp, hpe⟩ := List.mem_map.mp this
  obtain ⟨q, hq, hqp, hR⟩ := hs.2 p hp
  have : q = e := eq_of_key_eq hnd hq he (hqp.trans hpe)
  subst this
  exact ⟨p, hp, hpe, hR⟩

theorem sameEntries_nodup {α : Type} {R : α → α → Prop} {l1 l2 : List (String × α)}
    (hs : config.sameEntries R l1 l2) (hnd : (l1.map Prod.fst).Nodup) :
    (l2.map Prod.fst).Nodup :=
  hs.1.nodup_iff.mpr hnd

end sqlmodelgen

namespace sqlmodelgen.configBuilder

theorem RootOpen.mirror_root {env : Env} {b : configBuilder} {dbs : List (String × config.Database)}
    (h : RootOpen env b dbs) (hnd : (dbs.map Prod.fst).Nodup) :
    List.Forall₂ (fun d e => DatabaseDone env b d e ∧
      b.Config.DatabasesByName.lookup e.1 = some d) b.Config.Databases dbs :=
  mirror_lookup (fun d => (b.database d).Names.RawName) h.databases (fun _ _ hd => hd.name)
    h.byName h.named hnd

theorem DatabaseOpen.mirror_db {env : Env} {b : configBuilder} {d : Nat}
    {schs : List (String × config.Schema)}
    (h : DatabaseOpen env b d schs) (hnd : (schs.map Prod.fst).Nodup) :
    List.Forall₂ (fun s e => SchemaDone env b d s e ∧
      (b.database d).SchemasByName.lookup e.1 = some s) (b.database d).Schemas schs :=
  mirror_lookup (fun s => (b.schema s).Names.RawName) h.schemas (fun _ _ hd => hd.name)
    h.byName h.named hnd

theorem SchemaOpen.mirror_sch {env : Env} {b : configBuilder} {s : Nat}
    {tbls : List (String × config.Table)}
    (h : SchemaOpen env b s tbls) (hnd : (tbls.map Prod.fst).Nodup) :
    List.Forall₂ (fun t e => TableDone env b s t e ∧
      (b.schema s).TablesByName.lookup e.1 = some t) (b.schema s).Tables tbls :=
  mirror_lookup (fun t => (b.table t).Names.RawName) h.tables (fun _ _ hd => hd.name)
    h.byName h.named hnd

theorem TableCols.mirror_cols {env : Env} {b : configBuilder} {t : Nat}
    {cols : List (String × config.Column)}
    (h : TableCols env b t cols) (hnd : (cols.map Prod.fst).Nodup) :
    List.Forall₂ (fun i e => ColumnDone env b t i e ∧
      (b.table t).ColumnsByName.lookup e.1 = some i) (b.table t).Columns cols :=
  mirror_lookup (fun i => (b.column i).Names.RawName) h.cols (fun _ _ hd => hd.name)
    h.byName h.named hnd

/-- The database the traversal finds for an entry of a second listing. -/
theorem RootOpen.descend_root {env : Env} {b : configBuilder} {c c2 : config.Config}
    (h : RootOpen env b c.Databases) (hwf : c.WellFormed) (hs : c.SameMaps c2)
    {p : String × config.Database} (hp : p ∈ c2.Databases) :
    ∃ d e, b.Config.DatabasesByName.lookup p.1 = some d ∧ d ∈ b.Config.Databases ∧
      e ∈ c.Databases ∧ e.1 = p.1 ∧ config.sameSchemas e.2 p.2 ∧ DatabaseDone env b d e := by
  obtain ⟨q, hq, hqp, hR⟩ := hs.2 p hp
  obtain ⟨d, hd, hdone, hl⟩ := forall₂_mem_right (h.mirror_root hwf.1) hq
  exact ⟨d, q, by rw [← hqp]; exact hl, hd, hq, hqp, hR, hdone⟩

/-- The schema the traversal finds for an entry of a second listing. -/
theorem DatabaseDone.descend_db {env : Env} {b : configBuilder} {d : Nat}
    {e : String × config.Database} {p2 : config.Database}
    (h : DatabaseDone env b d e) (hwf : e.2.WellFormed) (hs : config.sameSchemas e.2 p2)
    {p : String × config.Schema} (hp : p ∈ p2.Schemas) :
    ∃ s es, (b.database d).SchemasByName.lookup p.1 = some s ∧ s ∈ (b.database d).Schemas ∧
      es ∈ e.2.Schemas ∧ es.1 = p.1 ∧ config.sameTables es.2 p.2 ∧ SchemaDone env b d s es := by
  obtain ⟨q, hq, hqp, hR⟩ := hs.2 p hp
  obtain ⟨s, hsm, hdone, hl⟩ := forall₂_mem_right (h.toDatabaseOpen.mirror_db hwf.1) hq
  exact ⟨s, q, by rw [← hqp]; exact hl, hsm, hq, hqp, hR, hdone⟩

/-- The table the traversal finds for an entry of a second listing. -/
theorem SchemaDone.descend_sch {env : Env} {b : configBuilder} {d s : Nat}
    {e : String × config.Schema} {p2 : config.Schema}
    (h : SchemaDone env b d s e) (hwf : e.2.WellFormed) (hs : config.sameTables e.2 p2)
    {p : String × config.Table} (hp : p ∈ p2.Tables) :
    ∃ t et, (b.schema s).TablesByName.lookup p.1 = some t ∧ t ∈ (b.schema s).Tables ∧
      et ∈ e.2.Tables ∧ et.1 = p.1 ∧ config.sameColumns et.2 p.2 ∧ TableDone env b s t et := by
  obtain ⟨q, hq, hqp, hR⟩ := hs.2 p hp
  obtain ⟨t, htm, hdone, hl⟩ := forall₂_mem_right (h.toSchemaOpen.mirror_sch hwf.1) hq
  exact ⟨t, q, by rw [← hqp]; exact hl, htm, hq, hqp, hR, hdone⟩

/-- The column the traversal finds for an entry of a second listing. -/
theorem TableDone.descend_tbl {env : Env} {b : configBuilder} {s t : Nat}
    {e : String × config.Table} {p2 : config.Table}
    (h : TableDone env b s t e) (hwf : e.2.WellFormed) (hs : config.sameColumns e.2 p2)
    {p : String × config.Column} (hp : p ∈ p2.Columns) :
    ∃ i, (b.table t).ColumnsByName.lookup p.1 = some i ∧ i ∈ (b.table t).Columns ∧
      p ∈ e.2.Columns ∧ ColumnDone env b t i p := by
  have hq : p ∈ e.2.Columns := hs.mem_iff.mp hp
  obtain ⟨i, him, hdone, hl⟩ := forall₂_mem_right (h.toTableCols.mirror_cols hwf) hq
  exact ⟨i, hl, him, hq, hdone⟩

end sqlmodelgen.configBuilder

namespace sqlmodelgen.configBuilder

theorem mem_visitColumns {b : configBuilder} {dn : String} {dc : config.Database} {d : Nat}
    {sn : String} {sc : config.Schema} {s : Nat} {tn : String} {tc : config.Table} {t : Nat}
    {cols : List (String × config.Column)} {x : dbSchemaTableColumn} :
    x ∈ b.visitColumns dn dc d sn sc s tn tc t cols ↔
      ∃ p ∈ cols, ∃ i, (b.table t).ColumnsByName.lookup p.1 = some i ∧
        x = ⟨dn, dc, d, sn, sc, s, tn, tc, t, p.1, p.2, i⟩ := by
  simp only [visitColumns, List.mem_filterMap, Option.map_eq_some']
  constructor
  · rintro ⟨p, hp, i, hi, rfl⟩; exact ⟨p, hp, i, hi, rfl⟩
  · rintro ⟨p, hp, i, hi, rfl⟩; exact ⟨p, hp, i, hi, rfl⟩

theorem mem_visitTables {b : configBuilder} {dn : String} {dc : config.Database} {d : Nat}
    {sn : String} {sc : config.Schema} {s : Nat}
    {tbls : List (String × config.Table)} {x : dbSchemaTableColumn} :
    x ∈ b.visitTables dn dc d sn sc s tbls ↔
      ∃ p ∈ tbls, ∃ t, (b.schema s).TablesByName.lookup p.1 = some t ∧
        x ∈ b.visitColumns dn dc d sn sc s p.1 p.2 t p.2.Columns := by
  simp only [visitTables, List.mem_flatMap]
  constructor
  · rintro ⟨p, hp, hx⟩
    cases hl : (b.schema s).TablesByName.lookup p.1 with
    | none => rw [hl] at hx; cases hx
    | some t => rw [hl] at hx; exact ⟨p, hp, t, hl, hx⟩
  · rintro ⟨p, hp, t, hl, hx⟩
    exact ⟨p, hp, by rw [hl]; exact hx⟩

theorem mem_visitSchemas {b : configBuilder} {dn : String} {dc : config.Database} {d : Nat}
    {schs : List (String × config.Schema)} {x : dbSchemaTableColumn} :
    x ∈ b.visitSchemas dn dc d schs ↔
      ∃ p ∈ schs, ∃ s, (b.database d).SchemasByName.lookup p.1 = some s ∧
        x ∈ b.visitTables dn dc d p.1 p.2 s p.2.Tables := by
  simp only [visitSchemas, List.mem_flatMap]
  constructor
  · rintro ⟨p, hp, hx⟩
    cases hl : (b.database d).SchemasByName.lookup p.1 with
    | none => rw [hl] at hx; cases hx
    | some t => rw [hl] at hx; exact ⟨p, hp, t, hl, hx⟩
  · rintro ⟨p, hp, t, hl, hx⟩
    exact ⟨p, hp, by rw [hl]; exact hx⟩

theorem mem_visitDatabases {b : configBuilder}
    {dbs : List (String × config.Database)} {x : dbSchemaTableColumn} :
    x ∈ b.visitDatabases dbs ↔
      ∃ p ∈ dbs, ∃ d, b.Config.DatabasesByName.lookup p.1 = some d ∧
        x ∈ b.visitSchemas p.1 p.2 d p.2.Schemas := by
  simp only [visitDatabases, List.mem_flatMap]
  constructor
  · rintro ⟨p, hp, hx⟩
    cases hl : b.Config.DatabasesByName.lookup p.1 with
    | none => rw [hl] at hx; cases hx
    | some t => rw [hl] at hx; exact ⟨p, hp, t, hl, hx⟩
  · rintro ⟨p, hp, t, hl, hx⟩
    exact ⟨p, hp, by rw [hl]; exact hx⟩

/-- A traversal of another listing of the configuration finds every entity it looks up. -/
theorem RootOpen.total {env : Env} {b : configBuilder} {c c2 : config.Config}
    (h : RootOpen env b c.Databases) (hwf : c.WellFormed) (hs : c.SameMaps c2) :
    b.TotalDatabases c2.Databases := by
  intro pd hpd
  obtain ⟨d, ed, hld, _, hed, _, hsd, hdd⟩ := h.descend_root hwf hs hpd
  have wd := hwf.2 ed hed
  refine ⟨d, hld, fun ps hps => ?_⟩
  obtain ⟨s, es, hls, _, hes, _, hss, hsd2⟩ := hdd.descend_db wd hsd hps
  have ws := wd.2 es hes
  refine ⟨s, hls, fun pt hpt => ?_⟩
  obtain ⟨t, et, hlt, _, het, _, hst, htd⟩ := hsd2.descend_sch ws hss hpt
  have wt := ws.2 et het
  refine ⟨t, hlt, fun pc hpc => ?_⟩
  obtain ⟨i, hli, _⟩ := htd.descend_tbl wt hst hpc
  rw [hli]; rfl

/-- Every visit of a traversal of another listing of the configuration carries the
entities built for the entries it names. -/
theorem RootOpen.visitOK {env : Env} {b : configBuilder} {c c2 : config.Config}
    (h : RootOpen env b c.Databases) (hwf : c.WellFormed) (hs : c.SameMaps c2)
    {x : dbSchemaTableColumn} (hx : x ∈ b.visitDatabases c2.Databases) :
    VisitOK env b c x := by
  obtain ⟨pd, hpd, d, hld, hx⟩ := mem_visitDatabases.mp hx
  obtain ⟨ps, hps, s, hls, hx⟩ := mem_visitSchemas.mp hx
  obtain ⟨pt, hpt, t, hlt, hx⟩ := mem_visitTables.mp hx
  obtain ⟨pc, hpc, i, hli, rfl⟩ := mem_visitColumns.mp hx
  obtain ⟨d', ed, hld', hdm, hed, hedn, hsd, hdd⟩ := h.descend_root hwf hs hpd
  rw [hld] at hld'; cases hld'
  have wd := hwf.2 ed hed
  obtain ⟨s', es, hls', hsm, hes, hesn, hss, hsd2⟩ := hdd.descend_db wd hsd hps
  rw [hls] at hls'; cases hls'
  have ws := wd.2 es hes
  obtain ⟨t', et, hlt', htm, het, hetn, hst, htd⟩ := hsd2.descend_sch ws hss hpt
  rw [hlt] at hlt'; cases hlt'
  have wt := ws.2 et het
  obtain ⟨i', hli', him, hpce, hcd⟩ := htd.descend_tbl wt hst hpc
  rw [hli] at hli'; cases hli'
  obtain ⟨edn, edc⟩ := ed
  obtain ⟨esn, esc⟩ := es
  obtain ⟨etn, etc⟩ := et
  simp only at hedn hesn hetn
  subst hedn hesn hetn
  exact ⟨hdm, hsm, htm, him, hld, hls, hlt, hli,
    ⟨edc, hed, esc, hes, etc, het, hpce⟩, ⟨edc, hed, hdd⟩, ⟨esc, hsd2⟩,
    ⟨etc, wt, hpce, hst, htd⟩, hcd⟩

/-- Every column entry of the configuration is visited by a traversal of another listing
of it. -/
theorem RootOpen.visited {env : Env} {b : configBuilder} {c c2 : config.Config}
    (h : RootOpen env b c.Databases) (hwf : c.WellFormed) (hs : c.SameMaps c2)
    {dn sn tn cn : String} {cc : config.Column} (hc : c.HasColumn dn sn tn cn cc) :
    ∃ x ∈ b.visitDatabases c2.Databases,
      x.dbName = dn ∧ x.schName = sn ∧ x.tblName = tn ∧ x.colName = cn ∧ x.colCfg = cc := by
  obtain ⟨dc, hdc, sc, hsc, tc, htc, hcc⟩ := hc
  obtain ⟨pd, hpd, hpdn, hsd⟩ := sameEntries_counterpart hs hwf.1 hdc
  have wd := hwf.2 _ hdc
  obtain ⟨ps, hps, hpsn, hss⟩ := sameEntries_counterpart hsd wd.1 hsc
  have ws := wd.2 _ hsc
  obtain ⟨pt, hpt, hptn, hst⟩ := sameEntries_counterpart hss ws.1 htc
  have hpc : (cn, cc) ∈ pt.2.Columns := hst.mem_iff.mpr hcc
  have htot := h.total hwf hs
  obtain ⟨d, hld, htd⟩ := htot pd hpd
  obtain ⟨s, hls, hts⟩ := htd ps hps
  obtain ⟨t, hlt, htt⟩ := hts pt hpt
  obtain ⟨i, hli⟩ := Option.isSome_iff_exists.mp (htt (cn, cc) hpc)
  refine ⟨⟨pd.1, pd.2, d, ps.1, ps.2, s, pt.1, pt.2, t, cn, cc, i⟩, ?_, hpdn, hpsn, hptn, rfl, rfl⟩
  exact mem_visitDatabases.mpr ⟨pd, hpd, d, hld, mem_visitSchemas.mpr ⟨ps, hps, s, hls,
    mem_visitTables.mpr ⟨pt, hpt, t, hlt, mem_visitColumns.mpr ⟨(cn, cc), hpc, i, hli, rfl⟩⟩⟩⟩

end sqlmodelgen.configBuilder

namespace sqlmodelgen

theorem foldVisits_induct (f : Visitor) (I : configBuilder → Prop)
    (l : List dbSchemaTableColumn) (hI : ∀ x ∈ l, ∀ b, I b → I (f x b).1)
    (b : configBuilder) (hb : I b) : I (foldVisits f l b).1 := by
  induction l generalizing b with
  | nil => exact hb
  | cons y ys ih =>
    simp only [foldVisits]
    have h1 := hI y (List.mem_cons_self _ _) b hb
    cases hfy : f y b with
    | mk b1 e =>
      rw [hfy] at h1
      cases e with
      | some e => exact h1
      | none => exact ih (fun x hx => hI x (List.mem_cons_of_mem _ hx)) b1 h1

/-- A run over visits fails as soon as one visit fails in every state the run can reach. -/
theorem foldVisits_fails (f : Visitor) (I : configBuilder → Prop)
    (l : List dbSchemaTableColumn) (hI : ∀ y ∈ l, ∀ b, I b → I (f y b).1)
    {x : dbSchemaTableColumn} (hx : x ∈ l) (hfail : ∀ b, I b → (f x b).2 ≠ none)
    (b : configBuilder) (hb : I b) : (foldVisits f l b).2 ≠ none := by
  induction l generalizing b with
  | nil => cases hx
  | cons y ys ih =>
    simp only [foldVisits]
    have h1 := hI y (List.mem_cons_self _ _) b hb
    cases hfy : f y b with
    | mk b1 e =>
      rw [hfy] at h1
      cases e with
      | some e => simp
      | none =>
        rcases List.mem_cons.mp hx with rfl | hx'
        · have := hfail b hb
          rw [hfy] at this
          exact absurd rfl this
        · exact ih (fun x hx => hI x (List.mem_cons_of_mem _ hx)) hx' b1 h1

/-- A run over visits succeeds when every visit succeeds in every state the run can
reach. -/
theorem foldVisits_ok (f : Visitor) (I : configBuilder → Prop)
    (l : List dbSchemaTableColumn) (hI : ∀ y ∈ l, ∀ b, I b → I (f y b).1)
    (hok : ∀ y ∈ l, ∀ b, I b → (f y b).2 = none)
    (b : configBuilder) (hb : I b) : (foldVisits f l b).2 = none := by
  induction l generalizing b with
  | nil => rfl
  | cons y ys ih =>
    simp only [foldVisits]
    have h1 := hI y (List.mem_cons_self _ _) b hb
    have h2 := hok y (List.mem_cons_self _ _) b hb
    cases hfy : f y b with
    | mk b1 e =>
      rw [hfy] at h1 h2
      simp only at h2
      subst h2
      exact ih (fun x hx => hI x (List.mem_cons_of_mem _ hx))
        (fun x hx => hok x (List.mem_cons_of_mem _ hx)) b1 h1

end sqlmodelgen

namespace sqlmodelgen.configBuilder

theorem Later.getPathDownLoop_eq {b b' : configBuilder} (h : Later b b') (path : String)
    (parts : List String) (r : Ref) :
    b'.getPathDownLoop path parts r = b.getPathDownLoop path parts r := by
  induction parts generalizing r with
  | nil => rfl
  | cons n rest ih =>
    cases r with
    | config =>
      simp only [getPathDownLoop, h.rootsByName]
      cases b.Config.DatabasesByName.lookup n <;> simp [ih]
    | database d =>
      simp only [getPathDownLoop, database, h.databases]
      cases (b.databases.getD d default).SchemasByName.lookup n <;> simp [ih]
    | schema s =>
      simp only [getPathDownLoop, schema, h.schemas]
      cases (b.schemas.getD s default).TablesByName.lookup n <;> simp [ih]
    | table t =>
      simp only [getPathDownLoop, h.tblByName]
      cases (b.table t).ColumnsByName.lookup n <;> simp [ih]
    | column c => rfl

theorem Later.getPathUp_eq {b b' : configBuilder} (h : Later b b') (path : String) (t : Nat) :
    b'.getPathUp path t = b.getPathUp path t := by
  unfold getPathUp getPathDown
  simp only [h.getPathDownLoop_eq, h.tblSchema, schema, h.schemas]

theorem Later.findTable_eq {b b' : configBuilder} (h : Later b b') (dn sn tn : String) :
    b'.findTable dn sn tn = b.findTable dn sn tn := by
  unfold findTable
  simp only [h.rootsByName, database, h.databases, schema, h.schemas]

theorem Later.findColumn_eq {b b' : configBuilder} (h : Later b b') (dn sn tn cn : String) :
    b'.findColumn dn sn tn cn = b.findColumn dn sn tn cn := by
  unfold findColumn
  simp only [h.findTable_eq, h.tblByName]

theorem Later.keyBearing_iff {b b' : configBuilder} (h : Later b b') (col : Nat) :
    b'.KeyBearing col ↔ b.KeyBearing col := by
  unfold KeyBearing
  simp only [h.colTable, h.tblPK, h.tableID_eq, h.keyMembers_eq]

theorem keyBearing_of_isKeyOf {b : configBuilder} {id col : Nat}
    (hc : (b.tableID id).Column = col) (hk : IsKeyOf b id (b.column col).Table) :
    b.KeyBearing col := by
  rcases hk with h | h
  · exact Or.inl ⟨id, h, hc⟩
  · exact Or.inr ⟨id, h, hc⟩

theorem fkStep_of_empty {x : dbSchemaTableColumn} {b : configBuilder}
    (h : x.colCfg.FK = "") : fkStep x b = (b, none) := by
  unfold fkStep; rw [if_pos h]

/-- The foreign-key step on a path that does not resolve. -/
theorem fkStep_of_path_error {x : dbSchemaTableColumn} {b : configBuilder} {e : Err}
    (hfk : x.colCfg.FK ≠ "") (hp : b.getPathUp x.colCfg.FK x.table = .error e) :
    fkStep x b = (b, some (.fkInit x.dbName x.schName x.tblName x.colName e)) := by
  unfold fkStep; rw [if_neg hfk, hp]

/-- The foreign-key step on a path that resolves to a column that bears no key. -/
theorem fkStep_of_non_key {x : dbSchemaTableColumn} {b : configBuilder} {fkCol : Nat}
    (hfk : x.colCfg.FK ≠ "") (hp : b.getPathUp x.colCfg.FK x.table = .ok (.column fkCol))
    (hk : ¬ b.KeyBearing fkCol) (hnone : (b.column x.column).FK = none) :
    fkStep x b = (b, some (.notKey (b.column fkCol).Names.RawName
      (b.table (b.column fkCol).Table).Names.RawName)) := by
  have hl : b.linkFK x.column fkCol = b := by
    rcases linkFK_cases b x.column fkCol with h | ⟨id, _, hc, hkey⟩
    · exact h
    · exact absurd (keyBearing_of_isKeyOf hc hkey) hk
  unfold fkStep
  rw [if_neg hfk, hp]
  simp only [hl, hnone, if_true]

theorem findKeyID_isSome (b : configBuilder) (fkCol : Nat) (l : List Nat)
    (h : ∃ id ∈ l, (b.tableID id).Column = fkCol) : ∃ id, b.findKeyID fkCol l = some id := by
  induction l with
  | nil => obtain ⟨_, h, _⟩ := h; cases h
  | cons a l ih =>
    simp only [findKeyID]
    by_cases ha : (b.tableID a).Column = fkCol
    · exact ⟨a, by rw [if_pos ha]⟩
    · rw [if_neg ha]
      obtain ⟨id, hid, hc⟩ := h
      rcases List.mem_cons.mp hid with rfl | hid'
      · exact absurd hc ha
      · exact ih ⟨id, hid', hc⟩

theorem findKeyID_spec (b : configBuilder) (fkCol : Nat) (l : List Nat) (id : Nat)
    (h : b.findKeyID fkCol l = some id) : id ∈ l ∧ (b.tableID id).Column = fkCol := by
  induction l with
  | nil => simp [findKeyID] at h
  | cons a l ih =>
    simp only [findKeyID] at h
    split at h
    · cases h; exact ⟨List.mem_cons_self _ _, by assumption⟩
    · obtain ⟨h1, h2⟩ := ih h
      exact ⟨List.mem_cons_of_mem _ h1, h2⟩

/-- On a key-bearing target the branch on the target table's key assigns a TableID. -/
theorem linkFK_of_keyBearing (b : configBuilder) (c fkCol : Nat) (hk : b.KeyBearing fkCol) :
    ∃ id, b.linkFK c fkCol = b.setFK c id ∧
      (b.tableID id).Column = fkCol ∧ IsKeyOf b id (b.column fkCol).Table := by
  have hkey : (¬ ∃ pk, (b.table (b.column fkCol).Table).PK = some pk ∧
        (b.tableID pk).Column = fkCol) →
      ∃ k id, (b.table (b.column fkCol).Table).Key = some k ∧
        b.findKeyID fkCol (b.tableKey k).IDs = some id ∧
        (b.tableID id).Column = fkCol ∧ IsKeyOf b id (b.column fkCol).Table := by
    intro hno
    rcases hk with h | ⟨id, hid, hc⟩
    · exact absurd h hno
    · unfold keyMembers at hid
      cases hK : (b.table (b.column fkCol).Table).Key with
      | none => rw [hK] at hid; cases hid
      | some k =>
        rw [hK] at hid
        obtain ⟨id', hf⟩ := findKeyID_isSome b fkCol _ ⟨id, hid, hc⟩
        obtain ⟨h1, h2⟩ := findKeyID_spec b fkCol _ _ hf
        exact ⟨k, id', rfl, hf, h2, Or.inr (by simp only [keyMembers, hK]; exact h1)⟩
  unfold linkFK
  simp only
  cases hpk : (b.table (b.column fkCol).Table).PK with
  | some pk =>
    simp only
    by_cases hc : (b.tableID pk).Column = fkCol
    · rw [if_pos hc]
      exact ⟨pk, rfl, hc, Or.inl hpk⟩
    · rw [if_neg hc]
      obtain ⟨k, id, hK, hf, h2, h3⟩ := hkey (by
        rintro ⟨pk', h1, h2⟩
        rw [hpk] at h1; cases h1; exact hc h2)
      rw [hK]; simp only [hf]
      exact ⟨id, rfl, h2, h3⟩
  | none =>
    simp only
    obtain ⟨k, id, hK, hf, h2, h3⟩ := hkey (by
      rintro ⟨pk', h1, _⟩
      rw [hpk] at h1; cases h1)
    rw [hK]; simp only [hf]
    exact ⟨id, rfl, h2, h3⟩

/-- The foreign-key step on a path that resolves to a key-bearing column: the `FK` is set
to a TableID of the target table that wraps the target column. -/
theorem fkStep_of_key {x : dbSchemaTableColumn} {b : configBuilder} {fkCol : Nat}
    (hfk : x.colCfg.FK ≠ "") (hp : b.getPathUp x.colCfg.FK x.table = .ok (.column fkCol))
    (hk : b.KeyBearing fkCol) (hv : x.column < b.columns.length) :
    ∃ id, fkStep x b = (b.setFK x.column id, none) ∧
      (b.tableID id).Column = fkCol ∧ IsKeyOf b id (b.column fkCol).Table := by
  obtain ⟨id, hl, hc, hkey⟩ := linkFK_of_keyBearing b x.column fkCol hk
  refine ⟨id, ?_, hc, hkey⟩
  unfold fkStep
  rw [if_neg hfk, hp]
  simp only [hl]
  have : ((b.setFK x.column id).column x.column).FK = some id := by
    rw [setFK_FK, if_pos ⟨rfl, hv⟩]
  rw [this]
  simp

/-- The foreign-key step leaves the `FK` of the other columns alone. -/
theorem fkStep_FK_other (x : dbSchemaTableColumn) (b : configBuilder) (i : Nat)
    (hi : i ≠ x.column) : ((fkStep x b).1.column i).FK = (b.column i).FK := by
  have hlink : ∀ fkCol, ((b.linkFK x.column fkCol).column i).FK = (b.column i).FK := by
    intro fkCol
    rcases linkFK_cases b x.column fkCol with h | ⟨id, h, _⟩
    · rw [h]
    · rw [h, setFK_FK, if_neg (fun h => hi h.1)]
  unfold fkStep
  split
  · rfl
  · split
    · rfl
    · simp only
      split
      · exact hlink _
      · exact hlink _
    · rfl

end sqlmodelgen.configBuilder

namespace sqlmodelgen

/-- A well-formed configuration has one entry per name path. -/
theorem hasColumn_unique {c : config.Config} (hwf : c.WellFormed) {dn sn tn cn : String}
    {cc cc' : config.Column} (h : c.HasColumn dn sn tn cn cc)
    (h' : c.HasColumn dn sn tn cn cc') : cc = cc' := by
  obtain ⟨dc, hdc, sc, hsc, tc, htc, hcc⟩ := h
  obtain ⟨dc', hdc', sc', hsc', tc', htc', hcc'⟩ := h'
  have e1 := eq_of_key_eq hwf.1 hdc hdc' rfl
  simp only [Prod.mk.injEq, true_and] at e1
  subst e1
  have wd := hwf.2 _ hdc
  have e2 := eq_of_key_eq wd.1 hsc hsc' rfl
  simp only [Prod.mk.injEq, true_and] at e2
  subst e2
  have ws := wd.2 _ hsc
  have e3 := eq_of_key_eq ws.1 htc htc' rfl
  simp only [Prod.mk.injEq, true_and] at e3
  subst e3
  have wt := ws.2 _ htc
  have e4 := eq_of_key_eq wt hcc hcc' rfl
  simpa using e4

end sqlmodelgen

namespace sqlmodelgen.configBuilder

/-- Two visits to the same column are visits to the same entry. -/
theorem VisitOK.same_entry {env : Env} {b : configBuilder} {c : config.Config}
    (hwf : c.WellFormed) {x y : dbSchemaTableColumn} (hx : VisitOK env b c x)
    (hy : VisitOK env b c y) (h : x.column = y.column) :
    x.table = y.table ∧ x.colCfg = y.colCfg := by
  have ht : x.table = y.table := by
    rw [← hx.colDone.owner, ← hy.colDone.owner, h]
  have hcn : x.colName = y.colName := by
    have h1 := hx.colDone.name; have h2 := hy.colDone.name
    simp only at h1 h2
    rw [← h1, ← h2, h]
  obtain ⟨tcx, _, _, _, htx⟩ := hx.tblDone
  obtain ⟨tcy, _, _, _, hty⟩ := hy.tblDone
  have htn : x.tblName = y.tblName := by
    have h1 := htx.name; have h2 := hty.name
    simp only at h1 h2
    rw [← h1, ← h2, ht]
  have hs : x.schema = y.schema := by
    rw [← htx.owner, ← hty.owner, ht]
  obtain ⟨scx, hsx⟩ := hx.schDone
  obtain ⟨scy, hsy⟩ := hy.schDone
  have hsn : x.schName = y.schName := by
    have h1 := hsx.name; have h2 := hsy.name
    simp only at h1 h2
    rw [← h1, ← h2, hs]
  have hd : x.db = y.db := by
    rw [← hsx.owner, ← hsy.owner, hs]
  obtain ⟨dcx, _, hdx⟩ := hx.dbDone
  obtain ⟨dcy, _, hdy⟩ := hy.dbDone
  have hdn : x.dbName = y.dbName := by
    have h1 := hdx.name; have h2 := hdy.name
    simp only at h1 h2
    rw [← h1, ← h2, hd]
  have e := hx.entry
  rw [hdn, hsn, htn, hcn] at e
  exact ⟨ht, hasColumn_unique hwf e hy.entry⟩

theorem VisitOK.findTable {env : Env} {b : configBuilder} {c : config.Config}
    {x : dbSchemaTableColumn} (hx : VisitOK env b c x) :
    b.findTable x.dbName x.schName x.tblName = some x.table := by
  unfold configBuilder.findTable
  rw [hx.dbLookup]; simp only; rw [hx.schLookup]; simp only; exact hx.tblLookup

theorem VisitOK.findColumn {env : Env} {b : configBuilder} {c : config.Config}
    {x : dbSchemaTableColumn} (hx : VisitOK env b c x) :
    b.findColumn x.dbName x.schName x.tblName x.colName = some x.column := by
  unfold configBuilder.findColumn
  rw [hx.findTable]; exact hx.colLookup

/-- An invariant of the steps of the first pass holds in the state it leaves, whether it
succeeds or fails. -/
theorem initDatabases_induct (env : Env) (mc : ModelContext) (I : configBuilder → Prop)
    (hcol : ∀ dn sn tn t cn cc b tmp, I b → I (initColumn env mc dn sn tn t cn cc b tmp).1)
    (hkey : ∀ b t tmp, I b → I (assignKey b t tmp).1)
    (htbl : ∀ b s tn S, I b → I ((newTable b s tn).1.setSchema s S))
    (hsch : ∀ b d sn D, I b → I ((newSchema b d sn).1.setDatabase d D))
    (hdb : ∀ b dn dc C, I b → I { (newDatabase env b dn dc).1 with Config := C })
    (hdb0 : ∀ b dn dc, I b → I (newDatabase env b dn dc).1)
    (dbs : List (String × config.Database)) (b : configBuilder) (tmp : List Nat)
    (hb : I b) : I (initDatabases env mc dbs b tmp).1 := by
  have hcols : ∀ dn sn tn t (cols : List (String × config.Column)) b tmp, I b →
      I (initColumns env mc dn sn tn t cols b tmp).1 := by
    intro dn sn tn t cols
    induction cols with
    | nil => intro b tmp hb; exact hb
    | cons p rest ih =>
      intro b tmp hb
      obtain ⟨cn, cc⟩ := p
      simp only [initColumns]
      have := hcol dn sn tn t cn cc b tmp hb
      cases hr : initColumn env mc dn sn tn t cn cc b tmp with
      | mk b1 r =>
        obtain ⟨tmp1, e⟩ := r
        rw [hr] at this
        cases e with
        | some e => exact this
        | none => exact ih b1 tmp1 this
  have htbls : ∀ dn sn s (tbls : List (String × config.Table)) b tmp, I b →
      I (initTables env mc dn sn s tbls b tmp).1 := by
    intro dn sn s tbls
    induction tbls with
    | nil => intro b tmp hb; exact hb
    | cons p rest ih =>
      intro b tmp hb
      obtain ⟨tn, tc⟩ := p
      simp only [initTables]
      have h1 : I (initTable env mc dn sn s tn tc b tmp).1 := by
        unfold initTable
        simp only
        generalize hS : ({ (b.newTable s tn).1.schema s with
          Tables := ((b.newTable s tn).1.schema s).Tables ++ [(b.newTable s tn).2],
          TablesByName := mapSet ((b.newTable s tn).1.schema s).TablesByName tn
            (b.newTable s tn).2 } : Schema) = S
        have h0 := htbl b s tn S hb
        have := hcols dn sn tn (b.newTable s tn).2 tc.Columns _ tmp h0
        cases hr : initColumns env mc dn sn tn (b.newTable s tn).2 tc.Columns
            ((b.newTable s tn).1.setSchema s S) tmp with
        | mk b1 r =>
          obtain ⟨tmp1, e⟩ := r
          rw [hr] at this
          cases e with
          | some e => exact this
          | none => exact hkey _ _ _ this
      cases hr : initTable env mc dn sn s tn tc b tmp with
      | mk b1 r =>
        obtain ⟨tmp1, e⟩ := r
        rw [hr] at h1
        cases e with
        | some e => exact h1
        | none => exact ih b1 tmp1 h1
  have hschs : ∀ dn d (schs : List (String × config.Schema)) b tmp, I b →
      I (initSchemas env mc dn d schs b tmp).1 := by
    intro dn d schs
    induction schs with
    | nil => intro b tmp hb; exact hb
    | cons p rest ih =>
      intro b tmp hb
      obtain ⟨sn, sc⟩ := p
      simp only [initSchemas]
      have h1 : I (initSchema env mc dn d sn sc b tmp).1 := by
        unfold initSchema
        simp only
        exact htbls _ _ _ _ _ _ (hsch b d sn _ hb)
      cases hr : initSchema env mc dn d sn sc b tmp with
      | mk b1 r =>
        obtain ⟨tmp1, e⟩ := r
        rw [hr] at h1
        cases e with
        | some e => exact h1
        | none => exact ih b1 tmp1 h1
  induction dbs generalizing b tmp with
  | nil => exact hb
  | cons p rest ih =>
    obtain ⟨dn, dc⟩ := p
    simp only [initDatabases]
    have h1 : I (initDatabase env mc dn dc b tmp).1 := by
      unfold initDatabase
      have h0 := hdb0 b dn dc hb
      cases hr : b.newDatabase env dn dc with
      | mk b0 r =>
        obtain ⟨d, e⟩ := r
        cases e with
        | some e => rw [hr] at h0; exact h0
        | none =>
          simp only
          have := hdb b dn dc { b0.Config with
            Databases := b0.Config.Databases ++ [d],
            DatabasesByName := mapSet b0.Config.DatabasesByName dn d } hb
          rw [hr] at this
          exact hschs _ _ _ _ _ this
    cases hr : initDatabase env mc dn dc b tmp with
    | mk b1 r =>
      obtain ⟨tmp1, e⟩ := r
      rw [hr] at h1
      cases e with
      | some e => exact h1
      | none => exact ih b1 tmp1 h1

end sqlmodelgen.configBuilder

namespace sqlmodelgen

theorem getD_append_singleton {α : Type} (l : List α) (a d : α) (i : Nat) :
    (l ++ [a]).getD i d = if i < l.length then l.getD i d else if i = l.length then a else d := by
  by_cases h1 : i < l.length
  · rw [if_pos h1]; exact getD_append_lt _ _ _ _ h1
  · rw [if_neg h1]
    by_cases h2 : i = l.length
    · rw [if_pos h2, h2]; exact getD_append_length _ _ _
    · rw [if_neg h2]
      rw [List.getD_eq_default]
      simp; omega

end sqlmodelgen

namespace sqlmodelgen.configBuilder

theorem noFK_setColumn {b : configBuilder} (h : NoFK b) (c : Nat) (x : Column)
    (hx : x.FK = none) : NoFK (b.setColumn c x) := by
  intro i
  rw [column_setColumn]
  split
  · exact hx
  · exact h i

theorem noFK_of_columns {b b' : configBuilder} (h : NoFK b) (hc : b'.columns = b.columns) :
    NoFK b' := by
  intro i
  have : b'.column i = b.column i := by simp only [column, hc]
  rw [this]; exact h i

theorem noFK_initColumnType {b : configBuilder} (h : NoFK b) (env : Env) (mc : ModelContext)
    (dn sn tn cn : String) (cc : config.Column) (c : Nat) :
    NoFK (initColumnType env mc dn sn tn cn cc c b).1 := by
  unfold configBuilder.initColumnType
  split
  · cases env.Parse cc.Type_ with
    | error e => exact h
    | ok ty =>
      simp only
      have h1 : NoFK (b.setColumn c { b.column c with Type_ := some ty }) :=
        noFK_setColumn h c _ (h c)
      cases mc.ModelType ty with
      | error e => exact h1
      | ok r =>
        obtain ⟨ns, t⟩ := r
        simp only
        split
        · exact noFK_of_columns h1 rfl
        · exact h1
  · exact h

theorem noFK_initColumn {b : configBuilder} (h : NoFK b) (env : Env) (mc : ModelContext)
    (dn sn tn : String) (t : Nat) (cn : String) (cc : config.Column) (tmp : List Nat) :
    NoFK (initColumn env mc dn sn tn t cn cc b tmp).1 := by
  have h1 : NoFK (b.newColumn t cn).1 := by
    intro i
    simp only [column, newColumn, getD_append_singleton]
    split
    · exact h i
    · split <;> rfl
  have h2 : NoFK ((b.newColumn t cn).1.setTable t
      { (b.newColumn t cn).1.table t with
        Columns := ((b.newColumn t cn).1.table t).Columns ++ [(b.newColumn t cn).2],
        ColumnsByName := mapSet ((b.newColumn t cn).1.table t).ColumnsByName cn
          (b.newColumn t cn).2 }) := noFK_of_columns h1 rfl
  have h3 := noFK_setColumn h2 (b.newColumn t cn).2 { (((b.newColumn t cn).1.setTable t
      { (b.newColumn t cn).1.table t with
        Columns := ((b.newColumn t cn).1.table t).Columns ++ [(b.newColumn t cn).2],
        ColumnsByName := mapSet ((b.newColumn t cn).1.table t).ColumnsByName cn
          (b.newColumn t cn).2 }).column (b.newColumn t cn).2) with PK := cc.PK } (h2 _)
  have h4 := noFK_initColumnType h3 env mc dn sn tn cn cc (b.newColumn t cn).2
  unfold configBuilder.initColumn
  simp only
  cases hr : initColumnType env mc dn sn tn cn cc (b.newColumn t cn).2 _ with
  | mk b4 e =>
    rw [hr] at h4
    cases e with
    | some e => exact h4
    | none =>
      simp only
      split
      · exact noFK_of_columns h4 rfl
      · exact h4

theorem noFK_assignKey {b : configBuilder} (h : NoFK b) (t : Nat) (tmp : List Nat) :
    NoFK (b.assignKey t tmp).1 := by
  unfold configBuilder.assignKey
  split
  · exact h
  · exact noFK_of_columns h rfl
  · exact noFK_of_columns h rfl

/-- The state left by the first pass, successful or not, has no `FK` set. -/
theorem initPass1_noFK (env : Env) (mc : ModelContext) (c : config.Config) :
    NoFK (initPass1 env mc c {}).1 := by
  have h0 : NoFK {} := fun i => rfl
  unfold initPass1
  simp only
  cases Namers.init env ({} : configBuilder).Config.DatabaseNamers c.DatabaseNamers with
  | mk nrs e =>
    cases e with
    | some e => exact noFK_of_columns h0 rfl
    | none =>
      simp only
      exact initDatabases_induct env mc NoFK
        (fun dn sn tn t cn cc b tmp hb => noFK_initColumn hb env mc dn sn tn t cn cc tmp)
        (fun b t tmp hb => noFK_assignKey hb t tmp)
        (fun b s tn S hb => noFK_of_columns hb rfl)
        (fun b d sn D hb => noFK_of_columns hb rfl)
        (fun b dn dc C hb => noFK_of_columns hb rfl)
        (fun b dn dc hb => noFK_of_columns hb rfl)
        c.Databases _ [] (noFK_of_columns h0 rfl)

end sqlmodelgen.configBuilder

namespace sqlmodelgen.configBuilder

theorem init_of_pass1_error {env : Env} {mc : ModelContext} {tr : Traversal}
    {c : config.Config} {b1 : configBuilder} {e : Err}
    (h1 : initPass1 env mc c {} = (b1, some e)) : init env mc tr c {} = (b1, some e) := by
  unfold init; rw [h1]

theorem init_of_pass2_error {env : Env} {mc : ModelContext} {tr : Traversal}
    {c : config.Config} {b1 b2 : configBuilder} {e : Err}
    (h1 : initPass1 env mc c {} = (b1, none))
    (h2 : b1.iterDBSchemaTableColumn tr.fk fkStep = (b2, some e)) :
    init env mc tr c {} = (b2, some e) := by
  unfold init; rw [h1]; simp only; rw [h2]

/-- The foreign-key pass as a run over the visits of its traversal. -/
theorem pass2_eq_fold {env : Env} {mc : ModelContext} {tr : Traversal}
    {c : config.Config} {b1 : configBuilder} (h1 : initPass1 env mc c {} = (b1, none))
    (hwf : c.WellFormed) (hv : tr.Valid c) :
    b1.iterDBSchemaTableColumn tr.fk fkStep =
      foldVisits fkStep (b1.visitDatabases tr.fk.Databases) b1 :=
  iterDatabases_eq_fold fkStep later_fkStep b1 _ ((initPass1_spec h1).total hwf hv.1) b1
    (Later.later_refl b1)

/-- The data-column pass as a run over the visits of its traversal. -/
theorem pass3_eq_fold {env : Env} {mc : ModelContext} {tr : Traversal}
    {c : config.Config} {b1 b2 : configBuilder} (h1 : initPass1 env mc c {} = (b1, none))
    (hl : Later b1 b2) (hwf : c.WellFormed) (hv : tr.Valid c) :
    b2.iterDBSchemaTableColumn tr.data dataStep =
      foldVisits dataStep (b1.visitDatabases tr.data.Databases) b2 :=
  iterDatabases_eq_fold dataStep later_dataStep b1 _ ((initPass1_spec h1).total hwf hv.2) b2 hl

theorem stringsCount_empty : stringsCount "" = 0 := rfl

theorem getPathUp_notAPath (b : configBuilder) (p : String) (t : Nat)
    (h : 3 < stringsCount p) : b.getPathUp p t = .error .notAPath := by
  unfold getPathUp
  obtain ⟨n, hn⟩ : ∃ n, stringsCount p = n + 4 := ⟨stringsCount p - 4, by omega⟩
  rw [hn]
  rfl

/-- A build whose foreign-key pass must fail on some column entry, in whatever state that
entry is visited, fails. -/
theorem init_fails_of_entry {env : Env} {mc : ModelContext} {tr : Traversal}
    {c : config.Config} (hwf : c.WellFormed) (hv : tr.Valid c)
    {dn sn tn cn : String} {cc : config.Column} (hc : c.HasColumn dn sn tn cn cc)
    (hfail : ∀ b1, initPass1 env mc c {} = (b1, none) →
      ∀ x ∈ b1.visitDatabases tr.fk.Databases, x.dbName = dn → x.schName = sn →
        x.tblName = tn → x.colName = cn → x.colCfg = cc →
        ∀ b, Later b1 b → (fkStep x b).2 ≠ none) :
    (init env mc tr c {}).2 ≠ none := by
  cases h1 : initPass1 env mc c {} with
  | mk b1 e1 =>
    cases e1 with
    | some e => rw [init_of_pass1_error h1]; simp
    | none =>
      have hroot := initPass1_spec h1
      obtain ⟨x, hx, hxd, hxs, hxt, hxc, hxcc⟩ := hroot.visited hwf hv.1 hc
      have hf := foldVisits_fails fkStep (fun b => Later b1 b) _
        (fun y _ b hb => hb.later_trans (later_fkStep y b)) hx
        (hfail b1 h1 x hx hxd hxs hxt hxc hxcc) b1 (Later.later_refl b1)
      rw [← pass2_eq_fold h1 hwf hv] at hf
      cases h2 : b1.iterDBSchemaTableColumn tr.fk fkStep with
      | mk b2 e2 =>
        rw [h2] at hf
        cases e2 with
        | none => exact absurd rfl hf
        | some e => rw [init_of_pass2_error h1 h2]; simp

end sqlmodelgen.configBuilder

namespace sqlmodelgen

/-- C7: a path with more than 3 dots makes `getPathUp` fail from every table, and a build
whose configuration has a column with such an FK path fails. -/
theorem getPathUp_fails_beyond_three_dots (p : String) (h : 3 < stringsCount p) :
    (∀ (b : configBuilder) (t : Nat), b.getPathUp p t = .error .notAPath) ∧
    (∀ (env : Env) (mc : ModelContext) (tr : Traversal) (c : config.Config)
      (dn sn tn cn : String) (cc : config.Column),
      c.WellFormed → tr.Valid c → c.HasColumn dn sn tn cn cc → cc.FK = p →
      (init env mc tr c {}).2 ≠ none) := by
  refine ⟨fun b t => getPathUp_notAPath b p t h, ?_⟩
  intro env mc tr c dn sn tn cn cc hwf hv hc hp
  refine init_fails_of_entry hwf hv hc ?_
  intro b1 _ x _ _ _ _ _ hxcc b _
  have hne : x.colCfg.FK ≠ "" := by
    rw [hxcc, hp]
    intro h0
    rw [h0] at h
    exact absurd h (by decide)
  rw [fkStep_of_path_error hne (getPathUp_notAPath b _ _ (by rw [hxcc, hp]; exact h))]
  simp

theorem getPathUp_fails_beyond_three_dots_witness :
    3 < stringsCount "a.b.c.d.e" ∧
    ordersGraph.getPathUp "a.b.c.d.e" 1 = .error .notAPath :=
  ⟨by decide, (getPathUp_fails_beyond_three_dots "a.b.c.d.e" (by decide)).1 ordersGraph 1⟩

end sqlmodelgen

namespace sqlmodelgen.configBuilder

/-- Whatever the later passes do, the state `init` leaves is that of the first pass up to
`FK`, `Type`, `DataColumns` and the namespaces. -/
theorem init_later_of_pass1 {env : Env} {mc : ModelContext} (tr : Traversal)
    {c : config.Config} {b1 : configBuilder} (h1 : initPass1 env mc c {} = (b1, none)) :
    Later b1 (init env mc tr c {}).1 := by
  have l2 := later_iter_fkStep tr.fk b1
  unfold init
  rw [h1]
  simp only
  cases h2 : b1.iterDBSchemaTableColumn tr.fk fkStep with
  | mk b2 e2 =>
    rw [h2] at l2
    cases e2 with
    | some e => exact l2
    | none =>
      simp only
      have l3 := later_iter_dataStep tr.data b2
      cases h3 : b2.iterDBSchemaTableColumn tr.data dataStep with
      | mk b3 e3 =>
        rw [h3] at l3
        cases e3 with
        | some e => exact l2.later_trans l3
        | none =>
          exact ((l2.later_trans l3).later_trans (later_ensureNamespaces mc b3).1).later_trans
            (later_finishNamespaces mc tr _).1

end sqlmodelgen.configBuilder

namespace sqlmodelgen

/-- A build in which the path of a column entry resolves to a column that bears no key
fails, and leaves the `FK` of the column of that entry nil. -/
theorem init_fails_of_non_key (env : Env) (mc : ModelContext) (tr : Traversal)
    (c : config.Config) (hwf : c.WellFormed) (hv : tr.Valid c)
    (dn sn tn cn : String) (cc : config.Column) (hc : c.HasColumn dn sn tn cn cc)
    (hfk : cc.FK ≠ "") (t fkCol : Nat)
    (ht : (init env mc tr c {}).1.findTable dn sn tn = some t)
    (hres : (init env mc tr c {}).1.getPathUp cc.FK t = .ok (.column fkCol))
    (hnk : ¬ (init env mc tr c {}).1.KeyBearing fkCol) :
    (init env mc tr c {}).2 ≠ none ∧
    ∀ i, (init env mc tr c {}).1.findColumn dn sn tn cn = some i →
      ((init env mc tr c {}).1.column i).FK = none := by
  cases h1 : initPass1 env mc c {} with
  | mk b1 e1 =>
    cases e1 with
    | some e =>
      rw [init_of_pass1_error h1]
      refine ⟨by simp, fun i _ => ?_⟩
      have := initPass1_noFK env mc c
      rw [h1] at this
      exact this i
    | none =>
      have hroot := initPass1_spec h1
      have hl := init_later_of_pass1 tr h1
      obtain ⟨x, hx, hxd, hxs, hxt, hxc, hxcc⟩ := hroot.visited hwf hv.1 hc
      have hok := hroot.visitOK hwf hv.1 hx
      have hft := hok.findTable
      rw [hxd, hxs, hxt] at hft
      rw [hl.findTable_eq, hft] at ht
      cases ht
      rw [hl.getPathUp_eq] at hres
      rw [hl.keyBearing_iff] at hnk
      have hstep : ∀ y ∈ b1.visitDatabases tr.fk.Databases, ∀ b,
          (Later b1 b ∧ (b.column x.column).FK = none) →
          (Later b1 (fkStep y b).1 ∧ ((fkStep y b).1.column x.column).FK = none) := by
        intro y hy b ⟨hb, hnone⟩
        refine ⟨hb.later_trans (later_fkStep y b), ?_⟩
        by_cases hyx : y.column = x.column
        · obtain ⟨e1, e2⟩ := (hroot.visitOK hwf hv.1 hy).same_entry hwf hok hyx
          have hp : b.getPathUp y.colCfg.FK y.table = .ok (.column fkCol) := by
            rw [hb.getPathUp_eq, e1, e2, hxcc]; exact hres
          rw [fkStep_of_non_key (by rw [e2, hxcc]; exact hfk) hp
            (fun h => hnk ((hb.keyBearing_iff fkCol).mp h)) (by rw [hyx]; exact hnone)]
          exact hnone
        · rw [fkStep_FK_other y b x.column (Ne.symm hyx)]; exact hnone
      have hfail : ∀ b, (Later b1 b ∧ (b.column x.column).FK = none) →
          (fkStep x b).2 ≠ none := by
        intro b ⟨hb, hnone⟩
        have hp : b.getPathUp x.colCfg.FK x.table = .ok (.column fkCol) := by
          rw [hb.getPathUp_eq, hxcc]; exact hres
        rw [fkStep_of_non_key (by rw [hxcc]; exact hfk) hp
          (fun h => hnk ((hb.keyBearing_iff fkCol).mp h)) hnone]
        simp
      have h0 : Later b1 b1 ∧ (b1.column x.column).FK = none :=
        ⟨Later.later_refl b1, hok.colDone.fk⟩
      have hf := foldVisits_fails fkStep _ _ hstep hx hfail b1 h0
      have hi := foldVisits_induct fkStep _ _ hstep b1 h0
      rw [← pass2_eq_fold h1 hwf hv] at hf hi
      cases h2 : b1.iterDBSchemaTableColumn tr.fk fkStep with
      | mk b2 e2 =>
        rw [h2] at hf hi
        cases e2 with
        | none => exact absurd rfl hf
        | some e =>
          rw [init_of_pass2_error h1 h2]
          refine ⟨by simp, fun i hfc => ?_⟩
          have hcol := hok.findColumn
          rw [hxd, hxs, hxt, hxc] at hcol
          simp only at hfc
          rw [hi.1.findColumn_eq, hcol] at hfc
          cases hfc
          exact hi.2

/-- C4: when the FK path of a column entry is not empty and resolves, from the table of the
entry, to a column that is neither the column of its table's `PK` nor of a member of its
table's `Key`, the build returns an error and the `FK` of that column is nil in the state
it leaves. -/
theorem init_fails_on_non_key_target (env : Env) (mc : ModelContext) (tr : Traversal)
    (c : config.Config) (hwf : c.WellFormed) (hv : tr.Valid c)
    (dn sn tn cn : String) (cc : config.Column) (hc : c.HasColumn dn sn tn cn cc)
    (hfk : cc.FK ≠ "") (t fkCol : Nat)
    (ht : (init env mc tr c {}).1.findTable dn sn tn = some t)
    (hres : (init env mc tr c {}).1.getPathUp cc.FK t = .ok (.column fkCol))
    (hnk : ¬ (init env mc tr c {}).1.KeyBearing fkCol) :
    (init env mc tr c {}).2 ≠ none ∧
    ∀ i, (init env mc tr c {}).1.findColumn dn sn tn cn = some i →
      ((init env mc tr c {}).1.column i).FK = none :=
  init_fails_of_non_key env mc tr c hwf hv dn sn tn cn cc hc hfk t fkCol ht hres hnk

end sqlmodelgen

namespace sqlmodelgen

theorem init_fails_on_non_key_target_witness :
    (init exampleEnv exampleContext nonKeyTraversal nonKeyConfig {}).1.getPathUp "name" 0
      = .ok (.column 1) ∧
    ¬ (init exampleEnv exampleContext nonKeyTraversal nonKeyConfig {}).1.KeyBearing 1 ∧
    (init exampleEnv exampleContext nonKeyTraversal nonKeyConfig {}).2
      = some (.notKey "name" "t") ∧
    ((init exampleEnv exampleContext nonKeyTraversal nonKeyConfig {}).2 ≠ none ∧
      ∀ i, (init exampleEnv exampleContext nonKeyTraversal nonKeyConfig {}).1.findColumn
          "db" "public" "t" "ref" = some i →
        ((init exampleEnv exampleContext nonKeyTraversal nonKeyConfig {}).1.column i).FK = none) :=
  ⟨by rfl, by decide, by decide,
    init_fails_on_non_key_target exampleEnv exampleContext nonKeyTraversal nonKeyConfig
      (by decide) (by decide) "db" "public" "t" "ref" { FK := "name" }
      ⟨_, List.Mem.head _, _, List.Mem.head _, _, List.Mem.head _, by decide⟩
      (by decide) 0 1 (by decide) (by rfl) (by decide)⟩

end sqlmodelgen

namespace sqlmodelgen

theorem splitDots_of_no_dot (l : List Char) (h : l.count '.' = 0) : splitDots l = [l] := by
  induction l with
  | nil => rfl
  | cons c cs ih =>
    have hc : c ≠ '.' := by
      intro hc; subst hc; simp at h
    have hcs : cs.count '.' = 0 := by
      rw [List.count_cons] at h; omega
    simp only [splitDots, if_neg hc, ih hcs]

theorem stringsSplit_of_no_dot (p : String) (h : stringsCount p = 0) :
    stringsSplit p = [p] := by
  unfold stringsSplit; unfold stringsCount at h
  rw [splitDots_of_no_dot _ h]; rfl

/-- A path without a dot names a column of the table itself. -/
theorem getPathUp_of_no_dot (b : configBuilder) (p : String) (t : Nat)
    (h : stringsCount p = 0) :
    b.getPathUp p t =
      match (b.table t).ColumnsByName.lookup p with
      | some c => .ok (.column c)
      | none => .error (.failedToGet p (.table t)) := by
  unfold getPathUp getPathDown
  rw [h, stringsSplit_of_no_dot p h]
  simp only [getPathDownLoop]

/-- A run over visits that succeeds leaves what the visit `x` establishes, when the other
visits keep it. -/
theorem foldVisits_reaches (f : Visitor) (I P : configBuilder → Prop)
    (l : List dbSchemaTableColumn) (hI : ∀ y ∈ l, ∀ b, I b → I (f y b).1)
    (hP : ∀ y ∈ l, ∀ b, I b → P b → P (f y b).1)
    {x : dbSchemaTableColumn} (hx : x ∈ l) (hset : ∀ b, I b → (f x b).2 = none → P (f x b).1)
    (b : configBuilder) (hb : I b) (hok : (foldVisits f l b).2 = none) :
    P (foldVisits f l b).1 := by
  induction l generalizing b with
  | nil => cases hx
  | cons y ys ih =>
    simp only [foldVisits] at hok ⊢
    have h1 := hI y (List.mem_cons_self _ _) b hb
    cases hfy : f y b with
    | mk b1 e =>
      rw [hfy] at h1 hok
      cases e with
      | some e => simp at hok
      | none =>
        simp only at hok ⊢
        rcases List.mem_cons.mp hx with rfl | hx'
        · have hp : P b1 := by
            have := hset b hb (by rw [hfy])
            rwa [hfy] at this
          have := foldVisits_induct f (fun b => I b ∧ P b) ys
            (fun z hz b hb => ⟨hI z (List.mem_cons_of_mem _ hz) b hb.1,
              hP z (List.mem_cons_of_mem _ hz) b hb.1 hb.2⟩) b1 ⟨h1, hp⟩
          exact this.2
        · exact ih (fun z hz => hI z (List.mem_cons_of_mem _ hz))
            (fun z hz => hP z (List.mem_cons_of_mem _ hz)) hx' b1 h1 hok

end sqlmodelgen

namespace sqlmodelgen.configBuilder

/-- The build fails with the error of the first visit of the foreign-key pass that
fails. -/
theorem init_of_reached {env : Env} {mc : ModelContext} {tr : Traversal}
    {c : config.Config} (hwf : c.WellFormed) (hv : tr.Valid c)
    {b1 b b' : configBuilder} {pre post : List dbSchemaTableColumn} {x : dbSchemaTableColumn}
    {e : Err} (h1 : initPass1 env mc c {} = (b1, none))
    (hvis : b1.visitDatabases tr.fk.Databases = pre ++ x :: post)
    (hpre : foldVisits fkStep pre b1 = (b, none))
    (hstep : fkStep x b = (b', some e)) : init env mc tr c {} = (b', some e) := by
  apply init_of_pass2_error h1
  rw [pass2_eq_fold h1 hwf hv, hvis, foldVisits_append, hpre]
  simp only [foldVisits, hstep]

/-- The passes after the foreign-key pass leave the columns alone. -/
theorem init_columns_of_ok {env : Env} {mc : ModelContext} {tr : Traversal}
    {c : config.Config} (h : (init env mc tr c {}).2 = none) :
    ∃ b1 b2, initPass1 env mc c {} = (b1, none) ∧
      b1.iterDBSchemaTableColumn tr.fk fkStep = (b2, none) ∧
      Later b1 b2 ∧ Later b1 (init env mc tr c {}).1 ∧
      ∀ i, (init env mc tr c {}).1.column i = b2.column i := by
  obtain ⟨b1, b2, b3, h1, h2, h3, h4⟩ := init_stages h
  refine ⟨b1, b2, h1, h2, ?_, init_later_of_pass1 tr h1, ?_⟩
  · have := later_iter_fkStep tr.fk b1
    rwa [h2] at this
  · intro i
    have k3 : ∀ i, b3.column i = b2.column i := by
      have := iterDatabases_induct (fun b => ∀ i, b.column i = b2.column i)
        configBuilder.dataStep (fun x b hb i => by rw [dataStep_column]; exact hb i)
        tr.data.Databases b2 (fun _ => rfl)
      unfold iterDBSchemaTableColumn at h3
      rwa [h3] at this
    rw [h4, (later_finishNamespaces mc tr _).2.1, (later_ensureNamespaces mc b3).2.1]
    exact k3 i

/-- The foreign-key step on a path that resolves to a key-bearing column of the graph of
the first pass. -/
theorem fkStep_key_post {b1 b : configBuilder} (hb : Later b1 b) {y : dbSchemaTableColumn}
    {fkCol : Nat} (hfk : y.colCfg.FK ≠ "")
    (hp : b1.getPathUp y.colCfg.FK y.table = .ok (.column fkCol))
    (hk : b1.KeyBearing fkCol) (hv : y.column < b1.columns.length) :
    ∃ id, fkStep y b = (b.setFK y.column id, none) ∧
      ((b.setFK y.column id).column y.column).FK = some id ∧
      (b1.tableID id).Column = fkCol ∧ IsKeyOf b1 id (b1.column fkCol).Table := by
  have hv' : y.column < b.columns.length := by rw [hb.columnsLen]; exact hv
  obtain ⟨id, hs, hc, hkey⟩ := fkStep_of_key hfk (by rw [hb.getPathUp_eq]; exact hp)
    ((hb.keyBearing_iff fkCol).mpr hk) hv'
  refine ⟨id, hs, by rw [setFK_FK, if_pos ⟨rfl, hv'⟩], ?_, ?_⟩
  · rw [← hb.tableID_eq]; exact hc
  · unfold IsKeyOf at hkey ⊢
    rw [hb.tblPK, hb.keyMembers_eq, hb.colTable] at hkey
    exact hkey

end sqlmodelgen.configBuilder

namespace sqlmodelgen.configBuilder

/-- In a build that succeeds, a column whose path resolves to a key-bearing column has
for `FK` a TableID that wraps this column and is a key of its table. -/
theorem init_fk_of_resolved {env : Env} {mc : ModelContext} {tr : Traversal}
    {c : config.Config} (hwf : c.WellFormed) (hv : tr.Valid c)
    {dn sn tn cn : String} {cc : config.Column} (hc : c.HasColumn dn sn tn cn cc)
    (hfk : cc.FK ≠ "") (h : (init env mc tr c {}).2 = none) {t fkCol : Nat}
    (ht : (init env mc tr c {}).1.findTable dn sn tn = some t)
    (hres : (init env mc tr c {}).1.getPathUp cc.FK t = .ok (.column fkCol))
    (hk : (init env mc tr c {}).1.KeyBearing fkCol) :
    ∃ ix id, (init env mc tr c {}).1.findColumn dn sn tn cn = some ix ∧
      ((init env mc tr c {}).1.column ix).FK = some id ∧
      ((init env mc tr c {}).1.tableID id).Column = fkCol ∧
      IsKeyOf (init env mc tr c {}).1 id ((init env mc tr c {}).1.column fkCol).Table := by
  obtain ⟨b1, b2, h1, h2, l12, hl, hcols⟩ := init_columns_of_ok h
  have hroot := initPass1_spec h1
  obtain ⟨x, hx, hxd, hxs, hxt, hxc, hxcc⟩ := hroot.visited hwf hv.1 hc
  have hok := hroot.visitOK hwf hv.1 hx
  have hft := hok.findTable
  rw [hxd, hxs, hxt] at hft
  rw [hl.findTable_eq, hft] at ht
  cases ht
  rw [hl.getPathUp_eq] at hres
  rw [hl.keyBearing_iff] at hk
  have hfc := hok.findColumn
  rw [hxd, hxs, hxt, hxc] at hfc
  have key : ∀ y ∈ b1.visitDatabases tr.fk.Databases, y.column = x.column →
      ∀ b, Later b1 b → ∃ id, ((fkStep y b).1.column x.column).FK = some id ∧
        (b1.tableID id).Column = fkCol ∧ IsKeyOf b1 id (b1.column fkCol).Table := by
    intro y hy hyx b hb
    obtain ⟨e1, e2⟩ := (hroot.visitOK hwf hv.1 hy).same_entry hwf hok hyx
    obtain ⟨id, hs, hf, hc1, hc2⟩ := fkStep_key_post hb (y := y) (by rw [e2, hxcc]; exact hfk)
      (by rw [e1, e2, hxcc]; exact hres) hk (by rw [hyx]; exact hok.colDone.valid)
    refine ⟨id, ?_, hc1, hc2⟩
    rw [hs, ← hyx]; exact hf
  have hP := foldVisits_reaches fkStep (fun b => Later b1 b)
    (fun b => ∃ id, (b.column x.column).FK = some id ∧
        (b1.tableID id).Column = fkCol ∧ IsKeyOf b1 id (b1.column fkCol).Table)
    (b1.visitDatabases tr.fk.Databases)
    (fun y _ b hb => hb.later_trans (later_fkStep y b))
    (fun y hy b hb hp => by
      by_cases hyx : y.column = x.column
      · exact key y hy hyx b hb
      · obtain ⟨id, h1, h2⟩ := hp
        exact ⟨id, by rw [fkStep_FK_other y b x.column (Ne.symm hyx)]; exact h1, h2⟩)
    hx (fun b hb _ => key x hx rfl b hb) b1 (Later.later_refl b1)
    (by rw [← pass2_eq_fold h1 hwf hv, h2])
  rw [← pass2_eq_fold h1 hwf hv, h2] at hP
  obtain ⟨id, hf, hc1, hc2⟩ := hP
  refine ⟨x.column, id, ?_, ?_, ?_, ?_⟩
  · rw [hl.findColumn_eq]; exact hfc
  · rw [hcols]; exact hf
  · rw [hl.tableID_eq]; exact hc1
  · rw [hl.colTable]; exact hc2.later_isKey hl

/-- The state in which the foreign-key pass comes to a column entry, against the graph of
the first pass. -/
theorem reachesFK_state {env : Env} {mc : ModelContext} {tr : Traversal}
    {c : config.Config} (hwf : c.WellFormed) (hv : tr.Valid c)
    {dn sn tn cn : String} {cc : config.Column} (hc : c.HasColumn dn sn tn cn cc)
    {b : configBuilder} (hr : ReachesFK env mc tr c dn sn tn cn b) :
    ∃ b1 pre x post, initPass1 env mc c {} = (b1, none) ∧
      b1.visitDatabases tr.fk.Databases = pre ++ x :: post ∧
      foldVisits fkStep pre b1 = (b, none) ∧ Later b1 b ∧ VisitOK env b1 c x ∧
      (∀ y ∈ pre, VisitOK env b1 c y) ∧
      x.dbName = dn ∧ x.schName = sn ∧ x.tblName = tn ∧ x.colName = cn ∧ x.colCfg = cc := by
  obtain ⟨b1, pre, x, post, h1, hvis, hxd, hxs, hxt, hxc, hpre⟩ := hr
  have hroot := initPass1_spec h1
  have hx : x ∈ b1.visitDatabases tr.fk.Databases := by rw [hvis]; simp
  have hok := hroot.visitOK hwf hv.1 hx
  have hl : Later b1 b := by
    have := foldVisits_later fkStep later_fkStep pre b1
    rwa [hpre] at this
  have hcc : x.colCfg = cc := by
    have e := hok.entry
    rw [hxd, hxs, hxt, hxc] at e
    exact hasColumn_unique hwf e hc
  exact ⟨b1, pre, x, post, h1, hvis, hpre, hl, hok,
    fun y hy => hroot.visitOK hwf hv.1 (by rw [hvis]; simp [hy]), hxd, hxs, hxt, hxc, hcc⟩

end sqlmodelgen.configBuilder

namespace sqlmodelgen.configBuilder

/-- A visit of the foreign-key pass leaves nil the `FK` of a column whose path resolves to a
column that bears no key. -/
theorem fkStep_keeps_unlinked {env : Env} {b1 : configBuilder} {c : config.Config}
    (hwf : c.WellFormed) {x y : dbSchemaTableColumn} (hx : VisitOK env b1 c x)
    (hy : VisitOK env b1 c y) {fkCol : Nat} (hfk : x.colCfg.FK ≠ "")
    (hres : b1.getPathUp x.colCfg.FK x.table = .ok (.column fkCol))
    (hnk : ¬ b1.KeyBearing fkCol) (b : configBuilder)
    (hb : Later b1 b ∧ (b.column x.column).FK = none) :
    Later b1 (fkStep y b).1 ∧ ((fkStep y b).1.column x.column).FK = none := by
  obtain ⟨hb, hnone⟩ := hb
  refine ⟨hb.later_trans (later_fkStep y b), ?_⟩
  by_cases hyx : y.column = x.column
  · obtain ⟨e1, e2⟩ := hy.same_entry hwf hx hyx
    have hp : b.getPathUp y.colCfg.FK y.table = .ok (.column fkCol) := by
      rw [hb.getPathUp_eq, e1, e2]; exact hres
    rw [fkStep_of_non_key (by rw [e2]; exact hfk) hp
      (fun h => hnk ((hb.keyBearing_iff fkCol).mp h)) (by rw [hyx]; exact hnone)]
    exact hnone
  · rw [fkStep_FK_other y b x.column (Ne.symm hyx)]; exact hnone

/-- A build whose foreign-key pass comes to a column entry whose path resolves to a column
that bears no key fails there, with the error that names this column and its table. -/
theorem init_notKey_of_reached {env : Env} {mc : ModelContext} {tr : Traversal}
    {c : config.Config} (hwf : c.WellFormed) (hv : tr.Valid c)
    {dn sn tn cn : String} {cc : config.Column} (hc : c.HasColumn dn sn tn cn cc)
    (hfk : cc.FK ≠ "") {t fkCol : Nat}
    (ht : (init env mc tr c {}).1.findTable dn sn tn = some t)
    (hres : (init env mc tr c {}).1.getPathUp cc.FK t = .ok (.column fkCol))
    (hnk : ¬ (init env mc tr c {}).1.KeyBearing fkCol)
    {b : configBuilder} (hr : ReachesFK env mc tr c dn sn tn cn b) :
    init env mc tr c {} = (b, some (.notKey
      ((init env mc tr c {}).1.column fkCol).Names.RawName
      ((init env mc tr c {}).1.table
        ((init env mc tr c {}).1.column fkCol).Table).Names.RawName)) := by
  obtain ⟨b1, pre, x, post, h1, hvis, hpre, hlb, hok, hpreOK, hxd, hxs, hxt, hxc, hxcc⟩ :=
    reachesFK_state hwf hv hc hr
  have hl := init_later_of_pass1 tr h1
  have hft := hok.findTable
  rw [hxd, hxs, hxt] at hft
  rw [hl.findTable_eq, hft] at ht
  cases ht
  rw [hl.getPathUp_eq, ← hxcc] at hres
  rw [hl.keyBearing_iff] at hnk
  rw [← hxcc] at hfk
  have hi := foldVisits_induct fkStep
    (fun b => Later b1 b ∧ (b.column x.column).FK = none) pre
    (fun y hy b hb => fkStep_keeps_unlinked hwf hok (hpreOK y hy) hfk hres hnk b hb)
    b1 ⟨Later.later_refl b1, hok.colDone.fk⟩
  rw [hpre] at hi
  have hp : b.getPathUp x.colCfg.FK x.table = .ok (.column fkCol) := by
    rw [hlb.getPathUp_eq]; exact hres
  have hstep := fkStep_of_non_key hfk hp
    (fun h => hnk ((hlb.keyBearing_iff fkCol).mp h)) hi.2
  have := init_of_reached hwf hv h1 hvis hpre hstep
  rw [hl.colNames, hl.colTable, hl.tblNames, ← hlb.colNames, ← hlb.colTable, ← hlb.tblNames]
  exact this

/-- The column that a by-name lookup of a table finds bears the name looked up and belongs
to the table. -/
theorem VisitOK.lookup_column {env : Env} {b : configBuilder} {c : config.Config}
    {x : dbSchemaTableColumn} (hx : VisitOK env b c x) {n : String} {col : Nat}
    (h : (b.table x.table).ColumnsByName.lookup n = some col) :
    (b.column col).Names.RawName = n ∧ (b.column col).Table = x.table ∧
      (b.table x.table).Names.RawName = x.tblName := by
  obtain ⟨tc, _, _, _, htd⟩ := hx.tblDone
  obtain ⟨hmem, hname⟩ := htd.byName n col h
  obtain ⟨_, _, hcd⟩ := forall₂_mem_left htd.cols hmem
  exact ⟨hname, hcd.owner, htd.name⟩

end sqlmodelgen.configBuilder

namespace sqlmodelgen

/-- C8, as amended: let a column entry `cn` of table `tn` have for FK path the single
segment `cc.FK` (not empty, no dot), and let the table have a column `col` of that name.
If `col` is the column of the table's `PK` or of a member of its `Key`, then a build that
succeeds leaves in the `FK` of the column a TableID that wraps `col` and is the `PK`, or a
member of the `Key`, of the table. If `col` bears no key, the build fails, and it fails
with the error "not key within primary table" for `cc.FK` and `tn` whenever the
foreign-key pass comes to the entry, no earlier step of the build having failed. -/
theorem init_single_segment_fk (env : Env) (mc : ModelContext) (tr : Traversal)
    (c : config.Config) (hwf : c.WellFormed) (hv : tr.Valid c)
    (dn sn tn cn : String) (cc : config.Column) (hc : c.HasColumn dn sn tn cn cc)
    (hfk : cc.FK ≠ "") (hdots : stringsCount cc.FK = 0) (t col : Nat)
    (ht : (init env mc tr c {}).1.findTable dn sn tn = some t)
    (hcol : ((init env mc tr c {}).1.table t).ColumnsByName.lookup cc.FK = some col) :
    ((init env mc tr c {}).1.KeyBearing col → (init env mc tr c {}).2 = none →
      ∃ ix id, (init env mc tr c {}).1.findColumn dn sn tn cn = some ix ∧
        ((init env mc tr c {}).1.column ix).FK = some id ∧
        ((init env mc tr c {}).1.tableID id).Column = col ∧
        IsKeyOf (init env mc tr c {}).1 id t) ∧
    (¬ (init env mc tr c {}).1.KeyBearing col →
      (init env mc tr c {}).2 ≠ none ∧
      ∀ b, ReachesFK env mc tr c dn sn tn cn b →
        init env mc tr c {} = (b, some (.notKey cc.FK tn))) := by
  have hres : (init env mc tr c {}).1.getPathUp cc.FK t = .ok (.column col) := by
    rw [getPathUp_of_no_dot _ _ _ hdots, hcol]
  have names : ∀ b1, initPass1 env mc c {} = (b1, none) →
      ((init env mc tr c {}).1.column col).Names.RawName = cc.FK ∧
      ((init env mc tr c {}).1.column col).Table = t ∧
      ((init env mc tr c {}).1.table t).Names.RawName = tn := by
    intro b1 h1
    have hl := init_later_of_pass1 tr h1
    have hroot := initPass1_spec h1
    obtain ⟨x, hx, hxd, hxs, hxt, hxc, hxcc⟩ := hroot.visited hwf hv.1 hc
    have hok := hroot.visitOK hwf hv.1 hx
    have hft := hok.findTable
    rw [hxd, hxs, hxt] at hft
    rw [hl.findTable_eq, hft] at ht
    cases ht
    rw [hl.tblByName] at hcol
    obtain ⟨n1, n2, n3⟩ := hok.lookup_column hcol
    rw [hl.colNames, hl.colTable, hl.tblNames, ← hxt]
    exact ⟨n1, n2, n3⟩
  constructor
  · intro hk h
    obtain ⟨b1, h1, _⟩ := init_later h
    obtain ⟨ix, id, h2, h3, h4, h5⟩ := init_fk_of_resolved hwf hv hc hfk h ht hres hk
    rw [(names b1 h1).2.1] at h5
    exact ⟨ix, id, h2, h3, h4, h5⟩
  · intro hnk
    refine ⟨(init_fails_of_non_key env mc tr c hwf hv dn sn tn cn cc hc hfk t col ht hres
      hnk).1, fun b hr => ?_⟩
    have h := init_notKey_of_reached hwf hv hc hfk ht hres hnk hr
    obtain ⟨b1, _, _, _, h1, _⟩ := hr
    obtain ⟨n1, n2, n3⟩ := names b1 h1
    rw [n1, n2, n3] at h
    exact h

end sqlmodelgen

namespace sqlmodelgen

/-- The amended C8 at work: in `selfRefConfig` the column `parent` gets the key of its own
table, and the build of `refFirstConfig` fails at `ref`, the first column the foreign-key
pass comes to, with the error for `name` and `t`. -/
theorem init_single_segment_fk_witness :
    (∃ ix id,
      (init exampleEnv exampleContext (Traversal.ofConfig selfRefConfig) selfRefConfig {}).1.findColumn
        "db" "public" "t" "parent" = some ix ∧
      ((init exampleEnv exampleContext (Traversal.ofConfig selfRefConfig) selfRefConfig {}).1.column
        ix).FK = some id ∧
      ((init exampleEnv exampleContext (Traversal.ofConfig selfRefConfig) selfRefConfig {}).1.tableID
        id).Column = 1 ∧
      IsKeyOf (init exampleEnv exampleContext (Traversal.ofConfig selfRefConfig) selfRefConfig {}).1
        id 0) ∧
    init exampleEnv exampleContext (Traversal.ofConfig refFirstConfig) refFirstConfig {} =
      ((initPass1 exampleEnv exampleContext refFirstConfig {}).1, some (.notKey "name" "t")) :=
  ⟨(init_single_segment_fk exampleEnv exampleContext (Traversal.ofConfig selfRefConfig)
      selfRefConfig (by decide) (by decide) "db" "public" "t" "parent" { FK := "id" }
      ⟨_, List.Mem.head _, _, List.Mem.head _, _, List.Mem.head _, by decide⟩
      (by decide) (by decide) 0 1 (by decide) (by decide)).1 (by decide) (by decide),
   ((init_single_segment_fk exampleEnv exampleContext (Traversal.ofConfig refFirstConfig)
      refFirstConfig (by decide) (by decide) "db" "public" "t" "ref" { FK := "name" }
      ⟨_, List.Mem.head _, _, List.Mem.head _, _, List.Mem.head _, by decide⟩
      (by decide) (by decide) 0 2 (by decide) (by decide)).2 (by decide)).2 _
      ⟨_, [], _, _, Prod.ext rfl (by decide), rfl, rfl, rfl, rfl, rfl, rfl⟩⟩

/-- C8 as stated fails on `preemptedConfig`, where the foreign-key pass comes first to the
column `z`, whose path `zzz` names nothing: column `id` bears the key of table `t` and yet
the `FK` of `a`, whose path is `id`, is left nil; column `name` bears no key and yet the
error of the build is not the one for `ref`, whose path is `name`, but the one for `z`. -/
theorem init_single_segment_fk_preempted :
    (init exampleEnv exampleContext (Traversal.ofConfig preemptedConfig) preemptedConfig {}).1.findTable
      "db" "public" "t" = some 0 ∧
    ((init exampleEnv exampleContext (Traversal.ofConfig preemptedConfig) preemptedConfig {}).1.table
      0).ColumnsByName.lookup "id" = some 1 ∧
    (init exampleEnv exampleContext (Traversal.ofConfig preemptedConfig) preemptedConfig {}).1.KeyBearing
      1 ∧
    (init exampleEnv exampleContext (Traversal.ofConfig preemptedConfig) preemptedConfig {}).1.findColumn
      "db" "public" "t" "a" = some 3 ∧
    ((init exampleEnv exampleContext (Traversal.ofConfig preemptedConfig) preemptedConfig {}).1.column
      3).FK = none ∧
    ((init exampleEnv exampleContext (Traversal.ofConfig preemptedConfig) preemptedConfig {}).1.table
      0).ColumnsByName.lookup "name" = some 2 ∧
    ¬ (init exampleEnv exampleContext (Traversal.ofConfig preemptedConfig) preemptedConfig {}).1.KeyBearing
      2 ∧
    (init exampleEnv exampleContext (Traversal.ofConfig preemptedConfig) preemptedConfig {}).2 =
      some (.fkInit "db" "public" "t" "z" (.failedToGet "zzz" (.table 0))) ∧
    (init exampleEnv exampleContext (Traversal.ofConfig preemptedConfig) preemptedConfig {}).2 ≠
      some (.notKey "name" "t") := by
  refine ⟨by decide, by decide, by decide, by decide, by decide, by decide, by decide,
    by decide, by decide⟩

end sqlmodelgen

namespace sqlmodelgen.configBuilder

/-- The resolution of the path `schema2.tableB.id`: three lookups by name, from the
database of the table down. -/
theorem getPathUp_schema2_tableB_id (b : configBuilder) (t : Nat) :
    b.getPathUp "schema2.tableB.id" t =
      match (b.database (b.schema (b.table t).Schema).Database).SchemasByName.lookup
          "schema2" with
      | none => .error (.failedToGet "schema2"
          (.database (b.schema (b.table t).Schema).Database))
      | some s =>
        match (b.schema s).TablesByName.lookup "tableB" with
        | none => .error (.failedToGet "tableB" (.schema s))
        | some tb =>
          match (b.table tb).ColumnsByName.lookup "id" with
          | none => .error (.failedToGet "id" (.table tb))
          | some c => .ok (.column c) := by
  have h2 : stringsCount "schema2.tableB.id" = 2 := by decide
  have hs : stringsSplit "schema2.tableB.id" = ["schema2", "tableB", "id"] := by decide
  unfold getPathUp getPathDown
  rw [h2, hs]
  simp only [getPathDownLoop]
  cases (b.database (b.schema (b.table t).Schema).Database).SchemasByName.lookup "schema2" with
  | none => rfl
  | some s =>
    simp only
    cases (b.schema s).TablesByName.lookup "tableB" with
    | none => rfl
    | some tb =>
      simp only
      cases (b.table tb).ColumnsByName.lookup "id" <;> rfl

/-- A build in which the path of a column entry does not resolve fails, and it fails with
the error of the resolution, wrapped for that column, when the foreign-key pass comes to
the entry. -/
theorem init_fails_of_path_error {env : Env} {mc : ModelContext} {tr : Traversal}
    {c : config.Config} (hwf : c.WellFormed) (hv : tr.Valid c)
    {dn sn tn cn : String} {cc : config.Column} (hc : c.HasColumn dn sn tn cn cc)
    (hfk : cc.FK ≠ "") {t : Nat} {e : Err}
    (ht : (init env mc tr c {}).1.findTable dn sn tn = some t)
    (hres : (init env mc tr c {}).1.getPathUp cc.FK t = .error e) :
    (init env mc tr c {}).2 ≠ none ∧
    ∀ b, ReachesFK env mc tr c dn sn tn cn b →
      init env mc tr c {} = (b, some (.fkInit dn sn tn cn e)) := by
  have key : ∀ b1, initPass1 env mc c {} = (b1, none) →
      ∀ x, VisitOK env b1 c x → x.dbName = dn → x.schName = sn → x.tblName = tn →
        x.colCfg = cc → ∀ b, Later b1 b →
        x.colCfg.FK ≠ "" ∧ b.getPathUp x.colCfg.FK x.table = .error e := by
    intro b1 h1 x hok hxd hxs hxt hxcc b hb
    have hl := init_later_of_pass1 tr h1
    have hft := hok.findTable
    rw [hxd, hxs, hxt] at hft
    rw [hl.findTable_eq, hft] at ht
    cases ht
    rw [hl.getPathUp_eq] at hres
    rw [hxcc, hb.getPathUp_eq]
    exact ⟨hfk, hres⟩
  constructor
  · refine init_fails_of_entry hwf hv hc (fun b1 h1 x hx hxd hxs hxt _ hxcc b hb => ?_)
    obtain ⟨k1, k2⟩ := key b1 h1 x ((initPass1_spec h1).visitOK hwf hv.1 hx) hxd hxs hxt hxcc
      b hb
    rw [fkStep_of_path_error k1 k2]
    simp
  · intro b hr
    obtain ⟨b1, pre, x, post, h1, hvis, hpre, hlb, hok, _, hxd, hxs, hxt, hxc, hxcc⟩ :=
      reachesFK_state hwf hv hc hr
    obtain ⟨k1, k2⟩ := key b1 h1 x hok hxd hxs hxt hxcc b hlb
    have := init_of_reached hwf hv h1 hvis hpre (fkStep_of_path_error k1 k2)
    rw [hxd, hxs, hxt, hxc] at this
    exact this

/-- The table that the by-name lookups find from the database of a visited column is a
table of the graph, and the column found in it by name is one of its columns. -/
theorem VisitOK.lookup_cross {env : Env} {b : configBuilder} {c : config.Config}
    {x : dbSchemaTableColumn} (hx : VisitOK env b c x) {n2 nt nc : String} {s2 tb col : Nat}
    (h2 : (b.database (b.schema (b.table x.table).Schema).Database).SchemasByName.lookup n2
      = some s2)
    (ht : (b.schema s2).TablesByName.lookup nt = some tb)
    (hc : (b.table tb).ColumnsByName.lookup nc = some col) :
    (b.column col).Table = tb ∧ KeyOK b tb := by
  obtain ⟨tc, _, _, _, htd⟩ := hx.tblDone
  obtain ⟨sc, hsd⟩ := hx.schDone
  obtain ⟨dc, _, hdd⟩ := hx.dbDone
  rw [htd.owner, hsd.owner] at h2
  obtain ⟨hs2, _⟩ := hdd.byName n2 s2 h2
  obtain ⟨_, _, hs2d⟩ := forall₂_mem_left hdd.schemas hs2
  obtain ⟨htb, _⟩ := hs2d.byName nt tb ht
  obtain ⟨_, _, htbd⟩ := forall₂_mem_left hs2d.tables htb
  obtain ⟨hcol, _⟩ := htbd.byName nc col hc
  obtain ⟨_, _, hcd⟩ := forall₂_mem_left htbd.cols hcol
  exact ⟨hcd.owner, htbd.keyOK⟩

end sqlmodelgen.configBuilder

namespace sqlmodelgen

/-- C9, as amended: let a column entry `cn` of table `tn` have the FK path
`schema2.tableB.id`, and let the database of the table have a schema `schema2`. If
`schema2` has a table `tableB` whose `PK` wraps its column `id`, a build that succeeds
leaves `tableB.PK` in the `FK` of the column. If `schema2` has no table `tableB`, or
`tableB` has no column `id`, the build fails, and it fails with the error that names the
missing segment (`tableB`, `id`) whenever the foreign-key pass comes to the entry, no
earlier step of the build having failed. -/
theorem init_cross_schema_fk (env : Env) (mc : ModelContext) (tr : Traversal)
    (c : config.Config) (hwf : c.WellFormed) (hv : tr.Valid c)
    (dn sn tn cn : String) (cc : config.Column) (hc : c.HasColumn dn sn tn cn cc)
    (hfk : cc.FK = "schema2.tableB.id") (t s2 : Nat)
    (ht : (init env mc tr c {}).1.findTable dn sn tn = some t)
    (hs2 : ((init env mc tr c {}).1.database ((init env mc tr c {}).1.schema
      ((init env mc tr c {}).1.table t).Schema).Database).SchemasByName.lookup "schema2"
        = some s2) :
    (∀ tB cid pk,
      ((init env mc tr c {}).1.schema s2).TablesByName.lookup "tableB" = some tB →
      ((init env mc tr c {}).1.table tB).ColumnsByName.lookup "id" = some cid →
      ((init env mc tr c {}).1.table tB).PK = some pk →
      ((init env mc tr c {}).1.tableID pk).Column = cid →
      (init env mc tr c {}).2 = none →
      ∃ ix, (init env mc tr c {}).1.findColumn dn sn tn cn = some ix ∧
        ((init env mc tr c {}).1.column ix).FK = ((init env mc tr c {}).1.table tB).PK) ∧
    (((init env mc tr c {}).1.schema s2).TablesByName.lookup "tableB" = none →
      (init env mc tr c {}).2 ≠ none ∧
      ∀ b, ReachesFK env mc tr c dn sn tn cn b →
        init env mc tr c {} =
          (b, some (.fkInit dn sn tn cn (.failedToGet "tableB" (.schema s2))))) ∧
    (∀ tB, ((init env mc tr c {}).1.schema s2).TablesByName.lookup "tableB" = some tB →
      ((init env mc tr c {}).1.table tB).ColumnsByName.lookup "id" = none →
      (init env mc tr c {}).2 ≠ none ∧
      ∀ b, ReachesFK env mc tr c dn sn tn cn b →
        init env mc tr c {} =
          (b, some (.fkInit dn sn tn cn (.failedToGet "id" (.table tB))))) := by
  have hne : cc.FK ≠ "" := by rw [hfk]; decide
  refine ⟨fun tB cid pk htB hcid hpk hwrap h => ?_, fun htB => ?_, fun tB htB hcid => ?_⟩
  · have hres : (init env mc tr c {}).1.getPathUp cc.FK t = .ok (.column cid) := by
      rw [hfk, getPathUp_schema2_tableB_id, hs2]
      simp only [htB, hcid]
    obtain ⟨b1, h1, hl⟩ := init_later h
    have hroot := initPass1_spec h1
    obtain ⟨x, hx, hxd, hxs, hxt, hxc, hxcc⟩ := hroot.visited hwf hv.1 hc
    have hok := hroot.visitOK hwf hv.1 hx
    have hft := hok.findTable
    rw [hxd, hxs, hxt] at hft
    have ht1 := ht
    rw [hl.findTable_eq, hft] at ht1
    cases ht1
    have hs2' := hs2
    have htB' := htB
    have hcid' := hcid
    simp only [configBuilder.database, configBuilder.schema, hl.databases, hl.schemas,
      hl.tblSchema, hl.tblByName] at hs2' htB' hcid'
    obtain ⟨hown, hkey⟩ := hok.lookup_cross hs2' htB' hcid'
    have hkb : (init env mc tr c {}).1.KeyBearing cid := by
      refine Or.inl ⟨pk, ?_, hwrap⟩
      rw [hl.colTable, hown]; exact hpk
    obtain ⟨ix, id, h2, h3, _, h5⟩ := init_fk_of_resolved hwf hv hc hne h ht hres hkb
    refine ⟨ix, h2, ?_⟩
    rw [hl.colTable, hown] at h5
    rw [h3]
    rcases h5 with h5 | h5
    · exact h5.symm
    · exfalso
      have hk := hkey.later_key hl
      rcases hk.excl with h6 | h6
      · rw [hpk] at h6; cases h6
      · unfold configBuilder.keyMembers at h5
        rw [h6] at h5
        cases h5
  · refine init_fails_of_path_error hwf hv hc hne ht ?_
    rw [hfk, getPathUp_schema2_tableB_id, hs2]
    simp only [htB]
  · refine init_fails_of_path_error hwf hv hc hne ht ?_
    rw [hfk, getPathUp_schema2_tableB_id, hs2]
    simp only [htB, hcid]

end sqlmodelgen

namespace sqlmodelgen

/-- The amended C9 at work: in `crossSchemaConfig` the column `b_id` gets the `PK` of
`tableB`; the builds of `missingTableConfig` and `missingColumnConfig` fail at `b_id`, the
first column the foreign-key pass comes to, with the error that names `tableB` and `id`. -/
theorem init_cross_schema_fk_witness :
    (∃ ix,
      (init exampleEnv exampleContext (Traversal.ofConfig crossSchemaConfig)
        crossSchemaConfig {}).1.findColumn "db" "schema1" "tableA" "b_id" = some ix ∧
      ((init exampleEnv exampleContext (Traversal.ofConfig crossSchemaConfig)
        crossSchemaConfig {}).1.column ix).FK =
      ((init exampleEnv exampleContext (Traversal.ofConfig crossSchemaConfig)
        crossSchemaConfig {}).1.table 1).PK) ∧
    init exampleEnv exampleContext (Traversal.ofConfig missingTableConfig)
        missingTableConfig {} =
      ((initPass1 exampleEnv exampleContext missingTableConfig {}).1,
        some (.fkInit "db" "schema1" "tableA" "b_id" (.failedToGet "tableB" (.schema 1)))) ∧
    init exampleEnv exampleContext (Traversal.ofConfig missingColumnConfig)
        missingColumnConfig {} =
      ((initPass1 exampleEnv exampleContext missingColumnConfig {}).1,
        some (.fkInit "db" "schema1" "tableA" "b_id" (.failedToGet "id" (.table 1)))) :=
  ⟨(init_cross_schema_fk exampleEnv exampleContext (Traversal.ofConfig crossSchemaConfig)
      crossSchemaConfig (by decide) (by decide) "db" "schema1" "tableA" "b_id"
      { FK := "schema2.tableB.id" }
      ⟨_, List.Mem.head _, _, List.Mem.head _, _, List.Mem.head _, by decide⟩
      rfl 0 1 (by decide) (by decide)).1 1 2 1 (by decide) (by decide) (by decide)
      (by decide) (by decide),
   ((init_cross_schema_fk exampleEnv exampleContext (Traversal.ofConfig missingTableConfig)
      missingTableConfig (by decide) (by decide) "db" "schema1" "tableA" "b_id"
      { FK := "schema2.tableB.id" }
      ⟨_, List.Mem.head _, _, List.Mem.head _, _, List.Mem.head _, by decide⟩
      rfl 0 1 (by decide) (by decide)).2.1 (by decide)).2 _
      ⟨_, [], _, _, Prod.ext rfl (by decide), rfl, rfl, rfl, rfl, rfl, rfl⟩,
   ((init_cross_schema_fk exampleEnv exampleContext (Traversal.ofConfig missingColumnConfig)
      missingColumnConfig (by decide) (by decide) "db" "schema1" "tableA" "b_id"
      { FK := "schema2.tableB.id" }
      ⟨_, List.Mem.head _, _, List.Mem.head _, _, List.Mem.head _, by decide⟩
      rfl 0 1 (by decide) (by decide)).2.2 1 (by decide) (by decide)).2 _
      ⟨_, [], _, _, Prod.ext rfl (by decide), rfl, rfl, rfl, rfl, rfl, rfl⟩⟩

/-- C9 as stated fails where the foreign-key pass comes first to the column `z`, whose path
`zzz` names nothing. In `preemptedLinkConfig`, `schema2` has the table `tableB` with the
`PK` on `id` and yet the `FK` of `b_id` is left nil; in `preemptedCrossConfig`, `schema2`
has no table `tableB` and yet the error of the build is the one for `z`, which does not
name `tableB`. -/
theorem init_cross_schema_fk_preempted :
    ((init exampleEnv exampleContext (Traversal.ofConfig preemptedLinkConfig)
        preemptedLinkConfig {}).1.findColumn "db" "schema1" "tableA" "b_id" = some 1 ∧
      ((init exampleEnv exampleContext (Traversal.ofConfig preemptedLinkConfig)
        preemptedLinkConfig {}).1.schema 1).TablesByName.lookup "tableB" = some 1 ∧
      ((init exampleEnv exampleContext (Traversal.ofConfig preemptedLinkConfig)
        preemptedLinkConfig {}).1.table 1).ColumnsByName.lookup "id" = some 3 ∧
      ((init exampleEnv exampleContext (Traversal.ofConfig preemptedLinkConfig)
        preemptedLinkConfig {}).1.table 1).PK = some 1 ∧
      ((init exampleEnv exampleContext (Traversal.ofConfig preemptedLinkConfig)
        preemptedLinkConfig {}).1.tableID 1).Column = 3 ∧
      ((init exampleEnv exampleContext (Traversal.ofConfig preemptedLinkConfig)
        preemptedLinkConfig {}).1.column 1).FK = none) ∧
    ((init exampleEnv exampleContext (Traversal.ofConfig preemptedCrossConfig)
        preemptedCrossConfig {}).1.findTable "db" "schema1" "tableA" = some 0 ∧
      ((init exampleEnv exampleContext (Traversal.ofConfig preemptedCrossConfig)
        preemptedCrossConfig {}).1.database 0).SchemasByName.lookup "schema2" = some 1 ∧
      ((init exampleEnv exampleContext (Traversal.ofConfig preemptedCrossConfig)
        preemptedCrossConfig {}).1.schema 1).TablesByName.lookup "tableB" = none ∧
      (init exampleEnv exampleContext (Traversal.ofConfig preemptedCrossConfig)
        preemptedCrossConfig {}).2 =
        some (.fkInit "db" "schema1" "tableA" "z" (.failedToGet "zzz" (.table 0)))) := by
  refine ⟨⟨by decide, by decide, by decide, by decide, by decide, by decide⟩,
    ⟨by decide, by decide, by decide, by decide⟩⟩

end sqlmodelgen

namespace sqlmodelgen.configBuilder

theorem isDataColumn_congr {b b' : configBuilder} (hl : Later b b')
    (hc : ∀ i, (b'.column i).FK = (b.column i).FK) (t i : Nat) :
    b'.IsDataColumn t i ↔ b.IsDataColumn t i := by
  unfold IsDataColumn
  rw [hl.tblPK, hl.keyMembers_eq, hc]
  simp only [hl.tableID_eq]

/-- The test on `x.table.Key` in the data-column pass. -/
theorem inKey_iff (b : configBuilder) (t i : Nat) :
    (match (b.table t).Key with
      | some k => (b.tableKey k).IDs.any (fun id => (b.tableID id).Column = i)
      | none => false) = true ↔
    i ∈ (b.keyMembers t).map (fun id => (b.tableID id).Column) := by
  unfold keyMembers
  cases (b.table t).Key with
  | none => simp
  | some k => simp [List.any_eq_true]

/-- The PK flag of a column of a table, in terms of the key of the table. -/
theorem pk_flag_iff {b : configBuilder} {t i : Nat} (hk : KeyOK b t)
    (hi : i ∈ (b.table t).Columns) :
    (b.column i).PK = true ↔
      (b.table t).PK.map (fun pk => (b.tableID pk).Column) = some i ∨
      i ∈ (b.keyMembers t).map (fun id => (b.tableID id).Column) := by
  have h1 : (b.column i).PK = true ↔ i ∈ b.pkColumns t := by
    unfold pkColumns; simp [List.mem_filter, hi]
  rw [h1, ← hk.wraps]
  unfold tableIDs
  cases (b.table t).PK with
  | none => simp
  | some pk => simp [eq_comm]

/-- The callback of the data-column pass appends the column when it is a data column of
its table, and does nothing else. -/
theorem dataStep_eq {b : configBuilder} {x : dbSchemaTableColumn} (hk : KeyOK b x.table)
    (hx : x.column ∈ (b.table x.table).Columns) :
    dataStep x b =
      if b.IsDataColumn x.table x.column then
        (b.setTable x.table { b.table x.table with
          DataColumns := (b.table x.table).DataColumns ++ [x.column] }, none)
      else (b, none) := by
  have hpk := pk_flag_iff hk hx
  have hin := inKey_iff b x.table x.column
  unfold dataStep IsDataColumn
  by_cases hA : (b.column x.column).PK = true
  · rw [if_pos hA, if_neg]
    rintro ⟨h1, h2, _⟩
    rcases hpk.mp hA with h | h
    · exact h1 h
    · exact h2 h
  · rw [if_neg hA]
    have hA' := (not_congr hpk).mp hA
    push_neg at hA'
    by_cases hB : (b.column x.column).FK = none
    · rw [if_neg (not_not.mpr hB)]
      simp only
      by_cases hC : x.column ∈ (b.keyMembers x.table).map (fun id => (b.tableID id).Column)
      · exact absurd hC hA'.2
      · exact (if_neg (fun h => hC (hin.mp h))).trans (if_pos ⟨hA'.1, hC, hB⟩).symm
    · rw [if_pos hB, if_neg (fun h => hB h.2.2)]

end sqlmodelgen.configBuilder

namespace sqlmodelgen.configBuilder

/-- The data-column pass, as a run over visits: it does not fail, and it appends to the
`DataColumns` of each table the data columns among the columns it visits in that table, in
the order of the visits. -/
theorem foldVisits_dataStep (l : List dbSchemaTableColumn) (b : configBuilder)
    (hl : ∀ x ∈ l, x.table < b.tables.length ∧ KeyOK b x.table ∧
      x.column ∈ (b.table x.table).Columns) :
    (foldVisits dataStep l b).2 = none ∧
    ∀ t, ((foldVisits dataStep l b).1.table t).DataColumns =
      (b.table t).DataColumns ++
        (((l.filter (fun x => decide (x.table = t))).map (fun x => x.column)).filter
          (fun i => decide (b.IsDataColumn t i))) := by
  induction l generalizing b with
  | nil => exact ⟨rfl, fun t => by simp [foldVisits]⟩
  | cons x l ih =>
    obtain ⟨hv, hk, hx⟩ := hl x (List.mem_cons_self _ _)
    have hlater := later_dataStep x b
    have hcol := dataStep_column x b
    have hstep := dataStep_eq hk hx
    cases hr : dataStep x b with
    | mk b' e =>
      rw [hr] at hlater hcol hstep
      simp only at hlater hcol
      have he : e = none := by
        split at hstep
        · exact (Prod.mk.inj hstep).2
        · exact (Prod.mk.inj hstep).2
      subst he
      have hl' : ∀ y ∈ l, y.table < b'.tables.length ∧ KeyOK b' y.table ∧
          y.column ∈ (b'.table y.table).Columns := by
        intro y hy
        obtain ⟨h1, h2, h3⟩ := hl y (List.mem_cons_of_mem _ hy)
        exact ⟨by rw [hlater.tablesLen]; exact h1, h2.later_key hlater,
          by rw [hlater.tblColumns]; exact h3⟩
      obtain ⟨ih1, ih2⟩ := ih b' hl'
      simp only [foldVisits, hr]
      refine ⟨ih1, fun t => ?_⟩
      rw [ih2 t]
      have hfilt : (fun i => decide (b'.IsDataColumn t i)) =
          (fun i => decide (b.IsDataColumn t i)) := by
        funext i
        exact decide_eq_decide.mpr (isDataColumn_congr hlater (fun i => by rw [hcol]) t i)
      rw [hfilt]
      have hdc : (b'.table t).DataColumns = (b.table t).DataColumns ++
          (if x.table = t ∧ b.IsDataColumn t x.column then [x.column] else []) := by
        by_cases hD : b.IsDataColumn x.table x.column
        · rw [if_pos hD] at hstep
          have hb' := (Prod.mk.inj hstep).1
          rw [hb', table_setTable]
          by_cases hxt : t = x.table
          · subst hxt
            rw [if_pos ⟨rfl, hv⟩, if_pos ⟨rfl, hD⟩]
          · rw [if_neg (fun h => hxt h.1), if_neg (fun h => hxt h.1.symm)]
            simp
        · rw [if_neg hD] at hstep
          have hb' := (Prod.mk.inj hstep).1
          rw [hb']
          by_cases hxt : x.table = t
          · subst hxt
            rw [if_neg (fun h => hD h.2)]
            simp
          · rw [if_neg (fun h => hxt h.1)]
            simp
      rw [hdc]
      by_cases hxt : x.table = t
      · subst hxt
        by_cases hD : b.IsDataColumn x.table x.column
        · simp [List.filter_cons, hD]
        · simp [List.filter_cons, hD]
      · simp [List.filter_cons, hxt]

/-- The foreign-key pass leaves the tables alone. -/
theorem fkStep_tables (x : dbSchemaTableColumn) (b : configBuilder) :
    (fkStep x b).1.tables = b.tables := by
  have hset : ∀ (b : configBuilder) c id, (b.setFK c id).tables = b.tables := by
    intro b c id
    unfold setFK
    simp only
    split <;> rfl
  have hlink : ∀ fkCol, (b.linkFK x.column fkCol).tables = b.tables := by
    intro fkCol
    rcases linkFK_cases b x.column fkCol with h | ⟨id, h, _⟩
    · rw [h]
    · rw [h, hset]
  unfold fkStep
  split
  · rfl
  · split
    · rfl
    · simp only
      split
      · exact hlink _
      · exact hlink _
    · rfl

end sqlmodelgen.configBuilder

namespace sqlmodelgen

/-- Of the blocks of a listing without a repeated key, the filter keeps the only block
that can pass it. -/
theorem filter_flatMap_single {α β : Type} (l : List (String × α))
    (f : String × α → List β) (p : β → Bool) (hnd : (l.map Prod.fst).Nodup)
    {e0 : String × α} (he : e0 ∈ l)
    (hkey : ∀ e ∈ l, ∀ x ∈ f e, p x = true → e.1 = e0.1) :
    (l.flatMap f).filter p = (f e0).filter p := by
  have hnil : ∀ l' : List (String × α), (∀ e ∈ l', ∀ x ∈ f e, p x = true → e.1 = e0.1) →
      e0.1 ∉ l'.map Prod.fst → (l'.flatMap f).filter p = [] := by
    intro l' hk hn
    rw [List.filter_eq_nil_iff]
    intro x hx hp
    obtain ⟨e, hel, hxe⟩ := List.mem_flatMap.mp hx
    exact hn (by rw [← hk e hel x hxe hp]; exact List.mem_map_of_mem _ hel)
  induction l with
  | nil => cases he
  | cons a l ih =>
    rw [List.flatMap_cons, List.filter_append]
    rw [List.map_cons, List.nodup_cons] at hnd
    rcases List.mem_cons.mp he with rfl | he'
    · rw [hnil l (fun e hel => hkey e (List.mem_cons_of_mem _ hel)) hnd.1, List.append_nil]
    · have hne : a.1 ≠ e0.1 := fun h => hnd.1 (by rw [h]; exact List.mem_map_of_mem _ he')
      have : (f a).filter p = [] := by
        rw [List.filter_eq_nil_iff]
        intro x hx hp
        exact hne (hkey a (List.mem_cons_self _ _) x hx hp)
      rw [this, List.nil_append]
      exact ih hnd.2 he' (fun e hel => hkey e (List.mem_cons_of_mem _ hel))

end sqlmodelgen

namespace sqlmodelgen.configBuilder

theorem visitColumns_fields {b : configBuilder} {dn : String} {dc : config.Database} {d : Nat}
    {sn : String} {sc : config.Schema} {s : Nat} {tn : String} {tc : config.Table} {t : Nat}
    {cols : List (String × config.Column)} {x : dbSchemaTableColumn}
    (hx : x ∈ b.visitColumns dn dc d sn sc s tn tc t cols) :
    x.dbName = dn ∧ x.schName = sn ∧ x.tblName = tn ∧ x.table = t := by
  obtain ⟨p, _, i, _, rfl⟩ := mem_visitColumns.mp hx
  exact ⟨rfl, rfl, rfl, rfl⟩

theorem visitTables_fields {b : configBuilder} {dn : String} {dc : config.Database} {d : Nat}
    {sn : String} {sc : config.Schema} {s : Nat}
    {tbls : List (String × config.Table)} {x : dbSchemaTableColumn}
    (hx : x ∈ b.visitTables dn dc d sn sc s tbls) : x.dbName = dn ∧ x.schName = sn := by
  obtain ⟨p, _, t, _, hx⟩ := mem_visitTables.mp hx
  obtain ⟨h1, h2, _⟩ := visitColumns_fields hx
  exact ⟨h1, h2⟩

theorem visitSchemas_fields {b : configBuilder} {dn : String} {dc : config.Database} {d : Nat}
    {schs : List (String × config.Schema)} {x : dbSchemaTableColumn}
    (hx : x ∈ b.visitSchemas dn dc d schs) : x.dbName = dn := by
  obtain ⟨p, _, s, _, hx⟩ := mem_visitSchemas.mp hx
  exact (visitTables_fields hx).1

/-- The names a visit carries are those of the table it visits and of its owners. -/
theorem VisitOK.names_of_table {env : Env} {b : configBuilder} {c : config.Config}
    {x : dbSchemaTableColumn} (hx : VisitOK env b c x) {d s t : Nat}
    {ed : String × config.Database} {es : String × config.Schema}
    {et : String × config.Table} (hdd : DatabaseDone env b d ed)
    (hsd : SchemaDone env b d s es) (htd : TableDone env b s t et) (hxt : x.table = t) :
    x.dbName = ed.1 ∧ x.schName = es.1 ∧ x.tblName = et.1 := by
  obtain ⟨tc, _, _, _, hxtd⟩ := hx.tblDone
  obtain ⟨sc, hxsd⟩ := hx.schDone
  obtain ⟨dc, _, hxdd⟩ := hx.dbDone
  have h1 : x.tblName = et.1 := by
    have := hxtd.name; simp only at this
    rw [← this, hxt]; exact htd.name
  have hs : x.schema = s := by rw [← hxtd.owner, hxt]; exact htd.owner
  have h2 : x.schName = es.1 := by
    have := hxsd.name; simp only at this
    rw [← this, hs]; exact hsd.name
  have hd : x.db = d := by rw [← hxsd.owner, hs]; exact hsd.owner
  have h3 : x.dbName = ed.1 := by
    have := hxdd.name; simp only at this
    rw [← this, hd]; exact hdd.name
  exact ⟨h3, h2, h1⟩

end sqlmodelgen.configBuilder

namespace sqlmodelgen.configBuilder

/-- The columns a traversal visits in a table of the graph, in order: those that the
by-name map of the table holds for the listing of its column map that the traversal
ranges over. -/
theorem RootOpen.visits_of_table {env : Env} {b : configBuilder} {c c2 : config.Config}
    (h : RootOpen env b c.Databases) (hwf : c.WellFormed) (hs : c.SameMaps c2)
    {t : Nat} (ht : b.ReachTable t) :
    ∃ (s : Nat) (et : String × config.Table) (cols : List (String × config.Column)),
      TableDone env b s t et ∧ et.2.WellFormed ∧ cols.Perm et.2.Columns ∧
      (c2 = c → cols = et.2.Columns) ∧
      ((b.visitDatabases c2.Databases).filter (fun x => decide (x.table = t))).map
          (fun x => x.column) =
        cols.filterMap (fun p => (b.table t).ColumnsByName.lookup p.1) := by
  obtain ⟨d, hd, s, hsm, hts⟩ := ht
  obtain ⟨ed, hed, hdd, hld⟩ := forall₂_mem_left (h.mirror_root hwf.1) hd
  have wd := hwf.2 ed hed
  obtain ⟨es, hes, hsd, hls⟩ := forall₂_mem_left (hdd.toDatabaseOpen.mirror_db wd.1) hsm
  have ws := wd.2 es hes
  obtain ⟨et, het, htd, hlt⟩ := forall₂_mem_left (hsd.toSchemaOpen.mirror_sch ws.1) hts
  have wt := ws.2 et het
  obtain ⟨pd, hpd, hpdn, hsd'⟩ := sameEntries_counterpart hs hwf.1 hed
  obtain ⟨ps, hps, hpsn, hst'⟩ := sameEntries_counterpart hsd' wd.1 hes
  obtain ⟨pt, hpt, hptn, hsc'⟩ := sameEntries_counterpart hst' ws.1 het
  have hld' : b.Config.DatabasesByName.lookup pd.1 = some d := by rw [hpdn]; exact hld
  have hls' : (b.database d).SchemasByName.lookup ps.1 = some s := by rw [hpsn]; exact hls
  have hlt' : (b.schema s).TablesByName.lookup pt.1 = some t := by rw [hptn]; exact hlt
  refine ⟨s, et, pt.2.Columns, htd, wt, hsc', ?_, ?_⟩
  · intro hc2
    subst hc2
    have e1 : pd = ed := eq_of_key_eq hwf.1 hpd hed hpdn
    subst e1
    have e2 : ps = es := eq_of_key_eq wd.1 hps hes hpsn
    subst e2
    have e3 : pt = et := eq_of_key_eq ws.1 hpt het hptn
    rw [e3]
  · have names : ∀ x ∈ b.visitDatabases c2.Databases, x.table = t →
        x.dbName = pd.1 ∧ x.schName = ps.1 ∧ x.tblName = pt.1 := by
      intro x hx hxt
      have := (h.visitOK hwf hs hx).names_of_table hdd hsd htd hxt
      rw [hpdn, hpsn, hptn]; exact this
    have l1 : (b.visitDatabases c2.Databases).filter (fun x => decide (x.table = t)) =
        (b.visitSchemas pd.1 pd.2 d pd.2.Schemas).filter (fun x => decide (x.table = t)) := by
      unfold visitDatabases
      rw [filter_flatMap_single _ _ _ (sameEntries_nodup hs hwf.1) hpd]
      · simp only [hld']
      · intro e he x hx hp
        have hxv : x ∈ b.visitDatabases c2.Databases := by
          unfold visitDatabases
          exact List.mem_flatMap.mpr ⟨e, he, hx⟩
        have hn := (names x hxv (of_decide_eq_true hp)).1
        cases hl : b.Config.DatabasesByName.lookup e.1 with
        | none => rw [hl] at hx; cases hx
        | some d' =>
          rw [hl] at hx
          rw [← visitSchemas_fields hx]; exact hn
    have l2 : (b.visitSchemas pd.1 pd.2 d pd.2.Schemas).filter
          (fun x => decide (x.table = t)) =
        (b.visitTables pd.1 pd.2 d ps.1 ps.2 s ps.2.Tables).filter
          (fun x => decide (x.table = t)) := by
      unfold visitSchemas
      rw [filter_flatMap_single _ _ _ (sameEntries_nodup hsd' wd.1) hps]
      · simp only [hls']
      · intro e he x hx hp
        cases hl : (b.database d).SchemasByName.lookup e.1 with
        | none => rw [hl] at hx; cases hx
        | some s' =>
          rw [hl] at hx
          have hxv : x ∈ b.visitDatabases c2.Databases :=
            mem_visitDatabases.mpr ⟨pd, hpd, d, hld', mem_visitSchemas.mpr ⟨e, he, s', hl, hx⟩⟩
          have hn := (names x hxv (of_decide_eq_true hp)).2.1
          rw [← (visitTables_fields hx).2]; exact hn
    have l3 : (b.visitTables pd.1 pd.2 d ps.1 ps.2 s ps.2.Tables).filter
          (fun x => decide (x.table = t)) =
        b.visitColumns pd.1 pd.2 d ps.1 ps.2 s pt.1 pt.2 t pt.2.Columns := by
      unfold visitTables
      rw [filter_flatMap_single _ _ _ (sameEntries_nodup hst' ws.1) hpt]
      · simp only [hlt']
        rw [List.filter_eq_self]
        intro x hx
        exact decide_eq_true (visitColumns_fields hx).2.2.2
      · intro e he x hx hp
        cases hl : (b.schema s).TablesByName.lookup e.1 with
        | none => rw [hl] at hx; cases hx
        | some t' =>
          rw [hl] at hx
          have hxv : x ∈ b.visitDatabases c2.Databases :=
            mem_visitDatabases.mpr ⟨pd, hpd, d, hld', mem_visitSchemas.mpr ⟨ps, hps, s, hls',
              mem_visitTables.mpr ⟨e, he, t', hl, hx⟩⟩⟩
          have hn := (names x hxv (of_decide_eq_true hp)).2.2
          rw [← (visitColumns_fields hx).2.2.1]; exact hn
    rw [l1, l2, l3]
    unfold visitColumns
    rw [List.map_filterMap]
    congr 1
    funext p
    cases (b.table t).ColumnsByName.lookup p.1 <;> rfl

/-- The `Columns` of a table of the graph are what its by-name map holds for the entries
of its listing in the configuration. -/
theorem TableCols.columns_eq {env : Env} {b : configBuilder} {t : Nat}
    {cols : List (String × config.Column)} (h : TableCols env b t cols)
    (hnd : (cols.map Prod.fst).Nodup) :
    (b.table t).Columns = cols.filterMap (fun p => (b.table t).ColumnsByName.lookup p.1) := by
  have hm := h.mirror_cols hnd
  generalize (b.table t).Columns = l at hm
  clear h hnd
  induction hm with
  | nil => rfl
  | cons hab _ ih => rw [List.filterMap_cons, hab.2, ih]

end sqlmodelgen.configBuilder

namespace sqlmodelgen.configBuilder

/-- The `DataColumns` of a table of a successfully built graph: the data columns among
the columns of the table, in the order in which the data-column pass ranges over the
column map of the table. -/
theorem init_dataColumns_eq {env : Env} {mc : ModelContext} {tr : Traversal}
    {c : config.Config} (hwf : c.WellFormed) (hv : tr.Valid c)
    (h : (init env mc tr c {}).2 = none) {t : Nat}
    (ht : (init env mc tr c {}).1.ReachTable t) :
    ∃ (cols all : List (String × config.Column)),
      cols.Perm all ∧ (tr.data = c → cols = all) ∧
      ((init env mc tr c {}).1.table t).Columns.Nodup ∧
      ((init env mc tr c {}).1.table t).Columns =
        all.filterMap (fun p => ((init env mc tr c {}).1.table t).ColumnsByName.lookup p.1) ∧
      ((init env mc tr c {}).1.table t).DataColumns =
        (cols.filterMap
          (fun p => ((init env mc tr c {}).1.table t).ColumnsByName.lookup p.1)).filter
          (fun i => decide ((init env mc tr c {}).1.IsDataColumn t i)) := by
  obtain ⟨b1, b2, b3, h1, h2, h3, h4⟩ := init_stages h
  have hroot := initPass1_spec h1
  have l12 : Later b1 b2 := by have := later_iter_fkStep tr.fk b1; rwa [h2] at this
  have l23 : Later b2 b3 := by have := later_iter_dataStep tr.data b2; rwa [h3] at this
  have e1 := later_ensureNamespaces mc b3
  have e2 := later_finishNamespaces mc tr (ensureNamespaces mc b3)
  have l2g : Later b2 (init env mc tr c {}).1 := by
    rw [h4]; exact (l23.later_trans e1.1).later_trans e2.1
  have hl : Later b1 (init env mc tr c {}).1 := l12.later_trans l2g
  have htab : b2.tables = b1.tables := by
    have := iterDatabases_induct (fun b => b.tables = b1.tables) configBuilder.fkStep
      (fun x b hb => (fkStep_tables x b).trans hb) tr.fk.Databases b1 rfl
    unfold iterDBSchemaTableColumn at h2
    rwa [h2] at this
  have hcol3 : ∀ i, b3.column i = b2.column i := by
    have := iterDatabases_induct (fun b => ∀ i, b.column i = b2.column i)
      configBuilder.dataStep (fun x b hb i => (dataStep_column x b i).trans (hb i))
      tr.data.Databases b2 (fun _ => rfl)
    unfold iterDBSchemaTableColumn at h3
    rwa [h3] at this
  have hgcol : ∀ i, (init env mc tr c {}).1.column i = b2.column i := by
    intro i; rw [h4, e2.2.1, e1.2.1]; exact hcol3 i
  have hgtab : (init env mc tr c {}).1.table t = b3.table t := by
    rw [h4, e2.2.2, e1.2.2]
  have hfold := pass3_eq_fold h1 l12 hwf hv
  rw [h3] at hfold
  have hacc := foldVisits_dataStep (b1.visitDatabases tr.data.Databases) b2 (by
    intro x hx
    have hok := hroot.visitOK hwf hv.2 hx
    obtain ⟨tc, _, _, _, htd⟩ := hok.tblDone
    refine ⟨?_, htd.keyOK.later_key l12, ?_⟩
    · rw [l12.tablesLen]; exact htd.valid
    · rw [l12.tblColumns]; exact hok.column)
  rw [← hfold] at hacc
  have ht1 : b1.ReachTable t := (hl.reachTable_eq t).mp ht
  obtain ⟨s, et, cols, htd, wt, hperm, hsame, hvis⟩ := hroot.visits_of_table hwf hv.2 ht1
  refine ⟨cols, et.2.Columns, hperm, hsame, ?_, ?_, ?_⟩
  · rw [hl.tblColumns]; exact htd.nodup
  · rw [hl.tblColumns, hl.tblByName]
    exact htd.toTableCols.columns_eq wt
  · have hdc := hacc.2 t
    simp only at hdc
    have h0 : (b2.table t).DataColumns = [] := by
      have : b2.table t = b1.table t := by simp only [configBuilder.table, htab]
      rw [this]; exact htd.data
    rw [hl.tblByName, hgtab, hdc, h0, List.nil_append, hvis]
    congr 1
    funext i
    exact decide_eq_decide.mpr
      (isDataColumn_congr l2g (fun i => by rw [hgcol]) t i).symm

end sqlmodelgen.configBuilder

namespace sqlmodelgen

/-- C2, as amended: for every table T of a successfully built graph, `T.DataColumns` holds
exactly the columns of `T.Columns` that are not the column of `T.PK`, are not the column of
a member of `T.Key.IDs` and have no resolved `FK`, each of them once: it is a permutation of
that sub-sequence of `T.Columns`. It is that sub-sequence itself when the data-column pass
ranges over the maps of the configuration in the order of the first pass. -/
theorem init_dataColumns_perm (env : Env) (mc : ModelContext) (tr : Traversal)
    (c : config.Config) (hwf : c.WellFormed) (hv : tr.Valid c)
    (h : (init env mc tr c {}).2 = none) (t : Nat)
    (ht : (init env mc tr c {}).1.ReachTable t) :
    ((init env mc tr c {}).1.table t).DataColumns.Perm
      ((init env mc tr c {}).1.dataColumns t) ∧
    ((init env mc tr c {}).1.table t).DataColumns.Nodup ∧
    (∀ i, i ∈ ((init env mc tr c {}).1.table t).DataColumns ↔
      i ∈ ((init env mc tr c {}).1.table t).Columns ∧
        (init env mc tr c {}).1.IsDataColumn t i) ∧
    (tr.data = c →
      ((init env mc tr c {}).1.table t).DataColumns =
        (init env mc tr c {}).1.dataColumns t) := by
  obtain ⟨cols, all, hperm, hsame, hnd, hcols, hdata⟩ := init_dataColumns_eq hwf hv h ht
  have hp : ((init env mc tr c {}).1.table t).DataColumns.Perm
      ((init env mc tr c {}).1.dataColumns t) := by
    unfold configBuilder.dataColumns
    rw [hdata, hcols]
    exact (hperm.filterMap _).filter _
  refine ⟨hp, ?_, ?_, ?_⟩
  · exact hp.nodup_iff.mpr (hnd.filter _)
  · intro i
    rw [hp.mem_iff]
    unfold configBuilder.dataColumns
    simp [List.mem_filter]
  · intro hd
    unfold configBuilder.dataColumns
    rw [hdata, hcols, hsame hd]

end sqlmodelgen

namespace sqlmodelgen

/-- The amended C2 at work on `plainConfig`: when the data-column pass ranges over the
columns of `t` in the order `b`, `id`, `a`, `DataColumns` is a permutation of the data
columns of `t`; when it ranges over them in the order of the first pass, it is the
sub-sequence of `Columns`. -/
theorem init_dataColumns_perm_witness :
    ((init exampleEnv exampleContext plainTraversalSwapped plainConfig {}).1.table
        0).DataColumns.Perm
      ((init exampleEnv exampleContext plainTraversalSwapped plainConfig {}).1.dataColumns 0) ∧
    ((init exampleEnv exampleContext (Traversal.ofConfig plainConfig) plainConfig {}).1.table
        0).DataColumns =
      (init exampleEnv exampleContext (Traversal.ofConfig plainConfig) plainConfig
        {}).1.dataColumns 0 :=
  ⟨(init_dataColumns_perm exampleEnv exampleContext plainTraversalSwapped plainConfig
      (by decide) (by decide) (by decide) 0 ⟨0, by decide, 0, by decide, by decide⟩).1,
   (init_dataColumns_perm exampleEnv exampleContext (Traversal.ofConfig plainConfig)
      plainConfig (by decide) (by decide) (by decide) 0
      ⟨0, by decide, 0, by decide, by decide⟩).2.2.2 rfl⟩

/-- C2 as stated fails on `plainConfig` when the data-column pass ranges over the column
map of `t` in the order `b`, `id`, `a`, which is a listing of the same map: the build
succeeds, the data columns of `t` are `a` and `b` in the order of `Columns`, and
`DataColumns` lists `b` before `a`. -/
theorem init_dataColumns_order_differs :
    plainConfig.WellFormed ∧ plainTraversalSwapped.Valid plainConfig ∧
    (init exampleEnv exampleContext plainTraversalSwapped plainConfig {}).2 = none ∧
    (init exampleEnv exampleContext plainTraversalSwapped plainConfig {}).1.findTable
      "db" "public" "t" = some 0 ∧
    ((init exampleEnv exampleContext plainTraversalSwapped plainConfig {}).1.table
      0).Columns = [0, 1, 2] ∧
    (init exampleEnv exampleContext plainTraversalSwapped plainConfig {}).1.dataColumns
      0 = [1, 2] ∧
    ((init exampleEnv exampleContext plainTraversalSwapped plainConfig {}).1.table
      0).DataColumns = [2, 1] ∧
    ((init exampleEnv exampleContext plainTraversalSwapped plainConfig {}).1.table
      0).DataColumns ≠
      (init exampleEnv exampleContext plainTraversalSwapped plainConfig {}).1.dataColumns 0 := by
  refine ⟨by decide, by decide, by decide, by decide, by decide, by decide, by decide,
    by decide⟩

end sqlmodelgen

namespace sqlmodelgen

theorem hasColumn_iff_mem_entries (c : config.Config) (dn sn tn cn : String)
    (cc : config.Column) :
    c.HasColumn dn sn tn cn cc ↔ (dn, sn, tn, cn, cc) ∈ c.entries := by
  unfold config.Config.HasColumn config.Config.entries
  simp only [List.mem_flatMap, List.mem_map, Prod.mk.injEq, Prod.exists]
  constructor
  · rintro ⟨dc, hdc, sc, hsc, tc, htc, hcc⟩
    exact ⟨dn, dc, hdc, sn, sc, hsc, tn, tc, htc, cn, cc, hcc, rfl, rfl, rfl, rfl, rfl⟩
  · rintro ⟨dn', dc, hdc, sn', sc, hsc, tn', tc, htc, cn', cc', hcc, rfl, rfl, rfl, rfl, rfl⟩
    exact ⟨dc, hdc, sc, hsc, tc, htc, hcc⟩

end sqlmodelgen

namespace sqlmodelgen.configBuilder

/-- The step of the foreign-key pass succeeds on an entry that links. -/
theorem fkStep_ok_of_links {env : Env} {b1 b : configBuilder} {c : config.Config}
    {x : dbSchemaTableColumn} (hx : VisitOK env b1 c x) (hb : Later b1 b)
    (h : b1.linksEntry (x.dbName, x.schName, x.tblName, x.colName, x.colCfg) = true) :
    (fkStep x b).2 = none := by
  by_cases hfk : x.colCfg.FK = ""
  · rw [fkStep_of_empty hfk]
  · unfold linksEntry at h
    simp only [hfk, decide_False, Bool.false_or, hx.findTable] at h
    cases hp : b1.getPathUp x.colCfg.FK x.table with
    | error e => rw [hp] at h; cases h
    | ok r =>
      rw [hp] at h
      cases r with
      | column k =>
        simp only [decide_eq_true_eq] at h
        obtain ⟨id, hs, _⟩ := fkStep_of_key hfk (by rw [hb.getPathUp_eq]; exact hp)
          ((hb.keyBearing_iff k).mpr h) (by rw [hb.columnsLen]; exact hx.colDone.valid)
        rw [hs]
      | config => cases h
      | database _ => cases h
      | schema _ => cases h
      | table _ => cases h

/-- A build succeeds when its first pass does and every column entry links in the graph
of the first pass, whatever the order of the later passes. -/
theorem init_ok_of_links {env : Env} {mc : ModelContext} {tr : Traversal}
    {c : config.Config} (hwf : c.WellFormed) (hv : tr.Valid c) {b1 : configBuilder}
    (h1 : initPass1 env mc c {} = (b1, none))
    (hall : ∀ e ∈ c.entries, b1.linksEntry e = true) :
    (init env mc tr c {}).2 = none := by
  have hroot := initPass1_spec h1
  have h2 := foldVisits_ok fkStep (fun b => Later b1 b) (b1.visitDatabases tr.fk.Databases)
    (fun y _ b hb => hb.later_trans (later_fkStep y b))
    (fun y hy b hb => by
      have hok := hroot.visitOK hwf hv.1 hy
      exact fkStep_ok_of_links hok hb
        (hall _ ((hasColumn_iff_mem_entries _ _ _ _ _ _).mp hok.entry)))
    b1 (Later.later_refl b1)
  rw [← pass2_eq_fold h1 hwf hv] at h2
  have l12 := later_iter_fkStep tr.fk b1
  cases hr2 : b1.iterDBSchemaTableColumn tr.fk fkStep with
  | mk b2 e2 =>
    rw [hr2] at h2 l12
    simp only at h2 l12
    subst h2
    have h3 := (foldVisits_dataStep (b1.visitDatabases tr.data.Databases) b2 (by
      intro x hx
      have hok := hroot.visitOK hwf hv.2 hx
      obtain ⟨tc, _, _, _, htd⟩ := hok.tblDone
      refine ⟨?_, htd.keyOK.later_key l12, ?_⟩
      · rw [l12.tablesLen]; exact htd.valid
      · rw [l12.tblColumns]; exact hok.column)).1
    rw [← pass3_eq_fold h1 l12 hwf hv] at h3
    cases hr3 : b2.iterDBSchemaTableColumn tr.data dataStep with
    | mk b3 e3 =>
      rw [hr3] at h3
      simp only at h3
      subst h3
      unfold init
      rw [h1]
      simp only
      rw [hr2]
      simp only
      rw [hr3]

/-- The only key of a table that has a `PK` is that `PK`. -/
theorem KeyOK.isKeyOf_pk {b : configBuilder} {t id pk : Nat} (hk : KeyOK b t)
    (hpk : (b.table t).PK = some pk) (h : IsKeyOf b id t) : id = pk := by
  rcases h with h | h
  · rw [hpk] at h; exact (Option.some.inj h).symm
  · exfalso
    rcases hk.excl with h6 | h6
    · rw [hpk] at h6; cases h6
    · unfold configBuilder.keyMembers at h
      rw [h6] at h
      cases h

theorem not_isDataColumn_of_pk {b : configBuilder} {t i : Nat} (hk : KeyOK b t)
    (hi : i ∈ (b.table t).Columns) (hpk : (b.column i).PK = true) :
    ¬ b.IsDataColumn t i := by
  rintro ⟨h1, h2, _⟩
  rcases (pk_flag_iff hk hi).mp hpk with h | h
  · exact h1 h
  · exact h2 h

/-- A table of a successfully built graph all of whose columns are PK-flagged or have a
resolved `FK` has no `DataColumns`. -/
theorem init_dataColumns_nil {env : Env} {mc : ModelContext} {tr : Traversal}
    {c : config.Config} (hwf : c.WellFormed) (hv : tr.Valid c)
    (h : (init env mc tr c {}).2 = none) {t : Nat}
    (ht : (init env mc tr c {}).1.ReachTable t)
    (hall : ∀ i ∈ ((init env mc tr c {}).1.table t).Columns,
      ((init env mc tr c {}).1.column i).PK = true ∨
        ((init env mc tr c {}).1.column i).FK ≠ none) :
    ((init env mc tr c {}).1.table t).DataColumns = [] := by
  obtain ⟨cols, all, hperm, _, _, hcols, hdata⟩ := init_dataColumns_eq hwf hv h ht
  have hk := init_keyOK h t ht
  rw [hdata, List.filter_eq_nil_iff]
  intro i hi
  have hi' : i ∈ ((init env mc tr c {}).1.table t).Columns := by
    rw [hcols]; exact ((hperm.filterMap _).mem_iff).mp hi
  simp only [decide_eq_true_eq]
  rcases hall i hi' with hp | hf
  · exact not_isDataColumn_of_pk hk hi' hp
  · exact fun hd => hf hd.2.2

end sqlmodelgen.configBuilder

namespace sqlmodelgen.configBuilder

/-- A table found by name from the root is a table of the graph. -/
theorem RootOpen.reach_of_findTable {env : Env} {b : configBuilder}
    {dbs : List (String × config.Database)} (h : RootOpen env b dbs)
    {dn sn tn : String} {t : Nat} (ht : b.findTable dn sn tn = some t) : b.ReachTable t := by
  unfold configBuilder.findTable at ht
  cases hd : b.Config.DatabasesByName.lookup dn with
  | none => rw [hd] at ht; cases ht
  | some d =>
    rw [hd] at ht
    simp only at ht
    cases hs : (b.database d).SchemasByName.lookup sn with
    | none => rw [hs] at ht; cases ht
    | some s =>
      rw [hs] at ht
      simp only at ht
      obtain ⟨hdm, _⟩ := h.byName dn d hd
      obtain ⟨_, _, hdd⟩ := forall₂_mem_left h.databases hdm
      obtain ⟨hsm, _⟩ := hdd.byName sn s hs
      obtain ⟨_, _, hsd⟩ := forall₂_mem_left hdd.schemas hsm
      obtain ⟨htm, _⟩ := hsd.byName tn t ht
      exact ⟨d, hdm, s, hsm, htm⟩

/-- The orders scenario, from the facts about the graph of the first pass that a listing
of the scenario determines. -/
theorem init_orders_of {tr : Traversal} {c : config.Config} (hwf : c.WellFormed)
    (hv : tr.Valid c) (h1 : (initPass1 exampleEnv exampleContext c {}).2 = none)
    (hall : ∀ e ∈ c.entries, (initPass1 exampleEnv exampleContext c {}).1.linksEntry e = true)
    (hc : ("db", "public", "line_items", "order_id",
      ({ FK := "orders.id", Type_ := "int" } : config.Column)) ∈ c.entries)
    (ot lt oc j pk : Nat)
    (hot : (initPass1 exampleEnv exampleContext c {}).1.findTable "db" "public" "orders"
      = some ot)
    (hlt : (initPass1 exampleEnv exampleContext c {}).1.findTable "db" "public" "line_items"
      = some lt)
    (hoc : (initPass1 exampleEnv exampleContext c {}).1.findColumn "db" "public"
      "line_items" "order_id" = some oc)
    (hp : (initPass1 exampleEnv exampleContext c {}).1.getPathUp "orders.id" lt
      = .ok (.column j))
    (hj : ((initPass1 exampleEnv exampleContext c {}).1.column j).Table = ot)
    (hpk : ((initPass1 exampleEnv exampleContext c {}).1.table ot).PK = some pk)
    (hw : ((initPass1 exampleEnv exampleContext c {}).1.tableID pk).Column = j)
    (hco : ∀ i ∈ ((initPass1 exampleEnv exampleContext c {}).1.table ot).Columns,
      ((initPass1 exampleEnv exampleContext c {}).1.column i).PK = true)
    (hcl : ∀ i ∈ ((initPass1 exampleEnv exampleContext c {}).1.table lt).Columns,
      ((initPass1 exampleEnv exampleContext c {}).1.column i).PK = true ∨ i = oc) :
    (init exampleEnv exampleContext tr c {}).2 = none ∧
    ∃ ot lt oc,
      (init exampleEnv exampleContext tr c {}).1.findTable "db" "public" "orders" = some ot ∧
      (init exampleEnv exampleContext tr c {}).1.findTable "db" "public" "line_items"
        = some lt ∧
      (init exampleEnv exampleContext tr c {}).1.findColumn "db" "public" "line_items"
        "order_id" = some oc ∧
      ((init exampleEnv exampleContext tr c {}).1.table ot).PK ≠ none ∧
      ((init exampleEnv exampleContext tr c {}).1.column oc).FK =
        ((init exampleEnv exampleContext tr c {}).1.table ot).PK ∧
      ((init exampleEnv exampleContext tr c {}).1.table lt).DataColumns = [] ∧
      ((init exampleEnv exampleContext tr c {}).1.table ot).DataColumns = [] := by
  have h1' : initPass1 exampleEnv exampleContext c {} =
      ((initPass1 exampleEnv exampleContext c {}).1, none) := Prod.ext rfl h1
  generalize (initPass1 exampleEnv exampleContext c {}).1 = b1 at *
  have hok := init_ok_of_links hwf hv h1' hall
  have hl := init_later_of_pass1 tr h1'
  have hroot := initPass1_spec h1'
  have hcc := (hasColumn_iff_mem_entries _ _ _ _ _ _).mpr hc
  have hgot : (init exampleEnv exampleContext tr c {}).1.findTable "db" "public" "orders"
      = some ot := by rw [hl.findTable_eq]; exact hot
  have hglt : (init exampleEnv exampleContext tr c {}).1.findTable "db" "public"
      "line_items" = some lt := by rw [hl.findTable_eq]; exact hlt
  have hgoc : (init exampleEnv exampleContext tr c {}).1.findColumn "db" "public"
      "line_items" "order_id" = some oc := by rw [hl.findColumn_eq]; exact hoc
  have hrot : (init exampleEnv exampleContext tr c {}).1.ReachTable ot :=
    (hl.reachTable_eq ot).mpr (hroot.reach_of_findTable hot)
  have hrlt : (init exampleEnv exampleContext tr c {}).1.ReachTable lt :=
    (hl.reachTable_eq lt).mpr (hroot.reach_of_findTable hlt)
  have hgpk : ((init exampleEnv exampleContext tr c {}).1.table ot).PK = some pk := by
    rw [hl.tblPK]; exact hpk
  have hkb : (init exampleEnv exampleContext tr c {}).1.KeyBearing j :=
    (hl.keyBearing_iff j).mpr (Or.inl ⟨pk, by rw [hj]; exact hpk, hw⟩)
  obtain ⟨ix, id, hfc, hFK, _, hkey⟩ := init_fk_of_resolved hwf hv hcc (by decide) hok hglt
    (by rw [hl.getPathUp_eq]; exact hp) hkb
  rw [hgoc] at hfc
  cases hfc
  rw [hl.colTable, hj] at hkey
  have hid := (init_keyOK hok ot hrot).isKeyOf_pk hgpk hkey
  subst hid
  refine ⟨hok, ot, lt, oc, hgot, hglt, hgoc, by rw [hgpk]; simp, by rw [hFK, hgpk], ?_, ?_⟩
  · refine init_dataColumns_nil hwf hv hok hrlt (fun i hi => ?_)
    rw [hl.tblColumns] at hi
    rcases hcl i hi with h | h
    · exact Or.inl (by rw [hl.colPK]; exact h)
    · exact Or.inr (by rw [h, hFK]; simp)
  · refine init_dataColumns_nil hwf hv hok hrot (fun i hi => ?_)
    rw [hl.tblColumns] at hi
    exact Or.inl (by rw [hl.colPK]; exact hco i hi)

end sqlmodelgen.configBuilder

namespace sqlmodelgen

/-- C10: for the configuration of the orders scenario, in whatever order the build ranges
over its maps: the build succeeds, the `FK` of `line_items.order_id` is the TableID that is
the `PK` of `orders`, and `line_items.DataColumns` and `orders.DataColumns` are empty. -/
theorem init_orders_scenario (c : config.Config) (tr : Traversal) (hc : c ∈ ordersListings)
    (hv : tr.Valid c) :
    (init exampleEnv exampleContext tr c {}).2 = none ∧
    ∃ ot lt oc,
      (init exampleEnv exampleContext tr c {}).1.findTable "db" "public" "orders" = some ot ∧
      (init exampleEnv exampleContext tr c {}).1.findTable "db" "public" "line_items"
        = some lt ∧
      (init exampleEnv exampleContext tr c {}).1.findColumn "db" "public" "line_items"
        "order_id" = some oc ∧
      ((init exampleEnv exampleContext tr c {}).1.table ot).PK ≠ none ∧
      ((init exampleEnv exampleContext tr c {}).1.column oc).FK =
        ((init exampleEnv exampleContext tr c {}).1.table ot).PK ∧
      ((init exampleEnv exampleContext tr c {}).1.table lt).DataColumns = [] ∧
      ((init exampleEnv exampleContext tr c {}).1.table ot).DataColumns = [] := by
  simp only [ordersListings, List.mem_cons, List.mem_singleton, List.not_mem_nil,
    or_false] at hc
  rcases hc with rfl | rfl | rfl | rfl
  · exact init_orders_of (by decide) hv (by decide) (by decide) (by decide) 0 1 2 0 0
      (by decide) (by decide) (by decide) (by rfl) (by decide) (by decide) (by decide)
      (by decide) (by decide)
  · exact init_orders_of (by decide) hv (by decide) (by decide) (by decide) 0 1 1 0 0
      (by decide) (by decide) (by decide) (by rfl) (by decide) (by decide) (by decide)
      (by decide) (by decide)
  · exact init_orders_of (by decide) hv (by decide) (by decide) (by decide) 1 0 1 2 1
      (by decide) (by decide) (by decide) (by rfl) (by decide) (by decide) (by decide)
      (by decide) (by decide)
  · exact init_orders_of (by decide) hv (by decide) (by decide) (by decide) 1 0 0 2 1
      (by decide) (by decide) (by decide) (by rfl) (by decide) (by decide) (by decide)
      (by decide) (by decide)

/-- C10 at the listing `ordersConfig`, the later passes ranging in the order of the first
one. -/
theorem init_orders_scenario_witness :
    (init exampleEnv exampleContext ordersTraversal ordersConfig {}).2 = none ∧
    ∃ ot lt oc,
      (init exampleEnv exampleContext ordersTraversal ordersConfig {}).1.findTable
        "db" "public" "orders" = some ot ∧
      (init exampleEnv exampleContext ordersTraversal ordersConfig {}).1.findTable
        "db" "public" "line_items" = some lt ∧
      (init exampleEnv exampleContext ordersTraversal ordersConfig {}).1.findColumn
        "db" "public" "line_items" "order_id" = some oc ∧
      ((init exampleEnv exampleContext ordersTraversal ordersConfig {}).1.table ot).PK
        ≠ none ∧
      ((init exampleEnv exampleContext ordersTraversal ordersConfig {}).1.column oc).FK =
        ((init exampleEnv exampleContext ordersTraversal ordersConfig {}).1.table ot).PK ∧
      ((init exampleEnv exampleContext ordersTraversal ordersConfig {}).1.table
        lt).DataColumns = [] ∧
      ((init exampleEnv exampleContext ordersTraversal ordersConfig {}).1.table
        ot).DataColumns = [] :=
  init_orders_scenario ordersConfig ordersTraversal (List.Mem.head _) (by decide)

end sqlmodelgen

namespace sqlmodelgen.configBuilder

/-- The `Columns` of a table of a successfully built graph hold no column twice. -/
theorem init_columns_nodup {env : Env} {mc : ModelContext} {tr : Traversal}
    {c : config.Config} (h : (init env mc tr c {}).2 = none) {t : Nat}
    (ht : (init env mc tr c {}).1.ReachTable t) :
    ((init env mc tr c {}).1.table t).Columns.Nodup := by
  obtain ⟨b1, h1, hl⟩ := init_later h
  obtain ⟨s, e, htd⟩ := (initPass1_spec h1).table ((hl.reachTable_eq t).mp ht)
  rw [hl.tblColumns]; exact htd.nodup

end sqlmodelgen.configBuilder

namespace sqlmodelgen

/-- C11: in a successfully built graph, a table with two or more PK-flagged columns has a
`Key` whose members wrap, in order, the PK-flagged columns of `T.Columns`; so `Key.IDs` has
as many members as the table has PK-flagged columns, and `PK` is nil. -/
theorem init_key_ids_wrap_pk_columns (env : Env) (mc : ModelContext) (tr : Traversal)
    (c : config.Config) (h : (init env mc tr c {}).2 = none) (t : Nat)
    (ht : (init env mc tr c {}).1.ReachTable t)
    (h2 : 2 ≤ ((init env mc tr c {}).1.pkColumns t).length) :
    ∃ k, ((init env mc tr c {}).1.table t).Key = some k ∧
      ((init env mc tr c {}).1.tableKey k).IDs.map
          (fun id => ((init env mc tr c {}).1.tableID id).Column) =
        ((init env mc tr c {}).1.table t).Columns.filter
          (fun i => ((init env mc tr c {}).1.column i).PK) ∧
      ((init env mc tr c {}).1.tableKey k).IDs.length =
        (((init env mc tr c {}).1.table t).Columns.filter
          (fun i => ((init env mc tr c {}).1.column i).PK)).length ∧
      ((init env mc tr c {}).1.table t).PK = none := by
  have hk := init_keyOK h t ht
  generalize (init env mc tr c {}).1 = b at hk h2
  have hw := hk.wraps
  unfold tableIDs keyMembers at hw
  unfold pkColumns at hw h2
  cases hpk : (b.table t).PK with
  | some id =>
    exfalso
    have hkey : (b.table t).Key = none := by
      rcases hk.excl with h1 | h1
      · rw [hpk] at h1; cases h1
      · exact h1
    rw [hpk, hkey] at hw
    rw [← hw] at h2
    simp at h2
  | none =>
    cases hkey : (b.table t).Key with
    | none =>
      exfalso
      rw [hpk, hkey] at hw
      rw [← hw] at h2
      simp at h2
    | some k =>
      rw [hpk, hkey] at hw
      simp only [Option.toList, List.nil_append] at hw
      refine ⟨k, rfl, hw, ?_, rfl⟩
      rw [← hw, List.length_map]

/-- C11 on the table `order_items`, whose PK-flagged columns are `order_id` and
`product_id`: `Key.IDs` has length 2 and `PK` is nil. -/
theorem init_key_ids_wrap_pk_columns_witness :
    (∃ k, ((init exampleEnv exampleContext (Traversal.ofConfig orderItemsConfig)
        orderItemsConfig {}).1.table 0).Key = some k ∧
      ((init exampleEnv exampleContext (Traversal.ofConfig orderItemsConfig)
        orderItemsConfig {}).1.tableKey k).IDs.map
          (fun id => ((init exampleEnv exampleContext (Traversal.ofConfig orderItemsConfig)
            orderItemsConfig {}).1.tableID id).Column) =
        ((init exampleEnv exampleContext (Traversal.ofConfig orderItemsConfig)
          orderItemsConfig {}).1.table 0).Columns.filter
          (fun i => ((init exampleEnv exampleContext (Traversal.ofConfig orderItemsConfig)
            orderItemsConfig {}).1.column i).PK) ∧
      ((init exampleEnv exampleContext (Traversal.ofConfig orderItemsConfig)
        orderItemsConfig {}).1.tableKey k).IDs.length =
        (((init exampleEnv exampleContext (Traversal.ofConfig orderItemsConfig)
          orderItemsConfig {}).1.table 0).Columns.filter
          (fun i => ((init exampleEnv exampleContext (Traversal.ofConfig orderItemsConfig)
            orderItemsConfig {}).1.column i).PK)).length ∧
      ((init exampleEnv exampleContext (Traversal.ofConfig orderItemsConfig)
        orderItemsConfig {}).1.table 0).PK = none) ∧
    ((init exampleEnv exampleContext (Traversal.ofConfig orderItemsConfig)
      orderItemsConfig {}).1.table 0).Columns.filter
        (fun i => ((init exampleEnv exampleContext (Traversal.ofConfig orderItemsConfig)
          orderItemsConfig {}).1.column i).PK) = [0, 2] ∧
    ((init exampleEnv exampleContext (Traversal.ofConfig orderItemsConfig)
      orderItemsConfig {}).1.tableKey 0).IDs.length = 2 :=
  ⟨init_key_ids_wrap_pk_columns exampleEnv exampleContext (Traversal.ofConfig orderItemsConfig)
    orderItemsConfig (by decide) 0 ⟨0, by decide, 0, by decide, by decide⟩ (by decide),
   by decide, by decide⟩

/-- C12: in a successfully built graph, every PK-flagged column of a table is the column
of exactly one of the TableIDs reachable from the table (`T.PK` and the members of
`T.Key.IDs`), and no TableID is reachable from the table twice. -/
theorem init_pk_column_wrapped_once (env : Env) (mc : ModelContext) (tr : Traversal)
    (c : config.Config) (h : (init env mc tr c {}).2 = none) (t : Nat)
    (ht : (init env mc tr c {}).1.ReachTable t) :
    ((init env mc tr c {}).1.tableIDs t).Nodup ∧
    ∀ col ∈ ((init env mc tr c {}).1.table t).Columns,
      ((init env mc tr c {}).1.column col).PK = true →
      ∃! id, id ∈ (init env mc tr c {}).1.tableIDs t ∧
        ((init env mc tr c {}).1.tableID id).Column = col := by
  have hk := init_keyOK h t ht
  have hnd := init_columns_nodup h ht
  generalize (init env mc tr c {}).1 = b at hk hnd
  have hmap : ((b.tableIDs t).map (fun id => (b.tableID id).Column)).Nodup := by
    rw [hk.wraps]; exact hnd.filter _
  refine ⟨hmap.of_map _, fun col hcol hpk => ?_⟩
  have hmem : col ∈ (b.tableIDs t).map (fun id => (b.tableID id).Column) := by
    rw [hk.wraps]; unfold pkColumns; simp [List.mem_filter, hcol, hpk]
  obtain ⟨id, hid, hc⟩ := List.mem_map.mp hmem
  refine ⟨id, ⟨hid, hc⟩, fun id' ⟨hid', hc'⟩ => ?_⟩
  exact List.inj_on_of_nodup_map hmap hid' hid (hc'.trans hc.symm)

/-- C12 on the table `order_items`. -/
theorem init_pk_column_wrapped_once_witness :
    ((init exampleEnv exampleContext (Traversal.ofConfig orderItemsConfig)
      orderItemsConfig {}).1.tableIDs 0).Nodup ∧
    ∀ col ∈ ((init exampleEnv exampleContext (Traversal.ofConfig orderItemsConfig)
        orderItemsConfig {}).1.table 0).Columns,
      ((init exampleEnv exampleContext (Traversal.ofConfig orderItemsConfig)
        orderItemsConfig {}).1.column col).PK = true →
      ∃! id, id ∈ (init exampleEnv exampleContext (Traversal.ofConfig orderItemsConfig)
          orderItemsConfig {}).1.tableIDs 0 ∧
        ((init exampleEnv exampleContext (Traversal.ofConfig orderItemsConfig)
          orderItemsConfig {}).1.tableID id).Column = col :=
  init_pk_column_wrapped_once exampleEnv exampleContext (Traversal.ofConfig orderItemsConfig)
    orderItemsConfig (by decide) 0 ⟨0, by decide, 0, by decide, by decide⟩

end sqlmodelgen

namespace sqlmodelgen.configBuilder

theorem Ext.ext_refl (b : configBuilder) : Ext b b :=
  ⟨rfl, le_refl _, fun _ _ => ⟨rfl, rfl, rfl⟩, le_refl _, fun _ _ => ⟨rfl, rfl⟩, le_refl _,
    fun _ _ => ⟨rfl, rfl⟩, le_refl _, fun _ _ => ⟨rfl, rfl⟩, le_refl _, fun _ _ => rfl,
    le_refl _, fun _ _ => rfl⟩

theorem Ext.ext_trans {b1 b2 b3 : configBuilder} (h1 : Ext b1 b2) (h2 : Ext b2 b3) :
    Ext b1 b3 where
  namers := h2.namers.trans h1.namers
  dbLen := h1.dbLen.trans h2.dbLen
  db := fun d hd => by
    obtain ⟨a1, a2, a3⟩ := h1.db d hd
    obtain ⟨c1, c2, c3⟩ := h2.db d (lt_of_lt_of_le hd h1.dbLen)
    exact ⟨c1.trans a1, c2.trans a2, c3.trans a3⟩
  schLen := h1.schLen.trans h2.schLen
  sch := fun s hs => by
    obtain ⟨a1, a2⟩ := h1.sch s hs
    obtain ⟨c1, c2⟩ := h2.sch s (lt_of_lt_of_le hs h1.schLen)
    exact ⟨c1.trans a1, c2.trans a2⟩
  tblLen := h1.tblLen.trans h2.tblLen
  tbl := fun t ht => by
    obtain ⟨a1, a2⟩ := h1.tbl t ht
    obtain ⟨c1, c2⟩ := h2.tbl t (lt_of_lt_of_le ht h1.tblLen)
    exact ⟨c1.trans a1, c2.trans a2⟩
  colLen := h1.colLen.trans h2.colLen
  col := fun i hi => by
    obtain ⟨a1, a2⟩ := h1.col i hi
    obtain ⟨c1, c2⟩ := h2.col i (lt_of_lt_of_le hi h1.colLen)
    exact ⟨c1.trans a1, c2.trans a2⟩
  idLen := h1.idLen.trans h2.idLen
  ids := fun i hi => (h2.ids i (lt_of_lt_of_le hi h1.idLen)).trans (h1.ids i hi)
  keyLen := h1.keyLen.trans h2.keyLen
  keys := fun k hk => (h2.keys k (lt_of_lt_of_le hk h1.keyLen)).trans (h1.keys k hk)

/-- The database that owns a table of `b` has the same namers in an extension of `b`. -/
theorem Named.namers_eq {b b' : configBuilder} (h : Named b) (e : Ext b b') {t : Nat}
    (ht : t < b.tables.length) :
    (b'.tableDatabase t).Namers = (b.tableDatabase t).Namers := by
  unfold tableDatabase
  obtain ⟨hs, _⟩ := h.tbl t ht
  obtain ⟨hd, _⟩ := h.sch _ hs
  rw [(e.tbl t ht).1, (e.sch _ hs).1, (e.db _ hd).2.2]

/-- An extension of a named graph is named when its new entities are. -/
theorem Named.extend {b b' : configBuilder} (h : Named b) (e : Ext b b')
    (hdb : ∀ d, b.databases.length ≤ d → d < b'.databases.length →
      (b'.database d).Config = some .config ∧
      (b'.database d).Names =
        Names.init (b'.database d).Names.RawName b'.Config.DatabaseNamers)
    (hsch : ∀ s, b.schemas.length ≤ s → s < b'.schemas.length →
      (b'.schema s).Database < b'.databases.length ∧
      (b'.schema s).Names = Names.init (b'.schema s).Names.RawName
        (b'.database (b'.schema s).Database).Namers.Schema)
    (htbl : ∀ t, b.tables.length ≤ t → t < b'.tables.length →
      (b'.table t).Schema < b'.schemas.length ∧
      (b'.table t).Names =
        Names.init (b'.table t).Names.RawName (b'.tableDatabase t).Namers.Table)
    (hcol : ∀ i, b.columns.length ≤ i → i < b'.columns.length →
      (b'.column i).Table < b'.tables.length ∧
      (b'.column i).Names = Names.init (b'.column i).Names.RawName
        (b'.tableDatabase (b'.column i).Table).Namers.Column)
    (hid : ∀ i, b.ids.length ≤ i → i < b'.ids.length →
      (b'.tableID i).Column < b'.columns.length ∧
      (b'.tableID i).Names = Names.init (b'.column (b'.tableID i).Column).Names.RawName
        (b'.tableDatabase (b'.column (b'.tableID i).Column).Table).Namers.ID)
    (hkey : ∀ t < b'.tables.length, ∀ k, (b'.table t).Key = some k →
      (t < b.tables.length ∧ (b.table t).Key = some k) ∨
      (k < b'.keys.length ∧
        (b'.tableKey k).Names = Names.init ((b'.table t).Names.RawName ++ "Key")
          (b'.tableDatabase t).Namers.Key)) :
    Named b' where
  db := fun d hd => by
    by_cases hlt : d < b.databases.length
    · obtain ⟨a1, a2, _⟩ := e.db d hlt
      obtain ⟨c1, c2⟩ := h.db d hlt
      rw [a1, a2, e.namers]; exact ⟨c1, c2⟩
    · exact hdb d (not_lt.mp hlt) hd
  sch := fun s hs => by
    by_cases hlt : s < b.schemas.length
    · obtain ⟨a1, a2⟩ := e.sch s hlt
      obtain ⟨c1, c2⟩ := h.sch s hlt
      rw [a1, a2, (e.db _ c1).2.2]
      exact ⟨lt_of_lt_of_le c1 e.dbLen, c2⟩
    · exact hsch s (not_lt.mp hlt) hs
  tbl := fun t ht => by
    by_cases hlt : t < b.tables.length
    · obtain ⟨a1, a2⟩ := e.tbl t hlt
      obtain ⟨c1, c2⟩ := h.tbl t hlt
      rw [a1, a2, h.namers_eq e hlt]
      exact ⟨lt_of_lt_of_le c1 e.schLen, c2⟩
    · exact htbl t (not_lt.mp hlt) ht
  col := fun i hi => by
    by_cases hlt : i < b.columns.length
    · obtain ⟨a1, a2⟩ := e.col i hlt
      obtain ⟨c1, c2⟩ := h.col i hlt
      rw [a1, a2, h.namers_eq e c1]
      exact ⟨lt_of_lt_of_le c1 e.tblLen, c2⟩
    · exact hcol i (not_lt.mp hlt) hi
  id := fun i hi => by
    by_cases hlt : i < b.ids.length
    · obtain ⟨c1, c2⟩ := h.id i hlt
      obtain ⟨a1, a2⟩ := e.col _ c1
      rw [e.ids i hlt, a1, a2, h.namers_eq e (h.col _ c1).1]
      exact ⟨lt_of_lt_of_le c1 e.colLen, c2⟩
    · exact hid i (not_lt.mp hlt) hi
  key := fun t ht k hk => by
    rcases hkey t ht k hk with ⟨hlt, hk0⟩ | hnew
    · obtain ⟨c1, c2⟩ := h.key t hlt k hk0
      rw [e.keys k c1, (e.tbl t hlt).2, h.namers_eq e hlt]
      exact ⟨lt_of_lt_of_le c1 e.keyLen, c2⟩
    · exact hnew

end sqlmodelgen.configBuilder

namespace sqlmodelgen.configBuilder

theorem ext_namespaces (b : configBuilder) (ns : List String) :
    Ext b { b with namespaces := ns } :=
  ⟨rfl, le_refl _, fun _ _ => ⟨rfl, rfl, rfl⟩, le_refl _, fun _ _ => ⟨rfl, rfl⟩, le_refl _,
    fun _ _ => ⟨rfl, rfl⟩, le_refl _, fun _ _ => ⟨rfl, rfl⟩, le_refl _, fun _ _ => rfl,
    le_refl _, fun _ _ => rfl⟩

theorem ext_config (b : configBuilder) (C : sqlmodelgen.Config)
    (h : C.DatabaseNamers = b.Config.DatabaseNamers) : Ext b { b with Config := C } :=
  ⟨h, le_refl _, fun _ _ => ⟨rfl, rfl, rfl⟩, le_refl _, fun _ _ => ⟨rfl, rfl⟩, le_refl _,
    fun _ _ => ⟨rfl, rfl⟩, le_refl _, fun _ _ => ⟨rfl, rfl⟩, le_refl _, fun _ _ => rfl,
    le_refl _, fun _ _ => rfl⟩

theorem ext_append_column (b : configBuilder) (x : Column) :
    Ext b { b with columns := b.columns ++ [x] } :=
  ⟨rfl, le_refl _, fun _ _ => ⟨rfl, rfl, rfl⟩, le_refl _, fun _ _ => ⟨rfl, rfl⟩, le_refl _,
    fun _ _ => ⟨rfl, rfl⟩, by simp,
    fun i hi => by
      have : ({ b with columns := b.columns ++ [x] } : configBuilder).column i = b.column i :=
        getD_append_lt _ _ _ _ hi
      rw [this]; exact ⟨rfl, rfl⟩,
    le_refl _, fun _ _ => rfl, le_refl _, fun _ _ => rfl⟩

theorem ext_append_id (b : configBuilder) (x : TableID) :
    Ext b { b with ids := b.ids ++ [x] } :=
  ⟨rfl, le_refl _, fun _ _ => ⟨rfl, rfl, rfl⟩, le_refl _, fun _ _ => ⟨rfl, rfl⟩, le_refl _,
    fun _ _ => ⟨rfl, rfl⟩, le_refl _, fun _ _ => ⟨rfl, rfl⟩, by simp,
    fun i hi => getD_append_lt _ _ _ _ hi, le_refl _, fun _ _ => rfl⟩

theorem ext_append_key (b : configBuilder) (x : TableKey) :
    Ext b { b with keys := b.keys ++ [x] } :=
  ⟨rfl, le_refl _, fun _ _ => ⟨rfl, rfl, rfl⟩, le_refl _, fun _ _ => ⟨rfl, rfl⟩, le_refl _,
    fun _ _ => ⟨rfl, rfl⟩, le_refl _, fun _ _ => ⟨rfl, rfl⟩, le_refl _, fun _ _ => rfl,
    by simp,
    fun i hi => by
      have : ({ b with keys := b.keys ++ [x] } : configBuilder).tableKey i = b.tableKey i :=
        getD_append_lt _ _ _ _ hi
      rw [this]⟩

theorem ext_append_table (b : configBuilder) (x : Table) :
    Ext b { b with tables := b.tables ++ [x] } :=
  ⟨rfl, le_refl _, fun _ _ => ⟨rfl, rfl, rfl⟩, le_refl _, fun _ _ => ⟨rfl, rfl⟩, by simp,
    fun i hi => by
      have : ({ b with tables := b.tables ++ [x] } : configBuilder).table i = b.table i :=
        getD_append_lt _ _ _ _ hi
      rw [this]; exact ⟨rfl, rfl⟩,
    le_refl _, fun _ _ => ⟨rfl, rfl⟩, le_refl _, fun _ _ => rfl, le_refl _, fun _ _ => rfl⟩

theorem ext_append_schema (b : configBuilder) (x : Schema) :
    Ext b { b with schemas := b.schemas ++ [x] } :=
  ⟨rfl, le_refl _, fun _ _ => ⟨rfl, rfl, rfl⟩, by simp,
    fun i hi => by
      have : ({ b with schemas := b.schemas ++ [x] } : configBuilder).schema i = b.schema i :=
        getD_append_lt _ _ _ _ hi
      rw [this]; exact ⟨rfl, rfl⟩,
    le_refl _, fun _ _ => ⟨rfl, rfl⟩, le_refl _, fun _ _ => ⟨rfl, rfl⟩, le_refl _,
    fun _ _ => rfl, le_refl _, fun _ _ => rfl⟩

theorem ext_append_database (b : configBuilder) (x : Database) :
    Ext b { b with databases := b.databases ++ [x] } :=
  ⟨rfl, by simp,
    fun i hi => by
      have : ({ b with databases := b.databases ++ [x] } : configBuilder).database i =
          b.database i := getD_append_lt _ _ _ _ hi
      rw [this]; exact ⟨rfl, rfl, rfl⟩,
    le_refl _, fun _ _ => ⟨rfl, rfl⟩, le_refl _, fun _ _ => ⟨rfl, rfl⟩, le_refl _,
    fun _ _ => ⟨rfl, rfl⟩, le_refl _, fun _ _ => rfl, le_refl _, fun _ _ => rfl⟩

theorem ext_setColumn (b : configBuilder) (c : Nat) (x : Column)
    (h1 : x.Table = (b.column c).Table) (h2 : x.Names = (b.column c).Names) :
    Ext b (b.setColumn c x) :=
  ⟨rfl, le_refl _, fun _ _ => ⟨rfl, rfl, rfl⟩, le_refl _, fun _ _ => ⟨rfl, rfl⟩, le_refl _,
    fun _ _ => ⟨rfl, rfl⟩, by rw [setColumn_columns_length],
    fun i _ => by
      rw [column_setColumn]
      split
      · rename_i h; rw [h.1]; exact ⟨h1, h2⟩
      · exact ⟨rfl, rfl⟩,
    le_refl _, fun _ _ => rfl, le_refl _, fun _ _ => rfl⟩

theorem ext_setTable (b : configBuilder) (t : Nat) (x : Table)
    (h1 : x.Schema = (b.table t).Schema) (h2 : x.Names = (b.table t).Names) :
    Ext b (b.setTable t x) :=
  ⟨rfl, le_refl _, fun _ _ => ⟨rfl, rfl, rfl⟩, le_refl _, fun _ _ => ⟨rfl, rfl⟩,
    by simp [setTable],
    fun i _ => by
      rw [table_setTable]
      split
      · rename_i h; rw [h.1]; exact ⟨h1, h2⟩
      · exact ⟨rfl, rfl⟩,
    le_refl _, fun _ _ => ⟨rfl, rfl⟩, le_refl _, fun _ _ => rfl, le_refl _, fun _ _ => rfl⟩

theorem ext_setSchema (b : configBuilder) (s : Nat) (x : Schema)
    (h1 : x.Database = (b.schema s).Database) (h2 : x.Names = (b.schema s).Names) :
    Ext b (b.setSchema s x) :=
  ⟨rfl, le_refl _, fun _ _ => ⟨rfl, rfl, rfl⟩, by simp [setSchema],
    fun i hi => by
      by_cases h : i = s
      · subst h; rw [schema_setSchema_self b i x hi]; exact ⟨h1, h2⟩
      · rw [schema_setSchema_ne b s i x h]; exact ⟨rfl, rfl⟩,
    le_refl _, fun _ _ => ⟨rfl, rfl⟩, le_refl _, fun _ _ => ⟨rfl, rfl⟩, le_refl _,
    fun _ _ => rfl, le_refl _, fun _ _ => rfl⟩

theorem ext_setDatabase (b : configBuilder) (d : Nat) (x : Database)
    (h0 : x.Config = (b.database d).Config) (h1 : x.Names = (b.database d).Names)
    (h2 : x.Namers = (b.database d).Namers) :
    Ext b (b.setDatabase d x) :=
  ⟨rfl, by simp [setDatabase],
    fun i hi => by
      by_cases h : i = d
      · subst h; rw [database_setDatabase_self b i x hi]; exact ⟨h0, h1, h2⟩
      · rw [database_setDatabase_ne b d i x h]; exact ⟨rfl, rfl, rfl⟩,
    le_refl _, fun _ _ => ⟨rfl, rfl⟩, le_refl _, fun _ _ => ⟨rfl, rfl⟩, le_refl _,
    fun _ _ => ⟨rfl, rfl⟩, le_refl _, fun _ _ => rfl, le_refl _, fun _ _ => rfl⟩

end sqlmodelgen.configBuilder

namespace sqlmodelgen.configBuilder

/-- An extension without new entities that leaves the keys of the tables alone is
named. -/
theorem Named.of_ext_eq {b b' : configBuilder} (h : Named b) (e : Ext b b')
    (hd : b'.databases.length = b.databases.length)
    (hs : b'.schemas.length = b.schemas.length)
    (ht : b'.tables.length = b.tables.length)
    (hc : b'.columns.length = b.columns.length)
    (hi : b'.ids.length = b.ids.length)
    (hkey : ∀ t, (b'.table t).Key = (b.table t).Key) : Named b' :=
  h.extend e (fun d h1 h2 => by omega) (fun d h1 h2 => by omega) (fun d h1 h2 => by omega)
    (fun d h1 h2 => by omega) (fun d h1 h2 => by omega)
    (fun t ht' k hk => Or.inl ⟨by omega, by rw [← hkey]; exact hk⟩)

theorem Named.step_setColumn {b : configBuilder} (h : Named b) (c : Nat) (x : Column)
    (h1 : x.Table = (b.column c).Table) (h2 : x.Names = (b.column c).Names) :
    Named (b.setColumn c x) ∧ Ext b (b.setColumn c x) :=
  ⟨h.of_ext_eq (ext_setColumn b c x h1 h2) rfl rfl rfl (setColumn_columns_length b c x) rfl
    (fun _ => rfl), ext_setColumn b c x h1 h2⟩

theorem Named.step_namespaces {b : configBuilder} (h : Named b) (ns : List String) :
    Named { b with namespaces := ns } ∧ Ext b { b with namespaces := ns } :=
  ⟨h.of_ext_eq (ext_namespaces b ns) rfl rfl rfl rfl rfl (fun _ => rfl), ext_namespaces b ns⟩

theorem Named.step_setTable {b : configBuilder} (h : Named b) (t : Nat) (x : Table)
    (h1 : x.Schema = (b.table t).Schema) (h2 : x.Names = (b.table t).Names)
    (h3 : x.Key = (b.table t).Key) :
    Named (b.setTable t x) ∧ Ext b (b.setTable t x) :=
  ⟨h.of_ext_eq (ext_setTable b t x h1 h2) rfl rfl (by simp [setTable]) rfl rfl
    (fun i => by
      rw [table_setTable]
      split
      · rename_i hh; rw [hh.1]; exact h3
      · rfl), ext_setTable b t x h1 h2⟩

theorem named_initColumnType {b : configBuilder} (h : Named b) (env : Env)
    (mc : ModelContext) (dn sn tn cn : String) (cc : config.Column) (c : Nat) :
    Named (initColumnType env mc dn sn tn cn cc c b).1 ∧
      Ext b (initColumnType env mc dn sn tn cn cc c b).1 := by
  unfold initColumnType
  split
  · split
    · exact ⟨h, Ext.ext_refl b⟩
    · rename_i ty _
      have s1 := h.step_setColumn c { b.column c with Type_ := some ty } rfl rfl
      split
      · exact s1
      · simp only
        split
        · obtain ⟨n2, e2⟩ := s1.1.step_namespaces
            (setAdd (b.setColumn c { b.column c with Type_ := some ty }).namespaces _)
          exact ⟨n2, s1.2.ext_trans e2⟩
        · exact s1
  · exact ⟨h, Ext.ext_refl b⟩

theorem Named.step_newColumn {b : configBuilder} (h : Named b) {t : Nat}
    (ht : t < b.tables.length) (n : String) :
    Named (b.newColumn t n).1 ∧ Ext b (b.newColumn t n).1 := by
  have e := ext_append_column b
    { Table := t, Names := Names.init n (b.tableDatabase t).Namers.Column }
  refine ⟨h.extend e (fun d h1 h2 => absurd h2 (not_lt.mpr h1))
    (fun d h1 h2 => absurd h2 (not_lt.mpr h1)) (fun d h1 h2 => absurd h2 (not_lt.mpr h1))
    ?_ (fun d h1 h2 => absurd h2 (not_lt.mpr h1))
    (fun t' ht' k hk => Or.inl ⟨ht', hk⟩), e⟩
  intro i h1 h2
  have hi : i = b.columns.length := by
    simp only [newColumn, List.length_append, List.length_singleton] at h2; omega
  subst hi
  have hc : (b.newColumn t n).1.column b.columns.length =
      { Table := t, Names := Names.init n (b.tableDatabase t).Namers.Column } :=
    getD_append_length _ _ _
  rw [hc]
  exact ⟨ht, rfl⟩

theorem Named.step_newID {b : configBuilder} (h : Named b) {c : Nat}
    (hc : c < b.columns.length) :
    Named (b.newID c).1 ∧ Ext b (b.newID c).1 := by
  have e := ext_append_id b
    { Column := c,
      Names := Names.init (b.column c).Names.RawName
        (b.tableDatabase (b.column c).Table).Namers.ID }
  refine ⟨h.extend e (fun d h1 h2 => absurd h2 (not_lt.mpr h1))
    (fun d h1 h2 => absurd h2 (not_lt.mpr h1)) (fun d h1 h2 => absurd h2 (not_lt.mpr h1))
    (fun d h1 h2 => absurd h2 (not_lt.mpr h1)) ?_
    (fun t' ht' k hk => Or.inl ⟨ht', hk⟩), e⟩
  intro i h1 h2
  have hi : i = b.ids.length := by
    simp only [newID, List.length_append, List.length_singleton] at h2; omega
  subst hi
  have hid : (b.newID c).1.tableID b.ids.length =
      { Column := c,
        Names := Names.init (b.column c).Names.RawName
          (b.tableDatabase (b.column c).Table).Namers.ID } :=
    getD_append_length _ _ _
  rw [hid]
  exact ⟨hc, rfl⟩

/-- An iteration of the column loop keeps the graph named. -/
theorem named_initColumn {b : configBuilder} (h : Named b) (env : Env) (mc : ModelContext)
    (dn sn tn : String) {t : Nat} (ht : t < b.tables.length) (cn : String)
    (cc : config.Column) (tmp : List Nat) :
    Named (initColumn env mc dn sn tn t cn cc b tmp).1 ∧
      Ext b (initColumn env mc dn sn tn t cn cc b tmp).1 := by
  obtain ⟨n0, e0⟩ := h.step_newColumn ht cn
  have hc0 : (b.newColumn t cn).2 < (b.newColumn t cn).1.columns.length := by
    simp [newColumn]
  obtain ⟨n1, e1⟩ := n0.step_setTable t
    { (b.newColumn t cn).1.table t with
      Columns := ((b.newColumn t cn).1.table t).Columns ++ [(b.newColumn t cn).2],
      ColumnsByName := mapSet ((b.newColumn t cn).1.table t).ColumnsByName cn
        (b.newColumn t cn).2 } rfl rfl rfl
  obtain ⟨n2, e2⟩ := n1.step_setColumn (b.newColumn t cn).2
    { ((b.newColumn t cn).1.setTable t _).column (b.newColumn t cn).2 with PK := cc.PK }
    rfl rfl
  obtain ⟨n3, e3⟩ := named_initColumnType n2 env mc dn sn tn cn cc (b.newColumn t cn).2
  have e03 := (e1.ext_trans e2).ext_trans e3
  unfold initColumn
  simp only
  cases hr : initColumnType env mc dn sn tn cn cc (b.newColumn t cn).2
      (((b.newColumn t cn).1.setTable t _).setColumn (b.newColumn t cn).2 _) with
  | mk b3 err =>
    rw [hr] at n3 e3 e03
    simp only at n3 e3 e03
    cases err with
    | some e => exact ⟨n3, e0.ext_trans e03⟩
    | none =>
      simp only
      split
      · obtain ⟨n4, e4⟩ := n3.step_newID (lt_of_lt_of_le hc0 e03.colLen)
        exact ⟨n4, (e0.ext_trans e03).ext_trans e4⟩
      · exact ⟨n3, e0.ext_trans e03⟩

end sqlmodelgen.configBuilder

namespace sqlmodelgen.configBuilder

theorem named_initColumns {b : configBuilder} (h : Named b) (env : Env) (mc : ModelContext)
    (dn sn tn : String) {t : Nat} (ht : t < b.tables.length)
    (cols : List (String × config.Column)) (tmp : List Nat) :
    Named (initColumns env mc dn sn tn t cols b tmp).1 ∧
      Ext b (initColumns env mc dn sn tn t cols b tmp).1 := by
  induction cols generalizing b tmp with
  | nil => exact ⟨h, Ext.ext_refl b⟩
  | cons p rest ih =>
    obtain ⟨cn, cc⟩ := p
    simp only [initColumns]
    obtain ⟨n1, e1⟩ := named_initColumn h env mc dn sn tn ht cn cc tmp
    cases hr : initColumn env mc dn sn tn t cn cc b tmp with
    | mk b1 r =>
      obtain ⟨tmp1, err⟩ := r
      rw [hr] at n1 e1
      cases err with
      | some e => exact ⟨n1, e1⟩
      | none =>
        obtain ⟨n2, e2⟩ := ih n1 (lt_of_lt_of_le ht e1.tblLen) tmp1
        exact ⟨n2, e1.ext_trans e2⟩

theorem named_assignKey {b : configBuilder} (h : Named b) {t : Nat}
    (ht : t < b.tables.length) (tmp : List Nat) :
    Named (b.assignKey t tmp).1 ∧ Ext b (b.assignKey t tmp).1 := by
  unfold assignKey
  split
  · exact ⟨h, Ext.ext_refl b⟩
  · exact h.step_setTable t _ rfl rfl rfl
  · simp only
    have e1 := ext_append_key b
      { Names := Names.init ((b.table t).Names.RawName ++ "Key") (b.tableDatabase t).Namers.Key,
        IDs := b.newIDs tmp }
    have e2 := ext_setTable (b.newKey t tmp).1 t
      { (b.newKey t tmp).1.table t with Key := some (b.newKey t tmp).2 } rfl rfl
    have e := e1.ext_trans e2
    refine ⟨h.extend e (fun d h1 h2 => absurd h2 (not_lt.mpr h1))
      (fun d h1 h2 => absurd h2 (not_lt.mpr h1))
      (fun d h1 h2 => absurd (by simpa [setTable] using h2) (not_lt.mpr h1))
      (fun d h1 h2 => absurd h2 (not_lt.mpr h1))
      (fun d h1 h2 => absurd h2 (not_lt.mpr h1)) ?_, e⟩
    intro t' ht' k hk
    have ht'' : t' < b.tables.length := by simpa [setTable] using ht'
    rw [table_setTable] at hk
    split at hk
    · rename_i hh
      obtain ⟨rfl, _⟩ := hh
      simp only [Option.some.injEq] at hk
      subst hk
      refine Or.inr ⟨by simp [setTable, newKey], ?_⟩
      have hk1 : ∀ T, ((b.newKey t' tmp).1.setTable t' T).tableKey (b.newKey t' tmp).2 =
          { Names := Names.init ((b.table t').Names.RawName ++ "Key")
              (b.tableDatabase t').Namers.Key,
            IDs := b.newIDs tmp } := fun _ => getD_append_length _ _ _
      rw [hk1, (e.tbl t' ht'').2, h.namers_eq e ht'']
    · exact Or.inl ⟨ht'', hk⟩

theorem named_initTable {b : configBuilder} (h : Named b) (env : Env) (mc : ModelContext)
    (dn sn : String) {s : Nat} (hs : s < b.schemas.length) (tn : String)
    (tc : config.Table) (tmp : List Nat) :
    Named (initTable env mc dn sn s tn tc b tmp).1 ∧
      Ext b (initTable env mc dn sn s tn tc b tmp).1 := by
  have e0 := ext_append_table b
    { Schema := s, Names := Names.init tn (b.database (b.schema s).Database).Namers.Table }
  have n0 : Named (b.newTable s tn).1 := by
    refine h.extend e0 (fun d h1 h2 => absurd h2 (not_lt.mpr h1))
      (fun d h1 h2 => absurd h2 (not_lt.mpr h1)) ?_
      (fun d h1 h2 => absurd h2 (not_lt.mpr h1)) (fun d h1 h2 => absurd h2 (not_lt.mpr h1))
      ?_
    · intro i h1 h2
      have hi : i = b.tables.length := by
        simp only [newTable, List.length_append, List.length_singleton] at h2; omega
      subst hi
      have ht : (b.newTable s tn).1.table b.tables.length =
          { Schema := s,
            Names := Names.init tn (b.database (b.schema s).Database).Namers.Table } :=
        getD_append_length _ _ _
      unfold tableDatabase
      rw [ht]
      exact ⟨hs, rfl⟩
    · intro t' ht' k hk
      by_cases hlt : t' < b.tables.length
      · refine Or.inl ⟨hlt, ?_⟩
        have : (b.newTable s tn).1.table t' = b.table t' := getD_append_lt _ _ _ _ hlt
        rw [← this]; exact hk
      · exfalso
        have hi : t' = b.tables.length := by
          simp only [newTable, List.length_append, List.length_singleton] at ht'; omega
        subst hi
        have ht : (b.newTable s tn).1.table b.tables.length =
            { Schema := s,
              Names := Names.init tn (b.database (b.schema s).Database).Namers.Table } :=
          getD_append_length _ _ _
        rw [ht] at hk
        cases hk
  have e1 := ext_setSchema (b.newTable s tn).1 s
    { (b.newTable s tn).1.schema s with
      Tables := ((b.newTable s tn).1.schema s).Tables ++ [(b.newTable s tn).2],
      TablesByName := mapSet ((b.newTable s tn).1.schema s).TablesByName tn
        (b.newTable s tn).2 } rfl rfl
  have n1 := n0.of_ext_eq e1 rfl (by simp [setSchema]) rfl rfl rfl (fun _ => rfl)
  have ht1 : (b.newTable s tn).2 < ((b.newTable s tn).1.setSchema s
      { (b.newTable s tn).1.schema s with
        Tables := ((b.newTable s tn).1.schema s).Tables ++ [(b.newTable s tn).2],
        TablesByName := mapSet ((b.newTable s tn).1.schema s).TablesByName tn
          (b.newTable s tn).2 }).tables.length := by
    simp [newTable, setSchema]
  obtain ⟨n2, e2⟩ := named_initColumns n1 env mc dn sn tn ht1 tc.Columns tmp
  have e02 := (e0.ext_trans e1).ext_trans e2
  unfold initTable
  simp only
  cases hr : initColumns env mc dn sn tn (b.newTable s tn).2 tc.Columns
      ((b.newTable s tn).1.setSchema s _) tmp with
  | mk b2 r =>
    obtain ⟨tmp2, err⟩ := r
    rw [hr] at n2 e2 e02
    simp only at n2 e2 e02
    cases err with
    | some e => exact ⟨n2, e02⟩
    | none =>
      obtain ⟨n3, e3⟩ := named_assignKey n2 (lt_of_lt_of_le ht1 e2.tblLen) tmp2
      exact ⟨n3, e02.ext_trans e3⟩

theorem named_initTables {b : configBuilder} (h : Named b) (env : Env) (mc : ModelContext)
    (dn sn : String) {s : Nat} (hs : s < b.schemas.length)
    (tbls : List (String × config.Table)) (tmp : List Nat) :
    Named (initTables env mc dn sn s tbls b tmp).1 ∧
      Ext b (initTables env mc dn sn s tbls b tmp).1 := by
  induction tbls generalizing b tmp with
  | nil => exact ⟨h, Ext.ext_refl b⟩
  | cons p rest ih =>
    obtain ⟨tn, tc⟩ := p
    simp only [initTables]
    obtain ⟨n1, e1⟩ := named_initTable h env mc dn sn hs tn tc tmp
    cases hr : initTable env mc dn sn s tn tc b tmp with
    | mk b1 r =>
      obtain ⟨tmp1, err⟩ := r
      rw [hr] at n1 e1
      cases err with
      | some e => exact ⟨n1, e1⟩
      | none =>
        obtain ⟨n2, e2⟩ := ih n1 (lt_of_lt_of_le hs e1.schLen) tmp1
        exact ⟨n2, e1.ext_trans e2⟩

end sqlmodelgen.configBuilder

namespace sqlmodelgen.configBuilder

theorem named_initSchema {b : configBuilder} (h : Named b) (env : Env) (mc : ModelContext)
    (dn : String) {d : Nat} (hd : d < b.databases.length) (sn : String)
    (sc : config.Schema) (tmp : List Nat) :
    Named (initSchema env mc dn d sn sc b tmp).1 ∧
      Ext b (initSchema env mc dn d sn sc b tmp).1 := by
  have e0 := ext_append_schema b
    { Database := d, Names := Names.init sn (b.database d).Namers.Schema }
  have n0 : Named (b.newSchema d sn).1 := by
    refine h.extend e0 (fun d h1 h2 => absurd h2 (not_lt.mpr h1)) ?_
      (fun d h1 h2 => absurd h2 (not_lt.mpr h1))
      (fun d h1 h2 => absurd h2 (not_lt.mpr h1)) (fun d h1 h2 => absurd h2 (not_lt.mpr h1))
      (fun t' ht' k hk => Or.inl ⟨ht', hk⟩)
    intro i h1 h2
    have hi : i = b.schemas.length := by
      simp only [newSchema, List.length_append, List.length_singleton] at h2; omega
    subst hi
    have hs : (b.newSchema d sn).1.schema b.schemas.length =
        { Database := d, Names := Names.init sn (b.database d).Namers.Schema } :=
      getD_append_length _ _ _
    rw [hs]
    exact ⟨hd, rfl⟩
  have e1 := ext_setDatabase (b.newSchema d sn).1 d
    { (b.newSchema d sn).1.database d with
      Schemas := ((b.newSchema d sn).1.database d).Schemas ++ [(b.newSchema d sn).2],
      SchemasByName := mapSet ((b.newSchema d sn).1.database d).SchemasByName sn
        (b.newSchema d sn).2 } rfl rfl rfl
  have n1 := n0.of_ext_eq e1 (by simp [setDatabase]) rfl rfl rfl rfl (fun _ => rfl)
  have hs1 : (b.newSchema d sn).2 < ((b.newSchema d sn).1.setDatabase d
      { (b.newSchema d sn).1.database d with
        Schemas := ((b.newSchema d sn).1.database d).Schemas ++ [(b.newSchema d sn).2],
        SchemasByName := mapSet ((b.newSchema d sn).1.database d).SchemasByName sn
          (b.newSchema d sn).2 }).schemas.length := by
    simp [newSchema, setDatabase]
  obtain ⟨n2, e2⟩ := named_initTables n1 env mc dn sn hs1 sc.Tables tmp
  exact ⟨n2, (e0.ext_trans e1).ext_trans e2⟩

theorem named_initSchemas {b : configBuilder} (h : Named b) (env : Env) (mc : ModelContext)
    (dn : String) {d : Nat} (hd : d < b.databases.length)
    (schs : List (String × config.Schema)) (tmp : List Nat) :
    Named (initSchemas env mc dn d schs b tmp).1 ∧
      Ext b (initSchemas env mc dn d schs b tmp).1 := by
  induction schs generalizing b tmp with
  | nil => exact ⟨h, Ext.ext_refl b⟩
  | cons p rest ih =>
    obtain ⟨sn, sc⟩ := p
    simp only [initSchemas]
    obtain ⟨n1, e1⟩ := named_initSchema h env mc dn hd sn sc tmp
    cases hr : initSchema env mc dn d sn sc b tmp with
    | mk b1 r =>
      obtain ⟨tmp1, err⟩ := r
      rw [hr] at n1 e1
      cases err with
      | some e => exact ⟨n1, e1⟩
      | none =>
        obtain ⟨n2, e2⟩ := ih n1 (lt_of_lt_of_le hd e1.dbLen) tmp1
        exact ⟨n2, e1.ext_trans e2⟩

theorem named_initDatabase {b : configBuilder} (h : Named b) (env : Env) (mc : ModelContext)
    (dn : String) (dc : config.Database) (tmp : List Nat) :
    Named (initDatabase env mc dn dc b tmp).1 ∧
      Ext b (initDatabase env mc dn dc b tmp).1 := by
  have e0 := ext_append_database b
    { Config := some .config, Names := Names.init dn b.Config.DatabaseNamers,
      Namers := (initDatabaseNamers env {} dc.Namers).1 }
  have n0 : Named (b.newDatabase env dn dc).1 := by
    refine h.extend e0 ?_ (fun d h1 h2 => absurd h2 (not_lt.mpr h1))
      (fun d h1 h2 => absurd h2 (not_lt.mpr h1))
      (fun d h1 h2 => absurd h2 (not_lt.mpr h1)) (fun d h1 h2 => absurd h2 (not_lt.mpr h1))
      (fun t' ht' k hk => Or.inl ⟨ht', hk⟩)
    intro i h1 h2
    have hi : i = b.databases.length := by
      simp only [newDatabase, List.length_append, List.length_singleton] at h2; omega
    subst hi
    have hs : (b.newDatabase env dn dc).1.database b.databases.length =
        { Config := some .config, Names := Names.init dn b.Config.DatabaseNamers,
          Namers := (initDatabaseNamers env {} dc.Namers).1 } :=
      getD_append_length _ _ _
    rw [hs]
    exact ⟨rfl, rfl⟩
  have both : ∀ b0, b0 = (b.newDatabase env dn dc).1 → Named b0 ∧ Ext b b0 := by
    intro b0 hb0; rw [hb0]; exact ⟨n0, e0⟩
  clear n0 e0
  unfold initDatabase
  cases hr : b.newDatabase env dn dc with
  | mk b0 r =>
    obtain ⟨d, err⟩ := r
    have hb0 : b0 = (b.newDatabase env dn dc).1 := by rw [hr]
    have hd : d = b.databases.length := by
      have := congrArg (fun x => x.2.1) hr; exact this.symm
    obtain ⟨n0, e0⟩ := both b0 hb0
    clear both
    cases err with
    | some e => exact ⟨n0, e0⟩
    | none =>
      simp only
      have e1 := ext_config b0 { b0.Config with
        Databases := b0.Config.Databases ++ [d],
        DatabasesByName := mapSet b0.Config.DatabasesByName dn d } rfl
      have n1 := n0.of_ext_eq e1 rfl rfl rfl rfl rfl (fun _ => rfl)
      have hd1 : d < ({ b0 with Config := { b0.Config with
          Databases := b0.Config.Databases ++ [d],
          DatabasesByName := mapSet b0.Config.DatabasesByName dn d } } :
            configBuilder).databases.length := by
        rw [hd, hb0]; simp [newDatabase]
      obtain ⟨n2, e2⟩ := named_initSchemas n1 env mc dn hd1 dc.Schemas tmp
      exact ⟨n2, (e0.ext_trans e1).ext_trans e2⟩

theorem named_initDatabases {b : configBuilder} (h : Named b) (env : Env)
    (mc : ModelContext) (dbs : List (String × config.Database)) (tmp : List Nat) :
    Named (initDatabases env mc dbs b tmp).1 := by
  induction dbs generalizing b tmp with
  | nil => exact h
  | cons p rest ih =>
    obtain ⟨dn, dc⟩ := p
    simp only [initDatabases]
    obtain ⟨n1, _⟩ := named_initDatabase h env mc dn dc tmp
    cases hr : initDatabase env mc dn dc b tmp with
    | mk b1 r =>
      obtain ⟨tmp1, err⟩ := r
      rw [hr] at n1
      cases err with
      | some e => exact n1
      | none => exact ih n1 tmp1

/-- The first pass leaves a named graph. -/
theorem named_initPass1 (env : Env) (mc : ModelContext) (c : config.Config) :
    Named (initPass1 env mc c {}).1 := by
  have hempty : ∀ b : configBuilder, b.databases = [] → b.schemas = [] → b.tables = [] →
      b.columns = [] → b.ids = [] → Named b := by
    intro b h1 h2 h3 h4 h5
    refine ⟨fun d hd => ?_, fun d hd => ?_, fun d hd => ?_, fun d hd => ?_, fun d hd => ?_,
      fun d hd => ?_⟩
    · rw [h1] at hd; cases hd
    · rw [h2] at hd; cases hd
    · rw [h3] at hd; cases hd
    · rw [h4] at hd; cases hd
    · rw [h5] at hd; cases hd
    · rw [h3] at hd; cases hd
  unfold initPass1
  simp only
  split
  · exact hempty _ rfl rfl rfl rfl rfl
  · exact named_initDatabases (hempty _ rfl rfl rfl rfl rfl) env mc c.Databases []

end sqlmodelgen.configBuilder

namespace sqlmodelgen.configBuilder

/-- The foreign-key pass leaves the root and the namespace set alone. -/
theorem fkStep_root (x : dbSchemaTableColumn) (b : configBuilder) :
    (fkStep x b).1.Config = b.Config ∧ (fkStep x b).1.namespaces = b.namespaces := by
  have hset : ∀ (b : configBuilder) c id, (b.setFK c id).Config = b.Config ∧
      (b.setFK c id).namespaces = b.namespaces := by
    intro b c id
    unfold setFK
    simp only
    split <;> exact ⟨rfl, rfl⟩
  have hlink : ∀ fkCol, (b.linkFK x.column fkCol).Config = b.Config ∧
      (b.linkFK x.column fkCol).namespaces = b.namespaces := by
    intro fkCol
    rcases linkFK_cases b x.column fkCol with h | ⟨id, h, _⟩
    · rw [h]; exact ⟨rfl, rfl⟩
    · rw [h]; exact hset _ _ _
  unfold fkStep
  split
  · exact ⟨rfl, rfl⟩
  · split
    · exact ⟨rfl, rfl⟩
    · simp only
      split
      · exact hlink _
      · exact hlink _
    · exact ⟨rfl, rfl⟩

/-- The data-column pass leaves the root and the namespace set alone. -/
theorem dataStep_root (x : dbSchemaTableColumn) (b : configBuilder) :
    (dataStep x b).1.Config = b.Config ∧ (dataStep x b).1.namespaces = b.namespaces := by
  unfold dataStep
  split
  · exact ⟨rfl, rfl⟩
  · split
    · exact ⟨rfl, rfl⟩
    · simp only
      split <;> exact ⟨rfl, rfl⟩

/-- The root and the namespace set at the end of the data-column pass are those of the
first pass. -/
theorem init_root_of_ok {env : Env} {mc : ModelContext} {tr : Traversal}
    {c : config.Config} (h : (init env mc tr c {}).2 = none) :
    ∃ b1 b3, initPass1 env mc c {} = (b1, none) ∧ Later b1 b3 ∧
      b3.Config = b1.Config ∧ b3.namespaces = b1.namespaces ∧
      (init env mc tr c {}).1 = finishNamespaces mc tr (ensureNamespaces mc b3) := by
  obtain ⟨b1, b2, b3, h1, h2, h3, h4⟩ := init_stages h
  have l12 : Later b1 b2 := by have := later_iter_fkStep tr.fk b1; rwa [h2] at this
  have l23 : Later b2 b3 := by have := later_iter_dataStep tr.data b2; rwa [h3] at this
  have k2 : b2.Config = b1.Config ∧ b2.namespaces = b1.namespaces := by
    have := iterDatabases_induct
      (fun b => b.Config = b1.Config ∧ b.namespaces = b1.namespaces) configBuilder.fkStep
      (fun x b hb => ⟨(fkStep_root x b).1.trans hb.1, (fkStep_root x b).2.trans hb.2⟩)
      tr.fk.Databases b1 ⟨rfl, rfl⟩
    unfold iterDBSchemaTableColumn at h2
    rwa [h2] at this
  have k3 : b3.Config = b1.Config ∧ b3.namespaces = b1.namespaces := by
    have := iterDatabases_induct
      (fun b => b.Config = b1.Config ∧ b.namespaces = b1.namespaces) configBuilder.dataStep
      (fun x b hb => ⟨(dataStep_root x b).1.trans hb.1, (dataStep_root x b).2.trans hb.2⟩)
      tr.data.Databases b2 k2
    unfold iterDBSchemaTableColumn at h3
    rwa [h3] at this
  exact ⟨b1, b3, h1, l12.later_trans l23, k3.1, k3.2, h4⟩

theorem ensureNamespaces_config (mc : ModelContext) (b : configBuilder) :
    (ensureNamespaces mc b).Config = b.Config := by
  unfold ensureNamespaces
  cases mc.EnsureNamespaces with
  | none => rfl
  | some ens =>
    simp only
    generalize ens b = l
    induction l generalizing b with
    | nil => rfl
    | cons ns rest ih =>
      simp only [List.foldl_cons]
      by_cases hns : ns = ""
      · simp only [hns, if_true]; exact ih b
      · simp only [hns, if_false]
        exact (ih { b with namespaces := setAdd b.namespaces ns }).trans rfl

theorem finishNamespaces_namers (mc : ModelContext) (tr : Traversal) (b : configBuilder) :
    (finishNamespaces mc tr b).Config.DatabaseNamers = b.Config.DatabaseNamers := by
  unfold finishNamespaces
  simp only
  cases mc.OrganizeNamespaces <;> rfl

/-- A graph that the later passes make of a named graph is named. -/
theorem Named.later_named {b b' : configBuilder} (h : Named b) (hl : Later b b')
    (hn : b'.Config.DatabaseNamers = b.Config.DatabaseNamers) : Named b' := by
  have hdb : ∀ d, b'.database d = b.database d := fun d => by
    simp only [database, hl.databases]
  have hsch : ∀ s, b'.schema s = b.schema s := fun s => by simp only [schema, hl.schemas]
  have htd : ∀ t, b'.tableDatabase t = b.tableDatabase t := fun t => by
    unfold tableDatabase; rw [hl.tblSchema, hsch, hdb]
  refine ⟨fun d hd => ?_, fun s hs => ?_, fun t ht => ?_, fun i hi => ?_, fun i hi => ?_,
    fun t ht k hk => ?_⟩
  · rw [hl.databases] at hd
    rw [hdb, hn]; exact h.db d hd
  · rw [hl.schemas] at hs
    rw [hsch, hdb, hl.databases]; exact h.sch s hs
  · rw [hl.tablesLen] at ht
    rw [hl.tblSchema, hl.tblNames, htd, hl.schemas]; exact h.tbl t ht
  · rw [hl.columnsLen] at hi
    rw [hl.colTable, hl.colNames, htd, hl.tablesLen]; exact h.col i hi
  · rw [hl.ids] at hi
    rw [hl.tableID_eq, hl.colNames, hl.colTable, htd, hl.columnsLen]; exact h.id i hi
  · rw [hl.tablesLen] at ht
    rw [hl.tblKey] at hk
    have hk' : b'.tableKey k = b.tableKey k := by simp only [tableKey, hl.keys]
    rw [hk', hl.tblNames, htd, hl.keys]; exact h.key t ht k hk

/-- A successfully built graph is named. -/
theorem init_named {env : Env} {mc : ModelContext} {tr : Traversal}
    {c : config.Config} (h : (init env mc tr c {}).2 = none) :
    Named (init env mc tr c {}).1 := by
  obtain ⟨b1, b3, h1, _, hcfg, _, h4⟩ := init_root_of_ok h
  have hl := init_later_of_pass1 tr h1
  have hn := named_initPass1 env mc c
  rw [h1] at hn
  refine hn.later_named hl ?_
  rw [h4, finishNamespaces_namers, ensureNamespaces_config, hcfg]

end sqlmodelgen.configBuilder

namespace sqlmodelgen.configBuilder

/-- The owners in a graph that the later passes make of the graph of the first pass. -/
theorem RootOpen.ownersAgree {env : Env} {b1 b : configBuilder}
    {dbs : List (String × config.Database)} (h : RootOpen env b1 dbs) (hl : Later b1 b)
    (hn : Named b) : OwnersAgree b := by
  have hdb : ∀ d, b.database d = b1.database d := fun d => by
    simp only [database, hl.databases]
  have hsch : ∀ s, b.schema s = b1.schema s := fun s => by simp only [schema, hl.schemas]
  intro d hd
  rw [hl.roots] at hd
  obtain ⟨ed, _, hdd⟩ := forall₂_mem_left h.databases hd
  refine ⟨(hn.db d (by rw [hl.databases]; exact hdd.valid)).1, fun s hs => ?_⟩
  rw [hdb] at hs
  obtain ⟨es, _, hsd⟩ := forall₂_mem_left hdd.schemas hs
  rw [hsch]
  refine ⟨hsd.owner, fun t ht => ?_⟩
  obtain ⟨et, _, htd⟩ := forall₂_mem_left hsd.tables ht
  rw [hl.tblSchema, hl.tblColumns]
  refine ⟨htd.owner, fun i hi => ?_⟩
  obtain ⟨ec, _, hcd⟩ := forall₂_mem_left htd.cols hi
  rw [hl.colTable]
  exact hcd.owner

/-- The child lists and by-name maps in a graph that the later passes make of the graph
of the first pass. -/
theorem RootOpen.listedOnce {env : Env} {b1 b : configBuilder} {c : config.Config}
    (h : RootOpen env b1 c.Databases) (hwf : c.WellFormed) (hl : Later b1 b) :
    ListedOnce b := by
  have hdb : ∀ d, b.database d = b1.database d := fun d => by
    simp only [database, hl.databases]
  have hsch : ∀ s, b.schema s = b1.schema s := fun s => by simp only [schema, hl.schemas]
  intro d hd
  rw [hl.roots] at hd ⊢
  rw [hl.rootsByName, hdb]
  obtain ⟨ed, hed, hdd, hld⟩ := forall₂_mem_left (h.mirror_root hwf.1) hd
  have wd := hwf.2 ed hed
  refine ⟨List.count_eq_one_of_mem h.nodup hd, by rw [hdd.name]; exact hld, fun s hs => ?_⟩
  obtain ⟨es, hes, hsd, hls⟩ := forall₂_mem_left (hdd.toDatabaseOpen.mirror_db wd.1) hs
  have ws := wd.2 es hes
  rw [hsch]
  refine ⟨List.count_eq_one_of_mem hdd.nodup hs, by rw [hsd.name]; exact hls,
    fun t ht => ?_⟩
  obtain ⟨et, het, htd, hlt⟩ := forall₂_mem_left (hsd.toSchemaOpen.mirror_sch ws.1) ht
  have wt := ws.2 et het
  rw [hl.tblNames, hl.tblColumns, hl.tblByName]
  refine ⟨List.count_eq_one_of_mem hsd.nodup ht, by rw [htd.name]; exact hlt,
    fun i hi => ?_⟩
  obtain ⟨ec, _, hcd, hlc⟩ := forall₂_mem_left (htd.toTableCols.mirror_cols wt) hi
  rw [hl.colNames]
  exact ⟨List.count_eq_one_of_mem htd.nodup hi, by rw [hcd.name]; exact hlc⟩

/-- The names in a named graph that the later passes make of the graph of the first
pass. -/
theorem RootOpen.scopedNames {env : Env} {b1 b : configBuilder}
    {dbs : List (String × config.Database)} (h : RootOpen env b1 dbs) (hl : Later b1 b)
    (hn : Named b) : ScopedNames b := by
  have hdb : ∀ d, b.database d = b1.database d := fun d => by
    simp only [database, hl.databases]
  have hsch : ∀ s, b.schema s = b1.schema s := fun s => by simp only [schema, hl.schemas]
  intro d hd
  rw [hl.roots] at hd
  obtain ⟨ed, _, hdd⟩ := forall₂_mem_left h.databases hd
  have hdv : d < b.databases.length := by rw [hl.databases]; exact hdd.valid
  refine ⟨(hn.db d hdv).2, fun s hs => ?_⟩
  rw [hdb] at hs
  obtain ⟨es, _, hsd⟩ := forall₂_mem_left hdd.schemas hs
  have hsv : s < b.schemas.length := by rw [hl.schemas]; exact hsd.valid
  have hso : (b.schema s).Database = d := by rw [hsch]; exact hsd.owner
  refine ⟨by have := (hn.sch s hsv).2; rwa [hso] at this, fun t ht => ?_⟩
  rw [hsch] at ht
  obtain ⟨et, _, htd⟩ := forall₂_mem_left hsd.tables ht
  have htv : t < b.tables.length := by rw [hl.tablesLen]; exact htd.valid
  have hto : b.tableDatabase t = b.database d := by
    unfold tableDatabase; rw [hl.tblSchema, htd.owner, hso]
  refine ⟨by have := (hn.tbl t htv).2; rwa [hto] at this, fun i hi => ?_, fun id hid => ?_,
    fun k hk => by have := (hn.key t htv k hk).2; rwa [hto] at this⟩
  · rw [hl.tblColumns] at hi
    obtain ⟨ec, _, hcd⟩ := forall₂_mem_left htd.cols hi
    have hiv : i < b.columns.length := by rw [hl.columnsLen]; exact hcd.valid
    have := (hn.col i hiv).2
    rwa [hl.colTable, hcd.owner, hto] at this
  · have hk := htd.keyOK.later_key hl
    have hidv : id < b.ids.length := hk.valid id hid
    have hc : (b.tableID id).Column ∈ (b.table t).Columns := by
      have : (b.tableID id).Column ∈ b.pkColumns t := by
        rw [← hk.wraps]; exact List.mem_map_of_mem _ hid
      unfold pkColumns at this
      exact (List.mem_filter.mp this).1
    rw [hl.tblColumns] at hc
    obtain ⟨ec, _, hcd⟩ := forall₂_mem_left htd.cols hc
    have := (hn.id id hidv).2
    rwa [hl.colTable (b.tableID id).Column, hcd.owner, hto] at this

end sqlmodelgen.configBuilder

namespace sqlmodelgen

/-- C19: in a successfully built graph the `Names` of every entity are its raw name, the
SQL namer applied to it and the model namer applied to it, the namers being those of its
scope: the root `DatabaseNamers` for a database; the `Schema`, `Table` and `Column` namers
of its database for a schema, a table and a column; the `ID` namers of the database, on
the raw name of the wrapped column, for a TableID; and the `Key` namers, on the raw name
of the table followed by `Key`, for the TableKey of a table. -/
theorem init_scoped_names (env : Env) (mc : ModelContext) (tr : Traversal)
    (c : config.Config) (h : (init env mc tr c {}).2 = none) :
    (init env mc tr c {}).1.ScopedNames := by
  obtain ⟨b1, h1, hl⟩ := init_later h
  exact (initPass1_spec h1).scopedNames hl (init_named h)

/-- C19 on `namersConfig`, with namers that tag the names they make: the names of the
column `order_id`, of the TableID that wraps it and of the key of `order_items`. -/
theorem init_scoped_names_witness :
    (init taggingEnv exampleContext (Traversal.ofConfig namersConfig) namersConfig
      {}).1.ScopedNames ∧
    ((init taggingEnv exampleContext (Traversal.ofConfig namersConfig) namersConfig
      {}).1.column 0).Names =
      { RawName := "order_id", SQLName := "columnSQL:order_id",
        ModelName := "columnModel:order_id" } ∧
    ((init taggingEnv exampleContext (Traversal.ofConfig namersConfig) namersConfig
      {}).1.tableID 0).Names =
      { RawName := "order_id", SQLName := "idSQL:order_id",
        ModelName := "idModel:order_id" } ∧
    ((init taggingEnv exampleContext (Traversal.ofConfig namersConfig) namersConfig
      {}).1.tableKey 0).Names =
      { RawName := "order_itemsKey", SQLName := "keySQL:order_itemsKey",
        ModelName := "keyModel:order_itemsKey" } :=
  ⟨init_scoped_names taggingEnv exampleContext (Traversal.ofConfig namersConfig)
    namersConfig (by decide), by decide, by decide, by decide⟩

end sqlmodelgen

namespace sqlmodelgen

theorem namersInit_ok_iff (env : Env) (nrs : Namers) (c : config.Namers) :
    (Namers.init env nrs c).2 = none ↔ env.namersOK c := by
  unfold Namers.init Env.namersOK
  cases env.NamerFromName c.SQLNamer with
  | error e => simp [Except.toOption]
  | ok nr =>
    cases env.NamerFromName c.ModelNamer with
    | error e => simp [Except.toOption]
    | ok mr => simp [Except.toOption]

theorem initDatabaseNamers_ok_iff (env : Env) (n : DatabaseNamers)
    (c : config.DatabaseNamers) :
    (initDatabaseNamers env n c).2 = none ↔ env.databaseNamersOK c := by
  unfold initDatabaseNamers Env.databaseNamersOK
  rw [← namersInit_ok_iff env n.Column c.Column]
  cases h1 : Namers.init env n.Column c.Column with
  | mk x1 e1 =>
    cases e1 with
    | some e => simp
    | none =>
      simp only [true_and]
      rw [← namersInit_ok_iff env n.ID c.IDType]
      cases h2 : Namers.init env n.ID c.IDType with
      | mk x2 e2 =>
        cases e2 with
        | some e => simp
        | none =>
          simp only [true_and]
          rw [← namersInit_ok_iff env n.Key c.KeyType]
          cases h3 : Namers.init env n.Key c.KeyType with
          | mk x3 e3 =>
            cases e3 with
            | some e => simp
            | none =>
              simp only [true_and]
              rw [← namersInit_ok_iff env n.Table c.Table]
              cases h4 : Namers.init env n.Table c.Table with
              | mk x4 e4 =>
                cases e4 with
                | some e => simp
                | none =>
                  simp only [true_and]
                  rw [← namersInit_ok_iff env n.Schema c.Schema]
                  cases h5 : Namers.init env n.Schema c.Schema with
                  | mk x5 e5 =>
                    cases e5 with
                    | some e => simp
                    | none => simp

end sqlmodelgen

namespace sqlmodelgen.configBuilder

theorem initColumnType_ok_iff (env : Env) (mc : ModelContext) (dn sn tn cn : String)
    (cc : config.Column) (c : Nat) (b : configBuilder) :
    (initColumnType env mc dn sn tn cn cc c b).2 = none ↔ env.typeOK mc cc := by
  unfold initColumnType Env.typeOK
  by_cases hty : cc.Type_ = ""
  · simp [hty]
  · simp only [ne_eq, hty, not_false_eq_true, if_true, false_or]
    cases env.Parse cc.Type_ with
    | error e => simp
    | ok ty =>
      cases hm : mc.ModelType ty with
      | error e => simp [hm, Except.toOption]
      | ok r =>
        obtain ⟨ns, tyn⟩ := r
        simp [hm, Except.toOption]

theorem initColumn_ok_iff (env : Env) (mc : ModelContext) (dn sn tn : String) (t : Nat)
    (cn : String) (cc : config.Column) (b : configBuilder) (tmp : List Nat) :
    (initColumn env mc dn sn tn t cn cc b tmp).2.2 = none ↔ env.typeOK mc cc := by
  unfold initColumn
  simp only
  rw [← initColumnType_ok_iff env mc dn sn tn cn cc (b.newColumn t cn).2
    (((b.newColumn t cn).1.setTable t _).setColumn (b.newColumn t cn).2 _)]
  cases initColumnType env mc dn sn tn cn cc (b.newColumn t cn).2
      (((b.newColumn t cn).1.setTable t _).setColumn (b.newColumn t cn).2 _) with
  | mk b3 err =>
    cases err with
    | some e => simp
    | none =>
      simp only
      split <;> simp

theorem initColumns_ok_iff (env : Env) (mc : ModelContext) (dn sn tn : String) (t : Nat)
    (cols : List (String × config.Column)) (b : configBuilder) (tmp : List Nat) :
    (initColumns env mc dn sn tn t cols b tmp).2.2 = none ↔
      ∀ p ∈ cols, env.typeOK mc p.2 := by
  induction cols generalizing b tmp with
  | nil => simp [initColumns]
  | cons p rest ih =>
    obtain ⟨cn, cc⟩ := p
    simp only [initColumns, List.mem_cons, forall_eq_or_imp]
    rw [← initColumn_ok_iff env mc dn sn tn t cn cc b tmp]
    cases initColumn env mc dn sn tn t cn cc b tmp with
    | mk b1 r =>
      obtain ⟨tmp1, err⟩ := r
      cases err with
      | some e => simp
      | none => simp only [true_and]; exact ih b1 tmp1

theorem initTable_ok_iff (env : Env) (mc : ModelContext) (dn sn : String) (s : Nat)
    (tn : String) (tc : config.Table) (b : configBuilder) (tmp : List Nat) :
    (initTable env mc dn sn s tn tc b tmp).2.2 = none ↔
      ∀ p ∈ tc.Columns, env.typeOK mc p.2 := by
  unfold initTable
  simp only
  rw [← initColumns_ok_iff env mc dn sn tn (b.newTable s tn).2 tc.Columns
    ((b.newTable s tn).1.setSchema s _) tmp]
  cases initColumns env mc dn sn tn (b.newTable s tn).2 tc.Columns
      ((b.newTable s tn).1.setSchema s _) tmp with
  | mk b2 r =>
    obtain ⟨tmp2, err⟩ := r
    cases err <;> simp

theorem initTables_ok_iff (env : Env) (mc : ModelContext) (dn sn : String) (s : Nat)
    (tbls : List (String × config.Table)) (b : configBuilder) (tmp : List Nat) :
    (initTables env mc dn sn s tbls b tmp).2.2 = none ↔
      ∀ t ∈ tbls, ∀ p ∈ t.2.Columns, env.typeOK mc p.2 := by
  induction tbls generalizing b tmp with
  | nil => simp [initTables]
  | cons p rest ih =>
    obtain ⟨tn, tc⟩ := p
    simp only [initTables, List.mem_cons, forall_eq_or_imp]
    rw [← initTable_ok_iff env mc dn sn s tn tc b tmp]
    cases initTable env mc dn sn s tn tc b tmp with
    | mk b1 r =>
      obtain ⟨tmp1, err⟩ := r
      cases err with
      | some e => simp
      | none => simp only [true_and]; exact ih b1 tmp1

theorem initSchemas_ok_iff (env : Env) (mc : ModelContext) (dn : String) (d : Nat)
    (schs : List (String × config.Schema)) (b : configBuilder) (tmp : List Nat) :
    (initSchemas env mc dn d schs b tmp).2.2 = none ↔
      ∀ s ∈ schs, ∀ t ∈ s.2.Tables, ∀ p ∈ t.2.Columns, env.typeOK mc p.2 := by
  induction schs generalizing b tmp with
  | nil => simp [initSchemas]
  | cons p rest ih =>
    obtain ⟨sn, sc⟩ := p
    simp only [initSchemas, List.mem_cons, forall_eq_or_imp]
    have h1 : (initSchema env mc dn d sn sc b tmp).2.2 = none ↔
        ∀ t ∈ sc.Tables, ∀ p ∈ t.2.Columns, env.typeOK mc p.2 := by
      unfold initSchema
      exact initTables_ok_iff env mc dn sn _ sc.Tables _ tmp
    rw [← h1]
    cases initSchema env mc dn d sn sc b tmp with
    | mk b1 r =>
      obtain ⟨tmp1, err⟩ := r
      cases err with
      | some e => simp
      | none => simp only [true_and]; exact ih b1 tmp1

theorem initDatabase_ok_iff (env : Env) (mc : ModelContext) (dn : String)
    (dc : config.Database) (b : configBuilder) (tmp : List Nat) :
    (initDatabase env mc dn dc b tmp).2.2 = none ↔ env.databaseOK mc dc := by
  unfold initDatabase Env.databaseOK
  have h0 : (b.newDatabase env dn dc).2.2 = none ↔ env.databaseNamersOK dc.Namers :=
    initDatabaseNamers_ok_iff env {} dc.Namers
  rw [← h0]
  cases b.newDatabase env dn dc with
  | mk b0 r =>
    obtain ⟨d, err⟩ := r
    cases err with
    | some e => simp
    | none =>
      simp only [true_and]
      exact initSchemas_ok_iff env mc dn d dc.Schemas _ tmp

theorem initDatabases_ok_iff (env : Env) (mc : ModelContext)
    (dbs : List (String × config.Database)) (b : configBuilder) (tmp : List Nat) :
    (initDatabases env mc dbs b tmp).2.2 = none ↔ ∀ p ∈ dbs, env.databaseOK mc p.2 := by
  induction dbs generalizing b tmp with
  | nil => simp [initDatabases]
  | cons p rest ih =>
    obtain ⟨dn, dc⟩ := p
    simp only [initDatabases, List.mem_cons, forall_eq_or_imp]
    rw [← initDatabase_ok_iff env mc dn dc b tmp]
    cases initDatabase env mc dn dc b tmp with
    | mk b1 r =>
      obtain ⟨tmp1, err⟩ := r
      cases err with
      | some e => simp
      | none => simp only [true_and]; exact ih b1 tmp1

/-- The first pass succeeds exactly when no namer lookup, type parse or type mapping of the
configuration fails. -/
theorem initPass1_ok_iff (env : Env) (mc : ModelContext) (c : config.Config)
    (b : configBuilder) : (initPass1 env mc c b).2 = none ↔ env.pass1OK mc c := by
  unfold initPass1 Env.pass1OK
  simp only
  rw [← namersInit_ok_iff env b.Config.DatabaseNamers c.DatabaseNamers]
  cases Namers.init env b.Config.DatabaseNamers c.DatabaseNamers with
  | mk nrs err =>
    cases err with
    | some e => simp
    | none =>
      simp only [true_and]
      exact initDatabases_ok_iff env mc c.Databases _ []

end sqlmodelgen.configBuilder

namespace sqlmodelgen.configBuilder

/-- A build in which some column entry does not link fails, whatever the order of the
foreign-key pass. -/
theorem init_fails_of_not_links {env : Env} {mc : ModelContext} {tr : Traversal}
    {c : config.Config} (hwf : c.WellFormed) (hv : tr.Valid c) {b1 : configBuilder}
    (h1 : initPass1 env mc c {} = (b1, none))
    {e : String × String × String × String × config.Column} (he : e ∈ c.entries)
    (hnl : b1.linksEntry e = false) : (init env mc tr c {}).2 ≠ none := by
  obtain ⟨dn, sn, tn, cn, cc⟩ := e
  have hc := (hasColumn_iff_mem_entries c dn sn tn cn cc).mpr he
  have hroot := initPass1_spec h1
  have hl := init_later_of_pass1 tr h1
  obtain ⟨x, hx, hxd, hxs, hxt, hxc, hxcc⟩ := hroot.visited hwf hv.1 hc
  have hok := hroot.visitOK hwf hv.1 hx
  have hft := hok.findTable
  rw [hxd, hxs, hxt] at hft
  unfold linksEntry at hnl
  simp only [Bool.or_eq_false_iff, decide_eq_false_iff_not, hft] at hnl
  obtain ⟨hfk, hnl⟩ := hnl
  have hgt : (init env mc tr c {}).1.findTable dn sn tn = some x.table := by
    rw [hl.findTable_eq]; exact hft
  cases hp : b1.getPathUp cc.FK x.table with
  | error e' =>
    exact (init_fails_of_path_error hwf hv hc hfk hgt
      (by rw [hl.getPathUp_eq]; exact hp)).1
  | ok r =>
    rw [hp] at hnl
    have notcol : (∀ k, r ≠ .column k) → (init env mc tr c {}).2 ≠ none := by
      intro hr
      refine init_fails_of_entry hwf hv hc (fun b1' h1' y hy hyd hys hyt _ hycc b hb => ?_)
      have e1 : b1' = b1 := by rw [h1] at h1'; exact ((Prod.mk.inj h1').1).symm
      subst e1
      have hoky := hroot.visitOK hwf hv.1 hy
      have hfty := hoky.findTable
      rw [hyd, hys, hyt, hft] at hfty
      have hyt' : y.table = x.table := (Option.some.inj hfty).symm
      unfold fkStep
      rw [if_neg (by rw [hycc]; exact hfk), hb.getPathUp_eq, hycc, hyt', hp]
      cases r with
      | column k => exact absurd rfl (hr k)
      | config => simp
      | database _ => simp
      | schema _ => simp
      | table _ => simp
    cases r with
    | column k =>
      simp only [decide_eq_false_iff_not] at hnl
      exact (init_fails_of_non_key env mc tr c hwf hv dn sn tn cn cc hc hfk x.table k hgt
        (by rw [hl.getPathUp_eq]; exact hp) (fun hk => hnl ((hl.keyBearing_iff k).mp hk))).1
    | config => exact notcol (fun k h => by cases h)
    | database _ => exact notcol (fun k h => by cases h)
    | schema _ => exact notcol (fun k h => by cases h)
    | table _ => exact notcol (fun k h => by cases h)

/-- A build succeeds exactly when no step of its first pass fails and every column entry
links in the graph of the first pass. -/
theorem init_ok_iff {env : Env} {mc : ModelContext} {tr : Traversal}
    {c : config.Config} (hwf : c.WellFormed) (hv : tr.Valid c) :
    (init env mc tr c {}).2 = none ↔
      env.pass1OK mc c ∧
      ∀ e ∈ c.entries, (initPass1 env mc c {}).1.linksEntry e = true := by
  constructor
  · intro h
    obtain ⟨b1, h1, _⟩ := init_later h
    refine ⟨(initPass1_ok_iff env mc c {}).mp (by rw [h1]), fun e he => ?_⟩
    rw [h1]
    by_contra hne
    exact init_fails_of_not_links hwf hv h1 he (by simpa using hne) h
  · rintro ⟨hp, hall⟩
    have h1 := (initPass1_ok_iff env mc c {}).mpr hp
    exact init_ok_of_links hwf hv (Prod.ext rfl h1) hall

end sqlmodelgen.configBuilder

namespace sqlmodelgen

/-- C18: a failure of any step of the first two passes fails the build at once, and no
graph comes back. An error of `init` makes `ConfigFromJSON` return that error and no
graph; an error of the first pass, or of the foreign-key pass, is what `init` returns, in
the state in which it arose; the error of the first visit of the foreign-key pass that
fails is the error of the build; a namer lookup, type parse or type mapping that fails, or
a column entry whose FK path does not resolve to a key, makes the build fail; and
`ConfigFromJSON` returns a graph only when no step of the first pass failed and every
column entry linked. -/
theorem init_aborts_on_failure (env : Env) (mc : ModelContext) (tr : Traversal)
    (c : config.Config) (hwf : c.WellFormed) (hv : tr.Valid c) :
    (∀ e, (init env mc tr c {}).2 = some e →
      ConfigFromJSON env mc tr c = .error (.fromJSON e)) ∧
    (∀ b1 e, initPass1 env mc c {} = (b1, some e) → init env mc tr c {} = (b1, some e)) ∧
    (∀ b1 b2 e, initPass1 env mc c {} = (b1, none) →
      b1.iterDBSchemaTableColumn tr.fk fkStep = (b2, some e) →
      init env mc tr c {} = (b2, some e)) ∧
    (∀ b1 pre x post b b' e, initPass1 env mc c {} = (b1, none) →
      b1.visitDatabases tr.fk.Databases = pre ++ x :: post →
      foldVisits fkStep pre b1 = (b, none) → fkStep x b = (b', some e) →
      init env mc tr c {} = (b', some e)) ∧
    (¬ env.pass1OK mc c → (init env mc tr c {}).2 ≠ none) ∧
    ((∃ e ∈ c.entries, (initPass1 env mc c {}).1.linksEntry e = false) →
      (init env mc tr c {}).2 ≠ none) ∧
    (∀ g, ConfigFromJSON env mc tr c = .ok g →
      g = (init env mc tr c {}).1 ∧ (init env mc tr c {}).2 = none ∧
      env.pass1OK mc c ∧
      ∀ e ∈ c.entries, (initPass1 env mc c {}).1.linksEntry e = true) := by
  refine ⟨fun e he => ?_, fun b1 e h1 => init_of_pass1_error h1,
    fun b1 b2 e h1 h2 => init_of_pass2_error h1 h2,
    fun b1 pre x post b b' e h1 hvis hpre hstep => init_of_reached hwf hv h1 hvis hpre hstep,
    fun hp h => hp ((init_ok_iff hwf hv).mp h).1, ?_, fun g hg => ?_⟩
  · unfold ConfigFromJSON
    cases hr : init env mc tr c {} with
    | mk b err =>
      rw [hr] at he
      simp only at he
      subst he
      rfl
  · rintro ⟨e, he, hnl⟩ h
    have := ((init_ok_iff hwf hv).mp h).2 e he
    rw [hnl] at this
    cases this
  · unfold ConfigFromJSON at hg
    cases hr : init env mc tr c {} with
    | mk b err =>
      rw [hr] at hg
      cases err with
      | some e => cases hg
      | none =>
        simp only at hg
        have hok : (init env mc tr c {}).2 = none := by rw [hr]
        obtain ⟨hp, hall⟩ := (init_ok_iff hwf hv).mp hok
        exact ⟨(Except.ok.inj hg).symm, rfl, hp, hall⟩

/-- C18 on `nonKeyConfig`, whose column `ref` refers to a column that bears no key: the
build fails and `ConfigFromJSON` returns the error and no graph. -/
theorem init_aborts_on_failure_witness :
    (init exampleEnv exampleContext nonKeyTraversal nonKeyConfig {}).2 ≠ none ∧
    ConfigFromJSON exampleEnv exampleContext nonKeyTraversal nonKeyConfig =
      .error (.fromJSON (.notKey "name" "t")) :=
  ⟨(init_aborts_on_failure exampleEnv exampleContext nonKeyTraversal nonKeyConfig
      (by decide) (by decide)).2.2.2.2.2.1
      ⟨("db", "public", "t", "ref", { FK := "name" }), by decide, by decide⟩,
   (init_aborts_on_failure exampleEnv exampleContext nonKeyTraversal nonKeyConfig
      (by decide) (by decide)).1 _ (by decide)⟩

end sqlmodelgen

namespace sqlmodelgen.configBuilder

/-- An error of the type step of the first pass carries the path of the column. -/
theorem initColumnType_error_path {env : Env} {mc : ModelContext} {dn sn tn cn : String}
    {cc : config.Column} {c : Nat} {b : configBuilder} {e : Err}
    (h : (initColumnType env mc dn sn tn cn cc c b).2 = some e) :
    e.columnPath = some (dn, sn, tn, cn) := by
  unfold initColumnType at h
  split at h
  · split at h
    · simp only [Option.some.injEq] at h; subst h; rfl
    · split at h
      · simp only [Option.some.injEq] at h; subst h; rfl
      · cases h
  · cases h

/-- An error of the callback of the foreign-key pass carries the path of the visited
column, unless it is the error for a target that is not a key. -/
theorem fkStep_error_path {x : dbSchemaTableColumn} {b : configBuilder} {e : Err}
    (h : (fkStep x b).2 = some e) :
    e.columnPath = some (x.dbName, x.schName, x.tblName, x.colName) ∨
      ∃ col tbl, e = .notKey col tbl := by
  unfold fkStep at h
  split at h
  · cases h
  · split at h
    · simp only [Option.some.injEq] at h; subst h; exact Or.inl rfl
    · simp only at h
      split at h
      · simp only [Option.some.injEq] at h; subst h; exact Or.inr ⟨_, _, rfl⟩
      · cases h
    · simp only [Option.some.injEq] at h; subst h; exact Or.inl rfl

end sqlmodelgen.configBuilder

namespace sqlmodelgen

/-- C17 at `nonKeyConfig`, where the column `db.public.t.ref` refers to the plain column
`name`: the error of the build names the target column `name` and its table `t`, and
carries no column path. -/
theorem init_notKey_error_has_no_path :
    (init exampleEnv exampleContext nonKeyTraversal nonKeyConfig {}).2 =
      some (.notKey "name" "t") ∧
    (Err.notKey "name" "t").columnPath = none ∧
    ∀ e, (init exampleEnv exampleContext nonKeyTraversal nonKeyConfig {}).2 = some e →
      e.columnPath ≠ some ("db", "public", "t", "ref") := by
  refine ⟨by decide, rfl, fun e he => ?_⟩
  have h : (init exampleEnv exampleContext nonKeyTraversal nonKeyConfig {}).2 =
      some (.notKey "name" "t") := by decide
  rw [h] at he
  cases he
  decide

end sqlmodelgen

namespace sqlmodelgen

theorem setAdd_nodup {s : List String} (h : s.Nodup) (k : String) : (setAdd s k).Nodup := by
  unfold setAdd
  split
  · exact h
  · rename_i hk
    exact List.Nodup.append h (List.nodup_singleton k) (by simpa using hk)

theorem mem_setAdd (s : List String) (k x : String) : x ∈ setAdd s k ↔ x ∈ s ∨ x = k := by
  unfold setAdd
  split
  · rename_i hk
    constructor
    · exact Or.inl
    · rintro (h | rfl)
      · exact h
      · exact hk
  · simp

theorem entryNamespace_ne_empty {env : Env} {mc : ModelContext} {cc : config.Column}
    {x : String} (h : env.entryNamespace mc cc = some x) : x ≠ "" := by
  unfold Env.entryNamespace at h
  split at h
  · cases h
  · split at h
    · cases h
    · split at h
      · cases h
      · split at h
        · cases h
        · rename_i hne
          simp only [Option.some.injEq] at h
          subst h; exact hne

end sqlmodelgen

namespace sqlmodelgen.configBuilder

/-- The namespace set after the type step of a column entry. -/
theorem initColumnType_namespaces (env : Env) (mc : ModelContext) (dn sn tn cn : String)
    (cc : config.Column) (c : Nat) (b : configBuilder) :
    (initColumnType env mc dn sn tn cn cc c b).1.namespaces =
      match env.entryNamespace mc cc with
      | some ns => setAdd b.namespaces ns
      | none => b.namespaces := by
  unfold initColumnType Env.entryNamespace
  by_cases hty : cc.Type_ = ""
  · simp [hty]
  · simp only [ne_eq, hty, not_false_eq_true, if_true, if_false]
    cases env.Parse cc.Type_ with
    | error e => rfl
    | ok ty =>
      simp only
      cases mc.ModelType ty with
      | error e => rfl
      | ok r =>
        obtain ⟨ns, tyn⟩ := r
        simp only
        by_cases hns : ns = ""
        · simp only [hns, not_true_eq_false, if_false, if_true]
          rfl
        · simp only [hns, not_false_eq_true, if_true, if_false]
          rfl

theorem initColumn_namespaces (env : Env) (mc : ModelContext) (dn sn tn : String) (t : Nat)
    (cn : String) (cc : config.Column) (b : configBuilder) (tmp : List Nat) :
    (initColumn env mc dn sn tn t cn cc b tmp).1.namespaces =
      match env.entryNamespace mc cc with
      | some ns => setAdd b.namespaces ns
      | none => b.namespaces := by
  unfold initColumn
  simp only
  generalize hB0 : ((b.newColumn t cn).1.setTable t _).setColumn (b.newColumn t cn).2 _ = B0
  have hB : B0.namespaces = b.namespaces := by rw [← hB0]; rfl
  have h := initColumnType_namespaces env mc dn sn tn cn cc (b.newColumn t cn).2 B0
  rw [hB] at h
  cases hr : initColumnType env mc dn sn tn cn cc (b.newColumn t cn).2 B0 with
  | mk b3 err =>
    rw [hr] at h
    simp only at h
    cases err with
    | some e => exact h
    | none =>
      simp only
      split
      · exact h
      · exact h

/-- The namespace set after a run of the column loop that succeeds: every entry has added
the namespace it contributes. -/
theorem initColumns_namespaces (env : Env) (mc : ModelContext) (dn sn tn : String) (t : Nat)
    (cols : List (String × config.Column)) (b : configBuilder) (tmp : List Nat)
    (h : (initColumns env mc dn sn tn t cols b tmp).2.2 = none) :
    (b.namespaces.Nodup → (initColumns env mc dn sn tn t cols b tmp).1.namespaces.Nodup) ∧
    ∀ x, x ∈ (initColumns env mc dn sn tn t cols b tmp).1.namespaces ↔
      x ∈ b.namespaces ∨ ∃ p ∈ cols, env.entryNamespace mc p.2 = some x := by
  induction cols generalizing b tmp with
  | nil => simp [initColumns]
  | cons p rest ih =>
    obtain ⟨cn, cc⟩ := p
    have hns := initColumn_namespaces env mc dn sn tn t cn cc b tmp
    simp only [initColumns] at h ⊢
    cases hr : initColumn env mc dn sn tn t cn cc b tmp with
    | mk b1 r =>
      obtain ⟨tmp1, err⟩ := r
      rw [hr] at h hns
      cases err with
      | some e => simp at h
      | none =>
        simp only at h hns ⊢
        obtain ⟨ih1, ih2⟩ := ih b1 tmp1 h
        have hnd : b.namespaces.Nodup → b1.namespaces.Nodup := by
          intro hb; rw [hns]
          cases env.entryNamespace mc cc with
          | none => exact hb
          | some ns => exact setAdd_nodup hb ns
        have hmem : ∀ x, x ∈ b1.namespaces ↔
            x ∈ b.namespaces ∨ env.entryNamespace mc cc = some x := by
          intro x; rw [hns]
          cases env.entryNamespace mc cc with
          | none => simp
          | some ns => simp [mem_setAdd, eq_comm]
        refine ⟨fun hb => ih1 (hnd hb), fun x => ?_⟩
        rw [ih2 x, hmem x]
        simp only [List.mem_cons, exists_eq_or_imp, or_assoc]

end sqlmodelgen.configBuilder

namespace sqlmodelgen.configBuilder

theorem initTable_namespaces (env : Env) (mc : ModelContext) (dn sn : String) (s : Nat)
    (tn : String) (tc : config.Table) (b : configBuilder) (tmp : List Nat)
    (h : (initTable env mc dn sn s tn tc b tmp).2.2 = none) :
    (b.namespaces.Nodup → (initTable env mc dn sn s tn tc b tmp).1.namespaces.Nodup) ∧
    ∀ x, x ∈ (initTable env mc dn sn s tn tc b tmp).1.namespaces ↔
      x ∈ b.namespaces ∨ ∃ p ∈ tc.Columns, env.entryNamespace mc p.2 = some x := by
  unfold initTable at h ⊢
  simp only at h ⊢
  generalize hB0 : (b.newTable s tn).1.setSchema s _ = B0 at h ⊢
  have hB : B0.namespaces = b.namespaces := by rw [← hB0]; rfl
  have hc := initColumns_namespaces env mc dn sn tn (b.newTable s tn).2 tc.Columns B0 tmp
  rw [hB] at hc
  cases hr : initColumns env mc dn sn tn (b.newTable s tn).2 tc.Columns B0 tmp with
  | mk b2 r =>
    obtain ⟨tmp2, err⟩ := r
    rw [hr] at h hc
    cases err with
    | some e => simp at h
    | none =>
      simp only at hc ⊢
      have hk : (b2.assignKey (b.newTable s tn).2 tmp2).1.namespaces = b2.namespaces := by
        unfold assignKey
        split <;> rfl
      rw [hk]
      exact hc trivial

theorem initTables_namespaces (env : Env) (mc : ModelContext) (dn sn : String) (s : Nat)
    (tbls : List (String × config.Table)) (b : configBuilder) (tmp : List Nat)
    (h : (initTables env mc dn sn s tbls b tmp).2.2 = none) :
    (b.namespaces.Nodup → (initTables env mc dn sn s tbls b tmp).1.namespaces.Nodup) ∧
    ∀ x, x ∈ (initTables env mc dn sn s tbls b tmp).1.namespaces ↔
      x ∈ b.namespaces ∨
        ∃ t ∈ tbls, ∃ p ∈ t.2.Columns, env.entryNamespace mc p.2 = some x := by
  induction tbls generalizing b tmp with
  | nil => simp [initTables]
  | cons p rest ih =>
    obtain ⟨tn, tc⟩ := p
    have h1 := initTable_namespaces env mc dn sn s tn tc b tmp
    simp only [initTables] at h ⊢
    cases hr : initTable env mc dn sn s tn tc b tmp with
    | mk b1 r =>
      obtain ⟨tmp1, err⟩ := r
      rw [hr] at h h1
      cases err with
      | some e => simp at h
      | none =>
        simp only at h h1 ⊢
        obtain ⟨ih1, ih2⟩ := ih b1 tmp1 h
        obtain ⟨hnd, hmem⟩ := h1 trivial
        refine ⟨fun hb => ih1 (hnd hb), fun x => ?_⟩
        rw [ih2 x, hmem x]
        simp only [List.mem_cons, exists_eq_or_imp, or_assoc]

theorem initSchema_namespaces (env : Env) (mc : ModelContext) (dn : String) (d : Nat)
    (sn : String) (sc : config.Schema) (b : configBuilder) (tmp : List Nat)
    (h : (initSchema env mc dn d sn sc b tmp).2.2 = none) :
    (b.namespaces.Nodup → (initSchema env mc dn d sn sc b tmp).1.namespaces.Nodup) ∧
    ∀ x, x ∈ (initSchema env mc dn d sn sc b tmp).1.namespaces ↔
      x ∈ b.namespaces ∨
        ∃ t ∈ sc.Tables, ∃ p ∈ t.2.Columns, env.entryNamespace mc p.2 = some x := by
  unfold initSchema at h ⊢
  simp only at h ⊢
  generalize hB0 : (b.newSchema d sn).1.setDatabase d _ = B0 at h ⊢
  have hB : B0.namespaces = b.namespaces := by rw [← hB0]; rfl
  have hc := initTables_namespaces env mc dn sn (b.newSchema d sn).2 sc.Tables B0 tmp h
  rw [hB] at hc
  exact hc

theorem initSchemas_namespaces (env : Env) (mc : ModelContext) (dn : String) (d : Nat)
    (schs : List (String × config.Schema)) (b : configBuilder) (tmp : List Nat)
    (h : (initSchemas env mc dn d schs b tmp).2.2 = none) :
    (b.namespaces.Nodup → (initSchemas env mc dn d schs b tmp).1.namespaces.Nodup) ∧
    ∀ x, x ∈ (initSchemas env mc dn d schs b tmp).1.namespaces ↔
      x ∈ b.namespaces ∨
        ∃ s ∈ schs, ∃ t ∈ s.2.Tables, ∃ p ∈ t.2.Columns,
          env.entryNamespace mc p.2 = some x := by
  induction schs generalizing b tmp with
  | nil => simp [initSchemas]
  | cons p rest ih =>
    obtain ⟨sn, sc⟩ := p
    have h1 := initSchema_namespaces env mc dn d sn sc b tmp
    simp only [initSchemas] at h ⊢
    cases hr : initSchema env mc dn d sn sc b tmp with
    | mk b1 r =>
      obtain ⟨tmp1, err⟩ := r
      rw [hr] at h h1
      cases err with
      | some e => simp at h
      | none =>
        simp only at h h1 ⊢
        obtain ⟨ih1, ih2⟩ := ih b1 tmp1 h
        obtain ⟨hnd, hmem⟩ := h1 trivial
        refine ⟨fun hb => ih1 (hnd hb), fun x => ?_⟩
        rw [ih2 x, hmem x]
        simp only [List.mem_cons, exists_eq_or_imp, or_assoc]

theorem newDatabase_namespaces (env : Env) (dn : String) (dc : config.Database)
    (b : configBuilder) : (b.newDatabase env dn dc).1.namespaces = b.namespaces := by
  unfold newDatabase
  rfl

theorem initDatabase_namespaces (env : Env) (mc : ModelContext) (dn : String)
    (dc : config.Database) (b : configBuilder) (tmp : List Nat)
    (h : (initDatabase env mc dn dc b tmp).2.2 = none) :
    (b.namespaces.Nodup → (initDatabase env mc dn dc b tmp).1.namespaces.Nodup) ∧
    ∀ x, x ∈ (initDatabase env mc dn dc b tmp).1.namespaces ↔
      x ∈ b.namespaces ∨
        ∃ s ∈ dc.Schemas, ∃ t ∈ s.2.Tables, ∃ p ∈ t.2.Columns,
          env.entryNamespace mc p.2 = some x := by
  have h0 := newDatabase_namespaces env dn dc b
  unfold initDatabase at h ⊢
  cases hr : b.newDatabase env dn dc with
  | mk b0 r =>
    obtain ⟨d, err⟩ := r
    rw [hr] at h h0
    cases err with
    | some e => simp at h
    | none =>
      simp only at h h0 ⊢
      generalize hB0 : ({ b0 with Config := _ } : configBuilder) = B0 at h ⊢
      have hB : B0.namespaces = b.namespaces := by rw [← hB0]; exact h0
      have hc := initSchemas_namespaces env mc dn d dc.Schemas B0 tmp h
      rw [hB] at hc
      exact hc

theorem initDatabases_namespaces (env : Env) (mc : ModelContext)
    (dbs : List (String × config.Database)) (b : configBuilder) (tmp : List Nat)
    (h : (initDatabases env mc dbs b tmp).2.2 = none) :
    (b.namespaces.Nodup → (initDatabases env mc dbs b tmp).1.namespaces.Nodup) ∧
    ∀ x, x ∈ (initDatabases env mc dbs b tmp).1.namespaces ↔
      x ∈ b.namespaces ∨
        ∃ d ∈ dbs, ∃ s ∈ d.2.Schemas, ∃ t ∈ s.2.Tables, ∃ p ∈ t.2.Columns,
          env.entryNamespace mc p.2 = some x := by
  induction dbs generalizing b tmp with
  | nil => simp [initDatabases]
  | cons p rest ih =>
    obtain ⟨dn, dc⟩ := p
    have h1 := initDatabase_namespaces env mc dn dc b tmp
    simp only [initDatabases] at h ⊢
    cases hr : initDatabase env mc dn dc b tmp with
    | mk b1 r =>
      obtain ⟨tmp1, err⟩ := r
      rw [hr] at h h1
      cases err with
      | some e => simp at h
      | none =>
        simp only at h h1 ⊢
        obtain ⟨ih1, ih2⟩ := ih b1 tmp1 h
        obtain ⟨hnd, hmem⟩ := h1 trivial
        refine ⟨fun hb => ih1 (hnd hb), fun x => ?_⟩
        rw [ih2 x, hmem x]
        simp only [List.mem_cons, exists_eq_or_imp, or_assoc]

end sqlmodelgen.configBuilder

namespace sqlmodelgen

theorem entryNamespace_eq_some_iff (env : Env) (mc : ModelContext) (cc : config.Column)
    (x : String) :
    env.entryNamespace mc cc = some x ↔
      cc.Type_ ≠ "" ∧ x ≠ "" ∧
        ∃ ty tyn, env.Parse cc.Type_ = .ok ty ∧ mc.ModelType ty = .ok (x, tyn) := by
  unfold Env.entryNamespace
  by_cases hty : cc.Type_ = ""
  · simp [hty]
  · simp only [hty, if_false, ne_eq, not_false_eq_true, true_and]
    cases hp : env.Parse cc.Type_ with
    | error e => simp
    | ok ty =>
      simp only
      cases hm : mc.ModelType ty with
      | error e => simp [hm]
      | ok r =>
        obtain ⟨ns, tyn⟩ := r
        simp only
        by_cases hns : ns = ""
        · simp only [hns, if_true]
          constructor
          · intro h; cases h
          · rintro ⟨hx, ty', tyn', hty', hm'⟩
            simp only [Except.ok.injEq] at hty'
            subst hty'
            rw [hm] at hm'
            simp only [Except.ok.injEq, Prod.mk.injEq] at hm'
            exact absurd (hm'.1.symm.trans hns) hx
        · simp only [hns, if_false, Option.some.injEq]
          constructor
          · rintro rfl
            exact ⟨hns, ty, tyn, rfl, hm⟩
          · rintro ⟨_, ty', tyn', hty', hm'⟩
            simp only [Except.ok.injEq] at hty'
            subst hty'
            rw [hm] at hm'
            simp only [Except.ok.injEq, Prod.mk.injEq] at hm'
            exact hm'.1

end sqlmodelgen

namespace sqlmodelgen.configBuilder

/-- The namespace set at the end of a first pass that succeeds. -/
theorem initPass1_namespaces {env : Env} {mc : ModelContext} {c : config.Config}
    {b b1 : configBuilder} (h : initPass1 env mc c b = (b1, none)) :
    b1.namespaces.Nodup ∧
    ∀ x, x ∈ b1.namespaces ↔ ∃ e ∈ c.entries, env.entryNamespace mc e.2.2.2.2 = some x := by
  unfold initPass1 at h
  simp only at h
  cases hn : Namers.init env b.Config.DatabaseNamers c.DatabaseNamers with
  | mk nrs err =>
    rw [hn] at h
    cases err with
    | some e => simp at h
    | none =>
      simp only [Prod.mk.injEq] at h
      obtain ⟨hb1, herr⟩ := h
      obtain ⟨hnd, hmem⟩ := initDatabases_namespaces env mc c.Databases _ [] herr
      rw [hb1] at hnd hmem
      refine ⟨hnd List.nodup_nil, fun x => ?_⟩
      rw [hmem x]
      unfold config.Config.entries
      simp only [List.not_mem_nil, false_or, List.mem_flatMap, List.mem_map, Prod.exists]
      constructor
      · rintro ⟨dn, dc, hd, sn, sc, hs, tn, tc, ht, cn, cc, hc, hx⟩
        exact ⟨dn, sn, tn, cn, cc, ⟨dn, dc, hd, sn, sc, hs, tn, tc, ht, cn, cc, hc, rfl⟩, hx⟩
      · rintro ⟨dn, sn, tn, cn, cc, ⟨dn', dc, hd, sn', sc, hs, tn', tc, ht, cn', cc', hc, he⟩,
          hx⟩
        simp only [Prod.mk.injEq] at he
        obtain ⟨-, -, -, -, rfl⟩ := he
        exact ⟨dn', dc, hd, sn', sc, hs, tn', tc, ht, cn', cc', hc, hx⟩

theorem foldl_ensure_namespaces (l : List String) (b : configBuilder) :
    (b.namespaces.Nodup →
      (l.foldl (fun b ns => if ns = "" then b
        else { b with namespaces := setAdd b.namespaces ns }) b).namespaces.Nodup) ∧
    ∀ x, x ∈ (l.foldl (fun b ns => if ns = "" then b
        else { b with namespaces := setAdd b.namespaces ns }) b).namespaces ↔
      x ∈ b.namespaces ∨ (x ∈ l ∧ x ≠ "") := by
  induction l generalizing b with
  | nil => simp
  | cons ns rest ih =>
    simp only [List.foldl_cons]
    by_cases hns : ns = ""
    · simp only [hns, if_true]
      refine ⟨(ih b).1, fun x => ?_⟩
      rw [(ih b).2 x]
      simp only [List.mem_cons, ne_eq]
      constructor
      · rintro (h | ⟨h, hx⟩)
        · exact Or.inl h
        · exact Or.inr ⟨Or.inr h, hx⟩
      · rintro (h | ⟨h | h, hx⟩)
        · exact Or.inl h
        · exact absurd h hx
        · exact Or.inr ⟨h, hx⟩
    · simp only [hns, if_false]
      obtain ⟨i1, i2⟩ := ih { b with namespaces := setAdd b.namespaces ns }
      refine ⟨fun hb => i1 (setAdd_nodup hb ns), fun x => ?_⟩
      rw [i2 x]
      simp only [mem_setAdd, List.mem_cons, ne_eq]
      constructor
      · rintro ((h | h) | ⟨h, hx⟩)
        · exact Or.inl h
        · exact Or.inr ⟨Or.inl h, h ▸ hns⟩
        · exact Or.inr ⟨Or.inr h, hx⟩
      · rintro (h | ⟨h | h, hx⟩)
        · exact Or.inl (Or.inl h)
        · exact Or.inl (Or.inr h)
        · exact Or.inr ⟨h, hx⟩

/-- The namespace set after the namespaces of `EnsureNamespaces` are added. -/
theorem ensureNamespaces_namespaces (mc : ModelContext) (b : configBuilder) :
    (b.namespaces.Nodup → (ensureNamespaces mc b).namespaces.Nodup) ∧
    ∀ x, x ∈ (ensureNamespaces mc b).namespaces ↔
      x ∈ b.namespaces ∨ ∃ ens, mc.EnsureNamespaces = some ens ∧ x ∈ ens b ∧ x ≠ "" := by
  unfold ensureNamespaces
  cases mc.EnsureNamespaces with
  | none => simp
  | some ens =>
    simp only [Option.some.injEq, exists_eq_left']
    exact foldl_ensure_namespaces (ens b) b

theorem finishNamespaces_none {mc : ModelContext} (hno : mc.OrganizeNamespaces = none)
    (tr : Traversal) (b : configBuilder) :
    (finishNamespaces mc tr b).Config.Namespaces = tr.namespaces b.namespaces := by
  unfold finishNamespaces
  simp only [hno]

theorem init_graphBeforeNamespaces {env : Env} {mc : ModelContext} {tr : Traversal}
    {c : config.Config} (h : (init env mc tr c {}).2 = none) :
    ∃ b1, initPass1 env mc c {} = (b1, none) ∧
      (graphBeforeNamespaces env mc tr c).namespaces = b1.namespaces ∧
      (init env mc tr c {}).1 =
        finishNamespaces mc tr (ensureNamespaces mc (graphBeforeNamespaces env mc tr c)) := by
  obtain ⟨b1, b2, b3, h1, h2, h3, hg⟩ := init_stages h
  have e3 : graphBeforeNamespaces env mc tr c = b3 := by
    unfold graphBeforeNamespaces
    rw [h1]; simp only
    rw [h2]; simp only
    rw [h3]
  have k2 : b2.namespaces = b1.namespaces := by
    have := iterDatabases_induct
      (fun b => b.namespaces = b1.namespaces) configBuilder.fkStep
      (fun x b hb => (fkStep_root x b).2.trans hb)
      tr.fk.Databases b1 rfl
    unfold iterDBSchemaTableColumn at h2
    rwa [h2] at this
  have k3 : b3.namespaces = b1.namespaces := by
    have := iterDatabases_induct
      (fun b => b.namespaces = b1.namespaces) configBuilder.dataStep
      (fun x b hb => (dataStep_root x b).2.trans hb)
      tr.data.Databases b2 k2
    unfold iterDBSchemaTableColumn at h3
    rwa [h3] at this
  rw [e3]
  exact ⟨b1, h1, k3, hg⟩

end sqlmodelgen.configBuilder

namespace sqlmodelgen.configBuilder

/-- The namespaces of a successful build without an organizer: no duplicate, and the
contributions of the column entries together with the non-blank strings of
`EnsureNamespaces`. -/
theorem init_namespaces_spec {env : Env} {mc : ModelContext} {tr : Traversal}
    {c : config.Config} (h : (init env mc tr c {}).2 = none)
    (hno : mc.OrganizeNamespaces = none) (hr : tr.RangesSets) :
    (init env mc tr c {}).1.Config.Namespaces.Nodup ∧
    ∀ x, x ∈ (init env mc tr c {}).1.Config.Namespaces ↔
      (∃ e ∈ c.entries, env.entryNamespace mc e.2.2.2.2 = some x) ∨
      (∃ ens, mc.EnsureNamespaces = some ens ∧
        x ∈ ens (graphBeforeNamespaces env mc tr c) ∧ x ≠ "") := by
  obtain ⟨b1, h1, hns, hg⟩ := init_graphBeforeNamespaces h
  obtain ⟨hnd1, hmem1⟩ := initPass1_namespaces h1
  obtain ⟨hnd2, hmem2⟩ := ensureNamespaces_namespaces mc (graphBeforeNamespaces env mc tr c)
  rw [hns] at hnd2 hmem2
  have hN : (init env mc tr c {}).1.Config.Namespaces =
      tr.namespaces (ensureNamespaces mc (graphBeforeNamespaces env mc tr c)).namespaces := by
    rw [hg]; exact finishNamespaces_none hno tr _
  have hp := hr (ensureNamespaces mc (graphBeforeNamespaces env mc tr c)).namespaces
  refine ⟨?_, fun x => ?_⟩
  · rw [hN]; exact hp.nodup_iff.mpr (hnd2 hnd1)
  · rw [hN, hp.mem_iff, hmem2 x, hmem1 x]

end sqlmodelgen.configBuilder

namespace sqlmodelgen

/-- A listing of the maps of a configuration has the column entries of the configuration. -/
theorem hasColumn_of_sameMaps {c c2 : config.Config} (hwf : c.WellFormed)
    (hs : c.SameMaps c2) (dn sn tn cn : String) (cc : config.Column) :
    c.HasColumn dn sn tn cn cc ↔ c2.HasColumn dn sn tn cn cc := by
  constructor
  · rintro ⟨dc, hdc, sc, hsc, tc, htc, hcc⟩
    obtain ⟨pd, hpd, hpdn, hsd⟩ := sameEntries_counterpart hs hwf.1 hdc
    have wd := hwf.2 _ hdc
    obtain ⟨ps, hps, hpsn, hss⟩ := sameEntries_counterpart hsd wd.1 hsc
    have ws := wd.2 _ hsc
    obtain ⟨pt, hpt, hptn, hst⟩ := sameEntries_counterpart hss ws.1 htc
    have hpc : (cn, cc) ∈ pt.2.Columns := hst.mem_iff.mpr hcc
    obtain ⟨pdn, pdc⟩ := pd
    obtain ⟨psn, psc⟩ := ps
    obtain ⟨ptn, ptc⟩ := pt
    simp only at hpdn hpsn hptn
    subst hpdn hpsn hptn
    exact ⟨pdc, hpd, psc, hps, ptc, hpt, hpc⟩
  · rintro ⟨dc, hdc, sc, hsc, tc, htc, hcc⟩
    obtain ⟨qd, hqd, hqdn, hsd⟩ := hs.2 _ hdc
    obtain ⟨qs, hqs, hqsn, hss⟩ := hsd.2 _ hsc
    obtain ⟨qt, hqt, hqtn, hst⟩ := hss.2 _ htc
    have hqc : (cn, cc) ∈ qt.2.Columns := hst.mem_iff.mp hcc
    obtain ⟨qdn, qdc⟩ := qd
    obtain ⟨qsn, qsc⟩ := qs
    obtain ⟨qtn, qtc⟩ := qt
    simp only at hqdn hqsn hqtn
    subst hqdn hqsn hqtn
    exact ⟨qdc, hqd, qsc, hqs, qtc, hqt, hqc⟩

theorem mem_entries_of_sameMaps {c c2 : config.Config} (hwf : c.WellFormed)
    (hs : c.SameMaps c2) (e : String × String × String × String × config.Column) :
    e ∈ c.entries ↔ e ∈ c2.entries := by
  obtain ⟨dn, sn, tn, cn, cc⟩ := e
  rw [← hasColumn_iff_mem_entries, ← hasColumn_iff_mem_entries]
  exact hasColumn_of_sameMaps hwf hs dn sn tn cn cc

/-- C16: after a successful build with a type mapping that has no namespace organizer,
`Config.Namespaces` has no duplicate and no empty string, and a string is in it exactly when
(a) it is the non-empty namespace that `ModelType` returns for the parsed type of a column
entry with a non-empty type descriptor, or (b) it is a non-empty string among those that
`EnsureNamespaces` returns, when the type mapping has it, for the graph that the passes
have built. -/
theorem init_namespaces_union (env : Env) (mc : ModelContext) (tr : Traversal)
    (c : config.Config) (h : (init env mc tr c {}).2 = none)
    (hno : mc.OrganizeNamespaces = none) (hr : tr.RangesSets) :
    (init env mc tr c {}).1.Config.Namespaces.Nodup ∧
    "" ∉ (init env mc tr c {}).1.Config.Namespaces ∧
    ∀ x, x ∈ (init env mc tr c {}).1.Config.Namespaces ↔
      (∃ e ∈ c.entries, e.2.2.2.2.Type_ ≠ "" ∧ x ≠ "" ∧
        ∃ ty tyn, env.Parse e.2.2.2.2.Type_ = .ok ty ∧ mc.ModelType ty = .ok (x, tyn)) ∨
      (∃ ens, mc.EnsureNamespaces = some ens ∧
        x ∈ ens (graphBeforeNamespaces env mc tr c) ∧ x ≠ "") := by
  obtain ⟨hnd, hmem⟩ := init_namespaces_spec h hno hr
  simp only [entryNamespace_eq_some_iff] at hmem
  refine ⟨hnd, ?_, hmem⟩
  intro h0
  rcases (hmem "").mp h0 with ⟨e, -, -, hx, -⟩ | ⟨ens, -, -, hx⟩
  · exact hx rfl
  · exact hx rfl

/-- C16 on `typedConfig`, with a type mapping that ensures the namespaces `Text` and `Linq`
and a blank, the set ranged over from its last element: the namespaces are `Linq`, `Text`
and `System`. -/
theorem init_namespaces_union_witness :
    (init twoTypesEnv ensuringContext typedTraversalReversed typedConfig {}).1.Config.Namespaces
      = ["Linq", "Text", "System"] ∧
    (init twoTypesEnv ensuringContext typedTraversalReversed typedConfig
      {}).1.Config.Namespaces.Nodup ∧
    "" ∉ (init twoTypesEnv ensuringContext typedTraversalReversed typedConfig
      {}).1.Config.Namespaces :=
  ⟨by decide,
    (init_namespaces_union twoTypesEnv ensuringContext typedTraversalReversed typedConfig
      (by decide) rfl (fun l => List.reverse_perm l)).1,
    (init_namespaces_union twoTypesEnv ensuringContext typedTraversalReversed typedConfig
      (by decide) rfl (fun l => List.reverse_perm l)).2.1⟩

/-- C20 as stated fails on `typedConfig`: with the same collaborators, which have no
namespace organizer, the build that ranges over the namespace set from its first element
gives `System`, `Text` and the build that ranges over it from its last element gives
`Text`, `System`. -/
theorem init_namespaces_order_differs :
    namespacedContext.OrganizeNamespaces.isNone = true ∧
    (Traversal.ofConfig typedConfig).Valid typedConfig ∧
    typedTraversalReversed.Valid typedConfig ∧
    (Traversal.ofConfig typedConfig).RangesSets ∧ typedTraversalReversed.RangesSets ∧
    (init twoTypesEnv namespacedContext (Traversal.ofConfig typedConfig) typedConfig {}).2
      = none ∧
    (init twoTypesEnv namespacedContext typedTraversalReversed typedConfig {}).2 = none ∧
    (init twoTypesEnv namespacedContext (Traversal.ofConfig typedConfig) typedConfig
      {}).1.Config.Namespaces = ["System", "Text"] ∧
    (init twoTypesEnv namespacedContext typedTraversalReversed typedConfig
      {}).1.Config.Namespaces = ["Text", "System"] ∧
    (init twoTypesEnv namespacedContext (Traversal.ofConfig typedConfig) typedConfig
      {}).1.Config.Namespaces ≠
      (init twoTypesEnv namespacedContext typedTraversalReversed typedConfig
        {}).1.Config.Namespaces :=
  ⟨rfl, by decide, by decide, fun l => List.Perm.refl l, fun l => List.reverse_perm l,
    by decide, by decide, by decide, by decide, by decide⟩

/-- C20, amended: two successful builds of the same configuration, its maps listed in any
two orders, with the same collaborators, which have no namespace organizer and whose
`EnsureNamespaces`, when there is one, returns the same non-empty strings in both builds,
give `Namespaces` sequences with the same elements, each once: one is a permutation of the
other. -/
theorem init_namespaces_perm (env : Env) (mc : ModelContext) (tr tr2 : Traversal)
    (c c2 : config.Config) (hwf : c.WellFormed) (hs : c.SameMaps c2)
    (h : (init env mc tr c {}).2 = none) (h2 : (init env mc tr2 c2 {}).2 = none)
    (hno : mc.OrganizeNamespaces = none) (hr : tr.RangesSets) (hr2 : tr2.RangesSets)
    (hens : ∀ ens, mc.EnsureNamespaces = some ens → ∀ x, x ≠ "" →
      (x ∈ ens (graphBeforeNamespaces env mc tr c) ↔
        x ∈ ens (graphBeforeNamespaces env mc tr2 c2))) :
    (init env mc tr c {}).1.Config.Namespaces.Perm
      (init env mc tr2 c2 {}).1.Config.Namespaces := by
  obtain ⟨hnd, hmem⟩ := init_namespaces_spec h hno hr
  obtain ⟨hnd2, hmem2⟩ := init_namespaces_spec h2 hno hr2
  refine (List.perm_ext_iff_of_nodup hnd hnd2).mpr (fun x => ?_)
  rw [hmem x, hmem2 x]
  constructor
  · rintro (⟨e, he, hx⟩ | ⟨ens, he, hx, hx0⟩)
    · exact Or.inl ⟨e, (mem_entries_of_sameMaps hwf hs e).mp he, hx⟩
    · exact Or.inr ⟨ens, he, (hens ens he x hx0).mp hx, hx0⟩
  · rintro (⟨e, he, hx⟩ | ⟨ens, he, hx, hx0⟩)
    · exact Or.inl ⟨e, (mem_entries_of_sameMaps hwf hs e).mpr he, hx⟩
    · exact Or.inr ⟨ens, he, (hens ens he x hx0).mpr hx, hx0⟩

/-- C20, amended, on `typedConfig` and a listing of it with the columns of `t` in another
order, the namespace set ranged over from its first element in one build and from its last
in the other. -/
theorem init_namespaces_perm_witness :
    (init twoTypesEnv ensuringContext (Traversal.ofConfig typedConfig) typedConfig
      {}).1.Config.Namespaces = ["System", "Text", "Linq"] ∧
    (init twoTypesEnv ensuringContext typedTraversalSwapped typedConfigSwapped
      {}).1.Config.Namespaces = ["Linq", "System", "Text"] ∧
    (init twoTypesEnv ensuringContext (Traversal.ofConfig typedConfig) typedConfig
      {}).1.Config.Namespaces.Perm
      (init twoTypesEnv ensuringContext typedTraversalSwapped typedConfigSwapped
        {}).1.Config.Namespaces :=
  ⟨by decide, by decide,
    init_namespaces_perm twoTypesEnv ensuringContext (Traversal.ofConfig typedConfig)
      typedTraversalSwapped typedConfig typedConfigSwapped (by decide) (by decide)
      (by decide) (by decide) rfl (fun l => List.Perm.refl l) (fun l => List.reverse_perm l)
      (fun ens he x _ => by
        simp only [ensuringContext, Option.some.injEq] at he
        subst he
        exact Iff.rfl)⟩

end sqlmodelgen

namespace sqlmodelgen.configBuilder

theorem linkFK_eq_linkID (b : configBuilder) (c fkCol : Nat) :
    b.linkFK c fkCol =
      match b.linkID fkCol with
      | some id => b.setFK c id
      | none => b := by
  unfold linkFK linkID
  simp only
  cases (b.table (b.column fkCol).Table).PK with
  | some pk =>
    simp only
    split
    · rfl
    · cases (b.table (b.column fkCol).Table).Key with
      | some k =>
        cases b.findKeyID fkCol (b.tableKey k).IDs <;> rfl
      | none => rfl
  | none =>
    simp only
    cases (b.table (b.column fkCol).Table).Key with
    | some k =>
      cases b.findKeyID fkCol (b.tableKey k).IDs <;> rfl
    | none => rfl

/-- The state after a visit of the foreign-key pass. -/
theorem fkStep_state (x : dbSchemaTableColumn) (b : configBuilder) :
    (fkStep x b).1 =
      match b.fkTarget x with
      | some id => b.setFK x.column id
      | none => b := by
  unfold fkStep fkTarget
  by_cases hfk : x.colCfg.FK = ""
  · simp [hfk]
  · simp only [hfk, if_false]
    cases hp : b.getPathUp x.colCfg.FK x.table with
    | error e => rfl
    | ok r =>
      cases r with
      | column fkCol =>
        simp only
        have h := linkFK_eq_linkID b x.column fkCol
        split <;> exact h
      | config => rfl
      | database _ => rfl
      | schema _ => rfl
      | table _ => rfl

theorem Later.findKeyID_eq {b b' : configBuilder} (h : Later b b') (fkCol : Nat)
    (l : List Nat) : b'.findKeyID fkCol l = b.findKeyID fkCol l := by
  induction l with
  | nil => rfl
  | cons a l ih => simp only [findKeyID, h.tableID_eq, ih]

theorem Later.linkID_eq {b b' : configBuilder} (h : Later b b') (fkCol : Nat) :
    b'.linkID fkCol = b.linkID fkCol := by
  unfold linkID
  simp only [h.colTable, h.tblPK, h.tblKey, h.tableID_eq, h.findKeyID_eq, tableKey, h.keys]

theorem Later.fkTarget_eq {b b' : configBuilder} (h : Later b b') (x : dbSchemaTableColumn) :
    b'.fkTarget x = b.fkTarget x := by
  unfold fkTarget
  simp only [h.getPathUp_eq, h.linkID_eq]

/-- The `Type` fields after `setFK`. -/
theorem setFK_Type (b : configBuilder) (c id i : Nat) :
    ((b.setFK c id).column i).Type_ =
      if i = c ∧ c < b.columns.length ∧ (b.column c).Type_ = none then
        (b.column (b.tableID id).Column).Type_
      else (b.column i).Type_ := by
  have h0 : ∀ j, ((b.setColumn c { b.column c with FK := some id }).column j).Type_ =
      (b.column j).Type_ := by
    intro j
    rw [column_setColumn]
    split
    · rename_i h; rw [h.1]
    · rfl
  unfold setFK
  simp only
  by_cases ht : ((b.setColumn c { b.column c with FK := some id }).column c).Type_ = none
  · rw [if_pos ht]
    have ht' : (b.column c).Type_ = none := by rw [← h0 c]; exact ht
    rw [column_setColumn, setColumn_columns_length]
    by_cases hic : i = c ∧ c < b.columns.length
    · rw [if_pos hic, if_pos ⟨hic.1, hic.2, ht'⟩]
      show ((b.setColumn c _).column ((b.setColumn c _).tableID id).Column).Type_ = _
      rw [h0]
      rfl
    · rw [if_neg hic, if_neg (fun h => hic ⟨h.1, h.2.1⟩)]
      exact h0 i
  · rw [if_neg ht]
    have ht' : ¬ (b.column c).Type_ = none := by rw [← h0 c]; exact ht
    rw [if_neg (fun h => ht' h.2.2)]
    exact h0 i

end sqlmodelgen.configBuilder

namespace sqlmodelgen.configBuilder

theorem Inherits.inherits_start (env : Env) (c : config.Config) (b1 : configBuilder) :
    Inherits env c b1 b1 :=
  ⟨Later.later_refl b1, fun _ _ => rfl, fun _ _ => rfl,
    fun y hy k h => absurd (hy.colDone.fk.symm.trans h) (by simp),
    fun y hy k h => absurd (hy.colDone.fk.symm.trans h) (by simp)⟩

theorem fkTarget_congr (b : configBuilder) {x y : dbSchemaTableColumn}
    (ht : x.table = y.table) (hc : x.colCfg = y.colCfg) : b.fkTarget x = b.fkTarget y := by
  unfold fkTarget
  rw [ht, hc]

/-- A visit of the foreign-key pass keeps the account of the types. -/
theorem Inherits.inherits_step {env : Env} {c : config.Config} {b1 b : configBuilder}
    (hwf : c.WellFormed) (hb : Inherits env c b1 b) {y0 : dbSchemaTableColumn}
    (hy0 : VisitOK env b1 c y0) : Inherits env c b1 (fkStep y0 b).1 := by
  have hlater : Later b1 (fkStep y0 b).1 := hb.later.later_trans (later_fkStep y0 b)
  have hst := fkStep_state y0 b
  rw [hb.later.fkTarget_eq] at hst
  cases htg : b1.fkTarget y0 with
  | none =>
    rw [htg] at hst
    rw [hst]
    exact hb
  | some id =>
    rw [htg] at hst
    simp only at hst
    rw [hst] at hlater ⊢
    have hv : y0.column < b.columns.length := by
      rw [hb.later.columnsLen]; exact hy0.colDone.valid
    have hF : ∀ i, ((b.setFK y0.column id).column i).FK =
        if i = y0.column then some id else (b.column i).FK := by
      intro i
      rw [setFK_FK]
      by_cases hi : i = y0.column
      · rw [if_pos ⟨hi, hv⟩, if_pos hi]
      · rw [if_neg (fun h => hi h.1), if_neg hi]
    have hT : ∀ i, ((b.setFK y0.column id).column i).Type_ =
        if i = y0.column ∧ (b.column y0.column).Type_ = none then
          (b.column (b1.tableID id).Column).Type_
        else (b.column i).Type_ := by
      intro i
      rw [setFK_Type, hb.later.tableID_eq]
      by_cases hi : i = y0.column ∧ (b.column y0.column).Type_ = none
      · rw [if_pos ⟨hi.1, hv, hi.2⟩, if_pos hi]
      · rw [if_neg (fun h => hi ⟨h.1, h.2.2⟩), if_neg hi]
    have hTne : ∀ i, i ≠ y0.column →
        ((b.setFK y0.column id).column i).Type_ = (b.column i).Type_ := by
      intro i hi
      rw [hT, if_neg (fun h => hi h.1)]
    refine ⟨hlater, ?_, ?_, ?_, ?_⟩
    · intro i hi
      rw [hT]
      split
      · rename_i hc
        have := hb.typed i hi
        rw [hc.1] at this hi
        rw [hc.2] at this
        exact absurd this.symm hi
      · exact hb.typed i hi
    · intro i hi
      rw [hF] at hi
      by_cases hix : i = y0.column
      · rw [if_pos hix] at hi; cases hi
      · rw [if_neg hix] at hi
        rw [hTne i hix]
        exact hb.unlinked i hi
    · intro y hy idy hfk
      rw [hF] at hfk
      by_cases hix : y.column = y0.column
      · rw [if_pos hix] at hfk
        cases hfk
        obtain ⟨e1, e2⟩ := hy.same_entry hwf hy0 hix
        rw [fkTarget_congr b1 e1 e2]
        exact htg
      · rw [if_neg hix] at hfk
        exact hb.target y hy idy hfk
    · intro y hy idy hfk hT1
      rw [hF] at hfk
      by_cases hix : y.column = y0.column
      · rw [if_pos hix] at hfk
        cases hfk
        by_cases hj : (b1.tableID id).Column = y0.column
        · right
          rw [hj, hix]
        · rw [hTne _ hj, hT]
          by_cases hty : (b.column y0.column).Type_ = none
          · right
            rw [if_pos ⟨hix, hty⟩]
          · rw [if_neg (fun h => hty h.2), hix]
            rw [hix] at hT1
            cases hold : (b.column y0.column).FK with
            | none => exact absurd ((hb.unlinked _ hold).trans hT1) hty
            | some idold =>
              have h1 := hb.target y0 hy0 idold hold
              rw [htg] at h1
              cases h1
              exact hb.linked y0 hy0 id hold hT1
      · rw [if_neg hix] at hfk
        rw [hTne _ hix]
        rcases hb.linked y hy idy hfk hT1 with h | h
        · exact Or.inl h
        · by_cases hj : (b1.tableID idy).Column = y0.column ∧ (b.column y0.column).Type_ = none
          · left
            rw [h, hj.1, hj.2]
            by_contra hne
            have := hb.typed y0.column (fun h' => hne h'.symm)
            rw [hj.2] at this
            exact hne this
          · right
            rw [hT, if_neg hj]
            exact h

end sqlmodelgen.configBuilder

namespace sqlmodelgen.configBuilder

/-- The account of the types at the end of a foreign-key pass that succeeds. -/
theorem init_inherits {env : Env} {mc : ModelContext} {tr : Traversal}
    {c : config.Config} (hwf : c.WellFormed) (hv : tr.Valid c) {b1 b2 : configBuilder}
    (h1 : initPass1 env mc c {} = (b1, none))
    (h2 : b1.iterDBSchemaTableColumn tr.fk fkStep = (b2, none)) : Inherits env c b1 b2 := by
  have hroot := initPass1_spec h1
  have := foldVisits_induct fkStep (Inherits env c b1) (b1.visitDatabases tr.fk.Databases)
    (fun x hx b hb => hb.inherits_step hwf (hroot.visitOK hwf hv.1 hx)) b1
    (Inherits.inherits_start env c b1)
  rw [← pass2_eq_fold h1 hwf hv, h2] at this
  exact this

/-- A visit of the foreign-key pass that succeeds on an entry with an FK path has set the
`FK` of its column. -/
theorem fkStep_sets {x : dbSchemaTableColumn} {b : configBuilder} (hfk : x.colCfg.FK ≠ "")
    (h : (fkStep x b).2 = none) : ((fkStep x b).1.column x.column).FK ≠ none := by
  unfold fkStep at h ⊢
  rw [if_neg hfk] at h ⊢
  cases hp : b.getPathUp x.colCfg.FK x.table with
  | error e => rw [hp] at h; cases h
  | ok r =>
    rw [hp] at h
    cases r with
    | column fkCol =>
      simp only at h ⊢
      by_cases hn : ((b.linkFK x.column fkCol).column x.column).FK = none
      · rw [if_pos hn] at h; cases h
      · rw [if_neg hn]; exact hn
    | config => cases h
    | database _ => cases h
    | schema _ => cases h
    | table _ => cases h

/-- A visit of the foreign-key pass leaves set an `FK` that is set. -/
theorem fkStep_keeps_set (y : dbSchemaTableColumn) (b : configBuilder) (i : Nat)
    (h : (b.column i).FK ≠ none) : ((fkStep y b).1.column i).FK ≠ none := by
  rw [fkStep_state]
  cases b.fkTarget y with
  | none => exact h
  | some id =>
    simp only
    rw [setFK_FK]
    split
    · simp
    · exact h

/-- In a build that succeeds, the `FK` of the column of an entry with an FK path is set at
the end of the foreign-key pass. -/
theorem init_fk_set {env : Env} {mc : ModelContext} {tr : Traversal}
    {c : config.Config} (hwf : c.WellFormed) (hv : tr.Valid c) {b1 b2 : configBuilder}
    (h1 : initPass1 env mc c {} = (b1, none))
    (h2 : b1.iterDBSchemaTableColumn tr.fk fkStep = (b2, none))
    {x : dbSchemaTableColumn} (hx : x ∈ b1.visitDatabases tr.fk.Databases)
    (hfk : x.colCfg.FK ≠ "") : (b2.column x.column).FK ≠ none := by
  have hP := foldVisits_reaches fkStep (fun _ => True)
    (fun b => (b.column x.column).FK ≠ none)
    (b1.visitDatabases tr.fk.Databases)
    (fun _ _ _ _ => trivial)
    (fun y _ b _ hp => fkStep_keeps_set y b x.column hp)
    hx (fun b _ hok => fkStep_sets hfk hok) b1 trivial
    (by rw [← pass2_eq_fold h1 hwf hv, h2])
  rw [← pass2_eq_fold h1 hwf hv, h2] at hP
  exact hP

/-- The type of the first pass for a column entry with a type descriptor. -/
theorem pass1_type_of_entry {env : Env} {mc : ModelContext} {c : config.Config}
    {b1 : configBuilder} (h1 : initPass1 env mc c {} = (b1, none))
    {dn sn tn cn : String} {cc : config.Column} (hc : c.HasColumn dn sn tn cn cc)
    (hty : cc.Type_ ≠ "") : ∃ ty, env.Parse cc.Type_ = .ok ty := by
  have hp := (initPass1_ok_iff env mc c {}).mp (by rw [h1])
  obtain ⟨dc, hdc, sc, hsc, tc, htc, hcc⟩ := hc
  rcases (hp.2 _ hdc).2 _ hsc _ htc _ hcc with h | ⟨ty, h, _⟩
  · exact absurd h hty
  · exact ⟨ty, h⟩

/-- In a build that succeeds, the types of the column of an entry: the parse of its type
descriptor when it has one; and when it has none but has an FK path, nil or the type of the
column that its `FK` wraps, and this type when the entry of the wrapped column has a type
descriptor or no FK path. -/
theorem init_types_of_entry {env : Env} {mc : ModelContext} {tr : Traversal}
    {c : config.Config} (hwf : c.WellFormed) (hv : tr.Valid c)
    (h : (init env mc tr c {}).2 = none)
    {dn sn tn cn : String} {cc : config.Column} (hc : c.HasColumn dn sn tn cn cc) :
    ∃ ix, (init env mc tr c {}).1.findColumn dn sn tn cn = some ix ∧
      (cc.Type_ ≠ "" → ∃ ty, env.Parse cc.Type_ = .ok ty ∧
        ((init env mc tr c {}).1.column ix).Type_ = some ty) ∧
      (cc.Type_ = "" → cc.FK ≠ "" →
        ∃ id, ((init env mc tr c {}).1.column ix).FK = some id ∧
          (((init env mc tr c {}).1.column ix).Type_ = none ∨
            ((init env mc tr c {}).1.column ix).Type_ =
              ((init env mc tr c {}).1.column
                ((init env mc tr c {}).1.tableID id).Column).Type_) ∧
          ∀ dn2 sn2 tn2 cn2 cc2, c.HasColumn dn2 sn2 tn2 cn2 cc2 →
            (init env mc tr c {}).1.findColumn dn2 sn2 tn2 cn2 =
              some ((init env mc tr c {}).1.tableID id).Column →
            (cc2.Type_ ≠ "" ∨ cc2.FK = "") →
            ((init env mc tr c {}).1.column ix).Type_ =
              ((init env mc tr c {}).1.column
                ((init env mc tr c {}).1.tableID id).Column).Type_) := by
  obtain ⟨b1, b2, h1, h2, l12, hl, hcols⟩ := init_columns_of_ok h
  have hroot := initPass1_spec h1
  have inv := init_inherits hwf hv h1 h2
  obtain ⟨x, hx, hxd, hxs, hxt, hxc, hxcc⟩ := hroot.visited hwf hv.1 hc
  have hok := hroot.visitOK hwf hv.1 hx
  have hfc := hok.findColumn
  rw [hxd, hxs, hxt, hxc] at hfc
  have hT1 : (b1.column x.column).Type_ =
      if cc.Type_ = "" then none else (env.Parse cc.Type_).toOption := by
    have := hok.colDone.type
    simp only [hxcc] at this
    exact this
  refine ⟨x.column, by rw [hl.findColumn_eq]; exact hfc, ?_, ?_⟩
  · intro hty
    obtain ⟨ty, hp⟩ := pass1_type_of_entry h1 hc hty
    refine ⟨ty, hp, ?_⟩
    rw [if_neg hty, hp] at hT1
    rw [hcols, inv.typed x.column (by rw [hT1]; simp [Except.toOption]), hT1]
    rfl
  · intro hty hfk
    rw [if_pos hty] at hT1
    have hset : ∃ id, (b2.column x.column).FK = some id := by
      cases hF : (b2.column x.column).FK with
      | some id => exact ⟨id, rfl⟩
      | none =>
        exact absurd hF (init_fk_set hwf hv h1 h2 hx (by rw [hxcc]; exact hfk))
    obtain ⟨id, hid⟩ := hset
    have hlink := inv.linked x hok id hid hT1
    have htid : (init env mc tr c {}).1.tableID id = b1.tableID id := hl.tableID_eq id
    refine ⟨id, by rw [hcols]; exact hid, ?_, ?_⟩
    · rw [htid, hcols, hcols]
      rcases hlink with h' | h'
      · by_cases hj : (b1.column (b1.tableID id).Column).Type_ = none
        · left; rw [h', hj]
        · right; rw [h', inv.typed _ hj]
      · exact Or.inr h'
    · intro dn2 sn2 tn2 cn2 cc2 hc2 hf2 hsettled
      rw [htid] at hf2 ⊢
      rw [hcols, hcols]
      obtain ⟨x2, hx2, hxd2, hxs2, hxt2, hxc2, hxcc2⟩ := hroot.visited hwf hv.1 hc2
      have hok2 := hroot.visitOK hwf hv.1 hx2
      have hfc2 := hok2.findColumn
      rw [hxd2, hxs2, hxt2, hxc2, ← hl.findColumn_eq, hf2] at hfc2
      have hj : (b1.tableID id).Column = x2.column := Option.some.inj hfc2
      have hsame : (b2.column (b1.tableID id).Column).Type_ =
          (b1.column (b1.tableID id).Column).Type_ := by
        rcases hsettled with hty2 | hfk2
        · obtain ⟨ty2, hp2⟩ := pass1_type_of_entry h1 hc2 hty2
          apply inv.typed
          have := hok2.colDone.type
          simp only [hxcc2] at this
          rw [hj, this, if_neg hty2, hp2]
          simp [Except.toOption]
        · apply inv.unlinked
          cases hF : (b2.column (b1.tableID id).Column).FK with
          | none => rfl
          | some id2 =>
            exfalso
            rw [hj] at hF
            have := inv.target x2 hok2 id2 hF
            unfold fkTarget at this
            rw [hxcc2, if_pos hfk2] at this
            cases this
      rcases hlink with h' | h'
      · rw [h', hsame]
      · exact h'

end sqlmodelgen.configBuilder

namespace sqlmodelgen.configBuilder

/-- Path resolution from the table of a visit, by names: the path resolves exactly to the
column that the names it designates find from the root. -/
theorem VisitOK.getPathUp_names {env : Env} {b : configBuilder} {c : config.Config}
    {x : dbSchemaTableColumn} (hx : VisitOK env b c x) (p : String) :
    (b.getPathUp p x.table).toOption =
      (fkNames x.dbName x.schName x.tblName p).bind
        (fun n => (b.findColumn n.1 n.2.1 n.2.2.1 n.2.2.2).map Ref.column) := by
  obtain ⟨tc, _, _, _, htd⟩ := hx.tblDone
  obtain ⟨sc, hsd⟩ := hx.schDone
  have hlen := stringsSplit_length p
  have hcol : ∀ t a, (b.getPathDownLoop p [a] (.table t)).toOption =
      ((b.table t).ColumnsByName.lookup a).map Ref.column := by
    intro t a
    simp only [getPathDownLoop]
    cases (b.table t).ColumnsByName.lookup a <;> rfl
  have htbl : ∀ s t' a, (b.getPathDownLoop p [t', a] (.schema s)).toOption =
      ((b.schema s).TablesByName.lookup t').bind
        (fun t => ((b.table t).ColumnsByName.lookup a).map Ref.column) := by
    intro s t' a
    rw [getPathDownLoop]
    cases (b.schema s).TablesByName.lookup t' with
    | none => rfl
    | some t => exact hcol t a
  have hsch : ∀ d s' t' a, (b.getPathDownLoop p [s', t', a] (.database d)).toOption =
      ((b.database d).SchemasByName.lookup s').bind (fun s =>
        ((b.schema s).TablesByName.lookup t').bind
          (fun t => ((b.table t).ColumnsByName.lookup a).map Ref.column)) := by
    intro d s' t' a
    rw [getPathDownLoop]
    cases (b.database d).SchemasByName.lookup s' with
    | none => rfl
    | some s => exact htbl s t' a
  have hdb : ∀ d' s' t' a, (b.getPathDownLoop p [d', s', t', a] .config).toOption =
      (b.Config.DatabasesByName.lookup d').bind (fun d =>
        ((b.database d).SchemasByName.lookup s').bind (fun s =>
          ((b.schema s).TablesByName.lookup t').bind
            (fun t => ((b.table t).ColumnsByName.lookup a).map Ref.column))) := by
    intro d' s' t' a
    rw [getPathDownLoop]
    cases b.Config.DatabasesByName.lookup d' with
    | none => rfl
    | some d => exact hsch d s' t' a
  have hfind : ∀ d' s' t' a, b.findColumn d' s' t' a =
      (b.Config.DatabasesByName.lookup d').bind (fun d =>
        ((b.database d).SchemasByName.lookup s').bind (fun s =>
          ((b.schema s).TablesByName.lookup t').bind
            (fun t => (b.table t).ColumnsByName.lookup a))) := by
    intro d' s' t' a
    unfold configBuilder.findColumn configBuilder.findTable
    cases b.Config.DatabasesByName.lookup d' with
    | none => rfl
    | some d =>
      simp only [Option.some_bind]
      cases (b.database d).SchemasByName.lookup s' with
      | none => rfl
      | some s =>
        simp only [Option.some_bind]
        cases (b.schema s).TablesByName.lookup t' <;> rfl
  unfold getPathUp getPathDown fkNames
  cases hsp : stringsSplit p with
  | nil => rw [hsp] at hlen; simp at hlen
  | cons a l1 =>
    cases l1 with
    | nil =>
      rw [hsp] at hlen
      have h0 : stringsCount p = 0 := by simpa using hlen.symm
      rw [h0]
      simp only [Option.some_bind]
      rw [hcol, hfind, hx.dbLookup, Option.some_bind, hx.schLookup, Option.some_bind,
        hx.tblLookup, Option.some_bind]
    | cons a2 l2 =>
      cases l2 with
      | nil =>
        rw [hsp] at hlen
        have h0 : stringsCount p = 1 := by simpa using hlen.symm
        rw [h0]
        simp only [Option.some_bind]
        rw [htbl, hfind, hx.dbLookup, Option.some_bind, hx.schLookup, Option.some_bind,
          htd.owner]
        cases (b.schema x.schema).TablesByName.lookup a <;> rfl
      | cons a3 l3 =>
        cases l3 with
        | nil =>
          rw [hsp] at hlen
          have h0 : stringsCount p = 2 := by simpa using hlen.symm
          rw [h0]
          simp only [Option.some_bind]
          rw [hsch, hfind, hx.dbLookup, Option.some_bind, htd.owner, hsd.owner]
          cases (b.database x.db).SchemasByName.lookup a with
          | none => rfl
          | some s =>
            simp only [Option.some_bind]
            cases (b.schema s).TablesByName.lookup a2 <;> rfl
        | cons a4 l4 =>
          cases l4 with
          | nil =>
            rw [hsp] at hlen
            have h0 : stringsCount p = 3 := by simpa using hlen.symm
            rw [h0]
            simp only [Option.some_bind]
            rw [hdb, hfind]
            cases b.Config.DatabasesByName.lookup a with
            | none => rfl
            | some d =>
              simp only [Option.some_bind]
              cases (b.database d).SchemasByName.lookup a2 with
              | none => rfl
              | some s =>
                simp only [Option.some_bind]
                cases (b.schema s).TablesByName.lookup a3 <;> rfl
          | cons a5 l5 =>
            rw [hsp] at hlen
            have h0 : ∃ k, stringsCount p = k + 4 := ⟨l5.length, by
              simp only [List.length_cons] at hlen; omega⟩
            obtain ⟨k, hk⟩ := h0
            rw [hk]
            rfl

end sqlmodelgen.configBuilder

namespace sqlmodelgen

theorem sameEntries_refl {α : Type} {R : α → α → Prop} (l : List (String × α))
    (hR : ∀ p ∈ l, R p.2 p.2) : config.sameEntries R l l :=
  ⟨List.Perm.refl _, fun p hp => ⟨p, hp, rfl, hR p hp⟩⟩

/-- A listing is a listing of its own maps. -/
theorem sameMaps_refl (c : config.Config) : c.SameMaps c :=
  sameEntries_refl _ (fun _ _ => sameEntries_refl _ (fun _ _ =>
    sameEntries_refl _ (fun _ _ => List.Perm.refl _)))

/-- A second listing of the maps of a configuration repeats no key either. -/
theorem wellFormed_of_sameMaps {c c2 : config.Config} (hwf : c.WellFormed)
    (hs : c.SameMaps c2) : c2.WellFormed := by
  refine ⟨sameEntries_nodup hs hwf.1, fun pd hpd => ?_⟩
  obtain ⟨qd, hqd, -, hsd⟩ := hs.2 pd hpd
  have wd := hwf.2 qd hqd
  refine ⟨sameEntries_nodup hsd wd.1, fun ps hps => ?_⟩
  obtain ⟨qs, hqs, -, hst⟩ := hsd.2 ps hps
  have ws := wd.2 qs hqs
  refine ⟨sameEntries_nodup hst ws.1, fun pt hpt => ?_⟩
  obtain ⟨qt, hqt, -, hsc⟩ := hst.2 pt hpt
  have wt := ws.2 qt hqt
  unfold config.Table.WellFormed at wt ⊢
  exact ((List.Perm.map Prod.fst hsc).nodup_iff).mpr wt

end sqlmodelgen

namespace sqlmodelgen.configBuilder

/-- A column that the names of a database, a schema, a table and a column find in the graph
of the first pass is the column built for the entry of these names. -/
theorem RootOpen.entry_of_findColumn {env : Env} {b : configBuilder} {c : config.Config}
    (h : RootOpen env b c.Databases) {dn sn tn cn : String} {k : Nat}
    (hf : b.findColumn dn sn tn cn = some k) :
    ∃ cc t, c.HasColumn dn sn tn cn cc ∧ ColumnDone env b t k (cn, cc) ∧
      k ∈ (b.table t).Columns ∧ KeyOK b t := by
  unfold configBuilder.findColumn configBuilder.findTable at hf
  cases hd : b.Config.DatabasesByName.lookup dn with
  | none => rw [hd] at hf; cases hf
  | some d =>
    rw [hd] at hf
    simp only at hf
    cases hs : (b.database d).SchemasByName.lookup sn with
    | none => rw [hs] at hf; cases hf
    | some s =>
      rw [hs] at hf
      simp only at hf
      cases ht : (b.schema s).TablesByName.lookup tn with
      | none => rw [ht] at hf; cases hf
      | some t =>
        rw [ht] at hf
        simp only at hf
        obtain ⟨hdm, hdn⟩ := h.byName dn d hd
        obtain ⟨ed, hed, hdd⟩ := forall₂_mem_left h.databases hdm
        obtain ⟨hsm, hsn⟩ := hdd.byName sn s hs
        obtain ⟨es, hes, hsd⟩ := forall₂_mem_left hdd.schemas hsm
        obtain ⟨htm, htn⟩ := hsd.byName tn t ht
        obtain ⟨et, het, htd⟩ := forall₂_mem_left hsd.tables htm
        obtain ⟨hcm, hcn⟩ := htd.byName cn k hf
        obtain ⟨ec, hec, hcd⟩ := forall₂_mem_left htd.cols hcm
        obtain ⟨edn, edc⟩ := ed
        obtain ⟨esn, esc⟩ := es
        obtain ⟨etn, etc⟩ := et
        obtain ⟨ecn, ecc⟩ := ec
        have e1 : edn = dn := by rw [← hdn]; exact hdd.name.symm
        have e2 : esn = sn := by rw [← hsn]; exact hsd.name.symm
        have e3 : etn = tn := by rw [← htn]; exact htd.name.symm
        have e4 : ecn = cn := by rw [← hcn]; exact hcd.name.symm
        subst e1 e2 e3 e4
        exact ⟨ecc, t, ⟨edc, hed, esc, hes, etc, het, hec⟩, hcd, hcm, htd.keyOK⟩

/-- The names of a column entry find a column in the graph of the first pass. -/
theorem RootOpen.findColumn_of_entry {env : Env} {b : configBuilder} {c : config.Config}
    (h : RootOpen env b c.Databases) (hwf : c.WellFormed) {dn sn tn cn : String}
    {cc : config.Column} (hc : c.HasColumn dn sn tn cn cc) :
    ∃ k, b.findColumn dn sn tn cn = some k := by
  obtain ⟨x, hx, hxd, hxs, hxt, hxc, -⟩ := h.visited hwf (sameMaps_refl c) hc
  have hfc := (h.visitOK hwf (sameMaps_refl c) hx).findColumn
  rw [hxd, hxs, hxt, hxc] at hfc
  exact ⟨x.column, hfc⟩

/-- A column of a table bears a key exactly when it is flagged `PK`. -/
theorem keyBearing_iff_pk {b : configBuilder} {t k : Nat} (hk : KeyOK b t)
    (hm : k ∈ (b.table t).Columns) (ho : (b.column k).Table = t) :
    b.KeyBearing k ↔ (b.column k).PK = true := by
  rw [pk_flag_iff hk hm]
  unfold KeyBearing
  rw [ho]
  constructor
  · rintro (⟨pk, h1, h2⟩ | ⟨id, h1, h2⟩)
    · left; rw [h1]; simp [h2]
    · right; exact List.mem_map.mpr ⟨id, h1, h2⟩
  · rintro (h1 | h1)
    · left
      cases hp : (b.table t).PK with
      | none => rw [hp] at h1; cases h1
      | some pk =>
        rw [hp] at h1
        exact ⟨pk, rfl, Option.some.inj h1⟩
    · right
      obtain ⟨id, h2, h3⟩ := List.mem_map.mp h1
      exact ⟨id, h2, h3⟩

/-- A column entry links in the graph of the first pass exactly when its FK path is empty
or designates, by name, an entry flagged `PK`. -/
theorem RootOpen.linksEntry_iff {env : Env} {b : configBuilder} {c : config.Config}
    (h : RootOpen env b c.Databases) (hwf : c.WellFormed)
    {e : String × String × String × String × config.Column} (he : e ∈ c.entries) :
    b.linksEntry e = true ↔ c.LinksName e := by
  obtain ⟨dn, sn, tn, cn, cc⟩ := e
  have hc := (hasColumn_iff_mem_entries c dn sn tn cn cc).mpr he
  obtain ⟨x, hx, hxd, hxs, hxt, hxc, hxcc⟩ := h.visited hwf (sameMaps_refl c) hc
  have hok := h.visitOK hwf (sameMaps_refl c) hx
  have hft := hok.findTable
  rw [hxd, hxs, hxt] at hft
  have hnames := hok.getPathUp_names cc.FK
  rw [hxd, hxs, hxt] at hnames
  unfold linksEntry config.Config.LinksName
  simp only [hft]
  by_cases hfk : cc.FK = ""
  · simp [hfk]
  · simp only [hfk, decide_False, Bool.false_or, false_or]
    constructor
    · intro hl
      cases hp : b.getPathUp cc.FK x.table with
      | error err => rw [hp] at hl; cases hl
      | ok r =>
        rw [hp] at hl
        cases r with
        | column k =>
          simp only [decide_eq_true_eq] at hl
          rw [hp] at hnames
          cases hn : fkNames dn sn tn cc.FK with
          | none => rw [hn] at hnames; cases hnames
          | some n =>
            rw [hn, Option.some_bind] at hnames
            cases hf : b.findColumn n.1 n.2.1 n.2.2.1 n.2.2.2 with
            | none => rw [hf] at hnames; cases hnames
            | some k' =>
              rw [hf] at hnames
              have hk : k = k' := by
                simp only [Except.toOption, Option.map_some', Option.some.injEq,
                  Ref.column.injEq] at hnames
                exact hnames
              subst hk
              obtain ⟨cc', t, hc', hcd, hm, hkey⟩ := h.entry_of_findColumn hf
              refine ⟨n, cc', rfl, hc', ?_⟩
              rw [← hcd.pk]
              exact (keyBearing_iff_pk hkey hm hcd.owner).mp hl
        | config => cases hl
        | database _ => cases hl
        | schema _ => cases hl
        | table _ => cases hl
    · rintro ⟨n, cc', hn, hc', hpk⟩
      obtain ⟨k, hf⟩ := h.findColumn_of_entry hwf hc'
      rw [hn, Option.some_bind, hf] at hnames
      obtain ⟨cc2, t, hc2, hcd, hm, hkey⟩ := h.entry_of_findColumn hf
      have hcc : cc2 = cc' := hasColumn_unique hwf hc2 hc'
      subst hcc
      cases hp : b.getPathUp cc.FK x.table with
      | error err => rw [hp] at hnames; cases hnames
      | ok r =>
        rw [hp] at hnames
        simp only [Except.toOption, Option.map_some', Option.some.injEq] at hnames
        subst hnames
        simp only [decide_eq_true_eq]
        refine (keyBearing_iff_pk hkey hm hcd.owner).mpr ?_
        rw [hcd.pk]; exact hpk

end sqlmodelgen.configBuilder

namespace sqlmodelgen

/-- What the first pass asks of a configuration, entry by entry. -/
theorem pass1OK_iff_entries (env : Env) (mc : ModelContext) (c : config.Config) :
    env.pass1OK mc c ↔
      env.namersOK c.DatabaseNamers ∧
      (∀ p ∈ c.Databases, env.databaseNamersOK p.2.Namers) ∧
      ∀ e ∈ c.entries, env.typeOK mc e.2.2.2.2 := by
  unfold Env.pass1OK Env.databaseOK config.Config.entries
  simp only [List.mem_flatMap, List.mem_map, Prod.exists]
  constructor
  · rintro ⟨h1, h2⟩
    refine ⟨h1, fun p hp => (h2 p hp).1, ?_⟩
    rintro e ⟨dn, dc, hd, sn, sc, hs, tn, tc, ht, cn, cc, hc, rfl⟩
    exact (h2 _ hd).2 _ hs _ ht _ hc
  · rintro ⟨h1, h2, h3⟩
    refine ⟨h1, fun p hp => ⟨h2 p hp, fun s hs t ht q hq => ?_⟩⟩
    exact h3 (p.1, s.1, t.1, q.1, q.2)
      ⟨p.1, p.2, hp, s.1, s.2, hs, t.1, t.2, ht, q.1, q.2, hq, rfl⟩

/-- What the first pass asks of a configuration does not depend on the listing. -/
theorem pass1OK_of_sameConfig (env : Env) (mc : ModelContext) {c c2 : config.Config}
    (hwf : c.WellFormed) (hs : c.SameConfig c2) : env.pass1OK mc c ↔ env.pass1OK mc c2 := by
  obtain ⟨hm, -, hn, hdn⟩ := hs
  rw [pass1OK_iff_entries, pass1OK_iff_entries, hn]
  constructor
  · rintro ⟨h1, h2, h3⟩
    refine ⟨h1, fun p hp => ?_, fun e he => h3 e ((mem_entries_of_sameMaps hwf hm e).mpr he)⟩
    obtain ⟨q, hq, hqp, -⟩ := hm.2 p hp
    rw [← hdn p hp q hq hqp]
    exact h2 q hq
  · rintro ⟨h1, h2, h3⟩
    refine ⟨h1, fun q hq => ?_, fun e he => h3 e ((mem_entries_of_sameMaps hwf hm e).mp he)⟩
    obtain ⟨p, hp, hpq, -⟩ := sameEntries_counterpart hm hwf.1 hq
    rw [hdn p hp q hq hpq.symm]
    exact h2 p hp

/-- Whether an FK path designates a key entry does not depend on the listing. -/
theorem linksName_of_sameMaps {c c2 : config.Config} (hwf : c.WellFormed)
    (hs : c.SameMaps c2) (e : String × String × String × String × config.Column) :
    c.LinksName e ↔ c2.LinksName e := by
  unfold config.Config.LinksName
  simp only [hasColumn_of_sameMaps hwf hs]

end sqlmodelgen

namespace sqlmodelgen.configBuilder

/-- A build succeeds exactly when no step of its first pass fails and the FK path of every
column entry is empty or designates, by name, an entry flagged `PK`. -/
theorem init_ok_iff_names {env : Env} {mc : ModelContext} {tr : Traversal}
    {c : config.Config} (hwf : c.WellFormed) (hv : tr.Valid c) :
    (init env mc tr c {}).2 = none ↔
      env.pass1OK mc c ∧ ∀ e ∈ c.entries, c.LinksName e := by
  rw [init_ok_iff hwf hv]
  constructor
  · rintro ⟨hp, hall⟩
    have h1 : initPass1 env mc c {} = ((initPass1 env mc c {}).1, none) :=
      Prod.ext rfl ((initPass1_ok_iff env mc c {}).mpr hp)
    exact ⟨hp, fun e he => ((initPass1_spec h1).linksEntry_iff hwf he).mp (hall e he)⟩
  · rintro ⟨hp, hall⟩
    have h1 : initPass1 env mc c {} = ((initPass1 env mc c {}).1, none) :=
      Prod.ext rfl ((initPass1_ok_iff env mc c {}).mpr hp)
    exact ⟨hp, fun e he => ((initPass1_spec h1).linksEntry_iff hwf he).mpr (hall e he)⟩

/-- The success of a build does not depend on the listing of the maps of the configuration,
nor on the order in which the later passes range over them. -/
theorem init_ok_of_sameConfig {env : Env} {mc : ModelContext} {tr tr2 : Traversal}
    {c c2 : config.Config} (hwf : c.WellFormed) (hs : c.SameConfig c2)
    (hv : tr.Valid c) (hv2 : tr2.Valid c2) :
    (init env mc tr c {}).2 = none ↔ (init env mc tr2 c2 {}).2 = none := by
  rw [init_ok_iff_names hwf hv, init_ok_iff_names (wellFormed_of_sameMaps hwf hs.1) hv2,
    pass1OK_of_sameConfig env mc hwf hs]
  constructor
  · rintro ⟨hp, hall⟩
    exact ⟨hp, fun e he => (linksName_of_sameMaps hwf hs.1 e).mp
      (hall e ((mem_entries_of_sameMaps hwf hs.1 e).mpr he))⟩
  · rintro ⟨hp, hall⟩
    exact ⟨hp, fun e he => (linksName_of_sameMaps hwf hs.1 e).mpr
      (hall e ((mem_entries_of_sameMaps hwf hs.1 e).mp he))⟩

/-- The resolution, in the graph of the first pass, of the FK path of an entry that
designates by name an entry flagged `PK`. -/
theorem VisitOK.resolve_names {env : Env} {b : configBuilder} {c : config.Config}
    (h : RootOpen env b c.Databases) (hwf : c.WellFormed)
    {x : dbSchemaTableColumn} (hx : VisitOK env b c x)
    {n : String × String × String × String} {cc : config.Column}
    (hn : fkNames x.dbName x.schName x.tblName x.colCfg.FK = some n)
    (hc : c.HasColumn n.1 n.2.1 n.2.2.1 n.2.2.2 cc) (hpk : cc.PK = true) :
    ∃ k, b.findColumn n.1 n.2.1 n.2.2.1 n.2.2.2 = some k ∧
      b.getPathUp x.colCfg.FK x.table = .ok (.column k) ∧ b.KeyBearing k := by
  obtain ⟨k, hf⟩ := h.findColumn_of_entry hwf hc
  have hnames := hx.getPathUp_names x.colCfg.FK
  rw [hn, Option.some_bind, hf] at hnames
  obtain ⟨cc2, t, hc2, hcd, hm, hkey⟩ := h.entry_of_findColumn hf
  have hcc : cc2 = cc := hasColumn_unique hwf hc2 hc
  subst hcc
  refine ⟨k, hf, ?_, (keyBearing_iff_pk hkey hm hcd.owner).mpr (by rw [hcd.pk]; exact hpk)⟩
  cases hp : b.getPathUp x.colCfg.FK x.table with
  | error err => rw [hp] at hnames; cases hnames
  | ok r =>
    rw [hp] at hnames
    simp only [Except.toOption, Option.map_some', Option.some.injEq] at hnames
    rw [hnames]

/-- In a build that succeeds, the `FK` of the column of an entry with an FK path wraps the
column that the names designated by the path find from the root. -/
theorem init_fk_names {env : Env} {mc : ModelContext} {tr : Traversal}
    {c : config.Config} (hwf : c.WellFormed) (hv : tr.Valid c)
    (h : (init env mc tr c {}).2 = none)
    {dn sn tn cn : String} {cc : config.Column} (hc : c.HasColumn dn sn tn cn cc)
    (hfk : cc.FK ≠ "") :
    ∃ n cc2, fkNames dn sn tn cc.FK = some n ∧
      c.HasColumn n.1 n.2.1 n.2.2.1 n.2.2.2 cc2 ∧ cc2.PK = true ∧
      ∀ m, fkNames dn sn tn cc.FK = some m →
        ∃ ix id, (init env mc tr c {}).1.findColumn dn sn tn cn = some ix ∧
          ((init env mc tr c {}).1.column ix).FK = some id ∧
          (init env mc tr c {}).1.findColumn m.1 m.2.1 m.2.2.1 m.2.2.2 =
            some ((init env mc tr c {}).1.tableID id).Column := by
  obtain ⟨b1, h1, hl⟩ := init_later h
  have hroot := initPass1_spec h1
  have he := (hasColumn_iff_mem_entries c dn sn tn cn cc).mp hc
  have hlinks := ((init_ok_iff_names hwf hv).mp h).2 _ he
  rcases hlinks with h0 | ⟨n, cc2, hn, hc2, hpk⟩
  · exact absurd h0 hfk
  · refine ⟨n, cc2, hn, hc2, hpk, fun m hm => ?_⟩
    rw [hn] at hm
    cases hm
    obtain ⟨x, hx, hxd, hxs, hxt, hxc, hxcc⟩ := hroot.visited hwf hv.1 hc
    have hok := hroot.visitOK hwf hv.1 hx
    obtain ⟨k, hf, hp, hk⟩ := hok.resolve_names hroot hwf
      (by rw [hxd, hxs, hxt, hxcc]; exact hn) hc2 hpk
    have hft := hok.findTable
    rw [hxd, hxs, hxt] at hft
    rw [hxcc] at hp
    obtain ⟨ix, id, hfc, hset, htid, -⟩ := init_fk_of_resolved hwf hv hc hfk h
      (by rw [hl.findTable_eq]; exact hft) (by rw [hl.getPathUp_eq]; exact hp)
      ((hl.keyBearing_iff k).mpr hk)
    exact ⟨ix, id, hfc, hset, by rw [hl.findColumn_eq, htid]; exact hf⟩

/-- A visit of the foreign-key pass to an entry whose FK path designates, by name, an
entry flagged `PK` succeeds and sets the `FK`, whatever was visited before it. -/
theorem fkStep_ok_of_names {env : Env} {mc : ModelContext} {tr : Traversal}
    {c : config.Config} (hwf : c.WellFormed) (hv : tr.Valid c) {b1 b : configBuilder}
    (h1 : initPass1 env mc c {} = (b1, none))
    {pre post : List dbSchemaTableColumn} {x : dbSchemaTableColumn}
    (hvis : b1.visitDatabases tr.fk.Databases = pre ++ x :: post)
    (hpre : foldVisits fkStep pre b1 = (b, none)) (hfk : x.colCfg.FK ≠ "")
    {n : String × String × String × String} {cc : config.Column}
    (hn : fkNames x.dbName x.schName x.tblName x.colCfg.FK = some n)
    (hc : c.HasColumn n.1 n.2.1 n.2.2.1 n.2.2.2 cc) (hpk : cc.PK = true) :
    (fkStep x b).2 = none ∧
      ∃ id, ((fkStep x b).1.column x.column).FK = some id ∧
        b1.findColumn n.1 n.2.1 n.2.2.1 n.2.2.2 = some (b1.tableID id).Column := by
  have hroot := initPass1_spec h1
  have hx : x ∈ b1.visitDatabases tr.fk.Databases := by rw [hvis]; simp
  have hok := hroot.visitOK hwf hv.1 hx
  have hb : Later b1 b := by
    have := foldVisits_later fkStep later_fkStep pre b1
    rwa [hpre] at this
  obtain ⟨k, hf, hp, hk⟩ := hok.resolve_names hroot hwf hn hc hpk
  obtain ⟨id, hs, hset, htid, -⟩ := fkStep_key_post hb hfk hp hk hok.colDone.valid
  rw [hs]
  exact ⟨rfl, id, hset, by rw [htid]; exact hf⟩

end sqlmodelgen.configBuilder

namespace sqlmodelgen.configBuilder

/-- In a build that succeeds, the `FK` of the column of an entry without an FK path is
nil. -/
theorem init_fk_none_of_empty {env : Env} {mc : ModelContext} {tr : Traversal}
    {c : config.Config} (hwf : c.WellFormed) (hv : tr.Valid c)
    (h : (init env mc tr c {}).2 = none)
    {dn sn tn cn : String} {cc : config.Column} (hc : c.HasColumn dn sn tn cn cc)
    (hfk : cc.FK = "") :
    ∃ ix, (init env mc tr c {}).1.findColumn dn sn tn cn = some ix ∧
      ((init env mc tr c {}).1.column ix).FK = none := by
  obtain ⟨b1, b2, h1, h2, l12, hl, hcols⟩ := init_columns_of_ok h
  have hroot := initPass1_spec h1
  have inv := init_inherits hwf hv h1 h2
  obtain ⟨x, hx, hxd, hxs, hxt, hxc, hxcc⟩ := hroot.visited hwf hv.1 hc
  have hok := hroot.visitOK hwf hv.1 hx
  have hfc := hok.findColumn
  rw [hxd, hxs, hxt, hxc] at hfc
  refine ⟨x.column, by rw [hl.findColumn_eq]; exact hfc, ?_⟩
  rw [hcols]
  cases hF : (b2.column x.column).FK with
  | none => rfl
  | some id =>
    have := inv.target x hok id hF
    unfold fkTarget at this
    rw [hxcc, if_pos hfk] at this
    cases this

end sqlmodelgen.configBuilder

namespace sqlmodelgen

/-- C14: FK resolution does not depend on the order in which databases, schemas, tables and
columns are visited. For two listings `c` and `c2` of the same configuration and any
orders `tr` and `tr2` in which the later passes range over their maps: the build of one
succeeds exactly when the build of the other does; when they succeed, the column of every
entry without an FK path has a nil `FK` in both graphs, and the column of every entry with
an FK path has in both graphs an `FK` that wraps the column found by the same names of
database, schema, table and column, those of an entry flagged `PK` that the path
designates; and a visit of the foreign-key pass to an entry whose path designates an entry
flagged `PK` succeeds and sets the `FK`, wherever the designated entry comes in the order
of the visits, before or after. -/
theorem init_fk_order_independent (env : Env) (mc : ModelContext) (tr tr2 : Traversal)
    (c c2 : config.Config) (hwf : c.WellFormed) (hs : c.SameConfig c2)
    (hv : tr.Valid c) (hv2 : tr2.Valid c2) :
    ((init env mc tr c {}).2 = none ↔ (init env mc tr2 c2 {}).2 = none) ∧
    ((init env mc tr c {}).2 = none →
      ∀ dn sn tn cn cc, c.HasColumn dn sn tn cn cc →
        ∃ ix ix2, (init env mc tr c {}).1.findColumn dn sn tn cn = some ix ∧
          (init env mc tr2 c2 {}).1.findColumn dn sn tn cn = some ix2 ∧
          (cc.FK = "" → ((init env mc tr c {}).1.column ix).FK = none ∧
            ((init env mc tr2 c2 {}).1.column ix2).FK = none) ∧
          (cc.FK ≠ "" → ∃ n cc2 id id2, fkNames dn sn tn cc.FK = some n ∧
            c.HasColumn n.1 n.2.1 n.2.2.1 n.2.2.2 cc2 ∧ cc2.PK = true ∧
            ((init env mc tr c {}).1.column ix).FK = some id ∧
            (init env mc tr c {}).1.findColumn n.1 n.2.1 n.2.2.1 n.2.2.2 =
              some ((init env mc tr c {}).1.tableID id).Column ∧
            ((init env mc tr2 c2 {}).1.column ix2).FK = some id2 ∧
            (init env mc tr2 c2 {}).1.findColumn n.1 n.2.1 n.2.2.1 n.2.2.2 =
              some ((init env mc tr2 c2 {}).1.tableID id2).Column)) ∧
    (∀ b1 pre x post b n cc, initPass1 env mc c {} = (b1, none) →
      b1.visitDatabases tr.fk.Databases = pre ++ x :: post →
      foldVisits fkStep pre b1 = (b, none) → x.colCfg.FK ≠ "" →
      fkNames x.dbName x.schName x.tblName x.colCfg.FK = some n →
      c.HasColumn n.1 n.2.1 n.2.2.1 n.2.2.2 cc → cc.PK = true →
        (fkStep x b).2 = none ∧
        ∃ id, ((fkStep x b).1.column x.column).FK = some id ∧
          b1.findColumn n.1 n.2.1 n.2.2.1 n.2.2.2 = some (b1.tableID id).Column) := by
  have hwf2 := wellFormed_of_sameMaps hwf hs.1
  have hiff : (init env mc tr c {}).2 = none ↔ (init env mc tr2 c2 {}).2 = none :=
    init_ok_of_sameConfig hwf hs hv hv2
  refine ⟨hiff, fun h dn sn tn cn cc hc => ?_,
    fun b1 pre x post b n cc h1 hvis hpre hfk hn hc hpk =>
      fkStep_ok_of_names hwf hv h1 hvis hpre hfk hn hc hpk⟩
  have h2 := hiff.mp h
  have hc2 := (hasColumn_of_sameMaps hwf hs.1 dn sn tn cn cc).mp hc
  by_cases hfk : cc.FK = ""
  · obtain ⟨ix, hf, hnone⟩ := init_fk_none_of_empty hwf hv h hc hfk
    obtain ⟨ix2, hf2, hnone2⟩ := init_fk_none_of_empty hwf2 hv2 h2 hc2 hfk
    exact ⟨ix, ix2, hf, hf2, fun _ => ⟨hnone, hnone2⟩, fun hne => absurd hfk hne⟩
  · obtain ⟨n, cc2, hn, hcn, hpk, hall⟩ := init_fk_names hwf hv h hc hfk
    obtain ⟨-, -, -, -, -, hall2⟩ := init_fk_names hwf2 hv2 h2 hc2 hfk
    obtain ⟨ix, id, hf, hset, htgt⟩ := hall n hn
    obtain ⟨ix2, id2, hf2, hset2, htgt2⟩ := hall2 n hn
    exact ⟨ix, ix2, hf, hf2, fun h0 => absurd h0 hfk,
      fun _ => ⟨n, cc2, id, id2, hn, hcn, hpk, hset, htgt, hset2, htgt2⟩⟩

/-- C14 on the orders scenario, listed with the referencing column first
(`forwardConfig`) and with the referenced table first (`ordersConfig`): both builds
succeed, and in both the `FK` of `line_items.order_id` wraps the column that the names
`db`, `public`, `orders`, `id` find. -/
theorem init_fk_order_independent_witness :
    forwardConfig.WellFormed ∧ forwardConfig.SameConfig ordersConfig ∧
    (Traversal.ofConfig forwardConfig).Valid forwardConfig ∧
    ordersTraversal.Valid ordersConfig ∧
    (init exampleEnv exampleContext (Traversal.ofConfig forwardConfig) forwardConfig {}).2
      = none ∧
    (init exampleEnv exampleContext ordersTraversal ordersConfig {}).2 = none ∧
    (init exampleEnv exampleContext (Traversal.ofConfig forwardConfig) forwardConfig
      {}).1.findColumn "db" "public" "line_items" "order_id" = some 0 ∧
    ((init exampleEnv exampleContext (Traversal.ofConfig forwardConfig) forwardConfig
      {}).1.column 0).FK = some 1 ∧
    (init exampleEnv exampleContext (Traversal.ofConfig forwardConfig) forwardConfig
      {}).1.findColumn "db" "public" "orders" "id" =
      some ((init exampleEnv exampleContext (Traversal.ofConfig forwardConfig) forwardConfig
        {}).1.tableID 1).Column ∧
    (init exampleEnv exampleContext ordersTraversal ordersConfig
      {}).1.findColumn "db" "public" "line_items" "order_id" = some 2 ∧
    ((init exampleEnv exampleContext ordersTraversal ordersConfig {}).1.column 2).FK
      = some 0 ∧
    (init exampleEnv exampleContext ordersTraversal ordersConfig
      {}).1.findColumn "db" "public" "orders" "id" =
      some ((init exampleEnv exampleContext ordersTraversal ordersConfig
        {}).1.tableID 0).Column ∧
    ∃ ix ix2,
      (init exampleEnv exampleContext (Traversal.ofConfig forwardConfig) forwardConfig
        {}).1.findColumn "db" "public" "line_items" "id" = some ix ∧
      (init exampleEnv exampleContext ordersTraversal ordersConfig
        {}).1.findColumn "db" "public" "line_items" "id" = some ix2 ∧
      ((init exampleEnv exampleContext (Traversal.ofConfig forwardConfig) forwardConfig
        {}).1.column ix).FK = none ∧
      ((init exampleEnv exampleContext ordersTraversal ordersConfig {}).1.column ix2).FK
        = none := by
  refine ⟨by decide, by decide, by decide, by decide, by decide, ?_, by decide, by decide,
    by decide, by decide, by decide, by decide, ?_⟩
  · exact (init_fk_order_independent exampleEnv exampleContext
      (Traversal.ofConfig forwardConfig) ordersTraversal forwardConfig ordersConfig
      (by decide) (by decide) (by decide) (by decide)).1.mp (by decide)
  · obtain ⟨ix, ix2, h1, h2, h3, -⟩ := (init_fk_order_independent exampleEnv exampleContext
      (Traversal.ofConfig forwardConfig) ordersTraversal forwardConfig ordersConfig
      (by decide) (by decide) (by decide) (by decide)).2.1 (by decide)
      "db" "public" "line_items" "id" { PK := true, Type_ := "int" }
      ((hasColumn_iff_mem_entries _ _ _ _ _ _).mpr (by decide))
    exact ⟨ix, ix2, h1, h2, (h3 rfl).1, (h3 rfl).2⟩

end sqlmodelgen

namespace sqlmodelgen

theorem csModelType_int (b : Int) :
    csModelType (.IntType b) =
      if b ≤ 8 then .ok ("", "byte")
      else if b ≤ 16 then .ok ("", "short")
      else if b ≤ 32 then .ok ("", "int")
      else if b ≤ 64 then .ok ("", "long")
      else .error ("int with " ++ toString b ++ " bits not supported") := by
  rw [csModelType]

theorem csModelType_float (m : Int) :
    csModelType (.FloatType m) =
      if m ≤ 24 then .ok ("", "float")
      else if m ≤ 53 then .ok ("", "double")
      else .error ("float with " ++ toString m ++ " mantissa bits not supported") := by
  rw [csModelType]

theorem csModelType_nullable (t : Ty) :
    csModelType (.Nullable t) =
      match csModelType t with
      | .ok (ns, tn) => .ok (ns, tn ++ "?")
      | .error e => .error e := by
  rw [csModelType]

/-- The C# type mapping fails exactly on an integer of more than 64 bits or a float of more
than 53 mantissa bits, under any number of `Nullable` wrappers. -/
theorem csModelType_error_iff (t : Ty) :
    (∃ e, csModelType t = .error e) ↔
      (∃ b, t.stripNullable = .IntType b ∧ 64 < b) ∨
      (∃ m, t.stripNullable = .FloatType m ∧ 53 < m) := by
  induction t with
  | BoolType => simp [csModelType, Ty.stripNullable]
  | StringType => simp [csModelType, Ty.stripNullable]
  | TimeType => simp [csModelType, Ty.stripNullable]
  | BytesType => simp [csModelType, Ty.stripNullable]
  | other tag => simp [csModelType, Ty.stripNullable]
  | IntType b =>
    rw [csModelType_int]
    simp only [Ty.stripNullable, Ty.IntType.injEq, exists_eq_left', reduceCtorEq, false_and,
      exists_false, or_false]
    constructor
    · rintro ⟨e, he⟩
      by_contra hb
      have hb' : b ≤ 64 := not_lt.mp hb
      split at he
      · cases he
      · split at he
        · cases he
        · split at he
          · cases he
          · cases he
    · intro hb
      refine ⟨"int with " ++ toString b ++ " bits not supported", ?_⟩
      rw [if_neg (by omega), if_neg (by omega), if_neg (by omega), if_neg (by omega)]
  | FloatType m =>
    rw [csModelType_float]
    simp only [Ty.stripNullable, Ty.FloatType.injEq, exists_eq_left', reduceCtorEq, false_and,
      exists_false, false_or]
    constructor
    · rintro ⟨e, he⟩
      by_contra hm
      have hm' : m ≤ 53 := not_lt.mp hm
      split at he
      · cases he
      · cases he
    · intro hm
      refine ⟨"float with " ++ toString m ++ " mantissa bits not supported", ?_⟩
      rw [if_neg (by omega), if_neg (by omega)]
  | Nullable inner ih =>
    rw [csModelType_nullable]
    have hs : (Ty.Nullable inner).stripNullable = inner.stripNullable := by
      rw [Ty.stripNullable]
    rw [hs, ← ih]
    cases h : csModelType inner with
    | error e => simp
    | ok r => simp

/-- C25: the C# type mapping `csModelContext.ModelType` fails if and only if the type, its
`Nullable` wrappers stripped, is an `IntType` of more than 64 bits or a `FloatType` of more
than 53 mantissa bits, and otherwise it succeeds; an `IntType` of at most 8, 16, 32, 64
bits maps to `byte`, `short`, `int`, `long`, the smallest bound that fits deciding; and
`Nullable t` maps to the namespace of `t` and the type name of `t` followed by `?`. -/
theorem csModelType_spec (t : Ty) :
    ((∃ e, CSModelContext.ModelType t = .error e) ↔
      (∃ b, t.stripNullable = .IntType b ∧ 64 < b) ∨
      (∃ m, t.stripNullable = .FloatType m ∧ 53 < m)) ∧
    ((∃ r, CSModelContext.ModelType t = .ok r) ↔
      ¬ ((∃ b, t.stripNullable = .IntType b ∧ 64 < b) ∨
        (∃ m, t.stripNullable = .FloatType m ∧ 53 < m))) ∧
    (∀ b : Int,
      (b ≤ 8 → CSModelContext.ModelType (.IntType b) = .ok ("", "byte")) ∧
      (8 < b → b ≤ 16 → CSModelContext.ModelType (.IntType b) = .ok ("", "short")) ∧
      (16 < b → b ≤ 32 → CSModelContext.ModelType (.IntType b) = .ok ("", "int")) ∧
      (32 < b → b ≤ 64 → CSModelContext.ModelType (.IntType b) = .ok ("", "long"))) ∧
    (∀ ns tn, CSModelContext.ModelType t = .ok (ns, tn) →
      CSModelContext.ModelType (.Nullable t) = .ok (ns, tn ++ "?")) := by
  have herr := csModelType_error_iff t
  refine ⟨herr, ?_, fun b => ⟨fun h => ?_, fun h1 h2 => ?_, fun h1 h2 => ?_, fun h1 h2 => ?_⟩,
    fun ns tn h => ?_⟩
  · rw [← herr]
    show (∃ r, csModelType t = .ok r) ↔ ¬ ∃ e, csModelType t = .error e
    cases csModelType t with
    | error e => simp
    | ok r => simp
  · show csModelType (.IntType b) = _
    rw [csModelType_int, if_pos h]
  · show csModelType (.IntType b) = _
    rw [csModelType_int, if_neg (by omega), if_pos h2]
  · show csModelType (.IntType b) = _
    rw [csModelType_int, if_neg (by omega), if_neg (by omega), if_pos h2]
  · show csModelType (.IntType b) = _
    rw [csModelType_int, if_neg (by omega), if_neg (by omega), if_neg (by omega), if_pos h2]
  · show csModelType (.Nullable t) = _
    have h' : csModelType t = .ok (ns, tn) := h
    rw [csModelType_nullable, h']

/-- C25 on a nullable 20-bit integer, which maps to `int?`, and on a nullable 65-bit
integer, on which the mapping fails. -/
theorem csModelType_spec_witness :
    CSModelContext.ModelType (.IntType 20) = .ok ("", "int") ∧
    CSModelContext.ModelType (.Nullable (.IntType 20)) = .ok ("", "int?") ∧
    ∃ e, CSModelContext.ModelType (.Nullable (.IntType 65)) = .error e :=
  ⟨((csModelType_spec (.IntType 20)).2.2.1 20).2.2.1 (by decide) (by decide),
    (csModelType_spec (.IntType 20)).2.2.2 "" "int" rfl,
    (csModelType_spec (.Nullable (.IntType 65))).1.mpr (Or.inl ⟨65, rfl, by decide⟩)⟩

end sqlmodelgen

namespace sqlmodelgen

/-- The closure `add` leaves alone the value of a key that is present. -/
theorem add_keeps (m : FuncMap) (k : String) (v : TemplateFunc) {n : String}
    {x : TemplateFunc} (h : m.lookup n = some x) : (AddFuncs.add m k v).lookup n = some x := by
  unfold AddFuncs.add
  split
  · exact h
  · rename_i hk
    rw [lookup_mapSet]
    split
    · rename_i hn
      subst hn
      rw [h] at hk
      simp at hk
    · exact h

/-- After the closure `add` its key is present. -/
theorem add_present (m : FuncMap) (k : String) (v : TemplateFunc) :
    ((AddFuncs.add m k v).lookup k).isSome = true := by
  unfold AddFuncs.add
  split
  · assumption
  · rw [lookup_mapSet, if_pos rfl]; rfl

theorem add_keeps_present (m : FuncMap) (k : String) (v : TemplateFunc) {n : String}
    (h : (m.lookup n).isSome = true) : ((AddFuncs.add m k v).lookup n).isSome = true := by
  obtain ⟨x, hx⟩ := Option.isSome_iff_exists.mp h
  rw [add_keeps m k v hx]; rfl

/-- A guarded `add`, as for `dyntemplate` and `modeltype`, has the effect of `add`. -/
theorem guarded_add (m : FuncMap) (k : String) (v : TemplateFunc) :
    (if (m.lookup k).isSome then m else AddFuncs.add m k v) = AddFuncs.add m k v := by
  split
  · rename_i h
    unfold AddFuncs.add
    rw [if_pos h]
  · rfl

theorem addFuncs_eq (t : Template) (m : FuncMap) (mc : ModelContext) :
    (AddFuncs t m mc).2 =
      AddFuncs.add (AddFuncs.add (AddFuncs.add (AddFuncs.add (AddFuncs.add
        (AddFuncs.add m "dyntemplate" (.dyntemplate t)) "pair" .pair) "dict" .dict)
        "modeltype" (.modeltype mc)) "isnullable" .isnullable)
        "basemodeltype" (.basemodeltype mc) := by
  unfold AddFuncs
  simp only [guarded_add]

/-- C22: `AddFuncs` does not overwrite existing keys: a key that is in the map before the
call has after the call the value it had before; and after the call the map has the keys
`dyntemplate`, `pair`, `dict`, `modeltype`, `isnullable` and `basemodeltype`. The template
comes back as it was given. -/
theorem addFuncs_keeps_existing (t : Template) (m : FuncMap) (mc : ModelContext) :
    (∀ k v, m.lookup k = some v → (AddFuncs t m mc).2.lookup k = some v) ∧
    (∀ k ∈ ["dyntemplate", "pair", "dict", "modeltype", "isnullable", "basemodeltype"],
      ((AddFuncs t m mc).2.lookup k).isSome = true) ∧
    (AddFuncs t m mc).1 = t := by
  refine ⟨fun k v h => ?_, fun k hk => ?_, rfl⟩
  · rw [addFuncs_eq]
    exact add_keeps _ _ _ (add_keeps _ _ _ (add_keeps _ _ _ (add_keeps _ _ _
      (add_keeps _ _ _ (add_keeps _ _ _ h)))))
  · rw [addFuncs_eq]
    simp only [List.mem_cons, List.mem_singleton, List.not_mem_nil, or_false] at hk
    rcases hk with rfl | rfl | rfl | rfl | rfl | rfl
    · exact add_keeps_present _ _ _ (add_keeps_present _ _ _ (add_keeps_present _ _ _
        (add_keeps_present _ _ _ (add_keeps_present _ _ _ (add_present _ _ _)))))
    · exact add_keeps_present _ _ _ (add_keeps_present _ _ _ (add_keeps_present _ _ _
        (add_keeps_present _ _ _ (add_present _ _ _))))
    · exact add_keeps_present _ _ _ (add_keeps_present _ _ _ (add_keeps_present _ _ _
        (add_present _ _ _)))
    · exact add_keeps_present _ _ _ (add_keeps_present _ _ _ (add_present _ _ _))
    · exact add_keeps_present _ _ _ (add_present _ _ _)
    · exact add_present _ _ _

/-- C22 on a map in which the caller has its own `pair`: it is still the caller's after the
call, and `dict` has been added. -/
theorem addFuncs_keeps_existing_witness :
    callerFuncMap.lookup "pair" = some (.caller 0) ∧
    (AddFuncs {} callerFuncMap exampleContext).2.lookup "pair" = some (.caller 0) ∧
    (AddFuncs {} callerFuncMap exampleContext).2.lookup "upper" = some (.caller 1) ∧
    ((AddFuncs {} callerFuncMap exampleContext).2.lookup "dict").isSome = true :=
  ⟨rfl, (addFuncs_keeps_existing {} callerFuncMap exampleContext).1 "pair" (.caller 0) rfl,
    (addFuncs_keeps_existing {} callerFuncMap exampleContext).1 "upper" (.caller 1) rfl,
    (addFuncs_keeps_existing {} callerFuncMap exampleContext).2.1 "dict" (by decide)⟩

end sqlmodelgen

namespace sqlmodelgen.configBuilder

/-- The loop of `getPathDown` ends on the entity that lies as many levels below its start
as the path has segments, a column being the lowest: from a table one segment leads to a
column, from a schema two, from a database three and from the root four. -/
theorem getPathDownLoop_column (b : configBuilder) (path : String) (parts : List String)
    (start r : Ref) (h : b.getPathDownLoop path parts start = .ok r) :
    (∀ t, start = .table t → parts.length = 1 → ∃ col, r = .column col) ∧
    (∀ s, start = .schema s → parts.length = 2 → ∃ col, r = .column col) ∧
    (∀ d, start = .database d → parts.length = 3 → ∃ col, r = .column col) ∧
    (start = .config → parts.length = 4 → ∃ col, r = .column col) := by
  have htbl : ∀ t a r, b.getPathDownLoop path [a] (.table t) = .ok r → ∃ col, r = .column col := by
    intro t a r h
    simp only [getPathDownLoop] at h
    cases hl : (b.table t).ColumnsByName.lookup a with
    | none => rw [hl] at h; cases h
    | some col =>
      rw [hl] at h
      simp only [Except.ok.injEq] at h
      exact ⟨col, h.symm⟩
  have hsch : ∀ s a1 a2 r, b.getPathDownLoop path [a1, a2] (.schema s) = .ok r →
      ∃ col, r = .column col := by
    intro s a1 a2 r h
    rw [getPathDownLoop] at h
    cases hl : (b.schema s).TablesByName.lookup a1 with
    | none => rw [hl] at h; cases h
    | some t => rw [hl] at h; exact htbl t a2 r h
  have hdb : ∀ d a1 a2 a3 r, b.getPathDownLoop path [a1, a2, a3] (.database d) = .ok r →
      ∃ col, r = .column col := by
    intro d a1 a2 a3 r h
    rw [getPathDownLoop] at h
    cases hl : (b.database d).SchemasByName.lookup a1 with
    | none => rw [hl] at h; cases h
    | some s => rw [hl] at h; exact hsch s a2 a3 r h
  have hcfg : ∀ a1 a2 a3 a4 r, b.getPathDownLoop path [a1, a2, a3, a4] .config = .ok r →
      ∃ col, r = .column col := by
    intro a1 a2 a3 a4 r h
    rw [getPathDownLoop] at h
    cases hl : b.Config.DatabasesByName.lookup a1 with
    | none => rw [hl] at h; cases h
    | some d => rw [hl] at h; exact hdb d a2 a3 a4 r h
  refine ⟨fun t hs hlen => ?_, fun s hs hlen => ?_, fun d hs hlen => ?_, fun hs hlen => ?_⟩
  · subst hs
    match parts, hlen with
    | [a], _ => exact htbl t a r h
  · subst hs
    match parts, hlen with
    | [a1, a2], _ => exact hsch s a1 a2 r h
  · subst hs
    match parts, hlen with
    | [a1, a2, a3], _ => exact hdb d a1 a2 a3 r h
  · subst hs
    match parts, hlen with
    | [a1, a2, a3, a4], _ => exact hcfg a1 a2 a3 a4 r h

/-- A path that `getPathUp` resolves from a table resolves to a column. -/
theorem getPathUp_column (b : configBuilder) (p : String) (t : Nat) (r : Ref)
    (h : b.getPathUp p t = .ok r) : ∃ col, r = .column col := by
  have hlen := stringsSplit_length p
  unfold getPathUp getPathDown at h
  have hc : stringsCount p = 0 ∨ stringsCount p = 1 ∨ stringsCount p = 2 ∨
      stringsCount p = 3 ∨ ∃ k, stringsCount p = k + 4 := by
    by_cases h4 : stringsCount p < 4
    · omega
    · exact Or.inr (Or.inr (Or.inr (Or.inr ⟨stringsCount p - 4, by omega⟩)))
  rcases hc with h0 | h0 | h0 | h0 | ⟨k, h0⟩
  · rw [h0] at h hlen
    exact (getPathDownLoop_column b p _ _ r h).1 t rfl hlen
  · rw [h0] at h hlen
    exact (getPathDownLoop_column b p _ _ r h).2.1 _ rfl hlen
  · rw [h0] at h hlen
    exact (getPathDownLoop_column b p _ _ r h).2.2.1 _ rfl hlen
  · rw [h0] at h hlen
    exact (getPathDownLoop_column b p _ _ r h).2.2.2 rfl hlen
  · rw [h0] at h
    cases h

/-- The callback of the foreign-key pass never returns the error of a target that is not a
column. -/
theorem fkStep_not_fkNotColumn (x : dbSchemaTableColumn) (b : configBuilder)
    (dn sn tn cn : String) : (fkStep x b).2 ≠ some (.fkNotColumn dn sn tn cn) := by
  unfold fkStep
  split
  · simp
  · cases hp : b.getPathUp x.colCfg.FK x.table with
    | error e => simp
    | ok r =>
      obtain ⟨col, hr⟩ := getPathUp_column b _ _ r hp
      subst hr
      simp only
      split <;> simp

/-- The error of a run of `iterDBSchemaTableColumn` is the error of a dereference of nil
or an error of its callback. -/
theorem iterDatabases_error (E : Err → Prop) (f : Visitor) (hnil : E .nilDeref)
    (hf : ∀ x b e, (f x b).2 = some e → E e) (dbs : List (String × config.Database))
    (b : configBuilder) (e : Err) (h : (iterDatabases f dbs b).2 = some e) : E e := by
  have hcols : ∀ dn dc d sn sc s tn tc t (cols : List (String × config.Column)) b e,
      (iterColumns f dn dc d sn sc s tn tc t cols b).2 = some e → E e := by
    intro dn dc d sn sc s tn tc t cols
    induction cols with
    | nil => intro b e h; simp [iterColumns] at h
    | cons p rest ih =>
      intro b e h
      obtain ⟨cn, cc⟩ := p
      simp only [iterColumns] at h
      cases t with
      | none => simp only [Option.some.injEq] at h; subst h; exact hnil
      | some t =>
        simp only at h
        cases hl : (b.table t).ColumnsByName.lookup cn with
        | none => rw [hl] at h; simp only [Option.some.injEq] at h; subst h; exact hnil
        | some c =>
          rw [hl] at h
          simp only at h
          have hfx := hf ⟨dn, dc, d, sn, sc, s, tn, tc, t, cn, cc, c⟩ b
          cases hr : f ⟨dn, dc, d, sn, sc, s, tn, tc, t, cn, cc, c⟩ b with
          | mk b1 e1 =>
            rw [hr] at h hfx
            cases e1 with
            | some e1 =>
              simp only [Option.some.injEq] at h
              subst h
              exact hfx e1 rfl
            | none => exact ih b1 e h
  have htbls : ∀ dn dc d sn sc s (tbls : List (String × config.Table)) b e,
      (iterTables f dn dc d sn sc s tbls b).2 = some e → E e := by
    intro dn dc d sn sc s tbls
    induction tbls with
    | nil => intro b e h; simp [iterTables] at h
    | cons p rest ih =>
      intro b e h
      obtain ⟨tn, tc⟩ := p
      simp only [iterTables] at h
      cases s with
      | none => simp only [Option.some.injEq] at h; subst h; exact hnil
      | some s =>
        simp only at h
        have hc := hcols dn dc d sn sc s tn tc ((b.schema s).TablesByName.lookup tn)
          tc.Columns b
        cases hr : iterColumns f dn dc d sn sc s tn tc ((b.schema s).TablesByName.lookup tn)
            tc.Columns b with
        | mk b1 e1 =>
          rw [hr] at h hc
          cases e1 with
          | some e1 =>
            simp only [Option.some.injEq] at h
            subst h
            exact hc e1 rfl
          | none => exact ih b1 e h
  have hschs : ∀ dn dc d (schs : List (String × config.Schema)) b e,
      (iterSchemas f dn dc d schs b).2 = some e → E e := by
    intro dn dc d schs
    induction schs with
    | nil => intro b e h; simp [iterSchemas] at h
    | cons p rest ih =>
      intro b e h
      obtain ⟨sn, sc⟩ := p
      simp only [iterSchemas] at h
      cases d with
      | none => simp only [Option.some.injEq] at h; subst h; exact hnil
      | some d =>
        simp only at h
        have hc := htbls dn dc d sn sc ((b.database d).SchemasByName.lookup sn) sc.Tables b
        cases hr : iterTables f dn dc d sn sc ((b.database d).SchemasByName.lookup sn)
            sc.Tables b with
        | mk b1 e1 =>
          rw [hr] at h hc
          cases e1 with
          | some e1 =>
            simp only [Option.some.injEq] at h
            subst h
            exact hc e1 rfl
          | none => exact ih b1 e h
  induction dbs generalizing b with
  | nil => simp [iterDatabases] at h
  | cons p rest ih =>
    obtain ⟨dn, dc⟩ := p
    simp only [iterDatabases] at h
    have hc := hschs dn dc (b.Config.DatabasesByName.lookup dn) dc.Schemas b
    cases hr : iterSchemas f dn dc (b.Config.DatabasesByName.lookup dn) dc.Schemas b with
    | mk b1 e1 =>
      rw [hr] at h hc
      cases e1 with
      | some e1 =>
        simp only [Option.some.injEq] at h
        subst h
        exact hc e1 rfl
      | none => exact ih b1 h

end sqlmodelgen.configBuilder

namespace sqlmodelgen

/-- C23: for every table of a graph and every path, a path that `getPathUp` resolves from
the table resolves to a column; so the callback of the foreign-key pass never takes its
branch for a target that is not a column, and no run of the foreign-key pass returns the
error of that branch. -/
theorem getPathUp_result_is_column (b : configBuilder) :
    (∀ p t r, b.getPathUp p t = .ok r → ∃ col, r = .column col) ∧
    (∀ x dn sn tn cn, (fkStep x b).2 ≠ some (.fkNotColumn dn sn tn cn)) ∧
    (∀ c dn sn tn cn,
      (b.iterDBSchemaTableColumn c fkStep).2 ≠ some (.fkNotColumn dn sn tn cn)) := by
  refine ⟨fun p t r h => getPathUp_column b p t r h,
    fun x dn sn tn cn => fkStep_not_fkNotColumn x b dn sn tn cn, fun c dn sn tn cn h => ?_⟩
  exact iterDatabases_error (fun e => e ≠ .fkNotColumn dn sn tn cn) fkStep (by simp)
    (fun x b' e he heq => fkStep_not_fkNotColumn x b' dn sn tn cn (by rw [he, heq]))
    c.Databases b _ h rfl

end sqlmodelgen

namespace sqlmodelgen.configBuilder

/-- Every call of `newIDs` with a candidate copies into an array of its own: the length of
`caches.keyIDs` is its capacity before the first call and after every call, so the test
that guards the making of an array never fails. -/
theorem newIDsSlices_fresh (cache : Nat × Nat) (n : Nat) (hc : cache.1 = cache.2)
    (hn : 0 < n) :
    (newIDsSlices cache n).1 = true ∧ (newIDsSlices cache n).2.1 = (newIDsSlices cache n).2.2 := by
  unfold newIDsSlices
  rw [if_pos (by omega)]
  split
  · exact ⟨rfl, hc⟩
  · exact ⟨rfl, rfl⟩

/-- In a successfully built graph the columns on the list of a table have that table for
owner. -/
theorem init_column_owner {env : Env} {mc : ModelContext} {tr : Traversal}
    {c : config.Config} (h : (init env mc tr c {}).2 = none) {t : Nat}
    (ht : (init env mc tr c {}).1.ReachTable t) {col : Nat}
    (hcol : col ∈ ((init env mc tr c {}).1.table t).Columns) :
    ((init env mc tr c {}).1.column col).Table = t := by
  obtain ⟨b1, h1, hl⟩ := init_later h
  obtain ⟨s, e, htd⟩ := (initPass1_spec h1).table ((hl.reachTable_eq t).mp ht)
  rw [hl.tblColumns] at hcol
  obtain ⟨_, _, hcd⟩ := forall₂_mem_left htd.cols hcol
  rw [hl.colTable]
  exact hcd.owner

/-- The TableIDs reachable from a table whose key agrees with its PK-flagged columns wrap
PK-flagged columns on the list of the table. -/
theorem KeyOK.wraps_own {b : configBuilder} {t : Nat} (hk : KeyOK b t) {id : Nat}
    (hid : id ∈ b.tableIDs t) :
    (b.tableID id).Column ∈ (b.table t).Columns ∧
      (b.column (b.tableID id).Column).PK = true := by
  have hm : (b.tableID id).Column ∈ (b.tableIDs t).map (fun id => (b.tableID id).Column) :=
    List.mem_map_of_mem _ hid
  rw [hk.wraps] at hm
  unfold pkColumns at hm
  rw [List.mem_filter] at hm
  exact hm

end sqlmodelgen.configBuilder

namespace sqlmodelgen

/-- C24: after a successful build, every TableID reachable from a table `T` (`T.PK`, or a
member of `T.Key.IDs`) wraps a PK-flagged column that is on the list of `T` and has `T`
for owner, and is reachable from no other table; and whenever `T.Key` is set it has at
least two members. -/
theorem init_key_candidates_stay_in_table (env : Env) (mc : ModelContext) (tr : Traversal)
    (c : config.Config) (h : (init env mc tr c {}).2 = none) (t : Nat)
    (ht : (init env mc tr c {}).1.ReachTable t) :
    (∀ id ∈ (init env mc tr c {}).1.tableIDs t,
      ((init env mc tr c {}).1.tableID id).Column ∈
        ((init env mc tr c {}).1.table t).Columns ∧
      ((init env mc tr c {}).1.column
        ((init env mc tr c {}).1.tableID id).Column).Table = t ∧
      ((init env mc tr c {}).1.column
        ((init env mc tr c {}).1.tableID id).Column).PK = true ∧
      ∀ t2, (init env mc tr c {}).1.ReachTable t2 →
        id ∈ (init env mc tr c {}).1.tableIDs t2 → t2 = t) ∧
    (∀ k, ((init env mc tr c {}).1.table t).Key = some k →
      2 ≤ ((init env mc tr c {}).1.tableKey k).IDs.length) := by
  have hk := init_keyOK h t ht
  refine ⟨fun id hid => ?_, fun k hkey => (hk.key k hkey).2⟩
  obtain ⟨hm, hpk⟩ := hk.wraps_own hid
  have ho := init_column_owner h ht hm
  refine ⟨hm, ho, hpk, fun t2 ht2 hid2 => ?_⟩
  obtain ⟨hm2, -⟩ := (init_keyOK h t2 ht2).wraps_own hid2
  rw [← init_column_owner h ht2 hm2, ho]

/-- C24 on `forwardConfig`, where the table `line_items`, with one PK-flagged column, is
built before the table `orders`, with one too: the TableID of `orders` wraps the column
`id` of `orders`, and `orders` has no composite key. -/
theorem init_key_candidates_stay_in_table_witness :
    (init exampleEnv exampleContext (Traversal.ofConfig forwardConfig) forwardConfig {}).2
      = none ∧
    (init exampleEnv exampleContext (Traversal.ofConfig forwardConfig) forwardConfig
      {}).1.findTable "db" "public" "orders" = some 1 ∧
    (init exampleEnv exampleContext (Traversal.ofConfig forwardConfig) forwardConfig
      {}).1.tableIDs 1 = [1] ∧
    ((init exampleEnv exampleContext (Traversal.ofConfig forwardConfig) forwardConfig
      {}).1.table 1).Key = none ∧
    ((init exampleEnv exampleContext (Traversal.ofConfig forwardConfig) forwardConfig
      {}).1.column
        ((init exampleEnv exampleContext (Traversal.ofConfig forwardConfig) forwardConfig
          {}).1.tableID 1).Column).Table = 1 :=
  ⟨by decide, by decide, by decide, by decide,
    ((init_key_candidates_stay_in_table exampleEnv exampleContext
      (Traversal.ofConfig forwardConfig) forwardConfig (by decide) 1
      ⟨0, by decide, 0, by decide, by decide⟩).1 1 (by decide)).2.1⟩

end sqlmodelgen

namespace sqlmodelgen

theorem splitDots_append_dot (a l : List Char) (h : a.count '.' = 0) :
    splitDots (a ++ '.' :: l) = a :: splitDots l := by
  induction a with
  | nil => simp [splitDots]
  | cons c cs ih =>
    have hc : c ≠ '.' := by
      intro hc; subst hc; simp at h
    have hcs : cs.count '.' = 0 := by
      rw [List.count_cons] at h; omega
    simp only [List.cons_append, splitDots, if_neg hc]
    show (match splitDots (cs ++ '.' :: l) with
      | [] => [[c]]
      | p :: ps => (c :: p) :: ps) = _
    rw [ih hcs]

theorem stringsJoin_cons_cons (a b : String) (rest : List String) (sep : String) :
    stringsJoin (a :: b :: rest) sep = a ++ sep ++ stringsJoin (b :: rest) sep := rfl

/-- Joining names that have no dot with dots and splitting the result at the dots gives
the names back, and the result has one dot less than there are names. -/
theorem stringsSplit_join (parts : List String) (hne : parts ≠ [])
    (h : ∀ p ∈ parts, stringsCount p = 0) :
    stringsSplit (stringsJoin parts ".") = parts ∧
      stringsCount (stringsJoin parts ".") + 1 = parts.length := by
  induction parts with
  | nil => exact absurd rfl hne
  | cons a rest ih =>
    have ha := h a (List.mem_cons_self _ _)
    cases rest with
    | nil =>
      simp only [stringsJoin, List.length_singleton]
      exact ⟨stringsSplit_of_no_dot a ha, by omega⟩
    | cons b rest =>
      obtain ⟨ih1, ih2⟩ := ih (by simp) (fun p hp => h p (List.mem_cons_of_mem _ hp))
      rw [stringsJoin_cons_cons]
      have hd : (a ++ "." ++ stringsJoin (b :: rest) ".").data =
          a.data ++ '.' :: (stringsJoin (b :: rest) ".").data := by
        simp [String.data_append]
      unfold stringsCount at ha
      constructor
      · unfold stringsSplit at ih1 ⊢
        rw [hd, splitDots_append_dot _ _ ha, List.map_cons, ih1]
      · unfold stringsCount at ih2 ⊢
        rw [hd, List.count_append, ha, List.count_cons_self]
        simp only [List.length_cons] at ih2 ⊢
        omega

end sqlmodelgen

namespace sqlmodelgen.configBuilder

theorem Located.located_findColumn {b : configBuilder} {dn sn tn cn : String} {d s t k : Nat}
    (h : Located b dn sn tn cn d s t k) : b.findColumn dn sn tn cn = some k := by
  unfold configBuilder.findColumn configBuilder.findTable
  rw [h.dbLookup]; simp only
  rw [h.schLookup]; simp only
  rw [h.tblLookup]; exact h.colLookup

theorem Located.later_located {b b' : configBuilder} {dn sn tn cn : String} {d s t k : Nat}
    (h : Located b dn sn tn cn d s t k) (hl : Later b b') :
    Located b' dn sn tn cn d s t k := by
  have hdb : ∀ i, b'.database i = b.database i := fun i => by
    simp only [database, hl.databases]
  have hsch : ∀ i, b'.schema i = b.schema i := fun i => by simp only [schema, hl.schemas]
  exact ⟨by rw [hl.rootsByName]; exact h.dbLookup, by rw [hdb]; exact h.schLookup,
    by rw [hsch]; exact h.tblLookup, by rw [hl.tblByName]; exact h.colLookup,
    by rw [hsch]; exact h.schOwner, by rw [hl.tblSchema]; exact h.tblOwner,
    by rw [hl.colTable]; exact h.colOwner, by rw [hdb]; exact h.dbName,
    by rw [hsch]; exact h.schName, by rw [hl.tblNames]; exact h.tblName,
    by rw [hl.colNames]; exact h.colName⟩

/-- A column that names find from the root of the graph of the first pass is located by
these names. -/
theorem RootOpen.located_of_findColumn {env : Env} {b : configBuilder}
    {dbs : List (String × config.Database)} (h : RootOpen env b dbs)
    {dn sn tn cn : String} {k : Nat} (hf : b.findColumn dn sn tn cn = some k) :
    ∃ d s t, Located b dn sn tn cn d s t k := by
  unfold configBuilder.findColumn configBuilder.findTable at hf
  cases hd : b.Config.DatabasesByName.lookup dn with
  | none => rw [hd] at hf; cases hf
  | some d =>
    rw [hd] at hf
    simp only at hf
    cases hs : (b.database d).SchemasByName.lookup sn with
    | none => rw [hs] at hf; cases hf
    | some s =>
      rw [hs] at hf
      simp only at hf
      cases ht : (b.schema s).TablesByName.lookup tn with
      | none => rw [ht] at hf; cases hf
      | some t =>
        rw [ht] at hf
        simp only at hf
        obtain ⟨hdm, hdn⟩ := h.byName dn d hd
        obtain ⟨ed, hed, hdd⟩ := forall₂_mem_left h.databases hdm
        obtain ⟨hsm, hsn⟩ := hdd.byName sn s hs
        obtain ⟨es, hes, hsd⟩ := forall₂_mem_left hdd.schemas hsm
        obtain ⟨htm, htn⟩ := hsd.byName tn t ht
        obtain ⟨et, het, htd⟩ := forall₂_mem_left hsd.tables htm
        obtain ⟨hcm, hcn⟩ := htd.byName cn k hf
        obtain ⟨ec, hec, hcd⟩ := forall₂_mem_left htd.cols hcm
        exact ⟨d, s, t, hd, hs, ht, hf, hsd.owner, htd.owner, hcd.owner, hdn, hsn, htn, hcn⟩

/-- A column of the graph of the first pass is located by the names of its entry. -/
theorem RootOpen.located_of_reach {env : Env} {b : configBuilder} {c : config.Config}
    (h : RootOpen env b c.Databases) (hwf : c.WellFormed) {i : Nat} (hi : b.ReachColumn i) :
    ∃ dn sn tn cn cc d s t, c.HasColumn dn sn tn cn cc ∧ Located b dn sn tn cn d s t i := by
  obtain ⟨t, ⟨d, hd, s, hsm, hts⟩, hit⟩ := hi
  obtain ⟨ed, hed, hdd, hld⟩ := forall₂_mem_left (h.mirror_root hwf.1) hd
  have wd := hwf.2 ed hed
  obtain ⟨es, hes, hsd, hls⟩ := forall₂_mem_left (hdd.toDatabaseOpen.mirror_db wd.1) hsm
  have ws := wd.2 es hes
  obtain ⟨et, het, htd, hlt⟩ := forall₂_mem_left (hsd.toSchemaOpen.mirror_sch ws.1) hts
  have wt := ws.2 et het
  obtain ⟨ec, hec, hcd, hlc⟩ := forall₂_mem_left (htd.toTableCols.mirror_cols wt) hit
  obtain ⟨edn, edc⟩ := ed
  obtain ⟨esn, esc⟩ := es
  obtain ⟨etn, etc⟩ := et
  obtain ⟨ecn, ecc⟩ := ec
  exact ⟨edn, esn, etn, ecn, ecc, d, s, t, ⟨edc, hed, esc, hes, etc, het, hec⟩,
    hld, hls, hlt, hlc, hsd.owner, htd.owner, hcd.owner, hdd.name, hsd.name, htd.name,
    hcd.name⟩

end sqlmodelgen.configBuilder

namespace sqlmodelgen.configBuilder

/-- Path resolution from a table, for a path of which the segments and the number of dots
are known. -/
theorem getPathUp_of_split (b : configBuilder) (p : String) (t : Nat) (parts : List String)
    (hs : stringsSplit p = parts) (hc : stringsCount p + 1 = parts.length) :
    (∀ a, parts = [a] → b.getPathUp p t = b.getPathDownLoop p [a] (.table t)) ∧
    (∀ a1 a2, parts = [a1, a2] →
      b.getPathUp p t = b.getPathDownLoop p [a1, a2] (.schema (b.table t).Schema)) ∧
    (∀ a1 a2 a3, parts = [a1, a2, a3] →
      b.getPathUp p t = b.getPathDownLoop p [a1, a2, a3]
        (.database (b.schema (b.table t).Schema).Database)) ∧
    (∀ a1 a2 a3 a4, parts = [a1, a2, a3, a4] →
      b.getPathUp p t = b.getPathDownLoop p [a1, a2, a3, a4] .config) := by
  refine ⟨fun a h => ?_, fun a1 a2 h => ?_, fun a1 a2 a3 h => ?_, fun a1 a2 a3 a4 h => ?_⟩
  · subst h
    have h0 : stringsCount p = 0 := by simpa using hc
    unfold getPathUp getPathDown
    rw [h0, hs]
  · subst h
    have h0 : stringsCount p = 1 := by simpa using hc
    unfold getPathUp getPathDown
    rw [h0, hs]
  · subst h
    have h0 : stringsCount p = 2 := by simpa using hc
    unfold getPathUp getPathDown
    rw [h0, hs]
  · subst h
    have h0 : stringsCount p = 3 := by simpa using hc
    unfold getPathUp getPathDown
    rw [h0, hs]

/-- The path that `RawPathToFK` makes for a column resolves, from the table of the column,
to the column that the `FK` wraps, when no name on the path has a dot. -/
theorem Located.rawPath_resolves {b : configBuilder} {dn sn tn cn : String} {d s t i : Nat}
    {dn2 sn2 tn2 cn2 : String} {d2 s2 t2 j : Nat}
    (hi : Located b dn sn tn cn d s t i) (hj : Located b dn2 sn2 tn2 cn2 d2 s2 t2 j)
    {id : Nat} (hfk : (b.column i).FK = some id) (hcol : (b.tableID id).Column = j)
    (hdots : ∀ parts, b.rawPartsToFK i = .ok parts → ∀ p ∈ parts, stringsCount p = 0) :
    ∃ path, b.RawPathToFK i = .ok path ∧
      b.getPathUp path (b.column i).Table = .ok (.column j) := by
  have hcl : ∀ p, b.getPathDownLoop p [cn2] (.table t2) = .ok (.column j) := by
    intro p
    simp only [getPathDownLoop, hj.colLookup]
  have htl : ∀ p, b.getPathDownLoop p [tn2, cn2] (.schema s2) = .ok (.column j) := by
    intro p
    rw [getPathDownLoop, hj.tblLookup]
    exact hcl p
  have hsl : ∀ p, b.getPathDownLoop p [sn2, tn2, cn2] (.database d2) = .ok (.column j) := by
    intro p
    rw [getPathDownLoop, hj.schLookup]
    exact htl p
  have hdl : ∀ p, b.getPathDownLoop p [dn2, sn2, tn2, cn2] .config = .ok (.column j) := by
    intro p
    rw [getPathDownLoop, hj.dbLookup]
    exact hsl p
  have hres : ∀ parts, b.rawPartsToFK i = .ok parts → parts ≠ [] →
      (∀ p, stringsSplit p = parts → stringsCount p + 1 = parts.length →
        b.getPathUp p (b.column i).Table = .ok (.column j)) →
      ∃ path, b.RawPathToFK i = .ok path ∧
        b.getPathUp path (b.column i).Table = .ok (.column j) := by
    intro parts hp hne hall
    obtain ⟨h1, h2⟩ := stringsSplit_join parts hne (hdots parts hp)
    refine ⟨stringsJoin parts ".", ?_, hall _ h1 h2⟩
    unfold RawPathToFK
    rw [hp]
  have hparts : b.rawPartsToFK i =
      if j = i then .ok [cn2]
      else if t2 = t then .ok [tn2, cn2]
      else if s2 = s then .ok [sn2, tn2, cn2]
      else .ok [dn2, sn2, tn2, cn2] := by
    unfold rawPartsToFK elemPathToFK
    simp only [hfk, hcol, hj.colOwner, hi.colOwner, hj.tblOwner, hi.tblOwner, hj.schOwner,
      hj.colName, hj.tblName, hj.schName, hj.dbName]
    by_cases h1 : j = i
    · simp only [h1, if_true]
      rw [← h1]; exact congrArg (fun x => Except.ok [x]) hj.colName
    · simp only [h1, if_false]
      by_cases h2 : t2 = t
      · simp only [h2, if_true]
        rw [← h2, hj.tblName, hj.colName]
      · simp only [h2, if_false]
        by_cases h3 : s2 = s
        · simp only [h3, if_true]
          rw [← h3, hj.schName, hj.tblName, hj.colName]
        · simp only [h3, if_false]
          rw [hj.dbName, hj.schName, hj.tblName, hj.colName]
  rw [hi.colOwner] at hres ⊢
  by_cases h1 : j = i
  · rw [if_pos h1] at hparts
    have ht : t2 = t := by rw [← hj.colOwner, ← hi.colOwner, h1]
    refine hres _ hparts (by simp) (fun p hs hc => ?_)
    rw [(getPathUp_of_split b p t _ hs hc).1 cn2 rfl, ← ht]
    exact hcl p
  · rw [if_neg h1] at hparts
    by_cases h2 : t2 = t
    · rw [if_pos h2] at hparts
      refine hres _ hparts (by simp) (fun p hs hc => ?_)
      rw [(getPathUp_of_split b p t _ hs hc).2.1 tn2 cn2 rfl, ← h2, hj.tblOwner]
      exact htl p
    · rw [if_neg h2] at hparts
      by_cases h3 : s2 = s
      · rw [if_pos h3] at hparts
        refine hres _ hparts (by simp) (fun p hs hc => ?_)
        rw [(getPathUp_of_split b p t _ hs hc).2.2.1 sn2 tn2 cn2 rfl, hi.tblOwner, ← h3,
          hj.schOwner]
        exact hsl p
      · rw [if_neg h3] at hparts
        refine hres _ hparts (by simp) (fun p hs hc => ?_)
        rw [(getPathUp_of_split b p t _ hs hc).2.2.2 dn2 sn2 tn2 cn2 rfl]
        exact hdl p

end sqlmodelgen.configBuilder

namespace sqlmodelgen.configBuilder

/-- In a successfully built graph, the path that `RawPathToFK` makes for a column with an
`FK` resolves from the table of the column to the column that the `FK` wraps, when no name
on the path has a dot. -/
theorem init_rawPath_resolves {env : Env} {mc : ModelContext} {tr : Traversal}
    {c : config.Config} (hwf : c.WellFormed) (hv : tr.Valid c)
    (h : (init env mc tr c {}).2 = none) {i : Nat}
    (hi : (init env mc tr c {}).1.ReachColumn i) {id : Nat}
    (hfk : ((init env mc tr c {}).1.column i).FK = some id)
    (hdots : ∀ parts, (init env mc tr c {}).1.rawPartsToFK i = .ok parts →
      ∀ p ∈ parts, stringsCount p = 0) :
    ∃ path, (init env mc tr c {}).1.RawPathToFK i = .ok path ∧
      (init env mc tr c {}).1.getPathUp path ((init env mc tr c {}).1.column i).Table =
        .ok (.column ((init env mc tr c {}).1.tableID id).Column) := by
  obtain ⟨b1, h1, hl⟩ := init_later h
  have hroot := initPass1_spec h1
  obtain ⟨dn, sn, tn, cn, cc, d, s, t, hc, hloc1⟩ :=
    hroot.located_of_reach hwf ((hl.reachColumn_eq i).mp hi)
  have hloc := hloc1.later_located hl
  have hfc := hloc.located_findColumn
  have hne : cc.FK ≠ "" := by
    intro h0
    obtain ⟨ix, hf, hnone⟩ := init_fk_none_of_empty hwf hv h hc h0
    rw [hfc] at hf
    cases hf
    rw [hfk] at hnone
    cases hnone
  obtain ⟨n, cc2, hn, -, -, hall⟩ := init_fk_names hwf hv h hc hne
  obtain ⟨ix, id2, hf, hset, htgt⟩ := hall n hn
  rw [hfc] at hf
  cases hf
  rw [hfk] at hset
  cases hset
  rw [hl.findColumn_eq] at htgt
  obtain ⟨d2, s2, t2, hloc2⟩ := hroot.located_of_findColumn htgt
  exact hloc.rawPath_resolves (hloc2.later_located hl) hfk rfl hdots

end sqlmodelgen.configBuilder

namespace sqlmodelgen

/-- C21 as stated fails on `dottedConfig`, whose table is named `my.table`: the build
succeeds and the `FK` of the column `ref` wraps the column `id` of the same table; the path
that `RawPathToFK` makes for `ref` is `my.table.id`, which has two dots, so that
`getPathUp` starts from the database and looks for a schema `my`; it fails, while the path
`id` of the configuration does resolve to the column. -/
theorem rawPathToFK_dotted_name_fails :
    dottedConfig.WellFormed ∧ (Traversal.ofConfig dottedConfig).Valid dottedConfig ∧
    (init exampleEnv exampleContext (Traversal.ofConfig dottedConfig) dottedConfig {}).2
      = none ∧
    (init exampleEnv exampleContext (Traversal.ofConfig dottedConfig) dottedConfig
      {}).1.findColumn "db" "public" "my.table" "ref" = some 1 ∧
    (init exampleEnv exampleContext (Traversal.ofConfig dottedConfig) dottedConfig
      {}).1.ReachColumn 1 ∧
    ((init exampleEnv exampleContext (Traversal.ofConfig dottedConfig) dottedConfig
      {}).1.column 1).FK = some 0 ∧
    ((init exampleEnv exampleContext (Traversal.ofConfig dottedConfig) dottedConfig
      {}).1.tableID 0).Column = 0 ∧
    ((init exampleEnv exampleContext (Traversal.ofConfig dottedConfig) dottedConfig
      {}).1.column 1).Table = 0 ∧
    ((init exampleEnv exampleContext (Traversal.ofConfig dottedConfig) dottedConfig
      {}).1.RawPathToFK 1).toOption = some "my.table.id" ∧
    ((init exampleEnv exampleContext (Traversal.ofConfig dottedConfig) dottedConfig
      {}).1.getPathUp "my.table.id" 0).toOption = none ∧
    ((init exampleEnv exampleContext (Traversal.ofConfig dottedConfig) dottedConfig
      {}).1.getPathUp "id" 0).toOption = some (.column 0) :=
  ⟨by decide, by decide, by decide, by decide,
    ⟨0, ⟨0, by decide, 0, by decide, by decide⟩, by decide⟩, by decide, by decide,
    by decide, by decide, by decide, by decide⟩

/-- C21, amended: for every column of a successfully built graph whose `FK` is set and for
which no raw name that `RawPathToFK` puts on the path has a dot, `RawPathToFK` gives a
path, and `getPathUp` resolves this path from the table of the column to exactly the
column that the `FK` wraps. -/
theorem rawPathToFK_resolves (env : Env) (mc : ModelContext) (tr : Traversal)
    (c : config.Config) (hwf : c.WellFormed) (hv : tr.Valid c)
    (h : (init env mc tr c {}).2 = none) (i : Nat)
    (hi : (init env mc tr c {}).1.ReachColumn i) (id : Nat)
    (hfk : ((init env mc tr c {}).1.column i).FK = some id)
    (hdots : ∀ parts, (init env mc tr c {}).1.rawPartsToFK i = .ok parts →
      ∀ p ∈ parts, stringsCount p = 0) :
    ∃ path, (init env mc tr c {}).1.RawPathToFK i = .ok path ∧
      (init env mc tr c {}).1.getPathUp path ((init env mc tr c {}).1.column i).Table =
        .ok (.column ((init env mc tr c {}).1.tableID id).Column) :=
  init_rawPath_resolves hwf hv h hi hfk hdots

/-- C21, amended, on the orders scenario: the path of `line_items.order_id` is
`public.orders.id`, and it resolves from `line_items` to the column `id` of `orders`. -/
theorem rawPathToFK_resolves_witness :
    (ordersGraph.RawPathToFK 2).toOption = some "public.orders.id" ∧
    (ordersGraph.column 2).FK = some 0 ∧ (ordersGraph.tableID 0).Column = 0 ∧
    ∃ path, ordersGraph.RawPathToFK 2 = .ok path ∧
      ordersGraph.getPathUp path (ordersGraph.column 2).Table =
        .ok (.column (ordersGraph.tableID 0).Column) :=
  ⟨by decide, by decide, by decide,
    rawPathToFK_resolves exampleEnv exampleContext ordersTraversal ordersConfig
      (by decide) (by decide) (by decide) 2
      ⟨1, ⟨0, by decide, 0, by decide, by decide⟩, by decide⟩ 0 (by decide)
      (fun parts hp p hm => by
        have e : ordersGraph.rawPartsToFK 2 = .ok ["public", "orders", "id"] := by rfl
        have hp2 : ordersGraph.rawPartsToFK 2 = .ok parts := hp
        rw [e] at hp2
        cases hp2
        revert p
        decide)⟩

end sqlmodelgen

namespace sqlmodelgen.configBuilder

theorem Grows.grows_refl (b : configBuilder) : Grows b b :=
  ⟨fun _ h => h, le_refl _, fun _ _ _ h => h, le_refl _, fun _ _ => ⟨rfl, fun _ h => h⟩,
    le_refl _, fun _ _ => ⟨rfl, fun _ h => h⟩, le_refl _, fun _ _ => rfl⟩

theorem Grows.grows_trans {b1 b2 b3 : configBuilder} (h1 : Grows b1 b2) (h2 : Grows b2 b3) :
    Grows b1 b3 where
  roots := fun _ h => h2.roots (h1.roots h)
  dbLen := h1.dbLen.trans h2.dbLen
  db := fun d hd _ h => h2.db d (lt_of_lt_of_le hd h1.dbLen) (h1.db d hd h)
  schLen := h1.schLen.trans h2.schLen
  sch := fun s hs => by
    obtain ⟨a1, a2⟩ := h1.sch s hs
    obtain ⟨c1, c2⟩ := h2.sch s (lt_of_lt_of_le hs h1.schLen)
    exact ⟨c1.trans a1, fun _ h => c2 (a2 h)⟩
  tblLen := h1.tblLen.trans h2.tblLen
  tbl := fun t ht => by
    obtain ⟨a1, a2⟩ := h1.tbl t ht
    obtain ⟨c1, c2⟩ := h2.tbl t (lt_of_lt_of_le ht h1.tblLen)
    exact ⟨c1.trans a1, fun _ h => c2 (a2 h)⟩
  colLen := h1.colLen.trans h2.colLen
  col := fun i hi => (h2.col i (lt_of_lt_of_le hi h1.colLen)).trans (h1.col i hi)

/-- A graph that grows from a graph whose entities are listed has its entities listed when
its new entities are. -/
theorem Listed.extend_listed {b b' : configBuilder} (h : Listed b) (g : Grows b b')
    (hdb : ∀ d, b.databases.length ≤ d → d < b'.databases.length →
      d ∈ b'.Config.Databases)
    (hsch : ∀ s, b.schemas.length ≤ s → s < b'.schemas.length →
      (b'.schema s).Database < b'.databases.length ∧
      s ∈ (b'.database (b'.schema s).Database).Schemas)
    (htbl : ∀ t, b.tables.length ≤ t → t < b'.tables.length →
      (b'.table t).Schema < b'.schemas.length ∧
      t ∈ (b'.schema (b'.table t).Schema).Tables)
    (hcol : ∀ i, b.columns.length ≤ i → i < b'.columns.length →
      (b'.column i).Table < b'.tables.length ∧
      i ∈ (b'.table (b'.column i).Table).Columns) : Listed b' where
  db := fun d hd => by
    by_cases hlt : d < b.databases.length
    · exact g.roots (h.db d hlt)
    · exact hdb d (not_lt.mp hlt) hd
  sch := fun s hs => by
    by_cases hlt : s < b.schemas.length
    · obtain ⟨c1, c2⟩ := h.sch s hlt
      rw [(g.sch s hlt).1]
      exact ⟨lt_of_lt_of_le c1 g.dbLen, g.db _ c1 c2⟩
    · exact hsch s (not_lt.mp hlt) hs
  tbl := fun t ht => by
    by_cases hlt : t < b.tables.length
    · obtain ⟨c1, c2⟩ := h.tbl t hlt
      rw [(g.tbl t hlt).1]
      exact ⟨lt_of_lt_of_le c1 g.schLen, (g.sch _ c1).2 c2⟩
    · exact htbl t (not_lt.mp hlt) ht
  col := fun i hi => by
    by_cases hlt : i < b.columns.length
    · obtain ⟨c1, c2⟩ := h.col i hlt
      rw [g.col i hlt]
      exact ⟨lt_of_lt_of_le c1 g.tblLen, (g.tbl _ c1).2 c2⟩
    · exact hcol i (not_lt.mp hlt) hi

/-- A step that allocates no database, schema, table or column keeps the entities
listed. -/
theorem Listed.keep_listed {b b' : configBuilder} (h : Listed b) (g : Grows b b')
    (hd : b'.databases.length = b.databases.length)
    (hs : b'.schemas.length = b.schemas.length)
    (ht : b'.tables.length = b.tables.length)
    (hc : b'.columns.length = b.columns.length) : Listed b' :=
  h.extend_listed g (fun d h1 h2 => absurd h2 (by omega))
    (fun d h1 h2 => absurd h2 (by omega)) (fun d h1 h2 => absurd h2 (by omega))
    (fun d h1 h2 => absurd h2 (by omega))

/-- A step that touches only the namespace set, the TableIDs, the TableKeys or the namers
of the root. -/
theorem grows_of_eq {b b' : configBuilder} (h0 : b'.Config.Databases = b.Config.Databases)
    (h1 : b'.databases = b.databases) (h2 : b'.schemas = b.schemas)
    (h3 : b'.tables = b.tables) (h4 : b'.columns = b.columns) : Grows b b' := by
  have hdb : ∀ i, b'.database i = b.database i := fun i => by simp only [database, h1]
  have hsch : ∀ i, b'.schema i = b.schema i := fun i => by simp only [schema, h2]
  have htbl : ∀ i, b'.table i = b.table i := fun i => by simp only [table, h3]
  have hcol : ∀ i, b'.column i = b.column i := fun i => by simp only [column, h4]
  exact ⟨by rw [h0]; exact fun _ h => h, by rw [h1], fun d _ => by rw [hdb]; exact fun _ h => h,
    by rw [h2], fun s _ => by rw [hsch]; exact ⟨rfl, fun _ h => h⟩, by rw [h3],
    fun t _ => by rw [htbl]; exact ⟨rfl, fun _ h => h⟩, by rw [h4],
    fun i _ => by rw [hcol]⟩

theorem grows_setColumn (b : configBuilder) (c : Nat) (x : Column)
    (h : x.Table = (b.column c).Table) : Grows b (b.setColumn c x) :=
  ⟨fun _ h => h, le_refl _, fun _ _ _ h => h, le_refl _, fun _ _ => ⟨rfl, fun _ h => h⟩,
    le_refl _, fun _ _ => ⟨rfl, fun _ h => h⟩, by rw [setColumn_columns_length],
    fun i _ => by
      rw [column_setColumn]
      split
      · rename_i hh; rw [hh.1]; exact h
      · rfl⟩

theorem grows_setTable (b : configBuilder) (t : Nat) (x : Table)
    (h1 : x.Schema = (b.table t).Schema) (h2 : (b.table t).Columns ⊆ x.Columns) :
    Grows b (b.setTable t x) :=
  ⟨fun _ h => h, le_refl _, fun _ _ _ h => h, le_refl _, fun _ _ => ⟨rfl, fun _ h => h⟩,
    by simp [setTable],
    fun i _ => by
      rw [table_setTable]
      split
      · rename_i hh; rw [hh.1]; exact ⟨h1, h2⟩
      · exact ⟨rfl, fun _ h => h⟩,
    le_refl _, fun _ _ => rfl⟩

theorem grows_setSchema (b : configBuilder) (s : Nat) (x : Schema)
    (h1 : x.Database = (b.schema s).Database) (h2 : (b.schema s).Tables ⊆ x.Tables) :
    Grows b (b.setSchema s x) :=
  ⟨fun _ h => h, le_refl _, fun _ _ _ h => h, by simp [setSchema],
    fun i hi => by
      by_cases his : i = s
      · subst his
        rw [schema_setSchema_self b i x hi]
        exact ⟨h1, h2⟩
      · rw [schema_setSchema_ne b s i x his]
        exact ⟨rfl, fun _ h => h⟩,
    le_refl _, fun _ _ => ⟨rfl, fun _ h => h⟩, le_refl _, fun _ _ => rfl⟩

theorem grows_setDatabase (b : configBuilder) (d : Nat) (x : Database)
    (h : (b.database d).Schemas ⊆ x.Schemas) : Grows b (b.setDatabase d x) :=
  ⟨fun _ h => h, by simp [setDatabase],
    fun i hi => by
      by_cases hid : i = d
      · subst hid
        rw [database_setDatabase_self b i x hi]
        exact h
      · rw [database_setDatabase_ne b d i x hid]
        exact fun _ h => h,
    le_refl _, fun _ _ => ⟨rfl, fun _ h => h⟩, le_refl _, fun _ _ => ⟨rfl, fun _ h => h⟩,
    le_refl _, fun _ _ => rfl⟩

theorem grows_config (b : configBuilder) (C : sqlmodelgen.Config)
    (h : b.Config.Databases ⊆ C.Databases) : Grows b { b with Config := C } :=
  ⟨h, le_refl _, fun _ _ _ h => h, le_refl _, fun _ _ => ⟨rfl, fun _ h => h⟩,
    le_refl _, fun _ _ => ⟨rfl, fun _ h => h⟩, le_refl _, fun _ _ => rfl⟩

theorem grows_append_column (b : configBuilder) (x : Column) :
    Grows b { b with columns := b.columns ++ [x] } :=
  ⟨fun _ h => h, le_refl _, fun _ _ _ h => h, le_refl _, fun _ _ => ⟨rfl, fun _ h => h⟩,
    le_refl _, fun _ _ => ⟨rfl, fun _ h => h⟩, by simp,
    fun i hi => by
      have : ({ b with columns := b.columns ++ [x] } : configBuilder).column i = b.column i :=
        getD_append_lt _ _ _ _ hi
      rw [this]⟩

theorem grows_append_table (b : configBuilder) (x : Table) :
    Grows b { b with tables := b.tables ++ [x] } :=
  ⟨fun _ h => h, le_refl _, fun _ _ _ h => h, le_refl _, fun _ _ => ⟨rfl, fun _ h => h⟩,
    by simp,
    fun i hi => by
      have : ({ b with tables := b.tables ++ [x] } : configBuilder).table i = b.table i :=
        getD_append_lt _ _ _ _ hi
      rw [this]; exact ⟨rfl, fun _ h => h⟩,
    le_refl _, fun _ _ => rfl⟩

theorem grows_append_schema (b : configBuilder) (x : Schema) :
    Grows b { b with schemas := b.schemas ++ [x] } :=
  ⟨fun _ h => h, le_refl _, fun _ _ _ h => h, by simp,
    fun i hi => by
      have : ({ b with schemas := b.schemas ++ [x] } : configBuilder).schema i = b.schema i :=
        getD_append_lt _ _ _ _ hi
      rw [this]; exact ⟨rfl, fun _ h => h⟩,
    le_refl _, fun _ _ => ⟨rfl, fun _ h => h⟩, le_refl _, fun _ _ => rfl⟩

theorem grows_append_database (b : configBuilder) (x : Database) :
    Grows b { b with databases := b.databases ++ [x] } :=
  ⟨fun _ h => h, by simp,
    fun i hi => by
      have : ({ b with databases := b.databases ++ [x] } : configBuilder).database i =
          b.database i := getD_append_lt _ _ _ _ hi
      rw [this]; exact fun _ h => h,
    le_refl _, fun _ _ => ⟨rfl, fun _ h => h⟩, le_refl _, fun _ _ => ⟨rfl, fun _ h => h⟩,
    le_refl _, fun _ _ => rfl⟩

end sqlmodelgen.configBuilder

namespace sqlmodelgen.configBuilder

theorem Listed.listed_namespaces {b : configBuilder} (h : Listed b) (ns : List String) :
    Listed { b with namespaces := ns } ∧ Grows b { b with namespaces := ns } :=
  ⟨h.keep_listed (grows_of_eq rfl rfl rfl rfl rfl) rfl rfl rfl rfl,
    grows_of_eq rfl rfl rfl rfl rfl⟩

theorem listed_initColumnType {b : configBuilder} (h : Listed b) (env : Env)
    (mc : ModelContext) (dn sn tn cn : String) (cc : config.Column) (c : Nat) :
    Listed (initColumnType env mc dn sn tn cn cc c b).1 ∧
      Grows b (initColumnType env mc dn sn tn cn cc c b).1 := by
  unfold initColumnType
  split
  · split
    · exact ⟨h, Grows.grows_refl b⟩
    · rename_i ty _
      have g1 := grows_setColumn b c { b.column c with Type_ := some ty } rfl
      have l1 := h.keep_listed g1 rfl rfl rfl (setColumn_columns_length _ _ _)
      split
      · exact ⟨l1, g1⟩
      · simp only
        split
        · obtain ⟨l2, g2⟩ := l1.listed_namespaces
            (setAdd (b.setColumn c { b.column c with Type_ := some ty }).namespaces _)
          exact ⟨l2, g1.grows_trans g2⟩
        · exact ⟨l1, g1⟩
  · exact ⟨h, Grows.grows_refl b⟩

/-- The allocation of a column and its append to the list of its table. -/
theorem listed_newColumn {b : configBuilder} (h : Listed b) {t : Nat}
    (ht : t < b.tables.length) (cn : String) (byName : List (String × Nat)) :
    Listed ((b.newColumn t cn).1.setTable t
      { (b.newColumn t cn).1.table t with
        Columns := ((b.newColumn t cn).1.table t).Columns ++ [(b.newColumn t cn).2],
        ColumnsByName := byName }) ∧
    Grows b ((b.newColumn t cn).1.setTable t
      { (b.newColumn t cn).1.table t with
        Columns := ((b.newColumn t cn).1.table t).Columns ++ [(b.newColumn t cn).2],
        ColumnsByName := byName }) := by
  have g0 : Grows b (b.newColumn t cn).1 := grows_append_column b _
  have g1 := grows_setTable (b.newColumn t cn).1 t
    { (b.newColumn t cn).1.table t with
      Columns := ((b.newColumn t cn).1.table t).Columns ++ [(b.newColumn t cn).2],
      ColumnsByName := byName } rfl (fun _ hx => List.mem_append_left _ hx)
  have g := g0.grows_trans g1
  refine ⟨h.extend_listed g (fun d h1 h2 => absurd h2 (not_lt.mpr h1))
    (fun d h1 h2 => absurd h2 (not_lt.mpr h1))
    (fun d h1 h2 => absurd (by simpa [setTable, newColumn] using h2) (not_lt.mpr h1)) ?_, g⟩
  intro i h1 h2
  have hi : i = b.columns.length := by
    simp only [setTable, newColumn, List.length_append, List.length_singleton] at h2; omega
  subst hi
  have hc : ∀ T, ((b.newColumn t cn).1.setTable t T).column b.columns.length =
      { Table := t, Names := Names.init cn (b.tableDatabase t).Namers.Column } :=
    fun _ => getD_append_length _ _ _
  have ht' : t < (b.newColumn t cn).1.tables.length := ht
  rw [hc]
  simp only
  rw [table_setTable_self _ _ _ ht']
  exact ⟨by simpa [setTable, newColumn] using ht, by simp [newColumn]⟩

theorem listed_initColumn {b : configBuilder} (h : Listed b) (env : Env) (mc : ModelContext)
    (dn sn tn : String) {t : Nat} (ht : t < b.tables.length) (cn : String)
    (cc : config.Column) (tmp : List Nat) :
    Listed (initColumn env mc dn sn tn t cn cc b tmp).1 ∧
      Grows b (initColumn env mc dn sn tn t cn cc b tmp).1 := by
  obtain ⟨l1, g1⟩ := listed_newColumn h ht cn
    (mapSet ((b.newColumn t cn).1.table t).ColumnsByName cn (b.newColumn t cn).2)
  have g2 := grows_setColumn ((b.newColumn t cn).1.setTable t
      { (b.newColumn t cn).1.table t with
        Columns := ((b.newColumn t cn).1.table t).Columns ++ [(b.newColumn t cn).2],
        ColumnsByName := mapSet ((b.newColumn t cn).1.table t).ColumnsByName cn
          (b.newColumn t cn).2 }) (b.newColumn t cn).2
    { ((b.newColumn t cn).1.setTable t _).column (b.newColumn t cn).2 with PK := cc.PK } rfl
  have l2 := l1.keep_listed g2 rfl rfl rfl (setColumn_columns_length _ _ _)
  obtain ⟨l3, g3⟩ := listed_initColumnType l2 env mc dn sn tn cn cc (b.newColumn t cn).2
  have g03 := (g1.grows_trans g2).grows_trans g3
  unfold initColumn
  simp only
  cases hr : initColumnType env mc dn sn tn cn cc (b.newColumn t cn).2
      (((b.newColumn t cn).1.setTable t _).setColumn (b.newColumn t cn).2 _) with
  | mk b3 err =>
    rw [hr] at l3 g3 g03
    simp only at l3 g3 g03
    cases err with
    | some e => exact ⟨l3, g03⟩
    | none =>
      simp only
      split
      · have g4 : Grows b3 (b3.newID (b.newColumn t cn).2).1 := grows_of_eq rfl rfl rfl rfl rfl
        exact ⟨l3.keep_listed g4 rfl rfl rfl rfl, g03.grows_trans g4⟩
      · exact ⟨l3, g03⟩

theorem listed_initColumns {b : configBuilder} (h : Listed b) (env : Env) (mc : ModelContext)
    (dn sn tn : String) {t : Nat} (ht : t < b.tables.length)
    (cols : List (String × config.Column)) (tmp : List Nat) :
    Listed (initColumns env mc dn sn tn t cols b tmp).1 ∧
      Grows b (initColumns env mc dn sn tn t cols b tmp).1 := by
  induction cols generalizing b tmp with
  | nil => exact ⟨h, Grows.grows_refl b⟩
  | cons p rest ih =>
    obtain ⟨cn, cc⟩ := p
    simp only [initColumns]
    obtain ⟨l1, g1⟩ := listed_initColumn h env mc dn sn tn ht cn cc tmp
    cases hr : initColumn env mc dn sn tn t cn cc b tmp with
    | mk b1 r =>
      obtain ⟨tmp1, err⟩ := r
      rw [hr] at l1 g1
      cases err with
      | some e => exact ⟨l1, g1⟩
      | none =>
        obtain ⟨l2, g2⟩ := ih l1 (lt_of_lt_of_le ht g1.tblLen) tmp1
        exact ⟨l2, g1.grows_trans g2⟩

theorem listed_assignKey {b : configBuilder} (h : Listed b) (t : Nat) (tmp : List Nat) :
    Listed (b.assignKey t tmp).1 ∧ Grows b (b.assignKey t tmp).1 := by
  unfold assignKey
  split
  · exact ⟨h, Grows.grows_refl b⟩
  · rename_i id
    have g := grows_setTable b t { b.table t with PK := some id } rfl (fun _ hx => hx)
    exact ⟨h.keep_listed g rfl rfl (by simp [setTable]) rfl, g⟩
  · simp only
    have g1 : Grows b (b.newKey t tmp).1 := grows_of_eq rfl rfl rfl rfl rfl
    have l1 := h.keep_listed g1 rfl rfl rfl rfl
    have g2 := grows_setTable (b.newKey t tmp).1 t
      { (b.newKey t tmp).1.table t with Key := some (b.newKey t tmp).2 } rfl (fun _ hx => hx)
    exact ⟨l1.keep_listed g2 rfl rfl (by simp [setTable]) rfl, g1.grows_trans g2⟩

end sqlmodelgen.configBuilder

namespace sqlmodelgen.configBuilder

/-- The allocation of a table and its append to the list of its schema. -/
theorem listed_newTable {b : configBuilder} (h : Listed b) {s : Nat}
    (hs : s < b.schemas.length) (tn : String) (byName : List (String × Nat)) :
    Listed ((b.newTable s tn).1.setSchema s
      { (b.newTable s tn).1.schema s with
        Tables := ((b.newTable s tn).1.schema s).Tables ++ [(b.newTable s tn).2],
        TablesByName := byName }) ∧
    Grows b ((b.newTable s tn).1.setSchema s
      { (b.newTable s tn).1.schema s with
        Tables := ((b.newTable s tn).1.schema s).Tables ++ [(b.newTable s tn).2],
        TablesByName := byName }) := by
  have g0 : Grows b (b.newTable s tn).1 := grows_append_table b _
  have g1 := grows_setSchema (b.newTable s tn).1 s
    { (b.newTable s tn).1.schema s with
      Tables := ((b.newTable s tn).1.schema s).Tables ++ [(b.newTable s tn).2],
      TablesByName := byName } rfl (fun _ hx => List.mem_append_left _ hx)
  have g := g0.grows_trans g1
  refine ⟨h.extend_listed g (fun d h1 h2 => absurd h2 (not_lt.mpr h1))
    (fun d h1 h2 => absurd (by simpa [setSchema, newTable] using h2) (not_lt.mpr h1)) ?_
    (fun d h1 h2 => absurd h2 (not_lt.mpr h1)), g⟩
  intro i h1 h2
  have hi : i = b.tables.length := by
    simp only [setSchema, newTable, List.length_append, List.length_singleton] at h2; omega
  subst hi
  have hc : ∀ S, ((b.newTable s tn).1.setSchema s S).table b.tables.length =
      { Schema := s, Names := Names.init tn (b.database (b.schema s).Database).Namers.Table } :=
    fun _ => getD_append_length _ _ _
  have hs' : s < (b.newTable s tn).1.schemas.length := hs
  rw [hc]
  simp only
  rw [schema_setSchema_self _ _ _ hs']
  exact ⟨by simpa [setSchema, newTable] using hs, by simp [newTable]⟩

theorem listed_initTable {b : configBuilder} (h : Listed b) (env : Env) (mc : ModelContext)
    (dn sn : String) {s : Nat} (hs : s < b.schemas.length) (tn : String)
    (tc : config.Table) (tmp : List Nat) :
    Listed (initTable env mc dn sn s tn tc b tmp).1 ∧
      Grows b (initTable env mc dn sn s tn tc b tmp).1 := by
  obtain ⟨l1, g1⟩ := listed_newTable h hs tn
    (mapSet ((b.newTable s tn).1.schema s).TablesByName tn (b.newTable s tn).2)
  have ht1 : (b.newTable s tn).2 < ((b.newTable s tn).1.setSchema s
      { (b.newTable s tn).1.schema s with
        Tables := ((b.newTable s tn).1.schema s).Tables ++ [(b.newTable s tn).2],
        TablesByName := mapSet ((b.newTable s tn).1.schema s).TablesByName tn
          (b.newTable s tn).2 }).tables.length := by
    simp [newTable, setSchema]
  obtain ⟨l2, g2⟩ := listed_initColumns l1 env mc dn sn tn ht1 tc.Columns tmp
  have g02 := g1.grows_trans g2
  unfold initTable
  simp only
  cases hr : initColumns env mc dn sn tn (b.newTable s tn).2 tc.Columns
      ((b.newTable s tn).1.setSchema s _) tmp with
  | mk b2 r =>
    obtain ⟨tmp2, err⟩ := r
    rw [hr] at l2 g2 g02
    simp only at l2 g2 g02
    cases err with
    | some e => exact ⟨l2, g02⟩
    | none =>
      obtain ⟨l3, g3⟩ := listed_assignKey l2 (b.newTable s tn).2 tmp2
      exact ⟨l3, g02.grows_trans g3⟩

theorem listed_initTables {b : configBuilder} (h : Listed b) (env : Env) (mc : ModelContext)
    (dn sn : String) {s : Nat} (hs : s < b.schemas.length)
    (tbls : List (String × config.Table)) (tmp : List Nat) :
    Listed (initTables env mc dn sn s tbls b tmp).1 ∧
      Grows b (initTables env mc dn sn s tbls b tmp).1 := by
  induction tbls generalizing b tmp with
  | nil => exact ⟨h, Grows.grows_refl b⟩
  | cons p rest ih =>
    obtain ⟨tn, tc⟩ := p
    simp only [initTables]
    obtain ⟨l1, g1⟩ := listed_initTable h env mc dn sn hs tn tc tmp
    cases hr : initTable env mc dn sn s tn tc b tmp with
    | mk b1 r =>
      obtain ⟨tmp1, err⟩ := r
      rw [hr] at l1 g1
      cases err with
      | some e => exact ⟨l1, g1⟩
      | none =>
        obtain ⟨l2, g2⟩ := ih l1 (lt_of_lt_of_le hs g1.schLen) tmp1
        exact ⟨l2, g1.grows_trans g2⟩

/-- The allocation of a schema and its append to the list of its database. -/
theorem listed_newSchema {b : configBuilder} (h : Listed b) {d : Nat}
    (hd : d < b.databases.length) (sn : String) (byName : List (String × Nat)) :
    Listed ((b.newSchema d sn).1.setDatabase d
      { (b.newSchema d sn).1.database d with
        Schemas := ((b.newSchema d sn).1.database d).Schemas ++ [(b.newSchema d sn).2],
        SchemasByName := byName }) ∧
    Grows b ((b.newSchema d sn).1.setDatabase d
      { (b.newSchema d sn).1.database d with
        Schemas := ((b.newSchema d sn).1.database d).Schemas ++ [(b.newSchema d sn).2],
        SchemasByName := byName }) := by
  have g0 : Grows b (b.newSchema d sn).1 := grows_append_schema b _
  have g1 := grows_setDatabase (b.newSchema d sn).1 d
    { (b.newSchema d sn).1.database d with
      Schemas := ((b.newSchema d sn).1.database d).Schemas ++ [(b.newSchema d sn).2],
      SchemasByName := byName } (fun _ hx => List.mem_append_left _ hx)
  have g := g0.grows_trans g1
  refine ⟨h.extend_listed g
    (fun d h1 h2 => absurd (by simpa [setDatabase, newSchema] using h2) (not_lt.mpr h1)) ?_
    (fun d h1 h2 => absurd h2 (not_lt.mpr h1))
    (fun d h1 h2 => absurd h2 (not_lt.mpr h1)), g⟩
  intro i h1 h2
  have hi : i = b.schemas.length := by
    simp only [setDatabase, newSchema, List.length_append, List.length_singleton] at h2; omega
  subst hi
  have hc : ∀ D, ((b.newSchema d sn).1.setDatabase d D).schema b.schemas.length =
      { Database := d, Names := Names.init sn (b.database d).Namers.Schema } :=
    fun _ => getD_append_length _ _ _
  have hd' : d < (b.newSchema d sn).1.databases.length := hd
  rw [hc]
  simp only
  rw [database_setDatabase_self _ _ _ hd']
  exact ⟨by simpa [setDatabase, newSchema] using hd, by simp [newSchema]⟩

theorem listed_initSchema {b : configBuilder} (h : Listed b) (env : Env) (mc : ModelContext)
    (dn : String) {d : Nat} (hd : d < b.databases.length) (sn : String)
    (sc : config.Schema) (tmp : List Nat) :
    Listed (initSchema env mc dn d sn sc b tmp).1 ∧
      Grows b (initSchema env mc dn d sn sc b tmp).1 := by
  obtain ⟨l1, g1⟩ := listed_newSchema h hd sn
    (mapSet ((b.newSchema d sn).1.database d).SchemasByName sn (b.newSchema d sn).2)
  have hs1 : (b.newSchema d sn).2 < ((b.newSchema d sn).1.setDatabase d
      { (b.newSchema d sn).1.database d with
        Schemas := ((b.newSchema d sn).1.database d).Schemas ++ [(b.newSchema d sn).2],
        SchemasByName := mapSet ((b.newSchema d sn).1.database d).SchemasByName sn
          (b.newSchema d sn).2 }).schemas.length := by
    simp [newSchema, setDatabase]
  obtain ⟨l2, g2⟩ := listed_initTables l1 env mc dn sn hs1 sc.Tables tmp
  exact ⟨l2, g1.grows_trans g2⟩

theorem listed_initSchemas {b : configBuilder} (h : Listed b) (env : Env) (mc : ModelContext)
    (dn : String) {d : Nat} (hd : d < b.databases.length)
    (schs : List (String × config.Schema)) (tmp : List Nat) :
    Listed (initSchemas env mc dn d schs b tmp).1 ∧
      Grows b (initSchemas env mc dn d schs b tmp).1 := by
  induction schs generalizing b tmp with
  | nil => exact ⟨h, Grows.grows_refl b⟩
  | cons p rest ih =>
    obtain ⟨sn, sc⟩ := p
    simp only [initSchemas]
    obtain ⟨l1, g1⟩ := listed_initSchema h env mc dn hd sn sc tmp
    cases hr : initSchema env mc dn d sn sc b tmp with
    | mk b1 r =>
      obtain ⟨tmp1, err⟩ := r
      rw [hr] at l1 g1
      cases err with
      | some e => exact ⟨l1, g1⟩
      | none =>
        obtain ⟨l2, g2⟩ := ih l1 (lt_of_lt_of_le hd g1.dbLen) tmp1
        exact ⟨l2, g1.grows_trans g2⟩

/-- The allocation of a database and its append to the list of the root. -/
theorem listed_newDatabase {b : configBuilder} (h : Listed b) (x : Database)
    (byName : List (String × Nat)) :
    Listed { b with
      databases := b.databases ++ [x],
      Config := { b.Config with
        Databases := b.Config.Databases ++ [b.databases.length],
        DatabasesByName := byName } } ∧
    Grows b { b with
      databases := b.databases ++ [x],
      Config := { b.Config with
        Databases := b.Config.Databases ++ [b.databases.length],
        DatabasesByName := byName } } := by
  have g0 : Grows b { b with databases := b.databases ++ [x] } := grows_append_database b x
  have g1 := grows_config { b with databases := b.databases ++ [x] }
    { b.Config with
      Databases := b.Config.Databases ++ [b.databases.length],
      DatabasesByName := byName } (fun _ hx => List.mem_append_left _ hx)
  have g := g0.grows_trans g1
  refine ⟨h.extend_listed g ?_ (fun d h1 h2 => absurd h2 (not_lt.mpr h1))
    (fun d h1 h2 => absurd h2 (not_lt.mpr h1))
    (fun d h1 h2 => absurd h2 (not_lt.mpr h1)), g⟩
  intro i h1 h2
  have hi : i = b.databases.length := by
    simp only [List.length_append, List.length_singleton] at h2; omega
  subst hi
  simp

theorem listed_initDatabase {b : configBuilder} (h : Listed b) (env : Env) (mc : ModelContext)
    (dn : String) (dc : config.Database) (tmp : List Nat)
    (hok : (initDatabase env mc dn dc b tmp).2.2 = none) :
    Listed (initDatabase env mc dn dc b tmp).1 := by
  obtain ⟨l1, _⟩ := listed_newDatabase h
    { Config := some .config, Names := Names.init dn b.Config.DatabaseNamers,
      Namers := (initDatabaseNamers env {} dc.Namers).1 }
    (mapSet b.Config.DatabasesByName dn b.databases.length)
  obtain ⟨l2, _⟩ := listed_initSchemas l1 env mc dn (d := b.databases.length) (by simp)
    dc.Schemas tmp
  have both : ∀ b0 d, (b0, d) = ((b.newDatabase env dn dc).1, (b.newDatabase env dn dc).2.1) →
      Listed (initSchemas env mc dn d dc.Schemas { b0 with Config := { b0.Config with
        Databases := b0.Config.Databases ++ [d],
        DatabasesByName := mapSet b0.Config.DatabasesByName dn d } } tmp).1 := by
    intro b0 d hb0
    cases hb0
    exact l2
  clear l2 l1
  unfold initDatabase at hok ⊢
  cases hr : b.newDatabase env dn dc with
  | mk b0 r =>
    obtain ⟨d, err⟩ := r
    rw [hr] at hok both
    cases err with
    | some e => cases hok
    | none => exact both b0 d rfl

theorem listed_initDatabases {b : configBuilder} (h : Listed b) (env : Env)
    (mc : ModelContext) (dbs : List (String × config.Database)) (tmp : List Nat)
    (hok : (initDatabases env mc dbs b tmp).2.2 = none) :
    Listed (initDatabases env mc dbs b tmp).1 := by
  induction dbs generalizing b tmp with
  | nil => exact h
  | cons p rest ih =>
    obtain ⟨dn, dc⟩ := p
    simp only [initDatabases] at hok ⊢
    have l1 := listed_initDatabase h env mc dn dc tmp
    cases hr : initDatabase env mc dn dc b tmp with
    | mk b1 r =>
      obtain ⟨tmp1, err⟩ := r
      rw [hr] at l1 hok
      cases err with
      | some e => cases hok
      | none => exact ih (l1 rfl) tmp1 hok

/-- Every entity that a successful first pass allocates is on the list of its owner. -/
theorem listed_initPass1 {env : Env} {mc : ModelContext} {c : config.Config}
    {b1 : configBuilder} (h : initPass1 env mc c {} = (b1, none)) : Listed b1 := by
  have hempty : ∀ b : configBuilder, b.databases = [] → b.schemas = [] → b.tables = [] →
      b.columns = [] → Listed b := by
    intro b h1 h2 h3 h4
    refine ⟨fun d hd => ?_, fun d hd => ?_, fun d hd => ?_, fun d hd => ?_⟩
    · rw [h1] at hd; cases hd
    · rw [h2] at hd; cases hd
    · rw [h3] at hd; cases hd
    · rw [h4] at hd; cases hd
  unfold initPass1 at h
  simp only at h
  split at h
  · cases h
  · have h1 := congrArg Prod.fst h
    have h2 := congrArg Prod.snd h
    simp only at h1 h2
    rw [← h1]
    exact listed_initDatabases (hempty _ rfl rfl rfl rfl) env mc c.Databases [] h2

/-- The later passes keep every entity on the list of its owner. -/
theorem Listed.later_listed {b b' : configBuilder} (h : Listed b) (hl : Later b b') :
    Listed b' := by
  have hdb : ∀ d, b'.database d = b.database d := fun d => by
    simp only [database, hl.databases]
  have hsch : ∀ s, b'.schema s = b.schema s := fun s => by simp only [schema, hl.schemas]
  refine ⟨fun d hd => ?_, fun s hs => ?_, fun t ht => ?_, fun i hi => ?_⟩
  · rw [hl.databases] at hd
    rw [hl.roots]; exact h.db d hd
  · rw [hl.schemas] at hs
    rw [hsch, hdb, hl.databases]; exact h.sch s hs
  · rw [hl.tablesLen] at ht
    rw [hl.tblSchema, hsch, hl.schemas]; exact h.tbl t ht
  · rw [hl.columnsLen] at hi
    rw [hl.colTable, hl.tblColumns, hl.tablesLen]; exact h.col i hi

end sqlmodelgen.configBuilder

namespace sqlmodelgen.configBuilder

/-- Every entity that a successful `init` allocates is on the child list of its owner. -/
theorem init_listed {env : Env} {mc : ModelContext} {tr : Traversal} {c : config.Config}
    (h : (init env mc tr c {}).2 = none) : Listed (init env mc tr c {}).1 := by
  obtain ⟨b1, h1, hl⟩ := init_later h
  exact (listed_initPass1 h1).later_listed hl

/-- Entities that are all on the list of their owner, in a graph whose lists hold every
member once and under its raw name, are held once by their owner. -/
theorem Listed.ownedOnce {b : configBuilder} (h : Listed b) (ho : OwnersAgree b)
    (hl : ListedOnce b) : OwnedOnce b := by
  have hsch : ∀ s < b.schemas.length, (b.schema s).Database ∈ b.Config.Databases ∧
      s ∈ (b.database (b.schema s).Database).Schemas := fun s hs =>
    ⟨h.db _ (h.sch s hs).1, (h.sch s hs).2⟩
  have htbl : ∀ t < b.tables.length,
      (b.schema (b.table t).Schema).Database ∈ b.Config.Databases ∧
      (b.table t).Schema ∈ (b.database (b.schema (b.table t).Schema).Database).Schemas ∧
      t ∈ (b.schema (b.table t).Schema).Tables := fun t ht =>
    ⟨(hsch _ (h.tbl t ht).1).1, (hsch _ (h.tbl t ht).1).2, (h.tbl t ht).2⟩
  refine ⟨fun d hd => ?_, fun s hs => ?_, fun t ht => ?_, fun i hi => ?_⟩
  · have hm := h.db d hd
    exact ⟨(ho d hm).1, (hl d hm).1, (hl d hm).2.1⟩
  · obtain ⟨hD, hm⟩ := hsch s hs
    have := (hl _ hD).2.2 s hm
    exact ⟨(h.sch s hs).1, this.1, this.2.1⟩
  · obtain ⟨hD, hS, hm⟩ := htbl t ht
    have := ((hl _ hD).2.2 _ hS).2.2 t hm
    exact ⟨(h.tbl t ht).1, this.1, this.2.1⟩
  · obtain ⟨hT, hm⟩ := h.col i hi
    obtain ⟨hD, hS, hmt⟩ := htbl _ hT
    have := (((hl _ hD).2.2 _ hS).2.2 _ hmt).2.2 i hm
    exact ⟨hT, this.1, this.2⟩

end sqlmodelgen.configBuilder

namespace sqlmodelgen

/-- C15: in a successfully built graph the owner chain agrees with the child lists at every
level (a column of `T.Columns` has `Table = T`, a table of `S.Tables` has `Schema = S`, a
schema of `D.Schemas` has `Database = D`, a database of `Config.Databases` has the root
for `Config`); every member of a child list occurs in it exactly once and is found under
its raw name in the by-name map next to the list; and conversely every entity that `init`
has created is on the child list of its owner (a column whose `Table` is `T` is on
`T.Columns`, a table whose `Schema` is `S` is on `S.Tables`, a schema whose `Database` is
`D` is on `D.Schemas`, every database is on `Config.Databases`), where it occurs exactly
once and under its raw name in the by-name map. -/
theorem init_owner_chain_consistent (env : Env) (mc : ModelContext) (tr : Traversal)
    (c : config.Config) (hwf : c.WellFormed) (h : (init env mc tr c {}).2 = none) :
    (init env mc tr c {}).1.OwnersAgree ∧ (init env mc tr c {}).1.ListedOnce ∧
    (init env mc tr c {}).1.Listed ∧ (init env mc tr c {}).1.OwnedOnce := by
  obtain ⟨b1, h1, hl⟩ := init_later h
  have hroot := initPass1_spec h1
  have ho := hroot.ownersAgree hl (init_named h)
  have hlo := hroot.listedOnce hwf hl
  have hli := init_listed h
  exact ⟨ho, hlo, hli, hli.ownedOnce ho hlo⟩

/-- C15 on the orders scenario. -/
theorem init_owner_chain_consistent_witness :
    (init exampleEnv exampleContext ordersTraversal ordersConfig {}).1.OwnersAgree ∧
    (init exampleEnv exampleContext ordersTraversal ordersConfig {}).1.ListedOnce ∧
    (init exampleEnv exampleContext ordersTraversal ordersConfig {}).1.Listed ∧
    (init exampleEnv exampleContext ordersTraversal ordersConfig {}).1.OwnedOnce :=
  init_owner_chain_consistent exampleEnv exampleContext ordersTraversal ordersConfig
    (by decide) (by decide)

end sqlmodelgen

namespace sqlmodelgen

/-- C13, the code on `chainConfig`, whose column `a` has the FK path `b` and no type
descriptor, `b` being a key column with the FK path `c` and no type descriptor, and `c` a
key column of type `int`. When the foreign-key pass visits `a`, `b`, `c` in this order the
build succeeds, the `FK` of `a` wraps `b`, and at the end `a` has no `Type` while `b` has
the type of `c`: the type of `a` is not that of the column its `FK` wraps. When the pass
visits `b`, `c`, `a` the build of the same configuration succeeds with the same `FK`, and
`a` has the type of `b`. -/
theorem init_type_inheritance_depends_on_order :
    chainConfig.WellFormed ∧ (Traversal.ofConfig chainConfig).Valid chainConfig ∧
    (init exampleEnv exampleContext (Traversal.ofConfig chainConfig) chainConfig {}).2
      = none ∧
    ("db", "public", "t", "a", ({ FK := "b" } : config.Column)) ∈ chainConfig.entries ∧
    (init exampleEnv exampleContext (Traversal.ofConfig chainConfig) chainConfig
      {}).1.findColumn "db" "public" "t" "a" = some 0 ∧
    ((init exampleEnv exampleContext (Traversal.ofConfig chainConfig) chainConfig
      {}).1.column 0).FK = some 0 ∧
    ((init exampleEnv exampleContext (Traversal.ofConfig chainConfig) chainConfig
      {}).1.tableID 0).Column = 1 ∧
    (init exampleEnv exampleContext (Traversal.ofConfig chainConfig) chainConfig
      {}).1.findColumn "db" "public" "t" "b" = some 1 ∧
    ((init exampleEnv exampleContext (Traversal.ofConfig chainConfig) chainConfig
      {}).1.column 0).Type_ = none ∧
    ((init exampleEnv exampleContext (Traversal.ofConfig chainConfig) chainConfig
      {}).1.column 1).Type_ = some (.IntType 32) ∧
    ((init exampleEnv exampleContext (Traversal.ofConfig chainConfig) chainConfig
      {}).1.column 0).Type_ ≠
      ((init exampleEnv exampleContext (Traversal.ofConfig chainConfig) chainConfig
        {}).1.column
          ((init exampleEnv exampleContext (Traversal.ofConfig chainConfig) chainConfig
            {}).1.tableID 0).Column).Type_ ∧
    chainTraversalTargetsFirst.Valid chainConfig ∧
    (init exampleEnv exampleContext chainTraversalTargetsFirst chainConfig {}).2 = none ∧
    (init exampleEnv exampleContext chainTraversalTargetsFirst chainConfig
      {}).1.findColumn "db" "public" "t" "a" = some 0 ∧
    ((init exampleEnv exampleContext chainTraversalTargetsFirst chainConfig
      {}).1.column 0).FK = some 0 ∧
    ((init exampleEnv exampleContext chainTraversalTargetsFirst chainConfig
      {}).1.tableID 0).Column = 1 ∧
    ((init exampleEnv exampleContext chainTraversalTargetsFirst chainConfig
      {}).1.column 0).Type_ = some (.IntType 32) ∧
    ((init exampleEnv exampleContext chainTraversalTargetsFirst chainConfig
      {}).1.column 1).Type_ = some (.IntType 32) := by
  -- the pass in the order `a`, `b`, `c`
  have h1 : chainConfig.WellFormed ∧ (Traversal.ofConfig chainConfig).Valid chainConfig ∧
      (init exampleEnv exampleContext (Traversal.ofConfig chainConfig) chainConfig {}).2
        = none := ⟨by decide, by decide, by decide⟩
  refine ⟨h1.1, h1.2.1, h1.2.2, by decide, by decide, by decide, by decide, by decide, ?_⟩
  refine ⟨by decide, by decide, by decide, ?_⟩
  -- the pass in the order `b`, `c`, `a`
  have h2 : chainTraversalTargetsFirst.Valid chainConfig ∧
      (init exampleEnv exampleContext chainTraversalTargetsFirst chainConfig {}).2 = none :=
    ⟨by decide, by decide⟩
  exact ⟨h2.1, h2.2, by decide, by decide, by decide, by decide, by decide⟩

end sqlmodelgen
